import Mathlib

/-!
# Fabric Token SDK: endorsement collection and ledger write reconciliation

A shallow embedding of

* `token/core/zkatdlog/crypto/transfer` : `Sender.SignTokenActions` (only its test is
  available, the function is modelled from the specification),
* `token/services/ttxcc/endorse.go` : `signatureRequest.MessageToSign` and
  `collectEndorsementsView` (`Call`, `requestSignaturesOnIssues`,
  `requestSignaturesOnTransfers`, `callChaincode`, `distributeEnv`),
* `token/services/vault/processor/processor.go` : `RWSetProcessor.tokenRequest`.

Conventions.  A Go `[]byte` and a Go `string` are both byte sequences and are embedded as
`List Nat`; `append(a, b...)` is list append, `[]byte(s)` and `string(b)` are the identity.
A Go `error` is a value of `Error` that keeps the format string of the source and the
arguments it is applied to.  External collaborators (wallets, sessions, verifier, ledger,
vault, key encoding) are fields of an environment record; every call the code makes on a
collaborator is recorded, with its arguments, in a trace.
-/

namespace TokenSDK

/-- Byte sequences: Go `[]byte` and Go `string`. -/
abbrev Bytes := List Nat

/-- UTF-8 encoding of one code point. -/
def utf8 (n : Nat) : Bytes :=
  if n < 0x80 then [n]
  else if n < 0x800 then [0xC0 + n / 64, 0x80 + n % 64]
  else if n < 0x10000 then [0xE0 + n / 4096, 0x80 + n / 64 % 64, 0x80 + n % 64]
  else [0xF0 + n / 262144, 0x80 + n / 4096 % 64, 0x80 + n / 64 % 64, 0x80 + n % 64]

/-- The bytes of a string literal of the source (UTF-8). -/
def str (s : String) : Bytes := s.data.flatMap (fun c => utf8 c.toNat)

deriving instance DecidableEq for Except

/-- A Go `error`.  `new` is `errors.New` (also used for errors handed back by a
collaborator), `errorf` is `errors.Errorf`, `wrap` is `errors.Wrap`, `errors.Wrapf` and
`errors.WithMessagef`: it keeps the wrapped error as its cause. -/
inductive Error where
  | new (msg : Bytes)
  | errorf (format : String) (args : List Bytes)
  | wrap (cause : Error) (format : String) (args : List Bytes)
deriving DecidableEq, Repr

/-- The chain of errors an error carries: itself and, for a wrapped error, everything its
cause carries. -/
def Error.carries : Error → Error → Prop
  | .new m, c => c = .new m
  | .errorf f a, c => c = .errorf f a
  | .wrap cause f a, c => c = .wrap cause f a ∨ Error.carries cause c

/-- A signing capability (`driver.Signer.Sign`). -/
abbrev Signer := Bytes → Except Error Bytes

/-- A verification capability (`driver.Verifier.Verify`): `none` is a nil error. -/
abbrev Verifier := Bytes → Bytes → Option Error

/-! ## Action signing (`Sender.SignTokenActions`) -/

/-- The signing loop: every signer signs the same message, in order; the first failure
stops the loop. -/
def signEach (msg : Bytes) : List Signer → Except Error (List Bytes)
  | [] => .ok []
  | s :: rest =>
    match s msg with
    | .error e => .error e
    | .ok sigma =>
      match signEach msg rest with
      | .error e => .error e
      | .ok sigmas => .ok (sigma :: sigmas)

/-- Modelled from the spec: `Sender.SignTokenActions`, whose body is not among the
sources (only its test `sender_test.go` is).  Section 4.2: each signer signs
`serialize(action) || txID`, signatures are in signer order, and if any signer returns an
error the whole call fails and no signature list is returned.  The Go result pair
`(signatures, err)` is kept as a pair, `none` standing for `nil`. -/
def SignTokenActions (signers : List Signer) (raw txID : Bytes) :
    Option (List Bytes) × Option Error :=
  match signEach (raw ++ txID) signers with
  | .ok sigmas => (some sigmas, none)
  | .error e => (none, some (.wrap e "SigningError" []))

/-! ## Endorsement collection (`ttxcc/endorse.go`) -/

/-- Identities are byte strings (`view.Identity`). -/
abbrev Identity := Bytes

/-- Go `view.Identity.IsNone`: the identity has no bytes. -/
def IsNone (id : Identity) : Bool := id.isEmpty

/-- The request a signer is sent (`signatureRequest`). -/
structure signatureRequest where
  Request : Bytes
  TxID : Bytes
  Signer : Identity
deriving DecidableEq, Repr

/-- Go `signatureRequest.MessageToSign`: `append(sr.Request, sr.TxID...)`. -/
def signatureRequest.MessageToSign (sr : signatureRequest) : Bytes :=
  sr.Request ++ sr.TxID

/-- Status of a session message (`view.OK`, `view.ERROR`). -/
inductive Status where
  | OK
  | ERROR
deriving DecidableEq, Repr

/-- A session message (`view.Message`). -/
structure Message where
  Status : Status
  Payload : Bytes
deriving DecidableEq, Repr

/-- An issue action as the view reads it (`token.Issue`). -/
structure Issue where
  Issuer : Identity
  Receivers : List Identity
deriving DecidableEq, Repr

/-- A transfer action as the view reads it (`token.Transfer`). -/
structure Transfer where
  Senders : List Identity
  Receivers : List Identity
deriving DecidableEq, Repr

/-- The ledger envelope (`fabric.Envelope`): what `Results`, `Bytes` and `TxID` return. -/
structure Envelope where
  Results : Bytes
  TxID : Bytes
  Bytes : Except Error Bytes
deriving DecidableEq

/-- The transaction the view works on: its id, the actions of its token request, the
configured auditor, the signatures appended so far and the envelope once set. -/
structure Transaction where
  ID : Bytes
  Issues : List Issue
  Transfers : List Transfer
  auditor : Identity
  Signatures : List Bytes
  Envelope : Option Envelope

/-- Go `TokenRequest.AppendSignature`. -/
def Transaction.AppendSignature (tx : Transaction) (sigma : Bytes) : Transaction :=
  { tx with Signatures := tx.Signatures ++ [sigma] }

/-- A wallet: `GetSigner`. -/
structure Wallet where
  GetSigner : Identity → Except Error Signer

/-- A session to a remote party.  `Send` is the outcome of sending a payload; `Reply`
is the outcome of the `select` that follows: the message read from the session channel
after that payload was sent, or `none` when the timer of the given number of seconds
fires first. -/
structure Session where
  Send : Bytes → Option Error
  Reply : Bytes → Nat → Option Message

/-- The phases of `collectEndorsementsView.Call`. -/
inductive Phase where
  | issues
  | transfers
  | audit
  | ledger
  | distribute
deriving DecidableEq, Repr

/-- What the view does to its collaborators, in the order it does it.  `enter` marks the
start of a phase of `Call`; the others are calls, with their arguments. -/
inductive Event where
  | enter (phase : Phase)
  | storeTransient
  | sign (party : Identity) (msg : Bytes)
  | getSession (party : Identity)
  | send (party : Identity) (payload : Bytes)
  | receive (party : Identity) (seconds : Nat)
  | verify (party : Identity) (msg sigma : Bytes)
  | runAudit
  | endorse (function : Bytes) (requestRaw : Bytes)
  | setEnvelope
  | verifyTx
  | getRWSet (txID results : Bytes)
  | storeEnvelope (txID raw : Bytes)
deriving DecidableEq, Repr

/-- The collaborators of the view. -/
structure Env where
  /-- Go `tx.storeTransient`. -/
  storeTransient : Transaction → Option Error
  /-- Go `TokenRequest.MarshallToSign`. -/
  MarshallToSign : Transaction → Except Error Bytes
  /-- Go `WalletManager().IssuerWalletByIdentity`; `none` is nil. -/
  IssuerWalletByIdentity : Identity → Option Wallet
  /-- Go `WalletManager().OwnerWalletByIdentity`; `none` is nil. -/
  OwnerWalletByIdentity : Identity → Option Wallet
  /-- Go `WalletManager().Wallet(party) != nil`. -/
  HasWallet : Identity → Bool
  /-- Go `context.GetSession(context.Initiator(), party)`. -/
  GetSession : Identity → Except Error Session
  /-- Go `json.Marshal` of a signature request. -/
  Marshal : signatureRequest → Except Error Bytes
  /-- Go `SigService().GetVerifier`. -/
  GetVerifier : Identity → Except Error Verifier
  /-- Go `context.RunView(newAuditingViewInitiator(c.tx))`. -/
  RunAudit : Transaction → Option Error
  /-- Go `TokenRequest.RequestToBytes`. -/
  RequestToBytes : Transaction → Except Error Bytes
  /-- Go `Chaincode(ns).Endorse("invoke", requestRaw)...Call()`; `none` is a nil envelope. -/
  Endorse : Bytes → Bytes → Except Error (Option Envelope)
  /-- Go `tx.setEnvelope`. -/
  setEnvelope : Option Envelope → Option Error
  /-- Go `tx.Verify`. -/
  Verify : Transaction → Option Error
  /-- Go `tx.Bytes`. -/
  TxBytes : Transaction → Except Error Bytes
  /-- Go `GetEndpointService(context).Resolve(party)`: the long-term identity. -/
  Resolve : Identity → Except Error Identity
  /-- Go `Vault().GetRWSet(txID, results)`. -/
  GetRWSet : Bytes → Bytes → Option Error
  /-- Go `Vault().StoreEnvelope(txID, raw)`. -/
  StoreEnvelope : Bytes → Bytes → Option Error

/-- The state the view mutates: the transaction and the trace of what was done. -/
structure State where
  tx : Transaction
  trace : List Event

/-- Record an event. -/
def State.log (st : State) (e : Event) : State :=
  { st with trace := st.trace ++ [e] }

/-- Append a signature to the token request of the transaction. -/
def State.AppendSignature (st : State) (sigma : Bytes) : State :=
  { st with tx := st.tx.AppendSignature sigma }

/-- The remote branch shared by the issue loop and the transfer loop: open a session to
the party, send the marshalled signature request, wait up to 60 seconds for the reply,
verify the returned signature over `MessageToSign` and append it. -/
def requestRemoteSignature (env : Env) (sr : signatureRequest) (party : Identity)
    (st : State) : Option Error × State :=
  let st := st.log (.getSession party)
  match env.GetSession party with
  | .error e => (some (.wrap e "failed getting session" []), st)
  | .ok session =>
    match env.Marshal sr with
    | .error e => (some e, st)
    | .ok signatureRequestRaw =>
      let st := st.log (.send party signatureRequestRaw)
      match session.Send signatureRequestRaw with
      | some e => (some (.wrap e "failed sending transaction content" []), st)
      | none =>
        let st := st.log (.receive party 60)
        match session.Reply signatureRequestRaw 60 with
        | none => (some (.errorf "Timeout from party %s" [party]), st)
        | some msg =>
          if msg.Status = .ERROR then (some (.new msg.Payload), st)
          else
            let sigma := msg.Payload
            match env.GetVerifier party with
            | .error e => (some (.wrap e "failed getting verifier for [%s]" [party]), st)
            | .ok verifier =>
              let st := st.log (.verify party sr.MessageToSign sigma)
              match verifier sr.MessageToSign sigma with
              | some e =>
                (some (.wrap e "failed verifying signature from [%s]" [party]), st)
              | none => (none, st.AppendSignature sigma)

/-- One iteration of the loop of `requestSignaturesOnIssues`, after the distribution list
was extended: the issuer signs in-process when an issuer wallet holds it, and is asked
over a session otherwise. -/
def signIssue (env : Env) (requestRaw : Bytes) (issue : Issue) (st : State) :
    Option Error × State :=
  let party := issue.Issuer
  match env.IssuerWalletByIdentity party with
  | some w =>
    match w.GetSigner party with
    | .error e => (some e, st)
    | .ok signer =>
      let st := st.log (.sign party (requestRaw ++ st.tx.ID))
      match signer (requestRaw ++ st.tx.ID) with
      | .error e => (some e, st)
      | .ok sigma => (none, st.AppendSignature sigma)
  | none =>
    requestRemoteSignature env
      { Request := requestRaw, TxID := st.tx.ID, Signer := party } party st

/-- The loop of `requestSignaturesOnIssues` over the issues that remain. -/
def issuesLoop (env : Env) (requestRaw : Bytes) :
    List Issue → List Identity → State → Except Error (List Identity) × State
  | [], distributionList, st => (.ok distributionList, st)
  | issue :: rest, distributionList, st =>
    let distributionList := distributionList ++ [issue.Issuer]
    let distributionList := distributionList ++ issue.Receivers
    match signIssue env requestRaw issue st with
    | (some e, st) => (.error e, st)
    | (none, st) => issuesLoop env requestRaw rest distributionList st

/-- Go `collectEndorsementsView.requestSignaturesOnIssues`. -/
def requestSignaturesOnIssues (env : Env) (st : State) :
    Except Error (List Identity) × State :=
  match env.MarshallToSign st.tx with
  | .error e => (.error e, st)
  | .ok requestRaw => issuesLoop env requestRaw st.tx.Issues [] st

/-- One iteration of the inner loop of `requestSignaturesOnTransfers`: the sender signs
in-process when an owner wallet holds it, and is asked over a session otherwise. -/
def signSender (env : Env) (requestRaw : Bytes) (party : Identity) (st : State) :
    Option Error × State :=
  let sr : signatureRequest := { Request := requestRaw, TxID := st.tx.ID, Signer := party }
  match env.OwnerWalletByIdentity party with
  | some w =>
    match w.GetSigner party with
    | .error e => (some e, st)
    | .ok si =>
      let st := st.log (.sign party sr.MessageToSign)
      match si sr.MessageToSign with
      | .error e => (some e, st)
      | .ok sigma => (none, st.AppendSignature sigma)
  | none => requestRemoteSignature env sr party st

/-- The inner loop of `requestSignaturesOnTransfers` over the senders of one transfer. -/
def sendersLoop (env : Env) (requestRaw : Bytes) :
    List Identity → State → Option Error × State
  | [], st => (none, st)
  | party :: rest, st =>
    match signSender env requestRaw party st with
    | (some e, st) => (some e, st)
    | (none, st) => sendersLoop env requestRaw rest st

/-- The outer loop of `requestSignaturesOnTransfers` over the transfers that remain. -/
def transfersLoop (env : Env) (requestRaw : Bytes) :
    List Transfer → List Identity → State → Except Error (List Identity) × State
  | [], distributionList, st => (.ok distributionList, st)
  | transfer :: rest, distributionList, st =>
    let distributionList := distributionList ++ transfer.Senders
    let distributionList := distributionList ++ transfer.Receivers
    match sendersLoop env requestRaw transfer.Senders st with
    | (some e, st) => (.error e, st)
    | (none, st) => transfersLoop env requestRaw rest distributionList st

/-- Go `collectEndorsementsView.requestSignaturesOnTransfers`. -/
def requestSignaturesOnTransfers (env : Env) (st : State) :
    Except Error (List Identity) × State :=
  match env.MarshallToSign st.tx with
  | .error e => (.error e, st)
  | .ok requestRaw => transfersLoop env requestRaw st.tx.Transfers [] st

/-- Go `collectEndorsementsView.callChaincode`: marshal the request, ask the chaincode to
endorse it, and set the returned envelope on the transaction. -/
def callChaincode (env : Env) (st : State) : Except Error (Option Envelope) × State :=
  match env.RequestToBytes st.tx with
  | .error e => (.error (.wrap e "failed marshalling request" []), st)
  | .ok requestRaw =>
    let st := st.log (.endorse (str "invoke") requestRaw)
    match env.Endorse (str "invoke") requestRaw with
    | .error e => (.error e, st)
    | .ok envelope =>
      let st := st.log .setEnvelope
      match env.setEnvelope envelope with
      | some e => (.error e, st)
      | none => (.ok envelope, { st with tx := { st.tx with Envelope := envelope } })

/-- An entry of the compressed distribution list (`distributionListEntry`). -/
structure distributionListEntry where
  IsMe : Bool
  LongTerm : Identity
  ID : Identity
deriving DecidableEq, Repr

/-- The first loop of `distributeEnv`: skip a none party, resolve the long-term identity
of every other party and add an entry for it unless an entry with an equal long-term
identity was added before. -/
def compressDistributionList (env : Env) :
    List Identity → List distributionListEntry → Except Error (List distributionListEntry)
  | [], distributionListCompressed => .ok distributionListCompressed
  | party :: rest, distributionListCompressed =>
    if IsNone party then compressDistributionList env rest distributionListCompressed
    else
      let isMe := env.HasWallet party
      match env.Resolve party with
      | .error e => .error (.wrap e "cannot resolve long term identity for [%s]" [party])
      | .ok longTermIdentity =>
        let found := distributionListCompressed.any (fun entry => longTermIdentity = entry.LongTerm)
        if !found then
          compressDistributionList env rest
            (distributionListCompressed ++
              [{ IsMe := isMe, LongTerm := longTermIdentity, ID := party }])
        else compressDistributionList env rest distributionListCompressed

/-- One iteration of the second loop of `distributeEnv`: commit locally when the entry is
this node, otherwise send the transaction to the party and wait up to 240 seconds for
its acknowledgment. -/
def distributeTo (env : Env) (envelope : Envelope) (txRaw : Bytes)
    (entry : distributionListEntry) (st : State) : Option Error × State :=
  if entry.IsMe then
    let st := st.log (.getRWSet st.tx.ID envelope.Results)
    match env.GetRWSet st.tx.ID envelope.Results with
    | some e => (some (.wrap e "failed getting rwset for tx [%s]" [st.tx.ID]), st)
    | none =>
      match envelope.Bytes with
      | .error e => (some (.wrap e "failed marshalling tx env [%s]" [st.tx.ID]), st)
      | .ok rawEnv =>
        let st := st.log (.storeEnvelope envelope.TxID rawEnv)
        match env.StoreEnvelope envelope.TxID rawEnv with
        | some e => (some (.wrap e "failed storing tx env [%s]" [st.tx.ID]), st)
        | none => (none, st)
  else
    let st := st.log (.getSession entry.ID)
    match env.GetSession entry.ID with
    | .error e => (some (.wrap e "failed getting session" []), st)
    | .ok session =>
      let st := st.log (.send entry.ID txRaw)
      match session.Send txRaw with
      | some e => (some (.wrap e "failed sending transaction content" []), st)
      | none =>
        let st := st.log (.receive entry.ID 240)
        match session.Reply txRaw 240 with
        | none => (some (.errorf "Timeout from party %s" [entry.ID]), st)
        | some msg =>
          if msg.Status = .ERROR then (some (.new msg.Payload), st)
          else (none, st)

/-- The second loop of `distributeEnv` over the entries that remain. -/
def distributeLoop (env : Env) (envelope : Envelope) (txRaw : Bytes) :
    List distributionListEntry → State → Option Error × State
  | [], st => (none, st)
  | entry :: rest, st =>
    match distributeTo env envelope txRaw entry st with
    | (some e, st) => (some e, st)
    | (none, st) => distributeLoop env envelope txRaw rest st

/-- Go `collectEndorsementsView.distributeEnv`. -/
def distributeEnv (env : Env) (envelope : Option Envelope)
    (distributionList : List Identity) (st : State) : Option Error × State :=
  match envelope with
  | none => (some (.new (str "fabric transaction envelope is empty")), st)
  | some envelope =>
    let st := st.log .verifyTx
    match env.Verify st.tx with
    | some e =>
      (some (.wrap e "failed verifying transaction content before distributing it" []), st)
    | none =>
      match env.TxBytes st.tx with
      | .error e => (some (.wrap e "failed marshalling transaction content" []), st)
      | .ok txRaw =>
        match compressDistributionList env distributionList [] with
        | .error e => (some e, st)
        | .ok distributionListCompressed =>
          distributeLoop env envelope txRaw distributionListCompressed st

/-- Go `collectEndorsementsView.Call`. -/
def Call (env : Env) (st : State) : Option Error × State :=
  let st := st.log .storeTransient
  match env.storeTransient st.tx with
  | some e => (some (.wrap e "failed storing transient" []), st)
  | none =>
    match requestSignaturesOnIssues env (st.log (.enter .issues)) with
    | (.error e, st) => (some e, st)
    | (.ok parties, st) =>
      let distributionList : List Identity := [] ++ parties
      match requestSignaturesOnTransfers env (st.log (.enter .transfers)) with
      | (.error e, st) => (some e, st)
      | (.ok parties, st) =>
        let distributionList := distributionList ++ parties
        let audited : Except Error (List Identity) × State :=
          if !IsNone st.tx.auditor then
            let st := (st.log (.enter .audit)).log .runAudit
            match env.RunAudit st.tx with
            | some e =>
              (.error (.wrap e "failed requesting auditing from [%s]" [st.tx.auditor]), st)
            | none => (.ok (distributionList ++ [st.tx.auditor]), st)
          else (.ok distributionList, st)
        match audited with
        | (.error e, st) => (some e, st)
        | (.ok distributionList, st) =>
          match callChaincode env (st.log (.enter .ledger)) with
          | (.error e, st) => (some e, st)
          | (.ok envelope, st) =>
            distributeEnv env envelope distributionList (st.log (.enter .distribute))

/-! ## Ledger write reconciliation (`vault/processor/processor.go`)

The read-write set is an external object that the processor both reads (`NumWrites`,
`GetWriteAt`) and writes (`SetState` and the store and delete helpers of the package,
whose bodies are not among the sources).  It is represented by the history of the calls
made on it; what it answers to a call is a function of that history, given by the
environment. -/

/-- A token identifier (`token.ID`). -/
structure TokenID where
  TxId : Bytes
  Index : Nat
deriving DecidableEq, Repr

/-- The conversion `int(id.Index)` of an unsigned index to a 64 bit `int`. -/
def intOfIndex (n : Nat) : Int :=
  if n % 2 ^ 64 < 2 ^ 63 then Int.ofNat (n % 2 ^ 64) else Int.ofNat (n % 2 ^ 64) - 2 ^ 64

/-- A token in the clear (`token.Token`): the raw owner identity and the rest. -/
structure Token where
  Owner : Bytes
  Typ : Bytes
  Quantity : Bytes
deriving DecidableEq, Repr

/-- The calls made on the read-write set, with their arguments: a successful
`GetWriteAt` with the key and value it returned, `SetState`, and the helpers
`deleteFabToken`, `storeFabToken`, `storeAuditToken` and `storeIssuedHistoryToken`. -/
inductive RWOp where
  | getWriteAt (ns : Bytes) (i : Nat) (key val : Bytes)
  | setState (ns key val : Bytes)
  | deleteFabToken (ns txID : Bytes) (index : Int)
  | storeFabToken (ns txID : Bytes) (index : Int) (tok : Token) (tokenInfoRaw : Bytes)
  | storeAuditToken (ns txID : Bytes) (index : Int) (tok : Token) (tokenInfoRaw : Bytes)
  | storeIssuedHistoryToken (ns txID : Bytes) (index : Int) (tok : Token)
      (tokenInfoRaw : Bytes) (issuer : Identity)
deriving DecidableEq, Repr

/-- The opening metadata of a token request (`token.Metadata`): `SpentTokenID` and
`GetToken`, which returns the token in the clear (`none` is a nil token), the issuer and
the raw token information. -/
structure Metadata where
  SpentTokenID : List TokenID
  GetToken : Bytes → Except Error (Option Token × Identity × Bytes)

/-- A transient map: `Exists` and `Get` by key. -/
abbrev TransientMap := Bytes → Option Bytes

/-- The metadata service of a channel: `Exists` and `LoadTransient`. -/
structure MetadataService where
  Exists : Bytes → Bool
  LoadTransient : Bytes → Except Error TransientMap

/-- The token management service of a network, channel and namespace: metadata
decoding, the graph-hiding flag of the public parameters, and the wallet lookups
(`true` when the wallet is not nil). -/
structure TMS where
  NewMetadataFromBytes : Bytes → Except Error Metadata
  GraphHiding : Bool
  OwnerWalletByIdentity : Bytes → Bool
  IssuerWalletByIdentity : Identity → Bool

/-- The key encoding of package `keys`, whose source is not available: its constants
and functions. -/
structure Keys where
  TokenKeyPrefix : Bytes
  TokenMineKeyPrefix : Bytes
  TokenRequestKeyPrefix : Bytes
  SerialNumber : Bytes
  SplitCompositeKey : Bytes → Except Error (Bytes × List Bytes)
  CreateTokenMineKey : Bytes → Int → Except Error Bytes
  CreateSetupBundleKey : Except Error Bytes

/-- The collaborators of the processor.  `NumWrites`, `GetWriteAt` and `Perform` answer
for the read-write set after the given history of calls; `Perform` is the error, if any,
that a writing call returns.  `Auditor` tells whether the node holds the auditor role;
the processor never reads it. -/
structure ProcEnv where
  keys : Keys
  Channel : Bytes → Except Error MetadataService
  GetManagementService : Bytes → Bytes → Bytes → TMS
  NumWrites : List RWOp → Bytes → Nat
  GetWriteAt : List RWOp → Bytes → Nat → Except Error (Bytes × Bytes)
  Perform : List RWOp → RWOp → Option Error
  Auditor : Bool

/-- The request being processed (`fabric.Request`): its id. -/
structure Request where
  ID : Bytes
deriving DecidableEq, Repr

/-- The committed transaction (`fabric.ProcessTransaction`). -/
structure ProcessTransaction where
  ID : Bytes
  Network : Bytes
  Channel : Bytes
  Function : Bytes
deriving DecidableEq, Repr

/-- A runtime panic: `panic(err)` or an index out of range. -/
inductive Panic where
  | err (e : Error)
  | indexOutOfRange (index length : Nat)
deriving DecidableEq, Repr

/-- How a function of the processor ends: it returns nil, returns an error, or panics. -/
inductive Outcome where
  | ok
  | fail (e : Error)
  | panic (p : Panic)
deriving DecidableEq, Repr

/-- The digit loop of Go `strconv.ParseUint` in base 10 for 64 bits, scanning `digits` from
the left with the value `n` read so far: a byte that is not a digit is a syntax error, a
value that leaves the range of `uint64` is a range error, whichever comes first.  `s` is
the whole string, quoted in the error. -/
def parseUint (s : Bytes) : Bytes → Nat → Except Error Nat
  | [], n => .ok n
  | c :: rest, n =>
    if ¬ (48 ≤ c ∧ c ≤ 57) then
      .error (.errorf "strconv.Atoi: parsing %q: invalid syntax" [s])
    else if 2 ^ 64 / 10 + 1 ≤ n then
      .error (.errorf "strconv.Atoi: parsing %q: value out of range" [s])
    else if 2 ^ 64 - 1 < n * 10 + (c - 48) then
      .error (.errorf "strconv.Atoi: parsing %q: value out of range" [s])
    else parseUint s rest (n * 10 + (c - 48))

/-- Go `strconv.Atoi` for a 64 bit `int`: an optional sign followed by one or more decimal
digits, within the range of `int`. -/
def Atoi (s : Bytes) : Except Error Int :=
  let neg := s.head? = some 45
  let digits := if s.head? = some 43 ∨ s.head? = some 45 then s.tail else s
  if digits = [] then .error (.errorf "strconv.Atoi: parsing %q: invalid syntax" [s])
  else
    match parseUint s digits 0 with
    | .error e => .error e
    | .ok n =>
      if neg then
        if n ≤ 2 ^ 63 then .ok (-(Int.ofNat n))
        else .error (.errorf "strconv.Atoi: parsing %q: value out of range" [s])
      else
        if n < 2 ^ 63 then .ok (Int.ofNat n)
        else .error (.errorf "strconv.Atoi: parsing %q: value out of range" [s])

/-- Make a writing call on the read-write set: record it and return its error. -/
def perform (env : ProcEnv) (log : List RWOp) (op : RWOp) : List RWOp × Option Error :=
  (log ++ [op], env.Perform log op)

/-- The graph-hiding loop of `tokenRequest`: one `deleteFabToken` per spent token id, in
order, stopping at the first error. -/
def deleteInputs (env : ProcEnv) (ns : Bytes) :
    List TokenID → List RWOp → List RWOp × Option Error
  | [], log => (log, none)
  | id :: rest, log =>
    match perform env log (.deleteFabToken ns id.TxId (intOfIndex id.Index)) with
    | (log, some e) => (log, some e)
    | (log, none) => deleteInputs env ns rest log

/-- The part of the body of the write loop of `tokenRequest` that follows
`metadata.GetToken` when it returns a token: the owner-based record, then the issuance
history. -/
def storeToken (env : ProcEnv) (tms : TMS) (ns txID key component0 : Bytes) (index : Int)
    (tok : Token) (issuer : Identity) (tokenInfoRaw : Bytes) (log : List RWOp) :
    List RWOp × Option Outcome :=
  let owned : List RWOp × Option Error :=
    if tms.OwnerWalletByIdentity tok.Owner then
      match env.keys.CreateTokenMineKey component0 index with
      | .error e => (log, some (.wrap e "failed computing mine key for for key [%s]" [key]))
      | .ok mineTokenID =>
        match perform env log (.setState ns mineTokenID [1]) with
        | (log, some e) => (log, some e)
        | (log, none) => perform env log (.storeFabToken ns txID index tok tokenInfoRaw)
    else perform env log (.storeAuditToken ns txID index tok tokenInfoRaw)
  match owned with
  | (log, some e) => (log, some (.fail e))
  | (log, none) =>
    if !IsNone issuer && tms.IssuerWalletByIdentity issuer then
      match perform env log (.storeIssuedHistoryToken ns txID index tok tokenInfoRaw issuer) with
      | (log, some e) => (log, some (.fail e))
      | (log, none) => (log, none)
    else (log, none)

/-- The body of the write loop of `tokenRequest` for the write at position `i`: `none`
when the loop goes on to the next write, `some outcome` when the function ends. -/
def scanWrite (env : ProcEnv) (tms : TMS) (metadata : Metadata) (ns txID : Bytes) (i : Nat)
    (log : List RWOp) : List RWOp × Option Outcome :=
  match env.GetWriteAt log ns i with
  | .error e => (log, some (.fail e))
  | .ok (key, val) =>
    let log := log ++ [.getWriteAt ns i key val]
    match env.keys.SplitCompositeKey key with
    | .error e => (log, some (.panic (.err e)))
    | .ok (pfx, components) =>
      if pfx ≠ env.keys.TokenKeyPrefix then (log, none)
      else
        match components with
        | [] => (log, some (.panic (.indexOutOfRange 0 0)))
        | component0 :: others =>
          if component0 = env.keys.TokenMineKeyPrefix then (log, none)
          else if component0 = env.keys.TokenRequestKeyPrefix then (log, none)
          else if component0 = env.keys.SerialNumber then (log, none)
          else
            match others with
            | [] => (log, some (.panic (.indexOutOfRange 1 1)))
            | component1 :: _ =>
              match Atoi component1 with
              | .error e =>
                (log, some (.fail (.wrap e "invalid output index for key [%s]" [key])))
              | .ok index =>
                if val.length = 0 then
                  match perform env log (.deleteFabToken ns component0 index) with
                  | (log, some e) => (log, some (.fail e))
                  | (log, none) => (log, none)
                else if component0 ≠ txID then
                  (log, some (.fail (.errorf
                    "invalid output, must refer to tx id [%s], got [%s]" [txID, component0])))
                else
                  match metadata.GetToken val with
                  | .error _ => (log, none)
                  | .ok (none, _, _) => (log, none)
                  | .ok (some tok, issuer, tokenInfoRaw) =>
                    storeToken env tms ns txID key component0 index tok issuer tokenInfoRaw log

/-- The write loop of `tokenRequest`, `for i := 0; i < rws.NumWrites(ns); i++`, from
position `i`; the bound is read again before every iteration.  `fuel` bounds the number
of iterations, `none` is returned when it runs out. -/
def scanWrites (env : ProcEnv) (tms : TMS) (metadata : Metadata) (ns txID : Bytes) :
    Nat → Nat → List RWOp → Option (List RWOp × Outcome)
  | 0, _, _ => none
  | fuel + 1, i, log =>
    if i < env.NumWrites log ns then
      match scanWrite env tms metadata ns txID i log with
      | (log, some outcome) => some (log, outcome)
      | (log, none) => scanWrites env tms metadata ns txID fuel (i + 1) log
    else some (log, .ok)

/-- Go `RWSetProcessor.tokenRequest`. -/
def tokenRequest (env : ProcEnv) (fuel : Nat) (tx : ProcessTransaction) (ns : Bytes)
    (log : List RWOp) : Option (List RWOp × Outcome) :=
  let txID := tx.ID
  match env.Channel tx.Channel with
  | .error e => some (log, .fail (.wrap e "failed getting channel [%s]" [tx.Channel]))
  | .ok ch =>
    if !ch.Exists txID then some (log, .ok)
    else
      match ch.LoadTransient txID with
      | .error e => some (log, .fail e)
      | .ok transientMap =>
        if !(transientMap (str "zkat")).isSome then some (log, .ok)
        else
          let tms := env.GetManagementService tx.Network tx.Channel ns
          match tms.NewMetadataFromBytes ((transientMap (str "zkat")).getD []) with
          | .error e => some (log, .fail e)
          | .ok metadata =>
            let deleted : List RWOp × Option Error :=
              if tms.GraphHiding then deleteInputs env ns metadata.SpentTokenID log
              else (log, none)
            match deleted with
            | (log, some e) => some (log, .fail e)
            | (log, none) => scanWrites env tms metadata ns txID fuel 0 log

/-- Go `RWSetProcessor.setup`. -/
def setup (env : ProcEnv) (req : Request) (ns : Bytes) (log : List RWOp) :
    List RWOp × Outcome :=
  match env.keys.CreateSetupBundleKey with
  | .error e => (log, .fail e)
  | .ok key =>
    match perform env log (.setState ns key req.ID) with
    | (log, some e) =>
      (log, .fail (.wrap e "failed setting setup bundle state [%s,%s]" [key, req.ID]))
    | (log, none) => (log, .ok)

/-- Go `RWSetProcessor.Process` for a processor built by `NewTokenRWSetProcessor`, `nss`
being its list of namespaces. -/
def Process (env : ProcEnv) (nss : List Bytes) (fuel : Nat) (req : Request)
    (tx : ProcessTransaction) (ns : Bytes) (log : List RWOp) :
    Option (List RWOp × Outcome) :=
  let found := nss.any (fun ans => ns = ans)
  if !found then
    some (log, .fail (.errorf "this processor cannot parse namespace [%s]" [ns]))
  else if tx.Function = str "setup" then some (setup env req ns log)
  else tokenRequest env fuel tx ns log

/-! ## The auditor check of the zkatdlog driver (`nogh/auditor.go`)

The token request and the committed tokens are values of types the function only passes
on, so they are type parameters.  The commitment loader may answer differently from one
call to the next, so it sees the calls made so far. -/

/-- The metadata of a transfer, as far as `AuditorCheck` reads it. -/
structure TransferMetadata where
  TokenIDs : List TokenID
deriving DecidableEq, Repr

/-- The metadata of a token request, as far as `AuditorCheck` reads it. -/
structure TokenRequestMetadata where
  Transfers : List TransferMetadata
deriving DecidableEq, Repr

/-- The calls `AuditorCheck` makes on its collaborators. -/
inductive AuditEvent (Tok : Type) where
  | getTokenCommitments (ids : List TokenID)
  | check (inputTokens : List (List Tok)) (txID : Bytes)
deriving DecidableEq, Repr

/-- The collaborators of `AuditorCheck`: the token commitment loader and the `Check` of
the auditor built from the public parameters (`none` is a nil error). -/
structure AuditEnv (TokReq Tok : Type) where
  GetTokenCommitments : List (AuditEvent Tok) → List TokenID → Except Error (List Tok)
  Check : TokReq → TokenRequestMetadata → List (List Tok) → Bytes → Option Error

/-- The loop of `AuditorCheck` over the transfers that remain: load the commitments of the
token ids of each transfer and append them to `inputTokens`, returning at the first
failure. -/
def loadInputTokens {TokReq Tok : Type} (env : AuditEnv TokReq Tok) :
    List TransferMetadata → List (List Tok) → List (AuditEvent Tok) →
      Except Error (List (List Tok)) × List (AuditEvent Tok)
  | [], inputTokens, trace => (.ok inputTokens, trace)
  | transfer :: rest, inputTokens, trace =>
    match env.GetTokenCommitments trace transfer.TokenIDs with
    | .error e =>
      (.error (.wrap e "failed getting token commitments" []),
        trace ++ [.getTokenCommitments transfer.TokenIDs])
    | .ok inputs =>
      loadInputTokens env rest (inputTokens ++ [inputs])
        (trace ++ [.getTokenCommitments transfer.TokenIDs])

/-- Go `service.AuditorCheck`: the error returned (`none` is nil) and the calls made. -/
def AuditorCheck {TokReq Tok : Type} (env : AuditEnv TokReq Tok) (tokenRequest : TokReq)
    (tokenRequestMetadata : TokenRequestMetadata) (txID : Bytes) :
    Option Error × List (AuditEvent Tok) :=
  match loadInputTokens env tokenRequestMetadata.Transfers [] [] with
  | (.error e, trace) => (some e, trace)
  | (.ok inputTokens, trace) =>
    match env.Check tokenRequest tokenRequestMetadata inputTokens txID with
    | some e =>
      (some (.wrap e "failed checking transaction" []), trace ++ [.check inputTokens txID])
    | none => (none, trace ++ [.check inputTokens txID])

/-! ## The responder of the endorsement protocol (`endorseView`, `receiveTransactionView`)

The responder talks to the initiator over one session.  What it receives may depend on
what happened before, so `Receive`, `Send` and `ReceiveTransaction` see the trace so
far. -/

/-- What the responder does to its collaborators, in the order it does it. -/
inductive REvent where
  | receive (seconds : Nat)
  | getSigner (party : Identity)
  | sign (party : Identity) (msg : Bytes)
  | send (payload : Bytes)
  | receiveTransaction
  | storeTransient (txID : Bytes)
  | getRWSet (txID results : Bytes)
  | storeEnvelope (txID raw : Bytes)
deriving DecidableEq, Repr

/-- The collaborators of the responder. -/
structure ResponderEnv where
  /-- Go `WalletManager().OwnerWalletByIdentity`; `none` is nil. -/
  OwnerWalletByIdentity : Identity → Option Wallet
  /-- Go `session.Info().Caller`. -/
  Caller : Identity
  /-- The `select` on `session.Receive()`: the message read, or `none` when the timer of
  the given number of seconds fires first. -/
  Receive : List REvent → Nat → Option Message
  /-- Go `json.Unmarshal` into a signature request. -/
  Unmarshal : Bytes → Except Error signatureRequest
  /-- Go `LocalMembership().IsMe`. -/
  IsMe : Identity → Bool
  /-- Go `view.Identity.UniqueID`. -/
  UniqueID : Identity → Bytes
  /-- Go `SigService().GetSigner`. -/
  GetSigner : Identity → Except Error Signer
  /-- Go `session.Send`. -/
  Send : List REvent → Bytes → Option Error
  /-- Go `NewTransactionFromBytes`. -/
  NewTransactionFromBytes : Bytes → Except Error Transaction
  /-- Go `ReceiveTransaction(context)`. -/
  ReceiveTransaction : List REvent → Except Error Transaction
  /-- Go `tx.storeTransient`. -/
  storeTransient : Transaction → Option Error
  /-- Go `Vault().GetRWSet(txID, results)`. -/
  GetRWSet : Bytes → Bytes → Option Error
  /-- Go `Vault().StoreEnvelope(txID, raw)`. -/
  StoreEnvelope : Bytes → Bytes → Option Error

/-- Go `receiveTransactionView.Call`: wait up to 240 seconds for the transaction. -/
def receiveTransactionView.Call (env : ResponderEnv) (trace : List REvent) :
    Except Error Transaction × List REvent :=
  match env.Receive trace 240 with
  | some msg =>
    if msg.Status = .ERROR then (.error (.new msg.Payload), trace ++ [.receive 240])
    else
      match env.NewTransactionFromBytes msg.Payload with
      | .error e => (.error e, trace ++ [.receive 240])
      | .ok tx => (.ok tx, trace ++ [.receive 240])
  | none => (.error (.new (str "timeout reached")), trace ++ [.receive 240])

/-- Go `endorseView.requestsToBeSigned`: for every transfer and every sender of it, the
transfer is appended when the sender matches a local owner wallet.  The error is always
nil. -/
def endorseView.requestsToBeSigned (env : ResponderEnv) (tx : Transaction) :
    Except Error (List Transfer) :=
  .ok (tx.Transfers.foldl
    (fun res transfer =>
      transfer.Senders.foldl
        (fun res sender =>
          if (env.OwnerWalletByIdentity sender).isSome then res ++ [transfer] else res)
        res)
    [])

/-- The body of the loop of `endorseView.Call` over the requests to be signed: wait up to
60 seconds for a signature request, check that its signer is this node, sign and send the
signature back. -/
def endorseView.signRequest (env : ResponderEnv) (trace : List REvent) :
    Option Error × List REvent :=
  match env.Receive trace 60 with
  | none => (some (.errorf "Timeout from party %s" [env.Caller]), trace ++ [.receive 60])
  | some msg =>
    let trace := trace ++ [.receive 60]
    if msg.Status = .ERROR then (some (.new msg.Payload), trace)
    else
      match env.Unmarshal msg.Payload with
      | .error e => (some (.wrap e "failed unmarshalling signature request" []), trace)
      | .ok sr =>
        if !env.IsMe sr.Signer then
          (some (.errorf "identity [%s] is not me" [env.UniqueID sr.Signer]), trace)
        else
          let trace := trace ++ [.getSigner sr.Signer]
          match env.GetSigner sr.Signer with
          | .error e =>
            (some (.wrap e "cannot find signer for [%s]" [env.UniqueID sr.Signer]), trace)
          | .ok signer =>
            let trace := trace ++ [.sign sr.Signer sr.MessageToSign]
            match signer sr.MessageToSign with
            | .error e => (some (.wrap e "failed signing request" []), trace)
            | .ok sigma =>
              match env.Send trace sigma with
              | some e =>
                (some (.wrap e "failed sending signature back" []), trace ++ [.send sigma])
              | none => (none, trace ++ [.send sigma])

/-- The loop `for range requestsToBeSigned` of `endorseView.Call`, returning at the first
error. -/
def endorseView.signRequests (env : ResponderEnv) :
    List Transfer → List REvent → Option Error × List REvent
  | [], trace => (none, trace)
  | _ :: rest, trace =>
    match endorseView.signRequest env trace with
    | (some e, trace) => (some e, trace)
    | (none, trace) => endorseView.signRequests env rest trace

/-- The part of `endorseView.Call` that follows the loop: receive the transaction, check
that it carries an envelope, store the transient data, obtain the read-write set of the
envelope, store the envelope and send the acknowledgment. -/
def endorseView.commit (env : ResponderEnv) (trace : List REvent) :
    Except Error Transaction × List REvent :=
  match env.ReceiveTransaction trace with
  | .error e => (.error (.wrap e "failed receiving transaction" []), trace ++ [.receiveTransaction])
  | .ok tx =>
    let trace := trace ++ [.receiveTransaction]
    match tx.Envelope with
    | none => (.error (.errorf "expected fabric envelope" []), trace)
    | some envelope =>
      let trace := trace ++ [.storeTransient tx.ID]
      match env.storeTransient tx with
      | some e => (.error (.wrap e "failed storing transient" []), trace)
      | none =>
        let trace := trace ++ [.getRWSet tx.ID envelope.Results]
        match env.GetRWSet tx.ID envelope.Results with
        | some e => (.error (.wrap e "failed getting rwset for tx [%s]" [tx.ID]), trace)
        | none =>
          match envelope.Bytes with
          | .error e => (.error (.wrap e "failed marshalling tx env [%s]" [tx.ID]), trace)
          | .ok rawEnv =>
            let trace := trace ++ [.storeEnvelope envelope.TxID rawEnv]
            match env.StoreEnvelope envelope.TxID rawEnv with
            | some e => (.error (.wrap e "failed storing tx env [%s]" [tx.ID]), trace)
            | none =>
              match env.Send trace (str "ack") with
              | some e => (.error e, trace ++ [.send (str "ack")])
              | none => (.ok tx, trace ++ [.send (str "ack")])

/-- Go `endorseView.Call` on the transaction `tx` of the view. -/
def endorseView.Call (env : ResponderEnv) (tx : Transaction) :
    Except Error Transaction × List REvent :=
  match endorseView.requestsToBeSigned env tx with
  | .error e => (.error (.wrap e "failed collecting requests of signature" []), [])
  | .ok requestsToBeSigned =>
    match endorseView.signRequests env requestsToBeSigned [] with
    | (some e, trace) => (.error e, trace)
    | (none, trace) => endorseView.commit env trace

/-! ## Recipient identities (`ttxcc/recipients.go`)

The views of this file run on two nodes that talk over one session.  A view returns a
value or an error, or panics (a nil wallet or a nil `RecipientData` is dereferenced).
The payloads a view sends and reads are recorded in its trace. -/

/-- Go `RecipientData`. -/
structure RecipientData where
  AuditInfo : Bytes
  Metadata : Bytes
  Identity : Identity
deriving DecidableEq, Repr

/-- Go `ExchangeRecipientRequest`; `none` is a nil `RecipientData`. -/
structure ExchangeRecipientRequest where
  Channel : Bytes
  WalletID : Bytes
  RecipientData : Option RecipientData
deriving DecidableEq, Repr

/-- Go `RecipientRequest`. -/
structure RecipientRequest where
  Channel : Bytes
  WalletID : Bytes
deriving DecidableEq, Repr

/-- An owner wallet (`token.OwnerWallet`): its id and the three calls the views make. -/
structure OwnerWallet where
  ID : Bytes
  GetRecipientIdentity : Except Error Identity
  GetAuditInfo : Identity → Except Error Bytes
  GetTokenMetadata : Identity → Except Error Bytes

/-- The wallet manager of a token management service; `none` is a nil wallet and a nil
error. -/
structure WalletManager where
  OwnerWalletByIdentity : Identity → Option OwnerWallet
  RegisterRecipientIdentity : Identity → Bytes → Bytes → Option Error
  OwnerWallet : Bytes → Option OwnerWallet

/-- How a view ends. -/
inductive ViewResult (α : Type) where
  | ok (a : α)
  | error (e : Error)
  | panic
deriving DecidableEq, Repr

/-- What a view of this file does, in the order it does it: sessions opened, payloads
sent, payloads read, identities registered and bound. -/
inductive XEvent where
  | getSession (party : Identity)
  | send (payload : Bytes)
  | read (payload : Bytes)
  | register (identity : Identity) (auditInfo metadata : Bytes)
  | bind (longTerm ephemeral : Identity)
deriving DecidableEq, Repr

/-- The collaborators of the views of a node. -/
structure RecipientEnv where
  /-- Go `token.GetManagementService(context, token.WithChannel(channel)).WalletManager()`. -/
  WalletManager : Bytes → WalletManager
  /-- Go `fabric.GetChannel(context, network, channel).Name()`. -/
  ChannelName : Bytes → Bytes → Bytes
  /-- Go `GetWalletForChannel(context, channel, wallet)`. -/
  GetWalletForChannel : Bytes → Bytes → Option OwnerWallet
  /-- Go `context.Me()`. -/
  Me : Identity
  /-- Go `session.Info().Caller`. -/
  Caller : Identity
  /-- Go `context.GetSession(context.Initiator(), party)`: its error. -/
  GetSession : Identity → Option Error
  /-- Go `session.Send`. -/
  Send : List XEvent → Bytes → Option Error
  /-- The `select` on `session.Receive()`: the message read, or `none` when the timer of
  the given number of seconds fires first. -/
  Receive : List XEvent → Nat → Option Message
  /-- Go `session2.ReadMessageWithTimeout(session, seconds)`. -/
  ReadMessageWithTimeout : List XEvent → Nat → Except Error Bytes
  /-- Go `session2.ReadFirstMessage(context)`: the payload. -/
  ReadFirstMessage : Except Error Bytes
  /-- Go `view2.GetEndpointService(context).Bind`. -/
  Bind : Identity → Identity → Option Error
  /-- Go `json.Marshal` and `json.Unmarshal` of the three message types. -/
  MarshalRecipientData : RecipientData → Except Error Bytes
  UnmarshalRecipientData : Bytes → Except Error RecipientData
  MarshalRecipientRequest : RecipientRequest → Except Error Bytes
  UnmarshalRecipientRequest : Bytes → Except Error RecipientRequest
  MarshalExchangeRecipientRequest : ExchangeRecipientRequest → Except Error Bytes
  UnmarshalExchangeRecipientRequest : Bytes → Except Error ExchangeRecipientRequest

/-- Go `RecipientData.Bytes`. -/
def RecipientData.Bytes (env : RecipientEnv) (r : RecipientData) : Except Error TokenSDK.Bytes :=
  env.MarshalRecipientData r

/-- Go `RecipientData.FromBytes`. -/
def RecipientData.FromBytes (env : RecipientEnv) (raw : TokenSDK.Bytes) : Except Error RecipientData :=
  env.UnmarshalRecipientData raw

/-- Go `RecipientRequest.Bytes`. -/
def RecipientRequest.Bytes (env : RecipientEnv) (r : RecipientRequest) : Except Error TokenSDK.Bytes :=
  env.MarshalRecipientRequest r

/-- Go `RecipientRequest.FromBytes`. -/
def RecipientRequest.FromBytes (env : RecipientEnv) (raw : TokenSDK.Bytes) :
    Except Error RecipientRequest :=
  env.UnmarshalRecipientRequest raw

/-- Go `ExchangeRecipientRequest.Bytes`. -/
def ExchangeRecipientRequest.Bytes (env : RecipientEnv) (r : ExchangeRecipientRequest) :
    Except Error TokenSDK.Bytes :=
  env.MarshalExchangeRecipientRequest r

/-- Go `ExchangeRecipientRequest.FromBytes`. -/
def ExchangeRecipientRequest.FromBytes (env : RecipientEnv) (raw : TokenSDK.Bytes) :
    Except Error ExchangeRecipientRequest :=
  env.UnmarshalExchangeRecipientRequest raw

/-- Go `RequestRecipientIdentityView`. -/
structure RequestRecipientIdentityView where
  Channel : Bytes
  Other : Identity

/-- Go `RespondRequestRecipientIdentityView`. -/
structure RespondRequestRecipientIdentityView where
  Wallet : Bytes

/-- Go `ExchangeRecipientIdentitiesView`. -/
structure ExchangeRecipientIdentitiesView where
  Network : Bytes
  Channel : Bytes
  Wallet : Bytes
  Other : Identity

/-- Go `respondExchangePseudonymView`. -/
structure respondExchangePseudonymView where
  Wallet : Bytes

/-- The wallet id a responder uses: `wallet := s.Wallet`, replaced by the wallet id of
the request when no wallet is configured and the request names one. -/
def walletOrRequested (configured requested : Bytes) : Bytes :=
  if configured.length = 0 && requested.length ≠ 0 then requested else configured

/-- Go `RequestRecipientIdentityView.Call`. -/
def RequestRecipientIdentityView.Call (env : RecipientEnv) (f : RequestRecipientIdentityView) :
    ViewResult Identity × List XEvent :=
  let ts := env.WalletManager f.Channel
  match ts.OwnerWalletByIdentity f.Other with
  | some w =>
    match w.GetRecipientIdentity with
    | .error e => (.error e, [])
    | .ok recipient => (.ok recipient, [])
  | none =>
    let trace := [XEvent.getSession f.Other]
    match env.GetSession f.Other with
    | some e => (.error e, trace)
    | none =>
      match RecipientRequest.Bytes env { Channel := f.Channel, WalletID := f.Other } with
      | .error e => (.error (.wrap e "failed marshalling recipient request" []), trace)
      | .ok rrRaw =>
        match env.Send trace rrRaw with
        | some e => (.error e, trace ++ [.send rrRaw])
        | none =>
          let trace := trace ++ [.send rrRaw]
          match env.Receive trace 60 with
          | none => (.error (.new (str "time out reached")), trace)
          | some msg =>
            let trace := trace ++ [.read msg.Payload]
            match RecipientData.FromBytes env msg.Payload with
            | .error e => (.error e, trace)
            | .ok recipientData =>
              let trace := trace ++ [.register recipientData.Identity recipientData.AuditInfo
                recipientData.Metadata]
              match ts.RegisterRecipientIdentity recipientData.Identity recipientData.AuditInfo
                  recipientData.Metadata with
              | some e => (.error e, trace)
              | none =>
                let trace := trace ++ [.bind f.Other recipientData.Identity]
                match env.Bind f.Other recipientData.Identity with
                | some e => (.error e, trace)
                | none => (.ok recipientData.Identity, trace)

/-- Go `RequestRecipientIdentity`. -/
def RequestRecipientIdentity (env : RecipientEnv) (recipient : Identity) :
    ViewResult Identity × List XEvent :=
  RequestRecipientIdentityView.Call env { Channel := [], Other := recipient }

/-- Go `RespondRequestRecipientIdentityView.Call`. -/
def RespondRequestRecipientIdentityView.Call (env : RecipientEnv)
    (s : RespondRequestRecipientIdentityView) : ViewResult Identity × List XEvent :=
  match env.ReadFirstMessage with
  | .error e => (.error e, [])
  | .ok payload =>
    let trace := [XEvent.read payload]
    match RecipientRequest.FromBytes env payload with
    | .error e => (.error (.wrap e "failed unmarshalling recipient request" []), trace)
    | .ok rr =>
      let wallet := walletOrRequested s.Wallet rr.WalletID
      match env.GetWalletForChannel rr.Channel wallet with
      | none => (.panic, trace)
      | some w =>
        match w.GetRecipientIdentity with
        | .error e => (.error e, trace)
        | .ok recipientIdentity =>
          match w.GetAuditInfo recipientIdentity with
          | .error e => (.error e, trace)
          | .ok auditInfo =>
            match w.GetTokenMetadata recipientIdentity with
            | .error e => (.error e, trace)
            | .ok metadata =>
              match RecipientData.Bytes env
                  { Identity := recipientIdentity, AuditInfo := auditInfo,
                    Metadata := metadata } with
              | .error e => (.error e, trace)
              | .ok recipientDataRaw =>
                match env.Send trace recipientDataRaw with
                | some e => (.error e, trace ++ [.send recipientDataRaw])
                | none =>
                  let trace := trace ++ [.send recipientDataRaw, .bind env.Me recipientIdentity]
                  match env.Bind env.Me recipientIdentity with
                  | some e => (.error e, trace)
                  | none => (.ok recipientIdentity, trace)

/-- Go `RespondRequestRecipientIdentity`. -/
def RespondRequestRecipientIdentity (env : RecipientEnv) : ViewResult Identity × List XEvent :=
  RespondRequestRecipientIdentityView.Call env { Wallet := [] }

/-- Go `ExchangeRecipientIdentitiesView.Call`: the identities `[me, other]`. -/
def ExchangeRecipientIdentitiesView.Call (env : RecipientEnv)
    (f : ExchangeRecipientIdentitiesView) : ViewResult (List Identity) × List XEvent :=
  let ts := env.WalletManager f.Channel
  match ts.OwnerWalletByIdentity f.Other with
  | some w =>
    match w.GetRecipientIdentity with
    | .error e => (.error e, [])
    | .ok other =>
      match ts.OwnerWallet f.Wallet with
      | none => (.panic, [])
      | some mine =>
        match mine.GetRecipientIdentity with
        | .error e => (.error e, [])
        | .ok me => (.ok [me, other], [])
  | none =>
    let trace := [XEvent.getSession f.Other]
    match env.GetSession f.Other with
    | some e => (.error e, trace)
    | none =>
      let ch := env.ChannelName f.Network f.Channel
      let ts := env.WalletManager ch
      match ts.OwnerWallet f.Wallet with
      | none => (.panic, trace)
      | some w =>
        match w.GetRecipientIdentity with
        | .error e => (.error e, trace)
        | .ok me =>
          match w.GetAuditInfo me with
          | .error e =>
            (.error (.wrap e "failed getting recipient identity audit info, wallet [%s]" [w.ID]),
              trace)
          | .ok auditInfo =>
            match w.GetTokenMetadata me with
            | .error e =>
              (.error (.wrap e "failed getting recipient identity metadata, wallet [%s]" [w.ID]),
                trace)
            | .ok metadata =>
              match ExchangeRecipientRequest.Bytes env
                  { Channel := ch, WalletID := f.Other,
                    RecipientData := some
                      { Identity := me, AuditInfo := auditInfo, Metadata := metadata } } with
              | .error e => (.error e, trace)
              | .ok requestRaw =>
                match env.Send trace requestRaw with
                | some e => (.error e, trace ++ [.send requestRaw])
                | none =>
                  let trace := trace ++ [.send requestRaw]
                  match env.ReadMessageWithTimeout trace 30 with
                  | .error e => (.error e, trace)
                  | .ok payload =>
                    let trace := trace ++ [.read payload]
                    match RecipientData.FromBytes env payload with
                    | .error e => (.error e, trace)
                    | .ok recipientData =>
                      let trace := trace ++ [.register recipientData.Identity
                        recipientData.AuditInfo recipientData.Metadata]
                      match ts.RegisterRecipientIdentity recipientData.Identity
                          recipientData.AuditInfo recipientData.Metadata with
                      | some e => (.error e, trace)
                      | none =>
                        let trace := trace ++ [.bind f.Other recipientData.Identity]
                        match env.Bind f.Other recipientData.Identity with
                        | some e => (.error e, trace)
                        | none =>
                          let trace := trace ++ [.bind env.Me me]
                          match env.Bind env.Me me with
                          | some e => (.error e, trace)
                          | none => (.ok [me, recipientData.Identity], trace)

/-- Go `respondExchangePseudonymView.Call`: the identities `[me, other]`. -/
def respondExchangePseudonymView.Call (env : RecipientEnv) (s : respondExchangePseudonymView) :
    ViewResult (List Identity) × List XEvent :=
  match env.ReadFirstMessage with
  | .error e => (.error e, [])
  | .ok requestRaw =>
    let trace := [XEvent.read requestRaw]
    match ExchangeRecipientRequest.FromBytes env requestRaw with
    | .error e => (.error e, trace)
    | .ok request =>
      let ts := env.WalletManager request.Channel
      match request.RecipientData with
      | none => (.panic, trace)
      | some data =>
        let other := data.Identity
        let trace := trace ++ [.register other data.AuditInfo data.Metadata]
        match ts.RegisterRecipientIdentity other data.AuditInfo data.Metadata with
        | some e => (.error e, trace)
        | none =>
          let wallet := walletOrRequested s.Wallet request.WalletID
          match ts.OwnerWallet wallet with
          | none => (.panic, trace)
          | some w =>
            match w.GetRecipientIdentity with
            | .error e => (.error e, trace)
            | .ok me =>
              match w.GetAuditInfo me with
              | .error e =>
                (.error (.wrap e "failed getting recipient identity audit info, wallet [%s]"
                  [w.ID]), trace)
              | .ok auditInfo =>
                match w.GetTokenMetadata me with
                | .error e =>
                  (.error (.wrap e "failed getting recipient identity metadata, wallet [%s]"
                    [w.ID]), trace)
                | .ok metadata =>
                  match RecipientData.Bytes env
                      { Identity := me, AuditInfo := auditInfo, Metadata := metadata } with
                  | .error e => (.error e, trace)
                  | .ok recipientDataRaw =>
                    match env.Send trace recipientDataRaw with
                    | some e => (.error e, trace ++ [.send recipientDataRaw])
                    | none =>
                      let trace := trace ++ [.send recipientDataRaw, .bind env.Me me]
                      match env.Bind env.Me me with
                      | some e => (.error e, trace)
                      | none =>
                        let trace := trace ++ [.bind env.Caller other]
                        match env.Bind env.Caller other with
                        | some e => (.error e, trace)
                        | none => (.ok [me, other], trace)

/-- The two components `ids[0], ids[1]` of the result of a view that returns a list of
identities; indexing a shorter list panics. -/
def firstTwo : ViewResult (List Identity) → ViewResult (Identity × Identity)
  | .ok (a :: b :: _) => .ok (a, b)
  | .ok _ => .panic
  | .error e => .error e
  | .panic => .panic

/-- Go `ExchangeRecipientIdentities`. -/
def ExchangeRecipientIdentities (env : RecipientEnv) (walletID : Bytes)
    (recipient : Identity) : ViewResult (Identity × Identity) × List XEvent :=
  let run := ExchangeRecipientIdentitiesView.Call env
    { Network := [], Channel := [], Wallet := walletID, Other := recipient }
  (firstTwo run.1, run.2)

/-- Go `RespondExchangeRecipientIdentities`. -/
def RespondExchangeRecipientIdentities (env : RecipientEnv) :
    ViewResult (Identity × Identity) × List XEvent :=
  let run := respondExchangePseudonymView.Call env { Wallet := [] }
  (firstTwo run.1, run.2)

/-! ## Specification predicates for signature collection -/

/-- The signature a remote party returns for a signature request: a session to the party
can be opened, the marshalled request is sent, the reply arrives within 60 seconds with
status OK and payload `sigma`, and the verifier of the party accepts `sigma` over
`MessageToSign` of the request. -/
def RemoteSignature (env : Env) (sr : signatureRequest) (party : Identity)
    (sigma : Bytes) : Prop :=
  ∃ session raw verifier, env.GetSession party = .ok session ∧ env.Marshal sr = .ok raw ∧
    session.Send raw = none ∧
    session.Reply raw 60 = some { Status := .OK, Payload := sigma } ∧
    env.GetVerifier party = .ok verifier ∧ verifier sr.MessageToSign sigma = none

/-- The signature collected for a signer: produced in-process over `MessageToSign` of the
request built for the party when the wallet lookup finds a wallet, returned by the
remote party otherwise. -/
def CollectedSignature (env : Env) (lookup : Identity → Option Wallet) (requestRaw txID : Bytes)
    (party : Identity) (sigma : Bytes) : Prop :=
  match lookup party with
  | some w =>
    ∃ signer, w.GetSigner party = .ok signer ∧
      signer (signatureRequest.MessageToSign
        { Request := requestRaw, TxID := txID, Signer := party }) = .ok sigma
  | none =>
    RemoteSignature env { Request := requestRaw, TxID := txID, Signer := party } party sigma

/-- The transaction after a run of `AppendSignature` calls. -/
def Transaction.AppendSignatures (tx : Transaction) (sigmas : List Bytes) : Transaction :=
  { tx with Signatures := tx.Signatures ++ sigmas }

/-- The remote party answers a signature request with `sigma`: the session opens, the
marshalled request is sent, and the reply arrives within 60 seconds with status OK and
payload `sigma`. -/
def RemoteReply (env : Env) (sr : signatureRequest) (party : Identity) (sigma : Bytes) :
    Prop :=
  ∃ session raw, env.GetSession party = .ok session ∧ env.Marshal sr = .ok raw ∧
    session.Send raw = none ∧
    session.Reply raw 60 = some { Status := .OK, Payload := sigma }

/-- The verifier of the party cannot be obtained, or it rejects `sigma` over
`MessageToSign` of the request; `e` is the error the view then returns. -/
def VerifierFailure (env : Env) (sr : signatureRequest) (party : Identity) (sigma : Bytes)
    (e : Error) : Prop :=
  (∃ cause, env.GetVerifier party = .error cause ∧
      e = .wrap cause "failed getting verifier for [%s]" [party]) ∨
  (∃ verifier cause, env.GetVerifier party = .ok verifier ∧
      verifier sr.MessageToSign sigma = some cause ∧
      e = .wrap cause "failed verifying signature from [%s]" [party])

/-- The remote party does not answer a signature request: the session opens, the
marshalled request is sent, and the 60 second timer fires before a reply arrives. -/
def RemoteSilent (env : Env) (sr : signatureRequest) (party : Identity) : Prop :=
  ∃ session raw, env.GetSession party = .ok session ∧ env.Marshal sr = .ok raw ∧
    session.Send raw = none ∧ session.Reply raw 60 = none

/-- The trace of `st1` extends the trace of `st` by events that all satisfy `P`. -/
def TraceExt (P : Event → Prop) (st st1 : State) : Prop :=
  ∃ evs, st1.trace = st.trace ++ evs ∧ ∀ ev ∈ evs, P ev

/-- What signature collection may do for a request with bytes `requestRaw` on the
transaction `txID`: sign and verify over `MessageToSign` of the request built for the
party, send the marshalled request to the party, wait 60 seconds, open sessions. -/
def CollectEvent (env : Env) (requestRaw txID : Bytes) : Event → Prop
  | .sign party msg =>
    msg = signatureRequest.MessageToSign { Request := requestRaw, TxID := txID, Signer := party }
  | .verify party msg _ =>
    msg = signatureRequest.MessageToSign { Request := requestRaw, TxID := txID, Signer := party }
  | .send party payload =>
    env.Marshal { Request := requestRaw, TxID := txID, Signer := party } = .ok payload
  | .receive _ seconds => seconds = 60
  | .getSession _ => True
  | _ => False

/-- The phases entered, in order, in a list of events. -/
def phasesOf (evs : List Event) : List Phase :=
  evs.filterMap (fun ev => match ev with
    | .enter phase => some phase
    | _ => none)

/-- The event is a call of the chaincode. -/
def Event.isEndorse : Event → Bool
  | .endorse _ _ => true
  | _ => false

/-- The event belongs to the distribution of the envelope: local commit or a session
exchange with a party. -/
def DistributeEvent : Event → Prop
  | .verifyTx => True
  | .getRWSet _ _ => True
  | .storeEnvelope _ _ => True
  | .getSession _ => True
  | .send _ _ => True
  | .receive _ seconds => seconds = 240
  | _ => False

/-- The event belongs to the ledger call: the chaincode call and setting the envelope. -/
def LedgerEvent : Event → Prop
  | .endorse _ _ => True
  | .setEnvelope => True
  | _ => False

/-- Between `st` and `st1` the view entered exactly `phases`, in that order, and it called
the chaincode only if `ledger` is true. -/
def Ran (st st1 : State) (phases : List Phase) (ledger : Bool) : Prop :=
  ∃ evs, st1.trace = st.trace ++ evs ∧ phasesOf evs = phases ∧
    ∀ ev ∈ evs, ev.isEndorse = true → ledger = true

/-- The audit step of `Call` went through from `st2` to `st3`: either no auditor is
configured and nothing was done, or the audit exchange ran and succeeded. -/
def AuditPassed (env : Env) (st2 st3 : State) : Prop :=
  (IsNone st2.tx.auditor = true ∧ st3 = st2) ∨
  (IsNone st2.tx.auditor = false ∧ env.RunAudit st2.tx = none ∧
    st3 = (st2.log (.enter .audit)).log .runAudit)

/-- The phases of `Call` up to and including the audit, for a given auditor. -/
def phasesToAudit (auditor : Identity) : List Phase :=
  if IsNone auditor then [.issues, .transfers] else [.issues, .transfers, .audit]

/-- The distribution list `Call` holds after the audit step. -/
def partiesAfterAudit (auditor : Identity) (parties1 parties2 : List Identity) :
    List Identity :=
  if IsNone auditor then parties1 ++ parties2 else parties1 ++ parties2 ++ [auditor]

/-! ## Specification of the compressed distribution list -/

/-- Keep, for every key, the first element of the list that has it, in the order of the
list. -/
def firstBy {α β : Type} [DecidableEq α] (key : β → α) : List β → List β
  | [] => []
  | b :: l => b :: (firstBy key l).filter (fun c => decide (key c ≠ key b))

/-- The entry `distributeEnv` builds for a party, when its long-term identity resolves. -/
def entryOf (env : Env) (party : Identity) : Option distributionListEntry :=
  match env.Resolve party with
  | .ok longTermIdentity =>
    some { IsMe := env.HasWallet party, LongTerm := longTermIdentity, ID := party }
  | .error _ => none

/-- The entries of the parties of a distribution list that are not none, in list order. -/
def candidates (env : Env) (distributionList : List Identity) : List distributionListEntry :=
  (distributionList.filter (fun party => !IsNone party)).filterMap (entryOf env)

/-- The deliveries recorded in a list of events, in order: `none` for a local commit
(`GetRWSet`), `some party` for a transaction sent to a remote party. -/
def deliveriesOf (evs : List Event) : List (Option Identity) :=
  evs.filterMap (fun ev => match ev with
    | .getRWSet _ _ => some none
    | .send party _ => some (some party)
    | _ => none)

/-! ## A small network used to instantiate the results

Issuer `[1]` and owner `[2]` are held by this node, owner `[3]` is a remote party that is
also known under the pseudonym `[3, 1]`, `[4]` is a remote receiver and `[5]` the auditor.
The long-term identity of this node is `[0]`, that of another party is the first byte of
its identity. -/

/-- A signer that prefixes the message with a tag. -/
def exSigner (tag : Nat) : Signer := fun msg => .ok (tag :: msg)

/-- A signer that always fails. -/
def exFailingSigner : Signer := fun _ => .error (.new (str "banana republic"))

/-- A wallet whose signers tag the message with the first byte of the identity. -/
def exWallet : Wallet := { GetSigner := fun party => .ok (exSigner party.headI) }

/-- A session whose signature reply (60 second wait) is given and whose distribution
acknowledgment (240 second wait) is `ack`. -/
def exSession (reply : Option Message) : Session :=
  { Send := fun _ => none
    Reply := fun _ seconds =>
      if seconds = 60 then reply else some { Status := .OK, Payload := str "ack" } }

/-- The envelope the example ledger returns. -/
def exEnvelope : Envelope := { Results := [8], TxID := str "tx1", Bytes := .ok [8, 8] }

/-- The example network, parameterised by what the remote signer replies, by the verifier
lookup and by the outcome of the audit. -/
def exEnv (reply : Option Message) (verifier : Except Error Verifier)
    (audit : Option Error) : Env :=
  { storeTransient := fun _ => none
    MarshallToSign := fun tx => .ok (0 :: tx.ID)
    IssuerWalletByIdentity := fun party => if party = [1] then some exWallet else none
    OwnerWalletByIdentity := fun party => if party = [2] then some exWallet else none
    HasWallet := fun party => party = [1] ∨ party = [2]
    GetSession := fun _ => .ok (exSession reply)
    Marshal := fun sr => .ok (sr.Request ++ sr.TxID ++ sr.Signer)
    GetVerifier := fun _ => verifier
    RunAudit := fun _ => audit
    RequestToBytes := fun tx => .ok (tx.ID ++ tx.Signatures.flatten)
    Endorse := fun _ _ => .ok (some exEnvelope)
    setEnvelope := fun _ => none
    Verify := fun _ => none
    TxBytes := fun tx => .ok tx.ID
    Resolve := fun party => .ok (if party = [1] ∨ party = [2] then [0] else party.take 1)
    GetRWSet := fun _ _ => none
    StoreEnvelope := fun _ _ => none }

/-- A verifier that accepts exactly the signature `[9]`. -/
def exVerifier : Verifier := fun _ sigma =>
  if sigma = [9] then none else some (.new (str "invalid signature"))

/-- The example network when every collaborator cooperates. -/
def exEnvOK : Env := exEnv (some { Status := .OK, Payload := [9] }) (.ok exVerifier) none

/-- A transaction with one issue by `[1]` and one transfer signed by `[2]` and `[3]`. -/
def exTx : Transaction :=
  { ID := str "tx1"
    Issues := [{ Issuer := [1], Receivers := [[2]] }]
    Transfers := [{ Senders := [[2], [3]], Receivers := [[4], []] }]
    auditor := [5]
    Signatures := []
    Envelope := none }

/-- The initial state of the example: no signature, empty trace. -/
def exState : State := { tx := exTx, trace := [] }

/-- The example state after the issue signatures were collected. -/
def exStateIssues : State := (requestSignaturesOnIssues exEnvOK exState).2

/-- The example state after the transfer signatures were collected. -/
def exStateTransfers : State := (requestSignaturesOnTransfers exEnvOK exStateIssues).2

/-- The example network when the remote signer returns a signature its verifier rejects. -/
def exEnvReject : Env := exEnv (some { Status := .OK, Payload := [7] }) (.ok exVerifier) none

/-- The example network when the remote signer never replies. -/
def exEnvSilent : Env := exEnv none (.ok exVerifier) none

/-- The example network when the audit exchange fails. -/
def exEnvAuditFails : Env :=
  exEnv (some { Status := .OK, Payload := [9] }) (.ok exVerifier)
    (some (.new (str "audit failed")))

/-- The example state after the issue signature and the signature of the local sender
`[2]` were collected. -/
def exStateSender : State := (signSender exEnvOK (0 :: str "tx1") [2] exStateIssues).2

/-- The example state of `Call`, with a failing audit, after the issue phase. -/
def exCallIssues : State :=
  (requestSignaturesOnIssues exEnvAuditFails
    ((exState.log .storeTransient).log (.enter .issues))).2

/-- The example state of `Call`, with a failing audit, after the transfer phase. -/
def exCallTransfers : State :=
  (requestSignaturesOnTransfers exEnvAuditFails (exCallIssues.log (.enter .transfers))).2

/-! ## A small ledger used to instantiate the reconciliation results

Composite keys are `0 · component · 0 · component · 0 ...`, token keys start with the
component `ztoken`.  The node holds the owner `[2]` and the issuer `[1]`; it does not
hold the auditor role.  The transaction `tx1` writes an output owned by `[2]`, an output
owned by the remote party `[3]`, an output its metadata does not open, and deletes an
output of `tx0`.  Every record written adds a write to the read-write set. -/

/-- Split a byte string at every zero byte. -/
def exSplitZero : Bytes → Bytes → List Bytes
  | [], _ => []
  | b :: rest, cur => if b = 0 then cur :: exSplitZero rest [] else exSplitZero rest (cur ++ [b])

/-- Join components into a composite key. -/
def exCompositeKey (components : List Bytes) : Bytes :=
  0 :: components.flatMap (fun c => c ++ [0])

/-- Decimal digits of an integer. -/
def exItoa (n : Int) : Bytes :=
  (if n < 0 then [45] else []) ++ (Nat.toDigits 10 n.natAbs).map Char.toNat

/-- The example key encoding. -/
def exKeys : Keys :=
  { TokenKeyPrefix := str "ztoken"
    TokenMineKeyPrefix := str "mine"
    TokenRequestKeyPrefix := str "token_request"
    SerialNumber := str "sn"
    SplitCompositeKey := fun key =>
      match key with
      | 0 :: rest =>
        match exSplitZero rest [] with
        | pfx :: component0 :: component1 :: others =>
          .ok (pfx, component0 :: component1 :: others)
        | _ => .error (.new (str "invalid composite key"))
      | _ => .error (.new (str "invalid composite key"))
    CreateTokenMineKey := fun txID index =>
      .ok (exCompositeKey [str "ztoken", str "mine", txID, exItoa index])
    CreateSetupBundleKey := .ok (exCompositeKey [str "setup"]) }

/-- The example metadata: the value `[10]` opens to a token of the local owner `[2]`
issued by the local issuer `[1]`, `[11]` to a token of the remote owner `[3]` with no
issuer, `[12]` to no token, and any other value fails to open. -/
def exMetadata : Metadata :=
  { SpentTokenID := [{ TxId := str "tx0", Index := 0 }, { TxId := str "tx0", Index := 1 }]
    GetToken := fun val =>
      if val = [10] then
        .ok (some { Owner := [2], Typ := str "USD", Quantity := str "65" }, [1], [20])
      else if val = [11] then
        .ok (some { Owner := [3], Typ := str "USD", Quantity := str "35" }, [], [21])
      else if val = [12] then .ok (none, [], [])
      else .error (.new (str "no token information")) }

/-- The write a call adds to the example read-write set. -/
def exWriteOf : RWOp → Option (Bytes × Bytes)
  | .getWriteAt _ _ _ _ => none
  | .setState _ key val => some (key, val)
  | .deleteFabToken _ txID index => some (exCompositeKey [str "token", txID, exItoa index], [])
  | .storeFabToken _ txID index _ info =>
    some (exCompositeKey [str "token", txID, exItoa index], info)
  | .storeAuditToken _ txID index _ info =>
    some (exCompositeKey [str "audittoken", txID, exItoa index], info)
  | .storeIssuedHistoryToken _ txID index _ info _ =>
    some (exCompositeKey [str "issued", txID, exItoa index], info)

/-- The writes of the committed example transaction. -/
def exWrites : List (Bytes × Bytes) :=
  [(exCompositeKey [str "ztoken", str "tx1", str "0"], [10]),
   (exCompositeKey [str "ztoken", str "tx1", str "1"], [11]),
   (exCompositeKey [str "ztoken", str "tx1", str "2"], [13]),
   (exCompositeKey [str "ztoken", str "tx0", str "0"], []),
   (exCompositeKey [str "ztoken", str "token_request", str "tx1"], [14])]

/-- The example node, with or without graph hiding. -/
def exProcEnv (graphHiding : Bool) : ProcEnv :=
  { keys := exKeys
    Channel := fun _ => .ok
      { Exists := fun txID => txID = str "tx1"
        LoadTransient := fun _ => .ok (fun key => if key = str "zkat" then some [1] else none) }
    GetManagementService := fun _ _ _ =>
      { NewMetadataFromBytes := fun _ => .ok exMetadata
        GraphHiding := graphHiding
        OwnerWalletByIdentity := fun owner => owner = [2]
        IssuerWalletByIdentity := fun issuer => issuer = [1] }
    NumWrites := fun log _ => (exWrites ++ log.filterMap exWriteOf).length
    GetWriteAt := fun log _ i =>
      match (exWrites ++ log.filterMap exWriteOf)[i]? with
      | some write => .ok write
      | none => .error (.new (str "no such write"))
    Perform := fun _ _ => none
    Auditor := false }

/-- The committed example transaction. -/
def exProcessTransaction : ProcessTransaction :=
  { ID := str "tx1", Network := str "net", Channel := str "ch", Function := str "invoke" }

/-- The token management service of the example node without graph hiding. -/
def exTMS : TMS := (exProcEnv false).GetManagementService (str "net") (str "ch") (str "zkat")

/-- The key of output `index` of the example transaction. -/
def exOutputKey (index : String) : Bytes :=
  exCompositeKey [str "ztoken", str "tx1", str index]

/-- The token the example output 0 opens to, owned by the local owner `[2]`. -/
def exTokenMine : Token := { Owner := [2], Typ := str "USD", Quantity := str "65" }

/-- The token the example output 1 opens to, owned by the remote party `[3]`. -/
def exTokenOther : Token := { Owner := [3], Typ := str "USD", Quantity := str "35" }

/-- The history of calls of the reconciliation of the example transaction, without graph
hiding. -/
def exFinalLog : List RWOp :=
  ((tokenRequest (exProcEnv false) 20 exProcessTransaction (str "zkat") []).map Prod.fst).getD []

/-! ## Specification of the write scan -/

/-- The key is a genuine output key: it splits into the token prefix, a first component
that is none of the sub-index markers, and a second component that parses as an index.
The result is the first component and the parsed index. -/
def outputKey (env : ProcEnv) (key : Bytes) : Option (Bytes × Int) :=
  match env.keys.SplitCompositeKey key with
  | .ok (pfx, component0 :: component1 :: _) =>
    if pfx = env.keys.TokenKeyPrefix ∧ component0 ≠ env.keys.TokenMineKeyPrefix ∧
        component0 ≠ env.keys.TokenRequestKeyPrefix ∧ component0 ≠ env.keys.SerialNumber then
      match Atoi component1 with
      | .ok index => some (component0, index)
      | .error _ => none
    else none
  | _ => none

/-- The write is an output write of the transaction `txID` that opens to a token: its
key is a genuine output key of `txID`, its value is not empty and `GetToken` returns a
token for it.  The result is the output index, the token, the issuer and the raw token
information. -/
def opensTo (env : ProcEnv) (metadata : Metadata) (txID key val : Bytes) :
    Option (Int × Token × Identity × Bytes) :=
  match outputKey env key with
  | some (component0, index) =>
    if val ≠ [] ∧ component0 = txID then
      match metadata.GetToken val with
      | .ok (some tok, issuer, tokenInfoRaw) => some (index, tok, issuer, tokenInfoRaw)
      | _ => none
    else none
  | none => none

/-- The records written for a token in the clear when every call succeeds: the mine
index entry and the plaintext shadow record when the owner matches a local owner wallet,
the plaintext audit record otherwise; then the issuance history when the issuer is not
none and matches a local issuer wallet. -/
def tokenRecords (env : ProcEnv) (tms : TMS) (ns txID : Bytes) (index : Int) (tok : Token)
    (issuer : Identity) (tokenInfoRaw : Bytes) : List RWOp :=
  (if tms.OwnerWalletByIdentity tok.Owner then
      match env.keys.CreateTokenMineKey txID index with
      | .ok mineTokenID =>
        [.setState ns mineTokenID [1], .storeFabToken ns txID index tok tokenInfoRaw]
      | .error _ => []
    else [.storeAuditToken ns txID index tok tokenInfoRaw]) ++
  (if !IsNone issuer && tms.IssuerWalletByIdentity issuer then
      [.storeIssuedHistoryToken ns txID index tok tokenInfoRaw issuer]
    else [])

/-- The calls made for a write after it was read, when every call succeeds: a deletion
marker for a genuine output key with an empty value, the records of the token for an
output write that opens to a token, nothing otherwise. -/
def recordsOf (env : ProcEnv) (tms : TMS) (metadata : Metadata) (ns txID key val : Bytes) :
    List RWOp :=
  match outputKey env key with
  | some (component0, index) =>
    if val = [] then [.deleteFabToken ns component0 index]
    else
      match opensTo env metadata txID key val with
      | some (index, tok, issuer, tokenInfoRaw) =>
        tokenRecords env tms ns txID index tok issuer tokenInfoRaw
      | none => []
  | none => []

/-- The call is a successful read of a write. -/
def RWOp.isRead : RWOp → Bool
  | .getWriteAt _ _ _ _ => true
  | _ => false

/-- The calls made for the write a read returned, when every call succeeds. -/
def recordsOfRead (env : ProcEnv) (tms : TMS) (metadata : Metadata) (ns txID : Bytes) :
    RWOp → List RWOp
  | .getWriteAt _ _ key val => recordsOf env tms metadata ns txID key val
  | _ => []

/-- The call writes a mine index entry (`SetState`) or a plaintext shadow record
(`storeFabToken`). -/
def RWOp.isOwnedRecord : RWOp → Bool
  | .setState _ _ _ => true
  | .storeFabToken _ _ _ _ _ => true
  | _ => false

/-- The call writes a record: a mine index entry, a plaintext shadow record, a plaintext
audit record or an issuance history record. -/
def RWOp.isRecord : RWOp → Bool
  | .setState _ _ _ => true
  | .storeFabToken _ _ _ _ _ => true
  | .storeAuditToken _ _ _ _ _ => true
  | .storeIssuedHistoryToken _ _ _ _ _ _ => true
  | _ => false

/-- The mine index entry and the plaintext shadow record of a write: both for an output
write that opens to a token whose owner matches a local owner wallet, none otherwise. -/
def ownedRecords (env : ProcEnv) (tms : TMS) (metadata : Metadata) (ns txID key val : Bytes) :
    List RWOp :=
  match opensTo env metadata txID key val with
  | some (index, tok, _, tokenInfoRaw) =>
    if tms.OwnerWalletByIdentity tok.Owner then
      match env.keys.CreateTokenMineKey txID index with
      | .ok mineTokenID =>
        [.setState ns mineTokenID [1], .storeFabToken ns txID index tok tokenInfoRaw]
      | .error _ => []
    else []
  | none => []

/-- The mine index entry and the plaintext shadow record of the write a read returned. -/
def ownedRecordsOfRead (env : ProcEnv) (tms : TMS) (metadata : Metadata) (ns txID : Bytes) :
    RWOp → List RWOp
  | .getWriteAt _ _ key val => ownedRecords env tms metadata ns txID key val
  | _ => []

/-- The transaction is known to the node and its opening metadata is available: the
channel is found, the metadata service knows the transaction, its transient map has a
`zkat` entry and that entry decodes to `metadata`. -/
def KnownWithMetadata (env : ProcEnv) (tx : ProcessTransaction) (ns : Bytes)
    (metadata : Metadata) : Prop :=
  ∃ ch transientMap raw, env.Channel tx.Channel = .ok ch ∧ ch.Exists tx.ID = true ∧
    ch.LoadTransient tx.ID = .ok transientMap ∧ transientMap (str "zkat") = some raw ∧
    (env.GetManagementService tx.Network tx.Channel ns).NewMetadataFromBytes raw = .ok metadata

/-- The deletion markers of the spent token ids of the metadata. -/
def spentMarkers (ns : Bytes) (metadata : Metadata) : List RWOp :=
  metadata.SpentTokenID.map (fun id => .deleteFabToken ns id.TxId (intOfIndex id.Index))

/-! ## Specification predicates for distribution and for the records of a token -/

/-- The example network when the chaincode returns no envelope. -/
def exEnvNoEnvelope : Env := { exEnvOK with Endorse := fun _ _ => .ok none }

/-- The example state of `Call`, with every collaborator cooperating, after the issue
phase. -/
def exOKIssues : State :=
  (requestSignaturesOnIssues exEnvOK ((exState.log .storeTransient).log (.enter .issues))).2

/-- The example state of `Call`, with every collaborator cooperating, after the transfer
phase. -/
def exOKTransfers : State :=
  (requestSignaturesOnTransfers exEnvOK (exOKIssues.log (.enter .transfers))).2

/-- The example state of `Call`, with every collaborator cooperating, after the audit. -/
def exOKAudited : State := (exOKTransfers.log (.enter .audit)).log .runAudit

/-- An example transaction the node does not know. -/
def exUnknownTransaction : ProcessTransaction :=
  { ID := str "tx9", Network := str "net", Channel := str "ch", Function := str "invoke" }

/-- The parties interested in a transaction: for each issue its issuer followed by its
receivers, then for each transfer its senders followed by its receivers, then the
auditor when one is configured. -/
def interestedParties (tx : Transaction) : List Identity :=
  tx.Issues.flatMap (fun issue => issue.Issuer :: issue.Receivers) ++
    tx.Transfers.flatMap (fun transfer => transfer.Senders ++ transfer.Receivers) ++
    (if IsNone tx.auditor then [] else [tx.auditor])

/-- Delivery to an entry succeeds: for this node the read-write set is obtained, the
envelope is marshalled and stored; for a remote party the session opens, the transaction
is sent and a reply with status OK arrives within 240 seconds. -/
def Delivers (env : Env) (envelope : Envelope) (txRaw txID : Bytes)
    (entry : distributionListEntry) : Prop :=
  if entry.IsMe then
    env.GetRWSet txID envelope.Results = none ∧
      ∃ rawEnv, envelope.Bytes = .ok rawEnv ∧ env.StoreEnvelope envelope.TxID rawEnv = none
  else
    ∃ session payload, env.GetSession entry.ID = .ok session ∧ session.Send txRaw = none ∧
      session.Reply txRaw 240 = some { Status := .OK, Payload := payload }

/-- Delivery to an entry fails for one of these reasons: the session cannot be opened, the
send fails, no reply arrives within 240 seconds, the reply has status ERROR, or the local
commit fails (read-write set, marshalling or storing of the envelope). -/
def DeliveryFailure (env : Env) (envelope : Envelope) (txRaw txID : Bytes)
    (entry : distributionListEntry) : Prop :=
  (entry.IsMe = false ∧ ∃ cause, env.GetSession entry.ID = .error cause) ∨
  (entry.IsMe = false ∧ ∃ session cause, env.GetSession entry.ID = .ok session ∧
    session.Send txRaw = some cause) ∨
  (entry.IsMe = false ∧ ∃ session, env.GetSession entry.ID = .ok session ∧
    session.Send txRaw = none ∧ session.Reply txRaw 240 = none) ∨
  (entry.IsMe = false ∧ ∃ session payload, env.GetSession entry.ID = .ok session ∧
    session.Send txRaw = none ∧
    session.Reply txRaw 240 = some { Status := .ERROR, Payload := payload }) ∨
  (entry.IsMe = true ∧ ∃ cause, env.GetRWSet txID envelope.Results = some cause) ∨
  (entry.IsMe = true ∧ env.GetRWSet txID envelope.Results = none ∧
    ∃ cause, envelope.Bytes = .error cause) ∨
  (entry.IsMe = true ∧ env.GetRWSet txID envelope.Results = none ∧
    ∃ rawEnv cause, envelope.Bytes = .ok rawEnv ∧
      env.StoreEnvelope envelope.TxID rawEnv = some cause)

/-- The event is part of the delivery to the entry: the local commit calls for this node,
the session calls with the party of the entry otherwise. -/
def EntryEvent (envelope : Envelope) (txRaw txID : Bytes) (entry : distributionListEntry) :
    Event → Prop
  | .getRWSet t results => entry.IsMe = true ∧ t = txID ∧ results = envelope.Results
  | .storeEnvelope t _ => entry.IsMe = true ∧ t = envelope.TxID
  | .getSession party => entry.IsMe = false ∧ party = entry.ID
  | .send party payload => entry.IsMe = false ∧ party = entry.ID ∧ payload = txRaw
  | .receive party seconds => entry.IsMe = false ∧ party = entry.ID ∧ seconds = 240
  | _ => False

/-- The example network when no session to the receiver `[4]` can be opened. -/
def exEnvNoRoute : Env :=
  { exEnvOK with
    GetSession := fun party =>
      if party = [4] then .error (.new (str "no route")) else exEnvOK.GetSession party }

/-- The example state after the envelope was delivered to this node and to `[3]`. -/
def exDelivered : State :=
  (distributeLoop exEnvNoRoute exEnvelope (str "tx1")
    [{ IsMe := true, LongTerm := [0], ID := [1] }, { IsMe := false, LongTerm := [3], ID := [3] }]
    (exState.log .verifyTx)).2

/-- The owner-based records of a token in the clear: the mine index entry and the
plaintext shadow record when the owner matches a local owner wallet, the plaintext audit
record otherwise. -/
def ownerRecords (env : ProcEnv) (tms : TMS) (ns txID : Bytes) (index : Int) (tok : Token)
    (tokenInfoRaw : Bytes) : List RWOp :=
  if tms.OwnerWalletByIdentity tok.Owner then
    match env.keys.CreateTokenMineKey txID index with
    | .ok mineTokenID =>
      [.setState ns mineTokenID [1], .storeFabToken ns txID index tok tokenInfoRaw]
    | .error _ => []
  else [.storeAuditToken ns txID index tok tokenInfoRaw]

/-- The recorded issuer is not none and matches a local issuer wallet. -/
def issuedByMe (tms : TMS) (issuer : Identity) : Bool :=
  !IsNone issuer && tms.IssuerWalletByIdentity issuer

/-- The call is an issuance history record. -/
def RWOp.isIssuedHistory : RWOp → Bool
  | .storeIssuedHistoryToken _ _ _ _ _ _ => true
  | _ => false

/-! ## Specification functions for the auditor check -/

/-- The loader calls made for a list of transfers, one per transfer, in order. -/
def loadEvents {Tok : Type} (transfers : List TransferMetadata) : List (AuditEvent Tok) :=
  transfers.map (fun transfer => .getTokenCommitments transfer.TokenIDs)

/-- The answers of the commitment loader for the token ids of each transfer, in transfer
order, after the calls `trace`. -/
def commitmentsLoaded {TokReq Tok : Type} (env : AuditEnv TokReq Tok) :
    List TransferMetadata → List (AuditEvent Tok) → List (Except Error (List Tok))
  | [], _ => []
  | transfer :: rest, trace =>
    env.GetTokenCommitments trace transfer.TokenIDs ::
      commitmentsLoaded env rest (trace ++ [.getTokenCommitments transfer.TokenIDs])

/-- The call is the audit check. -/
def AuditEvent.isCheck {Tok : Type} : AuditEvent Tok → Bool
  | .check _ _ => true
  | _ => false

/-- An example loader and auditor: the commitment of a token is its index, tokens of the
transaction `lost` cannot be loaded, and the check accepts a request (a number) equal to
the sum of the input commitments. -/
def exAuditEnv : AuditEnv Nat Nat :=
  { GetTokenCommitments := fun _ ids =>
      if ids.any (fun id => id.TxId = str "lost") then .error (.new (str "token not found"))
      else .ok (ids.map (fun id => id.Index))
    Check := fun tokenRequest _ inputTokens _ =>
      if tokenRequest = inputTokens.flatten.sum then none
      else some (.new (str "inputs do not match")) }

/-- Example metadata with two transfers whose inputs can be loaded. -/
def exAuditMetadata : TokenRequestMetadata :=
  { Transfers := [{ TokenIDs := [{ TxId := str "tx0", Index := 1 }, { TxId := str "tx0", Index := 2 }] },
      { TokenIDs := [{ TxId := str "tx0", Index := 4 }] }] }

/-- Example metadata whose second transfer spends a token that cannot be loaded. -/
def exAuditMetadataLost : TokenRequestMetadata :=
  { Transfers := [{ TokenIDs := [{ TxId := str "tx0", Index := 1 }] },
      { TokenIDs := [{ TxId := str "lost", Index := 0 }] },
      { TokenIDs := [{ TxId := str "tx0", Index := 4 }] }] }

/-! ## Specification functions and examples for the responder -/

/-- The senders of a transfer that match a local owner wallet of the responder. -/
def localSenders (env : ResponderEnv) (transfer : Transfer) : List Identity :=
  transfer.Senders.filter (fun sender => (env.OwnerWalletByIdentity sender).isSome)

/-- The transfers in which this node is a recorded sender: those with at least one sender
that matches a local owner wallet. -/
def transfersSentByMe (env : ResponderEnv) (tx : Transaction) : List Transfer :=
  tx.Transfers.filter (fun transfer =>
    transfer.Senders.any (fun sender => (env.OwnerWalletByIdentity sender).isSome))

/-- The event is a wait for a signature request. -/
def REvent.isRequestWait : REvent → Bool
  | .receive seconds => seconds = 60
  | _ => false

/-- The number of signature requests the responder waited for. -/
def requestsAwaited (trace : List REvent) : Nat :=
  (trace.filter REvent.isRequestWait).length

/-- The event signs or sends something. -/
def REvent.isSignOrSend : REvent → Bool
  | .sign _ _ => true
  | .send _ => true
  | _ => false

/-- The event belongs to the reception and commit of the final transaction. -/
def REvent.isCommit : REvent → Bool
  | .receiveTransaction => true
  | .storeTransient _ => true
  | .getRWSet _ _ => true
  | .storeEnvelope _ _ => true
  | _ => false

/-- The event sends something. -/
def REvent.isSend : REvent → Bool
  | .send _ => true
  | _ => false

/-- An example responder holding the owners `[3]` and `[6]`.  The messages it receives
are given; the first byte of a signature request names the signer, the other bytes are
the request.  The transaction it receives carries the envelope given. -/
def exResponderWith (msgs : List Message) (envelope : Option Envelope)
    (getRWSet : Option Error) : ResponderEnv :=
  { OwnerWalletByIdentity := fun party =>
      if party = [3] ∨ party = [6] then some exWallet else none
    Caller := [0]
    Receive := fun trace _ =>
      msgs[(trace.filter (fun ev => ev.isRequestWait || ev = .receiveTransaction)).length]?
    Unmarshal := fun raw =>
      match raw with
      | [] => .error (.new (str "unexpected end of JSON input"))
      | b :: rest => .ok { Request := rest, TxID := [], Signer := [b] }
    IsMe := fun party => party = [3] ∨ party = [6]
    UniqueID := fun party => party
    GetSigner := fun party => .ok (exSigner party.headI)
    Send := fun _ _ => none
    NewTransactionFromBytes := fun raw => .ok { exTx with ID := raw, Envelope := envelope }
    ReceiveTransaction := fun trace =>
      match msgs[(trace.filter (fun ev => ev.isRequestWait || ev = .receiveTransaction)).length]? with
      | some msg =>
        if msg.Status = .ERROR then .error (.new msg.Payload)
        else .ok { exTx with ID := msg.Payload, Envelope := envelope }
      | none => .error (.new (str "timeout reached"))
    storeTransient := fun _ => none
    GetRWSet := fun _ _ => getRWSet
    StoreEnvelope := fun _ _ => none }

/-- The example responder when two valid signature requests and the transaction arrive. -/
def exResponder : ResponderEnv :=
  exResponderWith
    [{ Status := .OK, Payload := [3, 1] }, { Status := .OK, Payload := [6, 1] },
      { Status := .OK, Payload := str "tx1" }]
    (some exEnvelope) none

/-- The example responder when the second signature request names the signer `[7]`. -/
def exResponderNotMe : ResponderEnv :=
  exResponderWith
    [{ Status := .OK, Payload := [3, 1] }, { Status := .OK, Payload := [7, 1] },
      { Status := .OK, Payload := str "tx1" }]
    (some exEnvelope) none

/-- The example responder when the transaction received carries no envelope. -/
def exResponderNoEnvelope : ResponderEnv :=
  exResponderWith
    [{ Status := .OK, Payload := [3, 1] }, { Status := .OK, Payload := [6, 1] },
      { Status := .OK, Payload := str "tx1" }]
    none none

/-- The transaction of the example responder: one transfer with the senders `[3]` and
`[6]`, both held by the responder. -/
def exResponderTx : Transaction :=
  { exTx with Transfers := [{ Senders := [[3], [6]], Receivers := [[4]] }] }

/-- The commit of the received transaction fails: it carries no envelope, or storing the
transient data, obtaining the read-write set, marshalling the envelope or storing the
envelope fails. -/
def CommitFailure (env : ResponderEnv) (tx : Transaction) : Prop :=
  tx.Envelope = none ∨
  (∃ e, env.storeTransient tx = some e) ∨
  ∃ envelope, tx.Envelope = some envelope ∧
    ((∃ e, env.GetRWSet tx.ID envelope.Results = some e) ∨
      (∃ e, envelope.Bytes = .error e) ∨
      ∃ rawEnv e, envelope.Bytes = .ok rawEnv ∧
        env.StoreEnvelope envelope.TxID rawEnv = some e)

/-- The commit of the received transaction succeeds: it carries an envelope, the
transient data is stored, the read-write set is obtained and the envelope is stored. -/
def Committed (env : ResponderEnv) (tx : Transaction) (envelope : Envelope)
    (rawEnv : Bytes) : Prop :=
  tx.Envelope = some envelope ∧ env.storeTransient tx = none ∧
    env.GetRWSet tx.ID envelope.Results = none ∧ envelope.Bytes = .ok rawEnv ∧
    env.StoreEnvelope envelope.TxID rawEnv = none

/-- The example responder when the read-write set of the envelope cannot be obtained. -/
def exResponderBadRWSet : ResponderEnv :=
  exResponderWith
    [{ Status := .OK, Payload := [3, 1] }, { Status := .OK, Payload := [6, 1] },
      { Status := .OK, Payload := str "tx1" }]
    (some exEnvelope) (some (.new (str "rwset does not match")))

/-! ## Specification functions for the write scan and for `Process` -/

/-- Go `NewTokenRWSetProcessor`: the list of namespaces of the processor it builds, which
holds the namespace given and nothing else. -/
def NewTokenRWSetProcessor (ns : Bytes) : List Bytes := [ns]

/-- The key is skipped by the write scan: it splits into a prefix other than the token
prefix, or its first component is one of the sub-index markers (mine index, request
index, serial-number index). -/
def SkippedKey (env : ProcEnv) (key : Bytes) : Prop :=
  ∃ pfx components, env.keys.SplitCompositeKey key = .ok (pfx, components) ∧
    (pfx ≠ env.keys.TokenKeyPrefix ∨
      ∃ component0 others, components = component0 :: others ∧
        (component0 = env.keys.TokenMineKeyPrefix ∨
          component0 = env.keys.TokenRequestKeyPrefix ∨
          component0 = env.keys.SerialNumber))

/-- The history after `k` iterations of the write scan from position `i`, when each of
them went on to the next write; `none` when one of them ended the scan or the writes ran
out. -/
def scanUpTo (env : ProcEnv) (tms : TMS) (metadata : Metadata) (ns txID : Bytes) :
    Nat → Nat → List RWOp → Option (List RWOp)
  | 0, _, log => some log
  | k + 1, i, log =>
    if i < env.NumWrites log ns then
      match scanWrite env tms metadata ns txID i log with
      | (log, none) => scanUpTo env tms metadata ns txID k (i + 1) log
      | (_, some _) => none
    else none

/-- The index of the write a read returned, `none` for a call that is not a read. -/
def RWOp.readIndex : RWOp → Option Nat
  | .getWriteAt _ i _ _ => some i
  | _ => none

/-- The writes of an example transaction whose second write is an output of another
transaction with a value. -/
def exForeignWrites : List (Bytes × Bytes) :=
  [(exCompositeKey [str "ztoken", str "tx1", str "0"], [10]),
   (exCompositeKey [str "ztoken", str "tx0", str "7"], [15]),
   (exCompositeKey [str "ztoken", str "tx1", str "1"], [11])]

/-- The example node on the read-write set of `exForeignWrites`. -/
def exProcEnvForeign : ProcEnv :=
  { exProcEnv false with
    NumWrites := fun log _ => (exForeignWrites ++ log.filterMap exWriteOf).length
    GetWriteAt := fun log _ i =>
      match (exForeignWrites ++ log.filterMap exWriteOf)[i]? with
      | some write => .ok write
      | none => .error (.new (str "no such write")) }

/-- The example request that publishes the public parameters. -/
def exSetupRequest : Request := { ID := str "req1" }

/-- The example setup transaction. -/
def exSetupTransaction : ProcessTransaction :=
  { ID := str "tx5", Network := str "net", Channel := str "ch", Function := str "setup" }

/-- The history of the example scan of `exForeignWrites` after its first iteration. -/
def exForeignLog : List RWOp :=
  [.getWriteAt (str "zkat") 0 (exOutputKey "0") [10],
    .setState (str "zkat") (exCompositeKey [str "ztoken", str "mine", str "tx1", str "0"]) [1],
    .storeFabToken (str "zkat") (str "tx1") 0 exTokenMine [20],
    .storeIssuedHistoryToken (str "zkat") (str "tx1") 0 exTokenMine [20] [1]]

/-- The history of the reconciliation of the example transaction on the example node
without graph hiding: the five writes of the transaction are read, then the five writes
that the records added. -/
def exScanLog : List RWOp :=
  [.getWriteAt (str "zkat") 0 (exOutputKey "0") [10],
    .setState (str "zkat") (exCompositeKey [str "ztoken", str "mine", str "tx1", str "0"]) [1],
    .storeFabToken (str "zkat") (str "tx1") 0 exTokenMine [20],
    .storeIssuedHistoryToken (str "zkat") (str "tx1") 0 exTokenMine [20] [1],
    .getWriteAt (str "zkat") 1 (exOutputKey "1") [11],
    .storeAuditToken (str "zkat") (str "tx1") 1 exTokenOther [21],
    .getWriteAt (str "zkat") 2 (exOutputKey "2") [13],
    .getWriteAt (str "zkat") 3 (exCompositeKey [str "ztoken", str "tx0", str "0"]) [],
    .deleteFabToken (str "zkat") (str "tx0") 0,
    .getWriteAt (str "zkat") 4
      (exCompositeKey [str "ztoken", str "token_request", str "tx1"]) [14],
    .getWriteAt (str "zkat") 5
      (exCompositeKey [str "ztoken", str "mine", str "tx1", str "0"]) [1],
    .getWriteAt (str "zkat") 6 (exCompositeKey [str "token", str "tx1", str "0"]) [20],
    .getWriteAt (str "zkat") 7 (exCompositeKey [str "issued", str "tx1", str "0"]) [20],
    .getWriteAt (str "zkat") 8 (exCompositeKey [str "audittoken", str "tx1", str "1"]) [21],
    .getWriteAt (str "zkat") 9 (exCompositeKey [str "token", str "tx0", str "0"]) []]

/-! ## Specification functions and examples for the recipient identity views -/

/-- The payloads a view sent, in order. -/
def sentBy (trace : List XEvent) : List Bytes :=
  trace.filterMap (fun ev => match ev with | .send payload => some payload | _ => none)

/-- The payloads a view read, in order. -/
def readBy (trace : List XEvent) : List Bytes :=
  trace.filterMap (fun ev => match ev with | .read payload => some payload | _ => none)

/-- The default wallet of a channel: the wallet found under the empty wallet id, which is
the id a responder with no wallet configured looks up when the request names none. -/
def defaultWallet (env : RecipientEnv) (channel : Bytes) : Option OwnerWallet :=
  env.GetWalletForChannel channel []

/-- An example encoding of `RecipientData`: the lengths of the identity and of the audit
information, then the three fields. -/
def exEncodeData (r : RecipientData) : Bytes :=
  r.Identity.length :: r.AuditInfo.length :: (r.Identity ++ (r.AuditInfo ++ r.Metadata))

/-- The decoding of `exEncodeData`. -/
def exDecodeData : Bytes → Except Error RecipientData
  | n :: m :: rest =>
    .ok { Identity := rest.take n, AuditInfo := (rest.drop n).take m,
          Metadata := (rest.drop n).drop m }
  | _ => .error (.new (str "unexpected end of JSON input"))

/-- An example encoding of `RecipientRequest`: the length of the channel, then the two
fields. -/
def exEncodeRequest (r : RecipientRequest) : Bytes :=
  r.Channel.length :: (r.Channel ++ r.WalletID)

/-- The decoding of `exEncodeRequest`. -/
def exDecodeRequest : Bytes → Except Error RecipientRequest
  | n :: rest => .ok { Channel := rest.take n, WalletID := rest.drop n }
  | _ => .error (.new (str "unexpected end of JSON input"))

/-- An example encoding of `ExchangeRecipientRequest`: the lengths of the channel and of
the wallet id, the two fields, then the encoded recipient data when it is not nil. -/
def exEncodeExchange (r : ExchangeRecipientRequest) : Bytes :=
  r.Channel.length :: r.WalletID.length ::
    (r.Channel ++ (r.WalletID ++
      (match r.RecipientData with
        | none => []
        | some data => exEncodeData data)))

/-- The decoding of `exEncodeExchange`. -/
def exDecodeExchange : Bytes → Except Error ExchangeRecipientRequest
  | n :: m :: rest =>
    match (rest.drop n).drop m with
    | [] => .ok { Channel := rest.take n, WalletID := (rest.drop n).take m,
                  RecipientData := none }
    | b :: tail =>
      match exDecodeData (b :: tail) with
      | .ok data => .ok { Channel := rest.take n, WalletID := (rest.drop n).take m,
                          RecipientData := some data }
      | .error e => .error e
  | _ => .error (.new (str "unexpected end of JSON input"))

/-- An example owner wallet with a fixed recipient identity. -/
def exOwnerWallet (id : Bytes) (identity : Identity) : OwnerWallet :=
  { ID := id
    GetRecipientIdentity := .ok identity
    GetAuditInfo := fun party => .ok (1 :: party)
    GetTokenMetadata := fun party => .ok (2 :: party) }

/-- An example node: its long-term identity, its wallets by id, the first message of the
session it responds to and the reply it reads on the session it opened. -/
def exNode (me : Identity) (wallets : Bytes → Option OwnerWallet)
    (first reply : Except Error Bytes) : RecipientEnv :=
  { WalletManager := fun _ =>
      { OwnerWalletByIdentity := fun _ => none
        RegisterRecipientIdentity := fun _ _ _ => none
        OwnerWallet := wallets }
    ChannelName := fun _ _ => str "ch"
    GetWalletForChannel := fun _ wallet => wallets wallet
    Me := me
    Caller := [0]
    GetSession := fun _ => none
    Send := fun _ _ => none
    Receive := fun _ _ =>
      match reply with
      | .ok payload => some { Status := .OK, Payload := payload }
      | .error _ => none
    ReadMessageWithTimeout := fun _ _ => reply
    ReadFirstMessage := first
    Bind := fun _ _ => none
    MarshalRecipientData := fun r => .ok (exEncodeData r)
    UnmarshalRecipientData := exDecodeData
    MarshalRecipientRequest := fun r => .ok (exEncodeRequest r)
    UnmarshalRecipientRequest := exDecodeRequest
    MarshalExchangeRecipientRequest := fun r => .ok (exEncodeExchange r)
    UnmarshalExchangeRecipientRequest := exDecodeExchange }

/-- The wallets of the example recipient node `[3]`: the default wallet gives the identity
`[20]`, the wallet named `[3]` gives `[21]`. -/
def exRecipientWallets (wallet : Bytes) : Option OwnerWallet :=
  if wallet = [] then some (exOwnerWallet [] [20])
  else if wallet = [3] then some (exOwnerWallet [3] [21])
  else none

/-- The wallets of the example sender node `[0]`: the default wallet gives `[10]`. -/
def exSenderWallets (wallet : Bytes) : Option OwnerWallet :=
  if wallet = [] then some (exOwnerWallet [] [10]) else none

/-- The recipient data the example recipient sends from its wallet `[3]`. -/
def exRecipientReply : Bytes :=
  exEncodeData { Identity := [21], AuditInfo := [1, 21], Metadata := [2, 21] }

/-- The exchange request the example sender sends to `[3]`. -/
def exExchangeRequest : Bytes :=
  exEncodeExchange
    { Channel := str "ch", WalletID := [3]
      RecipientData := some { Identity := [10], AuditInfo := [1, 10], Metadata := [2, 10] } }

/-- The example sender node, reading the reply of the example recipient. -/
def exSenderNode : RecipientEnv :=
  exNode [0] exSenderWallets (.error (.new (str "no session"))) (.ok exRecipientReply)

/-- The example recipient node when it is sent the exchange request of the sender. -/
def exRecipientNode : RecipientEnv :=
  exNode [3] exRecipientWallets (.ok exExchangeRequest) (.error (.new (str "no reply")))

/-- The example recipient node when it is sent the recipient request of the sender. -/
def exRecipientNodeAsked : RecipientEnv :=
  exNode [3] exRecipientWallets (.ok (exEncodeRequest { Channel := [], WalletID := [3] }))
    (.error (.new (str "no reply")))

/-! ## Action signing: all or nothing -/

theorem Error.carries_self (e : Error) : e.carries e := by
  cases e <;> simp [Error.carries]

theorem signEach_ok_iff (msg : Bytes) (signers : List Signer) (sigmas : List Bytes) :
    signEach msg signers = .ok sigmas ↔
      List.Forall₂ (fun s sigma => s msg = .ok sigma) signers sigmas := by
  induction signers generalizing sigmas with
  | nil =>
    cases sigmas <;> simp [signEach]
  | cons s rest ih =>
    cases hs : s msg with
    | error e =>
      constructor
      · intro h
        simp [signEach, hs] at h
      · intro h
        cases h with
        | cons h1 _ => rw [hs] at h1; cases h1
    | ok sigma =>
      cases hr : signEach msg rest with
      | error e =>
        constructor
        · intro h
          simp [signEach, hs, hr] at h
        · intro h
          cases h with
          | cons h1 h2 =>
            have := (ih _).mpr h2
            rw [hr] at this
            cases this
      | ok rs =>
        constructor
        · intro h
          simp [signEach, hs, hr] at h
          subst h
          exact List.Forall₂.cons hs ((ih rs).mp hr)
        · intro h
          cases h with
          | cons h1 h2 =>
            rw [hs] at h1
            have h3 := (ih _).mpr h2
            rw [hr] at h3
            cases h1
            cases h3
            simp [signEach, hs, hr]

theorem forall₂_signed {msg : Bytes} {signers : List Signer} {sigmas : List Bytes}
    (h : List.Forall₂ (fun s sigma => s msg = .ok sigma) signers sigmas) :
    ∀ s ∈ signers, ∃ sigma, s msg = .ok sigma := by
  induction h with
  | nil => simp
  | cons h1 _ ih =>
    intro s hs
    rcases List.mem_cons.mp hs with rfl | hs
    · exact ⟨_, h1⟩
    · exact ih s hs

theorem signEach_first_failure (msg : Bytes) (pre : List Signer) (s : Signer)
    (post : List Signer) (cause : Error)
    (hpre : ∀ p ∈ pre, ∃ sigma, p msg = .ok sigma) (hs : s msg = .error cause) :
    signEach msg (pre ++ s :: post) = .error cause := by
  induction pre with
  | nil => simp [signEach, hs]
  | cons p pre ih =>
    obtain ⟨sigma, hp⟩ := hpre p (List.mem_cons_self _ _)
    have := ih (fun q hq => hpre q (List.mem_cons_of_mem _ hq))
    simp [signEach, hp, this]

theorem signEach_error_split (msg : Bytes) (signers : List Signer) (e : Error)
    (h : signEach msg signers = .error e) :
    ∃ pre s post, signers = pre ++ s :: post ∧
      (∀ p ∈ pre, ∃ sigma, p msg = .ok sigma) ∧ s msg = .error e := by
  induction signers with
  | nil => simp [signEach] at h
  | cons s rest ih =>
    cases hs : s msg with
    | error e1 =>
      simp [signEach, hs] at h
      subst h
      exact ⟨[], s, rest, rfl, by simp, hs⟩
    | ok sigma =>
      cases hr : signEach msg rest with
      | ok rs => simp [signEach, hs, hr] at h
      | error e1 =>
        simp [signEach, hs, hr] at h
        subst h
        obtain ⟨pre, t, post, h1, h2, h3⟩ := ih hr
        refine ⟨s :: pre, t, post, by simp [h1], ?_, h3⟩
        intro p hp
        rcases List.mem_cons.mp hp with rfl | hp
        · exact ⟨sigma, hs⟩
        · exact h2 p hp

/-- C1: for every list of signers, serialized action and txID, `SignTokenActions` returns
either one signature per signer, in signer order, with a nil error, or a nil signature
list with an error that carries the error of the signer whose `Sign` call failed (every
signer before it having signed); it never returns a partial list.  Whenever a signer
fails after all the signers before it succeeded, the result is that second case with
that signer's error. -/
theorem SignTokenActions_all_or_nothing (signers : List Signer) (raw txID : Bytes) :
    ((∃ sigmas, SignTokenActions signers raw txID = (some sigmas, none) ∧
        sigmas.length = signers.length ∧
        List.Forall₂ (fun s sigma => s (raw ++ txID) = .ok sigma) signers sigmas) ∨
      (∃ e pre s post cause, SignTokenActions signers raw txID = (none, some e) ∧
        signers = pre ++ s :: post ∧ s (raw ++ txID) = .error cause ∧ e.carries cause)) ∧
    (∀ pre s post cause, signers = pre ++ s :: post →
      (∀ p ∈ pre, ∃ sigma, p (raw ++ txID) = .ok sigma) →
      s (raw ++ txID) = .error cause →
      ∃ e, SignTokenActions signers raw txID = (none, some e) ∧ e.carries cause) ∧
    ((∃ s ∈ signers, ∃ cause, s (raw ++ txID) = .error cause) →
      ∃ e, SignTokenActions signers raw txID = (none, some e)) := by
  refine ⟨?_, ?_, ?_⟩
  · cases h : signEach (raw ++ txID) signers with
    | ok sigmas =>
      left
      have hf := (signEach_ok_iff _ _ _).mp h
      exact ⟨sigmas, by simp [SignTokenActions, h], hf.length_eq.symm, hf⟩
    | error e =>
      right
      obtain ⟨pre, s, post, h1, _, h3⟩ := signEach_error_split _ _ _ h
      refine ⟨.wrap e "SigningError" [], pre, s, post, e, by simp [SignTokenActions, h],
        h1, h3, ?_⟩
      simp [Error.carries, Error.carries_self]
  · intro pre s post cause hsplit hpre hs
    subst hsplit
    have h := signEach_first_failure (raw ++ txID) pre s post cause hpre hs
    refine ⟨.wrap cause "SigningError" [], by simp [SignTokenActions, h], ?_⟩
    simp [Error.carries, Error.carries_self]
  · rintro ⟨s, hmem, cause, hs⟩
    cases h : signEach (raw ++ txID) signers with
    | ok sigmas =>
      exfalso
      have hf := (signEach_ok_iff _ _ _).mp h
      obtain ⟨sigma, hsig⟩ := forall₂_signed hf s hmem
      rw [hs] at hsig
      cases hsig
    | error e => exact ⟨.wrap e "SigningError" [], by simp [SignTokenActions, h]⟩

theorem SignTokenActions_all_or_nothing_witness :
    ∃ e, SignTokenActions [exSigner 0, exSigner 1, exFailingSigner] [7] (str "0") =
        (none, some e) ∧ e.carries (.new (str "banana republic")) :=
  (SignTokenActions_all_or_nothing [exSigner 0, exSigner 1, exFailingSigner] [7]
      (str "0")).2.1
    [exSigner 0, exSigner 1] exFailingSigner [] (.new (str "banana republic")) rfl
    (by
      intro p hp
      simp only [List.mem_cons, List.mem_singleton, List.not_mem_nil, or_false] at hp
      rcases hp with rfl | rfl
      · exact ⟨_, rfl⟩
      · exact ⟨_, rfl⟩)
    rfl

/-! ## Signature collection: one signature per required signer -/

theorem requestRemoteSignature_ok {env : Env} {sr : signatureRequest} {party : Identity}
    {st st1 : State} (h : requestRemoteSignature env sr party st = (none, st1)) :
    ∃ sigma raw, RemoteSignature env sr party sigma ∧ env.Marshal sr = .ok raw ∧
      st1.tx = st.tx.AppendSignature sigma ∧
      st1.trace = st.trace ++ [.getSession party, .send party raw, .receive party 60,
        .verify party sr.MessageToSign sigma] := by
  unfold requestRemoteSignature at h
  cases hS : env.GetSession party with
  | error e => simp [hS] at h
  | ok session =>
    cases hM : env.Marshal sr with
    | error e => simp [hS, hM] at h
    | ok raw =>
      cases hSend : session.Send raw with
      | some e => simp [hS, hM, hSend] at h
      | none =>
        cases hR : session.Reply raw 60 with
        | none => simp [hS, hM, hSend, hR] at h
        | some msg =>
          obtain ⟨status, payload⟩ := msg
          cases status with
          | ERROR => simp [hS, hM, hSend, hR] at h
          | OK =>
            cases hV : env.GetVerifier party with
            | error e => simp [hS, hM, hSend, hR, hV] at h
            | ok verifier =>
              cases hv : verifier sr.MessageToSign payload with
              | some e => simp [hS, hM, hSend, hR, hV, hv] at h
              | none =>
                simp [hS, hM, hSend, hR, hV, hv] at h
                subst h
                refine ⟨payload, raw, ⟨session, raw, verifier, hS, hM, hSend, hR, hV, hv⟩,
                  rfl, ?_, ?_⟩
                · simp [State.AppendSignature, State.log]
                · simp [State.AppendSignature, State.log]

theorem requestRemoteSignature_err {env : Env} {sr : signatureRequest} {party : Identity}
    {st st1 : State} {e : Error} (h : requestRemoteSignature env sr party st = (some e, st1)) :
    st1.tx = st.tx := by
  unfold requestRemoteSignature at h
  cases hS : env.GetSession party with
  | error e => simp [hS] at h; rw [← h.2]; rfl
  | ok session =>
    cases hM : env.Marshal sr with
    | error e => simp [hS, hM] at h; rw [← h.2]; rfl
    | ok raw =>
      cases hSend : session.Send raw with
      | some e => simp [hS, hM, hSend] at h; rw [← h.2]; rfl
      | none =>
        cases hR : session.Reply raw 60 with
        | none => simp [hS, hM, hSend, hR] at h; rw [← h.2]; rfl
        | some msg =>
          obtain ⟨status, payload⟩ := msg
          cases status with
          | ERROR => simp [hS, hM, hSend, hR] at h; rw [← h.2]; rfl
          | OK =>
            cases hV : env.GetVerifier party with
            | error e => simp [hS, hM, hSend, hR, hV] at h; rw [← h.2]; rfl
            | ok verifier =>
              cases hv : verifier sr.MessageToSign payload with
              | some e => simp [hS, hM, hSend, hR, hV, hv] at h; rw [← h.2]; rfl
              | none => simp [hS, hM, hSend, hR, hV, hv] at h

theorem Transaction.AppendSignatures_nil (tx : Transaction) : tx.AppendSignatures [] = tx := by
  simp [Transaction.AppendSignatures]

theorem Transaction.AppendSignatures_cons (tx : Transaction) (sigma : Bytes)
    (sigmas : List Bytes) :
    (tx.AppendSignature sigma).AppendSignatures sigmas = tx.AppendSignatures (sigma :: sigmas) := by
  simp [Transaction.AppendSignatures, Transaction.AppendSignature]

theorem Transaction.AppendSignatures_append (tx : Transaction) (a b : List Bytes) :
    (tx.AppendSignatures a).AppendSignatures b = tx.AppendSignatures (a ++ b) := by
  simp [Transaction.AppendSignatures]

theorem signIssue_ok {env : Env} {requestRaw : Bytes} {issue : Issue} {st st1 : State}
    (h : signIssue env requestRaw issue st = (none, st1)) :
    ∃ sigma, CollectedSignature env env.IssuerWalletByIdentity requestRaw st.tx.ID
        issue.Issuer sigma ∧ st1.tx = st.tx.AppendSignature sigma := by
  unfold signIssue at h
  unfold CollectedSignature
  cases hw : env.IssuerWalletByIdentity issue.Issuer with
  | some w =>
    cases hg : w.GetSigner issue.Issuer with
    | error e => simp [hw, hg] at h
    | ok signer =>
      cases hs : signer (requestRaw ++ st.tx.ID) with
      | error e => simp [hw, hg, hs, State.log] at h
      | ok sigma =>
        simp [hw, hg, hs, State.log] at h
        subst h
        exact ⟨sigma, ⟨signer, hg, by simpa [signatureRequest.MessageToSign] using hs⟩, rfl⟩
  | none =>
    simp [hw] at h
    obtain ⟨sigma, raw, h1, _, h3, _⟩ := requestRemoteSignature_ok h
    exact ⟨sigma, h1, h3⟩

theorem signIssue_err {env : Env} {requestRaw : Bytes} {issue : Issue} {st st1 : State}
    {e : Error} (h : signIssue env requestRaw issue st = (some e, st1)) : st1.tx = st.tx := by
  unfold signIssue at h
  cases hw : env.IssuerWalletByIdentity issue.Issuer with
  | some w =>
    cases hg : w.GetSigner issue.Issuer with
    | error e => simp [hw, hg] at h; rw [← h.2]
    | ok signer =>
      cases hs : signer (requestRaw ++ st.tx.ID) with
      | error e => simp [hw, hg, hs, State.log] at h; rw [← h.2]
      | ok sigma => simp [hw, hg, hs, State.log] at h
  | none =>
    simp [hw] at h
    exact requestRemoteSignature_err h

theorem signSender_ok {env : Env} {requestRaw : Bytes} {party : Identity} {st st1 : State}
    (h : signSender env requestRaw party st = (none, st1)) :
    ∃ sigma, CollectedSignature env env.OwnerWalletByIdentity requestRaw st.tx.ID
        party sigma ∧ st1.tx = st.tx.AppendSignature sigma := by
  unfold signSender at h
  unfold CollectedSignature
  cases hw : env.OwnerWalletByIdentity party with
  | some w =>
    cases hg : w.GetSigner party with
    | error e => simp [hw, hg] at h
    | ok signer =>
      cases hs : signer (requestRaw ++ st.tx.ID) with
      | error e => simp [hw, hg, signatureRequest.MessageToSign, hs, State.log] at h
      | ok sigma =>
        simp [hw, hg, signatureRequest.MessageToSign, hs, State.log] at h
        subst h
        exact ⟨sigma, ⟨signer, hg, by simpa [signatureRequest.MessageToSign] using hs⟩, rfl⟩
  | none =>
    simp [hw] at h
    obtain ⟨sigma, raw, h1, _, h3, _⟩ := requestRemoteSignature_ok h
    exact ⟨sigma, h1, h3⟩

theorem signSender_err {env : Env} {requestRaw : Bytes} {party : Identity} {st st1 : State}
    {e : Error} (h : signSender env requestRaw party st = (some e, st1)) : st1.tx = st.tx := by
  unfold signSender at h
  cases hw : env.OwnerWalletByIdentity party with
  | some w =>
    cases hg : w.GetSigner party with
    | error e => simp [hw, hg] at h; rw [← h.2]
    | ok signer =>
      cases hs : signer (requestRaw ++ st.tx.ID) with
      | error e => simp [hw, hg, signatureRequest.MessageToSign, hs, State.log] at h; rw [← h.2]
      | ok sigma => simp [hw, hg, signatureRequest.MessageToSign, hs, State.log] at h
  | none =>
    simp [hw] at h
    exact requestRemoteSignature_err h

theorem Transaction.AppendSignature_ID (tx : Transaction) (sigma : Bytes) :
    (tx.AppendSignature sigma).ID = tx.ID := rfl

theorem Transaction.AppendSignatures_ID (tx : Transaction) (sigmas : List Bytes) :
    (tx.AppendSignatures sigmas).ID = tx.ID := rfl

theorem sendersLoop_ok {env : Env} {requestRaw : Bytes} (senders : List Identity) :
    ∀ {st st1 : State}, sendersLoop env requestRaw senders st = (none, st1) →
    ∃ sigmas, List.Forall₂
        (CollectedSignature env env.OwnerWalletByIdentity requestRaw st.tx.ID) senders sigmas ∧
      st1.tx = st.tx.AppendSignatures sigmas := by
  induction senders with
  | nil =>
    intro st st1 h
    simp [sendersLoop] at h
    subst h
    exact ⟨[], List.Forall₂.nil, (Transaction.AppendSignatures_nil _).symm⟩
  | cons party rest ih =>
    intro st st1 h
    unfold sendersLoop at h
    cases hstep : signSender env requestRaw party st with
    | mk r st2 =>
      cases r with
      | some e => simp [hstep] at h
      | none =>
        simp [hstep] at h
        obtain ⟨sigma, hc, htx⟩ := signSender_ok hstep
        obtain ⟨sigmas, hf, htx1⟩ := ih h
        rw [htx, Transaction.AppendSignature_ID] at hf
        refine ⟨sigma :: sigmas, List.Forall₂.cons hc hf, ?_⟩
        rw [htx1, htx, Transaction.AppendSignatures_cons]

theorem issuesLoop_ok {env : Env} {requestRaw : Bytes} (issues : List Issue) :
    ∀ {distributionList parties : List Identity} {st st1 : State},
    issuesLoop env requestRaw issues distributionList st = (.ok parties, st1) →
    ∃ sigmas, List.Forall₂
        (CollectedSignature env env.IssuerWalletByIdentity requestRaw st.tx.ID)
        (issues.map (fun issue => issue.Issuer)) sigmas ∧
      st1.tx = st.tx.AppendSignatures sigmas ∧
      parties = distributionList ++
        issues.flatMap (fun issue => issue.Issuer :: issue.Receivers) := by
  induction issues with
  | nil =>
    intro dl parties st st1 h
    simp [issuesLoop] at h
    obtain ⟨h1, h2⟩ := h
    subst h1 h2
    exact ⟨[], List.Forall₂.nil, (Transaction.AppendSignatures_nil _).symm, by simp⟩
  | cons issue rest ih =>
    intro dl parties st st1 h
    unfold issuesLoop at h
    cases hstep : signIssue env requestRaw issue st with
    | mk r st2 =>
      cases r with
      | some e => simp [hstep] at h
      | none =>
        simp [hstep] at h
        obtain ⟨sigma, hc, htx⟩ := signIssue_ok hstep
        obtain ⟨sigmas, hf, htx1, hp⟩ := ih h
        rw [htx, Transaction.AppendSignature_ID] at hf
        refine ⟨sigma :: sigmas, List.Forall₂.cons hc hf, ?_, ?_⟩
        · rw [htx1, htx, Transaction.AppendSignatures_cons]
        · rw [hp]; simp

theorem transfersLoop_ok {env : Env} {requestRaw : Bytes} (transfers : List Transfer) :
    ∀ {distributionList parties : List Identity} {st st1 : State},
    transfersLoop env requestRaw transfers distributionList st = (.ok parties, st1) →
    ∃ sigmas, List.Forall₂
        (CollectedSignature env env.OwnerWalletByIdentity requestRaw st.tx.ID)
        (transfers.flatMap (fun transfer => transfer.Senders)) sigmas ∧
      st1.tx = st.tx.AppendSignatures sigmas ∧
      parties = distributionList ++
        transfers.flatMap (fun transfer => transfer.Senders ++ transfer.Receivers) := by
  induction transfers with
  | nil =>
    intro dl parties st st1 h
    simp [transfersLoop] at h
    obtain ⟨h1, h2⟩ := h
    subst h1 h2
    exact ⟨[], List.Forall₂.nil, (Transaction.AppendSignatures_nil _).symm, by simp⟩
  | cons transfer rest ih =>
    intro dl parties st st1 h
    unfold transfersLoop at h
    cases hstep : sendersLoop env requestRaw transfer.Senders st with
    | mk r st2 =>
      cases r with
      | some e => simp [hstep] at h
      | none =>
        simp [hstep] at h
        obtain ⟨sigmas1, hc, htx⟩ := sendersLoop_ok _ hstep
        obtain ⟨sigmas, hf, htx1, hp⟩ := ih h
        rw [htx, Transaction.AppendSignatures_ID] at hf
        refine ⟨sigmas1 ++ sigmas, ?_, ?_, ?_⟩
        · simp only [List.flatMap_cons]
          exact List.rel_append hc hf
        · rw [htx1, htx, Transaction.AppendSignatures_append]
        · rw [hp]; simp

/-- C2: when `requestSignaturesOnIssues` and then `requestSignaturesOnTransfers` both
succeed, the signatures appended to the token request are one per required signer, in
the order of the signer list: the signature collected for the issuer of each issue, in
issue order, followed by the signature collected for every sender of each transfer, in
transfer order and in sender order within a transfer, whether the signer was local or
remote; their number is the number of issues plus the sum over the transfers of the
number of senders. -/
theorem signatures_follow_signer_list (env : Env) (st0 st1 st2 : State)
    (parties1 parties2 : List Identity)
    (h1 : requestSignaturesOnIssues env st0 = (.ok parties1, st1))
    (h2 : requestSignaturesOnTransfers env st1 = (.ok parties2, st2)) :
    ∃ rawI rawT sigmasI sigmasT,
      env.MarshallToSign st0.tx = .ok rawI ∧ env.MarshallToSign st1.tx = .ok rawT ∧
      st2.tx.Signatures = st0.tx.Signatures ++ (sigmasI ++ sigmasT) ∧
      List.Forall₂ (CollectedSignature env env.IssuerWalletByIdentity rawI st0.tx.ID)
        (st0.tx.Issues.map (fun issue => issue.Issuer)) sigmasI ∧
      List.Forall₂ (CollectedSignature env env.OwnerWalletByIdentity rawT st0.tx.ID)
        (st0.tx.Transfers.flatMap (fun transfer => transfer.Senders)) sigmasT ∧
      (sigmasI ++ sigmasT).length =
        st0.tx.Issues.length +
          (st0.tx.Transfers.map (fun transfer => transfer.Senders.length)).sum := by
  unfold requestSignaturesOnIssues at h1
  unfold requestSignaturesOnTransfers at h2
  cases hI : env.MarshallToSign st0.tx with
  | error e => simp [hI] at h1
  | ok rawI =>
    cases hT : env.MarshallToSign st1.tx with
    | error e => simp [hT] at h2
    | ok rawT =>
      simp only [hI] at h1
      simp only [hT] at h2
      obtain ⟨sigmasI, hfI, htxI, _⟩ := issuesLoop_ok _ h1
      obtain ⟨sigmasT, hfT, htxT, _⟩ := transfersLoop_ok _ h2
      have hid : st1.tx.ID = st0.tx.ID := by rw [htxI]; rfl
      have htr : st1.tx.Transfers = st0.tx.Transfers := by rw [htxI]; rfl
      rw [hid, htr] at hfT
      refine ⟨rawI, rawT, sigmasI, sigmasT, rfl, rfl, ?_, hfI, hfT, ?_⟩
      · rw [htxT, htxI]
        simp [Transaction.AppendSignatures]
      · rw [List.length_append, ← hfI.length_eq, ← hfT.length_eq]
        simp [List.length_flatMap]
        rfl

theorem signatures_follow_signer_list_witness :
    requestSignaturesOnIssues exEnvOK exState = (.ok [[1], [2]], exStateIssues) ∧
    requestSignaturesOnTransfers exEnvOK exStateIssues =
      (.ok [[2], [3], [4], []], exStateTransfers) ∧
    ∃ rawI rawT sigmasI sigmasT,
      exEnvOK.MarshallToSign exState.tx = .ok rawI ∧
      exEnvOK.MarshallToSign exStateIssues.tx = .ok rawT ∧
      exStateTransfers.tx.Signatures = exState.tx.Signatures ++ (sigmasI ++ sigmasT) ∧
      List.Forall₂
        (CollectedSignature exEnvOK exEnvOK.IssuerWalletByIdentity rawI exState.tx.ID)
        (exState.tx.Issues.map (fun issue => issue.Issuer)) sigmasI ∧
      List.Forall₂
        (CollectedSignature exEnvOK exEnvOK.OwnerWalletByIdentity rawT exState.tx.ID)
        (exState.tx.Transfers.flatMap (fun transfer => transfer.Senders)) sigmasT ∧
      (sigmasI ++ sigmasT).length =
        exState.tx.Issues.length +
          (exState.tx.Transfers.map (fun transfer => transfer.Senders.length)).sum :=
  ⟨rfl, rfl, signatures_follow_signer_list exEnvOK exState exStateIssues exStateTransfers
    [[1], [2]] [[2], [3], [4], []] rfl rfl⟩

/-! ## Signature collection: how a failing signer aborts the collection -/

theorem issuesLoop_append {env : Env} {requestRaw : Bytes} (pre rest : List Issue) :
    ∀ (distributionList : List Identity) (st : State),
    issuesLoop env requestRaw (pre ++ rest) distributionList st =
      match issuesLoop env requestRaw pre distributionList st with
      | (.ok parties, st1) => issuesLoop env requestRaw rest parties st1
      | (.error e, st1) => (.error e, st1) := by
  induction pre with
  | nil => intro dl st; simp [issuesLoop]
  | cons issue pre ih =>
    intro dl st
    simp only [List.cons_append, issuesLoop]
    cases hstep : signIssue env requestRaw issue st with
    | mk r st2 =>
      cases r with
      | some e => simp
      | none => simp [ih]

theorem sendersLoop_append {env : Env} {requestRaw : Bytes} (pre rest : List Identity) :
    ∀ (st : State),
    sendersLoop env requestRaw (pre ++ rest) st =
      match sendersLoop env requestRaw pre st with
      | (none, st1) => sendersLoop env requestRaw rest st1
      | (some e, st1) => (some e, st1) := by
  induction pre with
  | nil => intro st; simp [sendersLoop]
  | cons party pre ih =>
    intro st
    simp only [List.cons_append, sendersLoop]
    cases hstep : signSender env requestRaw party st with
    | mk r st2 =>
      cases r with
      | some e => simp
      | none => simp [ih]

theorem transfersLoop_append {env : Env} {requestRaw : Bytes} (pre rest : List Transfer) :
    ∀ (distributionList : List Identity) (st : State),
    transfersLoop env requestRaw (pre ++ rest) distributionList st =
      match transfersLoop env requestRaw pre distributionList st with
      | (.ok parties, st1) => transfersLoop env requestRaw rest parties st1
      | (.error e, st1) => (.error e, st1) := by
  induction pre with
  | nil => intro dl st; simp [transfersLoop]
  | cons transfer pre ih =>
    intro dl st
    simp only [List.cons_append, transfersLoop]
    cases hstep : sendersLoop env requestRaw transfer.Senders st with
    | mk r st2 =>
      cases r with
      | some e => simp
      | none => simp [ih]

/-- A failing issuer aborts `requestSignaturesOnIssues` with the error of its step, in the
state the step leaves. -/
theorem requestSignaturesOnIssues_abort {env : Env} {st0 st1 st2 : State} {requestRaw : Bytes}
    {pre post : List Issue} {issue : Issue} {parties : List Identity} {e : Error}
    (hraw : env.MarshallToSign st0.tx = .ok requestRaw)
    (hsplit : st0.tx.Issues = pre ++ issue :: post)
    (hpre : issuesLoop env requestRaw pre [] st0 = (.ok parties, st1))
    (hstep : signIssue env requestRaw issue st1 = (some e, st2)) :
    requestSignaturesOnIssues env st0 = (.error e, st2) := by
  unfold requestSignaturesOnIssues
  simp only [hraw, hsplit]
  rw [issuesLoop_append, hpre]
  simp [issuesLoop, hstep]

/-- A failing sender aborts `requestSignaturesOnTransfers` with the error of its step, in
the state the step leaves. -/
theorem requestSignaturesOnTransfers_abort {env : Env} {st0 st1 st2 st3 : State}
    {requestRaw : Bytes} {pre post : List Transfer} {before after receivers : List Identity}
    {party : Identity} {parties : List Identity} {e : Error}
    (hraw : env.MarshallToSign st0.tx = .ok requestRaw)
    (hsplit : st0.tx.Transfers =
      pre ++ { Senders := before ++ party :: after, Receivers := receivers } :: post)
    (hpre : transfersLoop env requestRaw pre [] st0 = (.ok parties, st1))
    (hbefore : sendersLoop env requestRaw before st1 = (none, st2))
    (hstep : signSender env requestRaw party st2 = (some e, st3)) :
    requestSignaturesOnTransfers env st0 = (.error e, st3) := by
  unfold requestSignaturesOnTransfers
  simp only [hraw, hsplit]
  rw [transfersLoop_append, hpre]
  simp only [transfersLoop]
  rw [sendersLoop_append, hbefore]
  simp [sendersLoop, hstep]

theorem requestRemoteSignature_verifier_failure {env : Env} {sr : signatureRequest}
    {party : Identity} {sigma : Bytes} {e : Error} (st : State)
    (hreply : RemoteReply env sr party sigma) (hfail : VerifierFailure env sr party sigma e) :
    ∃ st1, requestRemoteSignature env sr party st = (some e, st1) ∧ st1.tx = st.tx := by
  obtain ⟨session, raw, hS, hM, hSend, hR⟩ := hreply
  unfold requestRemoteSignature
  rcases hfail with ⟨cause, hV, he⟩ | ⟨verifier, cause, hV, hv, he⟩
  · subst he
    simp only [hS, hM, hSend, hR, hV, reduceCtorEq, if_false]
    exact ⟨_, rfl, rfl⟩
  · subst he
    simp only [hS, hM, hSend, hR, hV, hv, reduceCtorEq, if_false]
    exact ⟨_, rfl, rfl⟩

theorem requestRemoteSignature_appended {env : Env} {sr : signatureRequest}
    {party : Identity} {st st1 : State} {r : Option Error}
    (h : requestRemoteSignature env sr party st = (r, st1))
    (hne : st1.tx.Signatures ≠ st.tx.Signatures) :
    ∃ sigma verifier, RemoteReply env sr party sigma ∧ env.GetVerifier party = .ok verifier ∧
      verifier sr.MessageToSign sigma = none ∧
      st1.tx.Signatures = st.tx.Signatures ++ [sigma] := by
  cases r with
  | some e => rw [requestRemoteSignature_err h] at hne; exact absurd rfl hne
  | none =>
    obtain ⟨sigma, raw, ⟨session, raw1, verifier, hS, hM, hSend, hR, hV, hv⟩, _, htx, _⟩ :=
      requestRemoteSignature_ok h
    exact ⟨sigma, verifier, ⟨session, raw1, hS, hM, hSend, hR⟩, hV, hv, by rw [htx]; rfl⟩

/-- C3: a signature returned by a remote signer, on the issue path and on the transfer
path, is appended to the token request only if the verifier of the party accepts it over
`MessageToSign` of the signature request; when the verifier cannot be obtained or rejects
the signature, `requestSignaturesOnIssues` (resp. `requestSignaturesOnTransfers`) aborts
with an error that names the party, and the token request is left as it was before the
request to that party: the signature is not appended. -/
theorem remote_signature_verified_before_append (env : Env) (requestRaw : Bytes) :
    (∀ (st0 st1 : State) (pre post : List Issue) (issue : Issue) (parties : List Identity)
        (sigma : Bytes) (e : Error),
      env.MarshallToSign st0.tx = .ok requestRaw →
      st0.tx.Issues = pre ++ issue :: post →
      issuesLoop env requestRaw pre [] st0 = (.ok parties, st1) →
      env.IssuerWalletByIdentity issue.Issuer = none →
      RemoteReply env
        { Request := requestRaw, TxID := st1.tx.ID, Signer := issue.Issuer } issue.Issuer sigma →
      VerifierFailure env
        { Request := requestRaw, TxID := st1.tx.ID, Signer := issue.Issuer } issue.Issuer
        sigma e →
      (∃ cause format, e = .wrap cause format [issue.Issuer]) ∧
      ∃ st2, requestSignaturesOnIssues env st0 = (.error e, st2) ∧ st2.tx = st1.tx) ∧
    (∀ (st0 st1 st2 : State) (pre post : List Transfer) (before after receivers : List Identity)
        (party : Identity) (parties : List Identity) (sigma : Bytes) (e : Error),
      env.MarshallToSign st0.tx = .ok requestRaw →
      st0.tx.Transfers =
        pre ++ { Senders := before ++ party :: after, Receivers := receivers } :: post →
      transfersLoop env requestRaw pre [] st0 = (.ok parties, st1) →
      sendersLoop env requestRaw before st1 = (none, st2) →
      env.OwnerWalletByIdentity party = none →
      RemoteReply env { Request := requestRaw, TxID := st2.tx.ID, Signer := party } party sigma →
      VerifierFailure env { Request := requestRaw, TxID := st2.tx.ID, Signer := party } party
        sigma e →
      (∃ cause format, e = .wrap cause format [party]) ∧
      ∃ st3, requestSignaturesOnTransfers env st0 = (.error e, st3) ∧ st3.tx = st2.tx) ∧
    (∀ (issue : Issue) (st st1 : State) (r : Option Error),
      env.IssuerWalletByIdentity issue.Issuer = none →
      signIssue env requestRaw issue st = (r, st1) →
      st1.tx.Signatures ≠ st.tx.Signatures →
      ∃ sigma verifier, env.GetVerifier issue.Issuer = .ok verifier ∧
        verifier (signatureRequest.MessageToSign
          { Request := requestRaw, TxID := st.tx.ID, Signer := issue.Issuer }) sigma = none ∧
        RemoteReply env { Request := requestRaw, TxID := st.tx.ID, Signer := issue.Issuer }
          issue.Issuer sigma ∧
        st1.tx.Signatures = st.tx.Signatures ++ [sigma]) ∧
    (∀ (party : Identity) (st st1 : State) (r : Option Error),
      env.OwnerWalletByIdentity party = none →
      signSender env requestRaw party st = (r, st1) →
      st1.tx.Signatures ≠ st.tx.Signatures →
      ∃ sigma verifier, env.GetVerifier party = .ok verifier ∧
        verifier (signatureRequest.MessageToSign
          { Request := requestRaw, TxID := st.tx.ID, Signer := party }) sigma = none ∧
        RemoteReply env { Request := requestRaw, TxID := st.tx.ID, Signer := party }
          party sigma ∧
        st1.tx.Signatures = st.tx.Signatures ++ [sigma]) := by
  refine ⟨?_, ?_, ?_, ?_⟩
  · intro st0 st1 pre post issue parties sigma e hraw hsplit hpre hw hreply hfail
    constructor
    · rcases hfail with ⟨cause, _, he⟩ | ⟨_, cause, _, _, he⟩
      · exact ⟨cause, _, he⟩
      · exact ⟨cause, _, he⟩
    · obtain ⟨st2, hstep, htx⟩ := requestRemoteSignature_verifier_failure st1 hreply hfail
      refine ⟨st2, requestSignaturesOnIssues_abort hraw hsplit hpre ?_, htx⟩
      unfold signIssue
      simp only [hw]
      exact hstep
  · intro st0 st1 st2 pre post before after receivers party parties sigma e hraw hsplit hpre
      hbefore hw hreply hfail
    constructor
    · rcases hfail with ⟨cause, _, he⟩ | ⟨_, cause, _, _, he⟩
      · exact ⟨cause, _, he⟩
      · exact ⟨cause, _, he⟩
    · obtain ⟨st3, hstep, htx⟩ := requestRemoteSignature_verifier_failure st2 hreply hfail
      refine ⟨st3, requestSignaturesOnTransfers_abort hraw hsplit hpre hbefore ?_, htx⟩
      unfold signSender
      simp only [hw]
      exact hstep
  · intro issue st st1 r hw h hne
    unfold signIssue at h
    simp only [hw] at h
    obtain ⟨sigma, verifier, h1, h2, h3, h4⟩ := requestRemoteSignature_appended h hne
    exact ⟨sigma, verifier, h2, h3, h1, h4⟩
  · intro party st st1 r hw h hne
    unfold signSender at h
    simp only [hw] at h
    obtain ⟨sigma, verifier, h1, h2, h3, h4⟩ := requestRemoteSignature_appended h hne
    exact ⟨sigma, verifier, h2, h3, h1, h4⟩

theorem remote_signature_verified_before_append_witness :
    ∃ st3, requestSignaturesOnTransfers exEnvReject exStateIssues =
        (.error (.wrap (.new (str "invalid signature"))
          "failed verifying signature from [%s]" [[3]]), st3) ∧
      st3.tx = exStateSender.tx :=
  ((remote_signature_verified_before_append exEnvReject (0 :: str "tx1")).2.1
    exStateIssues exStateIssues exStateSender [] [] [[2]] [] [[4], []] [3] [] [7]
    (.wrap (.new (str "invalid signature")) "failed verifying signature from [%s]" [[3]])
    rfl rfl rfl rfl rfl
    ⟨exSession (some { Status := .OK, Payload := [7] }), _, rfl, rfl, rfl, rfl⟩
    (Or.inr ⟨exVerifier, .new (str "invalid signature"), rfl, rfl, rfl⟩)).2

/-! ## Signature collection: an unresponsive party -/

theorem requestRemoteSignature_silent {env : Env} {sr : signatureRequest}
    {party : Identity} (st : State) (h : RemoteSilent env sr party) :
    ∃ st1, requestRemoteSignature env sr party st =
        (some (.errorf "Timeout from party %s" [party]), st1) ∧ st1.tx = st.tx := by
  obtain ⟨session, raw, hS, hM, hSend, hR⟩ := h
  unfold requestRemoteSignature
  simp only [hS, hM, hSend, hR]
  exact ⟨_, rfl, rfl⟩

/-- C4: when a signature request to a remote party, on the issue path or on the transfer
path, gets no reply before the 60 second timer fires, signature collection fails with
the error `Timeout from party %s` applied to that party, and no signature is appended to
the token request for that request: the token request is the one the signers before that
party left, so the signatures appended by the call are one per earlier signer only. -/
theorem remote_timeout_aborts (env : Env) (requestRaw : Bytes) :
    (∀ (st0 st1 : State) (pre post : List Issue) (issue : Issue) (parties : List Identity),
      env.MarshallToSign st0.tx = .ok requestRaw →
      st0.tx.Issues = pre ++ issue :: post →
      issuesLoop env requestRaw pre [] st0 = (.ok parties, st1) →
      env.IssuerWalletByIdentity issue.Issuer = none →
      RemoteSilent env
        { Request := requestRaw, TxID := st1.tx.ID, Signer := issue.Issuer } issue.Issuer →
      ∃ st2, requestSignaturesOnIssues env st0 =
          (.error (.errorf "Timeout from party %s" [issue.Issuer]), st2) ∧
        st2.tx = st1.tx ∧
        st2.tx.Signatures.length = st0.tx.Signatures.length + pre.length) ∧
    (∀ (st0 st1 st2 : State) (pre post : List Transfer) (before after receivers : List Identity)
        (party : Identity) (parties : List Identity),
      env.MarshallToSign st0.tx = .ok requestRaw →
      st0.tx.Transfers =
        pre ++ { Senders := before ++ party :: after, Receivers := receivers } :: post →
      transfersLoop env requestRaw pre [] st0 = (.ok parties, st1) →
      sendersLoop env requestRaw before st1 = (none, st2) →
      env.OwnerWalletByIdentity party = none →
      RemoteSilent env { Request := requestRaw, TxID := st2.tx.ID, Signer := party } party →
      ∃ st3, requestSignaturesOnTransfers env st0 =
          (.error (.errorf "Timeout from party %s" [party]), st3) ∧
        st3.tx = st2.tx ∧
        st3.tx.Signatures.length = st0.tx.Signatures.length +
          (pre.map (fun transfer => transfer.Senders.length)).sum + before.length) := by
  refine ⟨?_, ?_⟩
  · intro st0 st1 pre post issue parties hraw hsplit hpre hw hsilent
    obtain ⟨st2, hstep, htx⟩ := requestRemoteSignature_silent st1 hsilent
    refine ⟨st2, requestSignaturesOnIssues_abort hraw hsplit hpre ?_, htx, ?_⟩
    · unfold signIssue
      simp only [hw]
      exact hstep
    · obtain ⟨sigmas, hf, htx1, _⟩ := issuesLoop_ok _ hpre
      rw [htx, htx1]
      have := hf.length_eq
      simp only [List.length_map] at this
      simp [Transaction.AppendSignatures, this]
  · intro st0 st1 st2 pre post before after receivers party parties hraw hsplit hpre
      hbefore hw hsilent
    obtain ⟨st3, hstep, htx⟩ := requestRemoteSignature_silent st2 hsilent
    refine ⟨st3, requestSignaturesOnTransfers_abort hraw hsplit hpre hbefore ?_, htx, ?_⟩
    · unfold signSender
      simp only [hw]
      exact hstep
    · obtain ⟨sigmas1, hf1, htx1, _⟩ := transfersLoop_ok _ hpre
      obtain ⟨sigmas2, hf2, htx2⟩ := sendersLoop_ok _ hbefore
      rw [htx, htx2, htx1]
      have h1 := hf1.length_eq
      have h2 := hf2.length_eq
      simp only [List.length_flatMap] at h1
      simp only [Transaction.AppendSignatures, List.length_append, ← h1, ← h2]
      rfl

theorem remote_timeout_aborts_witness :
    ∃ st3, requestSignaturesOnTransfers exEnvSilent exStateIssues =
        (.error (.errorf "Timeout from party %s" [[3]]), st3) ∧
      st3.tx = exStateSender.tx ∧
      st3.tx.Signatures.length = exStateIssues.tx.Signatures.length +
        (([] : List Transfer).map (fun transfer => transfer.Senders.length)).sum +
        [[2]].length :=
  (remote_timeout_aborts exEnvSilent (0 :: str "tx1")).2
    exStateIssues exStateIssues exStateSender [] [] [[2]] [] [[4], []] [3] []
    rfl rfl rfl rfl rfl
    ⟨exSession none, _, rfl, rfl, rfl, rfl⟩

/-! ## Traces of the phases of `Call` -/

theorem TraceExt.same (P : Event → Prop) (st : State) : TraceExt P st st :=
  ⟨[], by simp, by simp⟩

theorem TraceExt.log {P : Event → Prop} {st st1 : State} {e : Event}
    (h : TraceExt P st st1) (he : P e) : TraceExt P st (st1.log e) := by
  obtain ⟨evs, h1, h2⟩ := h
  refine ⟨evs ++ [e], by simp [State.log, h1], ?_⟩
  intro ev hev
  rcases List.mem_append.mp hev with hev | hev
  · exact h2 ev hev
  · simp at hev; subst hev; exact he

theorem TraceExt.sig {P : Event → Prop} {st st1 : State} {sigma : Bytes}
    (h : TraceExt P st st1) : TraceExt P st (st1.AppendSignature sigma) := h

theorem TraceExt.trans {P : Event → Prop} {st st1 st2 : State}
    (h : TraceExt P st st1) (h1 : TraceExt P st1 st2) : TraceExt P st st2 := by
  obtain ⟨evs, ha, hb⟩ := h
  obtain ⟨evs1, hc, hd⟩ := h1
  refine ⟨evs ++ evs1, by simp [hc, ha], ?_⟩
  intro ev hev
  rcases List.mem_append.mp hev with hev | hev
  · exact hb ev hev
  · exact hd ev hev

theorem TraceExt.mono {P Q : Event → Prop} {st st1 : State} (hPQ : ∀ ev, P ev → Q ev)
    (h : TraceExt P st st1) : TraceExt Q st st1 := by
  obtain ⟨evs, ha, hb⟩ := h
  exact ⟨evs, ha, fun ev hev => hPQ ev (hb ev hev)⟩

theorem requestRemoteSignature_trace {env : Env} {requestRaw txID : Bytes} {party : Identity}
    {st st1 : State} {r : Option Error}
    (h : requestRemoteSignature env { Request := requestRaw, TxID := txID, Signer := party }
      party st = (r, st1)) :
    TraceExt (CollectEvent env requestRaw txID) st st1 := by
  unfold requestRemoteSignature at h
  have b0 : TraceExt (CollectEvent env requestRaw txID) st (st.log (.getSession party)) :=
    (TraceExt.same _ st).log trivial
  cases hS : env.GetSession party with
  | error e => simp [hS] at h; rw [← h.2]; exact b0
  | ok session =>
    cases hM : env.Marshal { Request := requestRaw, TxID := txID, Signer := party } with
    | error e => simp [hS, hM] at h; rw [← h.2]; exact b0
    | ok raw =>
      have b1 := b0.log (e := .send party raw) hM
      cases hSend : session.Send raw with
      | some e => simp [hS, hM, hSend] at h; rw [← h.2]; exact b1
      | none =>
        have b2 := b1.log (e := .receive party 60) rfl
        cases hR : session.Reply raw 60 with
        | none => simp [hS, hM, hSend, hR] at h; rw [← h.2]; exact b2
        | some msg =>
          obtain ⟨status, payload⟩ := msg
          cases status with
          | ERROR => simp [hS, hM, hSend, hR] at h; rw [← h.2]; exact b2
          | OK =>
            cases hV : env.GetVerifier party with
            | error e => simp [hS, hM, hSend, hR, hV] at h; rw [← h.2]; exact b2
            | ok verifier =>
              have b3 := b2.log (e := .verify party (signatureRequest.MessageToSign
                { Request := requestRaw, TxID := txID, Signer := party }) payload) rfl
              cases hv : verifier (signatureRequest.MessageToSign
                  { Request := requestRaw, TxID := txID, Signer := party }) payload with
              | some e => simp [hS, hM, hSend, hR, hV, hv] at h; rw [← h.2]; exact b3
              | none => simp [hS, hM, hSend, hR, hV, hv] at h; rw [← h.2]; exact b3.sig

theorem signIssue_trace {env : Env} {requestRaw : Bytes} {issue : Issue} {st st1 : State}
    {r : Option Error} (h : signIssue env requestRaw issue st = (r, st1)) :
    TraceExt (CollectEvent env requestRaw st.tx.ID) st st1 := by
  unfold signIssue at h
  cases hw : env.IssuerWalletByIdentity issue.Issuer with
  | some w =>
    cases hg : w.GetSigner issue.Issuer with
    | error e => simp [hw, hg] at h; rw [← h.2]; exact TraceExt.same _ _
    | ok signer =>
      have b1 : TraceExt (CollectEvent env requestRaw st.tx.ID) st
          (st.log (.sign issue.Issuer (requestRaw ++ st.tx.ID))) :=
        (TraceExt.same _ st).log rfl
      cases hs : signer (requestRaw ++ st.tx.ID) with
      | error e => simp [hw, hg, hs, State.log] at h; rw [← h.2]; exact b1
      | ok sigma => simp [hw, hg, hs, State.log] at h; rw [← h.2]; exact b1.sig
  | none =>
    simp [hw] at h
    exact requestRemoteSignature_trace h

theorem signSender_trace {env : Env} {requestRaw : Bytes} {party : Identity} {st st1 : State}
    {r : Option Error} (h : signSender env requestRaw party st = (r, st1)) :
    TraceExt (CollectEvent env requestRaw st.tx.ID) st st1 := by
  unfold signSender at h
  cases hw : env.OwnerWalletByIdentity party with
  | some w =>
    cases hg : w.GetSigner party with
    | error e => simp [hw, hg] at h; rw [← h.2]; exact TraceExt.same _ _
    | ok signer =>
      have b1 : TraceExt (CollectEvent env requestRaw st.tx.ID) st
          (st.log (.sign party (signatureRequest.MessageToSign
            { Request := requestRaw, TxID := st.tx.ID, Signer := party }))) :=
        (TraceExt.same _ st).log rfl
      cases hs : signer (requestRaw ++ st.tx.ID) with
      | error e =>
        simp [hw, hg, signatureRequest.MessageToSign, hs, State.log] at h
        rw [← h.2]; exact b1
      | ok sigma =>
        simp [hw, hg, signatureRequest.MessageToSign, hs, State.log] at h
        rw [← h.2]; exact b1.sig
  | none =>
    simp [hw] at h
    exact requestRemoteSignature_trace h

theorem signIssue_ID {env : Env} {requestRaw : Bytes} {issue : Issue} {st st1 : State}
    {r : Option Error} (h : signIssue env requestRaw issue st = (r, st1)) :
    st1.tx.ID = st.tx.ID := by
  cases r with
  | none => obtain ⟨sigma, _, htx⟩ := signIssue_ok h; rw [htx]; rfl
  | some e => rw [signIssue_err h]

theorem signSender_ID {env : Env} {requestRaw : Bytes} {party : Identity} {st st1 : State}
    {r : Option Error} (h : signSender env requestRaw party st = (r, st1)) :
    st1.tx.ID = st.tx.ID := by
  cases r with
  | none => obtain ⟨sigma, _, htx⟩ := signSender_ok h; rw [htx]; rfl
  | some e => rw [signSender_err h]

theorem signIssue_frame {env : Env} {requestRaw : Bytes} {issue : Issue} {st st1 : State}
    {r : Option Error} (h : signIssue env requestRaw issue st = (r, st1)) :
    ∃ sigmas, st1.tx = st.tx.AppendSignatures sigmas := by
  cases r with
  | none =>
    obtain ⟨sigma, _, htx⟩ := signIssue_ok h
    exact ⟨[sigma], by rw [htx]; rfl⟩
  | some e => exact ⟨[], by rw [signIssue_err h, Transaction.AppendSignatures_nil]⟩

theorem signSender_frame {env : Env} {requestRaw : Bytes} {party : Identity} {st st1 : State}
    {r : Option Error} (h : signSender env requestRaw party st = (r, st1)) :
    ∃ sigmas, st1.tx = st.tx.AppendSignatures sigmas := by
  cases r with
  | none =>
    obtain ⟨sigma, _, htx⟩ := signSender_ok h
    exact ⟨[sigma], by rw [htx]; rfl⟩
  | some e => exact ⟨[], by rw [signSender_err h, Transaction.AppendSignatures_nil]⟩

theorem issuesLoop_trace {env : Env} {requestRaw : Bytes} (issues : List Issue) :
    ∀ {distributionList : List Identity} {st st1 : State} {r : Except Error (List Identity)},
    issuesLoop env requestRaw issues distributionList st = (r, st1) →
    TraceExt (CollectEvent env requestRaw st.tx.ID) st st1 ∧
      ∃ sigmas, st1.tx = st.tx.AppendSignatures sigmas := by
  induction issues with
  | nil =>
    intro dl st st1 r h
    simp [issuesLoop] at h
    rw [← h.2]
    exact ⟨TraceExt.same _ _, [], (Transaction.AppendSignatures_nil _).symm⟩
  | cons issue rest ih =>
    intro dl st st1 r h
    unfold issuesLoop at h
    cases hstep : signIssue env requestRaw issue st with
    | mk r2 st2 =>
      have ht := signIssue_trace hstep
      obtain ⟨sigmas, hf⟩ := signIssue_frame hstep
      cases r2 with
      | some e =>
        simp [hstep] at h
        rw [← h.2]
        exact ⟨ht, sigmas, hf⟩
      | none =>
        simp [hstep] at h
        obtain ⟨ht1, sigmas1, hf1⟩ := ih h
        rw [signIssue_ID hstep] at ht1
        exact ⟨ht.trans ht1, sigmas ++ sigmas1,
          by rw [hf1, hf, Transaction.AppendSignatures_append]⟩

theorem sendersLoop_trace {env : Env} {requestRaw : Bytes} (senders : List Identity) :
    ∀ {st st1 : State} {r : Option Error},
    sendersLoop env requestRaw senders st = (r, st1) →
    TraceExt (CollectEvent env requestRaw st.tx.ID) st st1 ∧
      ∃ sigmas, st1.tx = st.tx.AppendSignatures sigmas := by
  induction senders with
  | nil =>
    intro st st1 r h
    simp [sendersLoop] at h
    rw [← h.2]
    exact ⟨TraceExt.same _ _, [], (Transaction.AppendSignatures_nil _).symm⟩
  | cons party rest ih =>
    intro st st1 r h
    unfold sendersLoop at h
    cases hstep : signSender env requestRaw party st with
    | mk r2 st2 =>
      have ht := signSender_trace hstep
      obtain ⟨sigmas, hf⟩ := signSender_frame hstep
      cases r2 with
      | some e =>
        simp [hstep] at h
        rw [← h.2]
        exact ⟨ht, sigmas, hf⟩
      | none =>
        simp [hstep] at h
        obtain ⟨ht1, sigmas1, hf1⟩ := ih h
        rw [signSender_ID hstep] at ht1
        exact ⟨ht.trans ht1, sigmas ++ sigmas1,
          by rw [hf1, hf, Transaction.AppendSignatures_append]⟩

theorem transfersLoop_trace {env : Env} {requestRaw : Bytes} (transfers : List Transfer) :
    ∀ {distributionList : List Identity} {st st1 : State} {r : Except Error (List Identity)},
    transfersLoop env requestRaw transfers distributionList st = (r, st1) →
    TraceExt (CollectEvent env requestRaw st.tx.ID) st st1 ∧
      ∃ sigmas, st1.tx = st.tx.AppendSignatures sigmas := by
  induction transfers with
  | nil =>
    intro dl st st1 r h
    simp [transfersLoop] at h
    rw [← h.2]
    exact ⟨TraceExt.same _ _, [], (Transaction.AppendSignatures_nil _).symm⟩
  | cons transfer rest ih =>
    intro dl st st1 r h
    unfold transfersLoop at h
    cases hstep : sendersLoop env requestRaw transfer.Senders st with
    | mk r2 st2 =>
      obtain ⟨ht, sigmas, hf⟩ := sendersLoop_trace _ hstep
      cases r2 with
      | some e =>
        simp [hstep] at h
        rw [← h.2]
        exact ⟨ht, sigmas, hf⟩
      | none =>
        simp [hstep] at h
        obtain ⟨ht1, sigmas1, hf1⟩ := ih h
        have hid : st2.tx.ID = st.tx.ID := by rw [hf]; rfl
        rw [hid] at ht1
        exact ⟨ht.trans ht1, sigmas ++ sigmas1,
          by rw [hf1, hf, Transaction.AppendSignatures_append]⟩

/-- The trace and the frame of `requestSignaturesOnIssues`, whatever it returns. -/
theorem requestSignaturesOnIssues_trace {env : Env} {st st1 : State}
    {r : Except Error (List Identity)} (h : requestSignaturesOnIssues env st = (r, st1)) :
    TraceExt (fun ev => ∃ requestRaw, env.MarshallToSign st.tx = .ok requestRaw ∧
        CollectEvent env requestRaw st.tx.ID ev) st st1 ∧
      ∃ sigmas, st1.tx = st.tx.AppendSignatures sigmas := by
  unfold requestSignaturesOnIssues at h
  cases hraw : env.MarshallToSign st.tx with
  | error e =>
    simp [hraw] at h
    rw [← h.2]
    exact ⟨TraceExt.same _ _, [], (Transaction.AppendSignatures_nil _).symm⟩
  | ok requestRaw =>
    simp only [hraw] at h
    obtain ⟨ht, hf⟩ := issuesLoop_trace _ h
    exact ⟨ht.mono (fun ev hev => ⟨requestRaw, rfl, hev⟩), hf⟩

/-- The trace and the frame of `requestSignaturesOnTransfers`, whatever it returns. -/
theorem requestSignaturesOnTransfers_trace {env : Env} {st st1 : State}
    {r : Except Error (List Identity)} (h : requestSignaturesOnTransfers env st = (r, st1)) :
    TraceExt (fun ev => ∃ requestRaw, env.MarshallToSign st.tx = .ok requestRaw ∧
        CollectEvent env requestRaw st.tx.ID ev) st st1 ∧
      ∃ sigmas, st1.tx = st.tx.AppendSignatures sigmas := by
  unfold requestSignaturesOnTransfers at h
  cases hraw : env.MarshallToSign st.tx with
  | error e =>
    simp [hraw] at h
    rw [← h.2]
    exact ⟨TraceExt.same _ _, [], (Transaction.AppendSignatures_nil _).symm⟩
  | ok requestRaw =>
    simp only [hraw] at h
    obtain ⟨ht, hf⟩ := transfersLoop_trace _ h
    exact ⟨ht.mono (fun ev hev => ⟨requestRaw, rfl, hev⟩), hf⟩

theorem phasesOf_append (a b : List Event) : phasesOf (a ++ b) = phasesOf a ++ phasesOf b := by
  simp [phasesOf, List.filterMap_append]

theorem phasesOf_quiet {evs : List Event} (h : ∀ ev ∈ evs, ∀ phase, ev ≠ .enter phase) :
    phasesOf evs = [] := by
  induction evs with
  | nil => rfl
  | cons ev rest ih =>
    have hrest := ih (fun ev1 h1 => h ev1 (List.mem_cons_of_mem _ h1))
    have hev := h ev (List.mem_cons_self _ _)
    cases ev <;> simp_all [phasesOf]

theorem Ran.start (st : State) : Ran st st [] false := ⟨[], by simp, rfl, by simp⟩

theorem Ran.enter {st st1 : State} {phases : List Phase} {ledger : Bool}
    (h : Ran st st1 phases ledger) (phase : Phase) :
    Ran st (st1.log (.enter phase)) (phases ++ [phase]) ledger := by
  obtain ⟨evs, h1, h2, h3⟩ := h
  refine ⟨evs ++ [.enter phase], by simp [State.log, h1], ?_, ?_⟩
  · rw [phasesOf_append, h2]; rfl
  · intro ev hev
    rcases List.mem_append.mp hev with hev | hev
    · exact h3 ev hev
    · simp at hev; subst hev; simp [Event.isEndorse]

theorem Ran.ext {st st1 st2 : State} {phases : List Phase} {ledger : Bool} {P : Event → Prop}
    (h : Ran st st1 phases ledger) (ht : TraceExt P st1 st2)
    (hP : ∀ ev, P ev → (∀ phase, ev ≠ .enter phase) ∧ (ev.isEndorse = true → ledger = true)) :
    Ran st st2 phases ledger := by
  obtain ⟨evs, h1, h2, h3⟩ := h
  obtain ⟨evs1, h4, h5⟩ := ht
  refine ⟨evs ++ evs1, by simp [h4, h1], ?_, ?_⟩
  · rw [phasesOf_append, h2, phasesOf_quiet (fun ev hev => (hP ev (h5 ev hev)).1)]
    simp
  · intro ev hev
    rcases List.mem_append.mp hev with hev | hev
    · exact h3 ev hev
    · exact (hP ev (h5 ev hev)).2

theorem Ran.ledger {st st1 : State} {phases : List Phase} {ledger : Bool}
    (h : Ran st st1 phases ledger) : Ran st st1 phases true := by
  obtain ⟨evs, h1, h2, _⟩ := h
  exact ⟨evs, h1, h2, fun _ _ _ => rfl⟩

theorem CollectEvent.quiet_collect {env : Env} {requestRaw txID : Bytes} {ledger : Bool} (ev : Event)
    (h : CollectEvent env requestRaw txID ev) :
    (∀ phase, ev ≠ .enter phase) ∧ (ev.isEndorse = true → ledger = true) := by
  cases ev <;> simp_all [CollectEvent, Event.isEndorse]

theorem DistributeEvent.quiet_distribute {ledger : Bool} (ev : Event) (h : DistributeEvent ev) :
    (∀ phase, ev ≠ .enter phase) ∧ (ev.isEndorse = true → ledger = true) := by
  cases ev <;> simp_all [DistributeEvent, Event.isEndorse]

theorem LedgerEvent.quiet_ledger (ev : Event) (h : LedgerEvent ev) :
    (∀ phase, ev ≠ .enter phase) ∧ (ev.isEndorse = true → true = true) := by
  cases ev <;> simp_all [LedgerEvent]

theorem State.log_tx (st : State) (e : Event) : (st.log e).tx = st.tx := rfl

theorem callChaincode_trace {env : Env} {st st1 : State} {r : Except Error (Option Envelope)}
    (h : callChaincode env st = (r, st1)) :
    TraceExt LedgerEvent st st1 ∧ st1.tx.Signatures = st.tx.Signatures := by
  unfold callChaincode at h
  cases hraw : env.RequestToBytes st.tx with
  | error e => simp [hraw] at h; rw [← h.2]; exact ⟨TraceExt.same _ _, rfl⟩
  | ok requestRaw =>
    have b1 : TraceExt LedgerEvent st (st.log (.endorse (str "invoke") requestRaw)) :=
      (TraceExt.same _ st).log trivial
    cases hE : env.Endorse (str "invoke") requestRaw with
    | error e => simp [hraw, hE] at h; rw [← h.2]; exact ⟨b1, rfl⟩
    | ok envelope =>
      have b2 := b1.log (e := .setEnvelope) trivial
      cases hs : env.setEnvelope envelope with
      | some e => simp [hraw, hE, hs] at h; rw [← h.2]; exact ⟨b2, rfl⟩
      | none => simp [hraw, hE, hs] at h; rw [← h.2]; exact ⟨b2, rfl⟩

theorem distributeTo_trace {env : Env} {envelope : Envelope} {txRaw : Bytes}
    {entry : distributionListEntry} {st st1 : State} {r : Option Error}
    (h : distributeTo env envelope txRaw entry st = (r, st1)) :
    TraceExt DistributeEvent st st1 ∧ st1.tx = st.tx := by
  unfold distributeTo at h
  cases hme : entry.IsMe with
  | true =>
    have b1 : TraceExt DistributeEvent st (st.log (.getRWSet st.tx.ID envelope.Results)) :=
      (TraceExt.same _ st).log trivial
    cases hg : env.GetRWSet st.tx.ID envelope.Results with
    | some e => simp [hme, hg, State.log_tx] at h; rw [← h.2]; exact ⟨b1, rfl⟩
    | none =>
      cases hb : envelope.Bytes with
      | error e => simp [hme, hg, hb, State.log_tx] at h; rw [← h.2]; exact ⟨b1, rfl⟩
      | ok rawEnv =>
        have b2 := b1.log (e := .storeEnvelope envelope.TxID rawEnv) trivial
        cases hs : env.StoreEnvelope envelope.TxID rawEnv with
        | some e => simp [hme, hg, hb, hs, State.log_tx] at h; rw [← h.2]; exact ⟨b2, rfl⟩
        | none => simp [hme, hg, hb, hs, State.log_tx] at h; rw [← h.2]; exact ⟨b2, rfl⟩
  | false =>
    have b1 : TraceExt DistributeEvent st (st.log (.getSession entry.ID)) :=
      (TraceExt.same _ st).log trivial
    cases hS : env.GetSession entry.ID with
    | error e => simp [hme, hS] at h; rw [← h.2]; exact ⟨b1, rfl⟩
    | ok session =>
      have b2 := b1.log (e := .send entry.ID txRaw) trivial
      cases hSend : session.Send txRaw with
      | some e => simp [hme, hS, hSend] at h; rw [← h.2]; exact ⟨b2, rfl⟩
      | none =>
        have b3 := b2.log (e := .receive entry.ID 240) rfl
        cases hR : session.Reply txRaw 240 with
        | none => simp [hme, hS, hSend, hR] at h; rw [← h.2]; exact ⟨b3, rfl⟩
        | some msg =>
          obtain ⟨status, payload⟩ := msg
          cases status with
          | ERROR => simp [hme, hS, hSend, hR] at h; rw [← h.2]; exact ⟨b3, rfl⟩
          | OK => simp [hme, hS, hSend, hR] at h; rw [← h.2]; exact ⟨b3, rfl⟩

theorem distributeLoop_trace {env : Env} {envelope : Envelope} {txRaw : Bytes}
    (entries : List distributionListEntry) :
    ∀ {st st1 : State} {r : Option Error},
    distributeLoop env envelope txRaw entries st = (r, st1) →
    TraceExt DistributeEvent st st1 ∧ st1.tx = st.tx := by
  induction entries with
  | nil =>
    intro st st1 r h
    simp [distributeLoop] at h
    rw [← h.2]
    exact ⟨TraceExt.same _ _, rfl⟩
  | cons entry rest ih =>
    intro st st1 r h
    unfold distributeLoop at h
    cases hstep : distributeTo env envelope txRaw entry st with
    | mk r2 st2 =>
      obtain ⟨ht, hf⟩ := distributeTo_trace hstep
      cases r2 with
      | some e => simp [hstep] at h; rw [← h.2]; exact ⟨ht, hf⟩
      | none =>
        simp [hstep] at h
        obtain ⟨ht1, hf1⟩ := ih h
        exact ⟨ht.trans ht1, by rw [hf1, hf]⟩

theorem distributeEnv_trace {env : Env} {envelope : Option Envelope}
    {distributionList : List Identity} {st st1 : State} {r : Option Error}
    (h : distributeEnv env envelope distributionList st = (r, st1)) :
    TraceExt DistributeEvent st st1 ∧ st1.tx = st.tx := by
  unfold distributeEnv at h
  cases envelope with
  | none => simp at h; rw [← h.2]; exact ⟨TraceExt.same _ _, rfl⟩
  | some envelope =>
    have b1 : TraceExt DistributeEvent st (st.log .verifyTx) := (TraceExt.same _ st).log trivial
    cases hv : env.Verify st.tx with
    | some e => simp [hv, State.log_tx] at h; rw [← h.2]; exact ⟨b1, rfl⟩
    | none =>
      cases hb : env.TxBytes st.tx with
      | error e => simp [hv, hb, State.log_tx] at h; rw [← h.2]; exact ⟨b1, rfl⟩
      | ok txRaw =>
        cases hc : compressDistributionList env distributionList [] with
        | error e => simp [hv, hb, hc, State.log_tx] at h; rw [← h.2]; exact ⟨b1, rfl⟩
        | ok entries =>
          simp [hv, hb, hc, State.log_tx] at h
          obtain ⟨ht, hf⟩ := distributeLoop_trace _ h
          exact ⟨b1.trans ht, hf⟩

theorem ran_issues {env : Env} {st st1 : State} {r : Except Error (List Identity)}
    (h : requestSignaturesOnIssues env ((st.log .storeTransient).log (.enter .issues)) =
      (r, st1)) : Ran st st1 [.issues] false := by
  have h0 : Ran st (st.log .storeTransient) [] false :=
    (Ran.start st).ext (P := fun ev => ev = .storeTransient) ((TraceExt.same _ st).log rfl)
      (by intro ev hev; subst hev; simp [Event.isEndorse])
  have h1 := h0.enter .issues
  exact h1.ext (requestSignaturesOnIssues_trace h).1
    (fun ev hev => by obtain ⟨_, _, hc⟩ := hev; exact CollectEvent.quiet_collect ev hc)

theorem ran_transfers {env : Env} {st st1 st2 : State} {phases : List Phase}
    {r : Except Error (List Identity)} (h0 : Ran st st1 phases false)
    (h : requestSignaturesOnTransfers env (st1.log (.enter .transfers)) = (r, st2)) :
    Ran st st2 (phases ++ [.transfers]) false :=
  (h0.enter .transfers).ext (requestSignaturesOnTransfers_trace h).1
    (fun ev hev => by obtain ⟨_, _, hc⟩ := hev; exact CollectEvent.quiet_collect ev hc)

theorem ran_audit {st st2 : State} {phases : List Phase} (h0 : Ran st st2 phases false) :
    Ran st ((st2.log (.enter .audit)).log .runAudit) (phases ++ [.audit]) false :=
  (h0.enter .audit).ext (P := fun ev => ev = .runAudit) ((TraceExt.same _ _).log rfl)
    (by intro ev hev; subst hev; simp [Event.isEndorse])

theorem ran_ledger {env : Env} {st st3 st4 : State} {phases : List Phase} {ledger : Bool}
    {r : Except Error (Option Envelope)} (h0 : Ran st st3 phases ledger)
    (h : callChaincode env (st3.log (.enter .ledger)) = (r, st4)) :
    Ran st st4 (phases ++ [.ledger]) true :=
  (h0.ledger.enter .ledger).ext (callChaincode_trace h).1 LedgerEvent.quiet_ledger

theorem ran_distribute {env : Env} {st st4 st5 : State} {phases : List Phase}
    {envelope : Option Envelope} {distributionList : List Identity} {r : Option Error}
    (h0 : Ran st st4 phases true)
    (h : distributeEnv env envelope distributionList (st4.log (.enter .distribute)) = (r, st5)) :
    Ran st st5 (phases ++ [.distribute]) true :=
  (h0.enter .distribute).ext (distributeEnv_trace h).1 DistributeEvent.quiet_distribute

theorem ran_audit_passed {env : Env} {st st2 st3 : State}
    (h0 : Ran st st2 [.issues, .transfers] false) (h : AuditPassed env st2 st3) :
    Ran st st3 (phasesToAudit st2.tx.auditor) false := by
  rcases h with ⟨h1, h2⟩ | ⟨h1, _, h3⟩
  · subst h2; simpa [phasesToAudit, h1] using h0
  · subst h3; simpa [phasesToAudit, h1] using ran_audit h0

/-- Unfolding of `Call` up to the audit step, when both signature phases succeeded and the audit step
went through. -/
theorem Call_after_audit {env : Env} {st st1 st2 st3 : State} {parties1 parties2 : List Identity}
    (h0 : env.storeTransient st.tx = none)
    (h1 : requestSignaturesOnIssues env ((st.log .storeTransient).log (.enter .issues)) =
      (.ok parties1, st1))
    (h2 : requestSignaturesOnTransfers env (st1.log (.enter .transfers)) = (.ok parties2, st2))
    (h3 : AuditPassed env st2 st3) :
    Call env st =
      match callChaincode env (st3.log (.enter .ledger)) with
      | (.error e, st4) => (some e, st4)
      | (.ok envelope, st4) =>
        distributeEnv env envelope (partiesAfterAudit st2.tx.auditor parties1 parties2)
          (st4.log (.enter .distribute)) := by
  unfold Call
  have h0a : env.storeTransient (st.log .storeTransient).tx = none := h0
  simp only [h0a, h1, h2]
  rcases h3 with ⟨ha, hb⟩ | ⟨ha, hb, hc⟩
  · subst hb
    simp [ha, partiesAfterAudit]
  · subst hc
    simp [ha, hb, partiesAfterAudit, State.log_tx]

theorem Call_auditor_frame {env : Env} {st st1 st2 : State} {r1 r2 : Except Error (List Identity)}
    (h1 : requestSignaturesOnIssues env ((st.log .storeTransient).log (.enter .issues)) =
      (r1, st1))
    (h2 : requestSignaturesOnTransfers env (st1.log (.enter .transfers)) = (r2, st2)) :
    st2.tx.auditor = st.tx.auditor := by
  obtain ⟨_, s1, hf1⟩ := requestSignaturesOnIssues_trace h1
  obtain ⟨_, s2, hf2⟩ := requestSignaturesOnTransfers_trace h2
  rw [hf2, State.log_tx, hf1]
  rfl

/-- C5: in `collectEndorsementsView.Call`, when an auditor is configured and the audit
exchange fails, `Call` returns an error and neither `callChaincode` nor `distributeEnv`
is reached: the phases entered are issues, transfers, audit and the chaincode is not
called.  More generally the phases are entered in the order issues, transfers, audit
(when an auditor is configured), ledger, distribute; a phase that fails makes `Call`
return its error with no later phase entered, and `Call` succeeds only after all of
them were entered. -/
theorem Call_phases_sequential (env : Env) (st : State) :
    (∀ parties1 st1 parties2 st2 e,
      env.storeTransient st.tx = none →
      requestSignaturesOnIssues env ((st.log .storeTransient).log (.enter .issues)) =
        (.ok parties1, st1) →
      requestSignaturesOnTransfers env (st1.log (.enter .transfers)) = (.ok parties2, st2) →
      IsNone st2.tx.auditor = false →
      env.RunAudit st2.tx = some e →
      Call env st =
        (some (.wrap e "failed requesting auditing from [%s]" [st2.tx.auditor]),
          (st2.log (.enter .audit)).log .runAudit) ∧
      Ran st ((st2.log (.enter .audit)).log .runAudit) [.issues, .transfers, .audit] false) ∧
    (∀ e st1,
      env.storeTransient st.tx = none →
      requestSignaturesOnIssues env ((st.log .storeTransient).log (.enter .issues)) =
        (.error e, st1) →
      Call env st = (some e, st1) ∧ Ran st st1 [.issues] false) ∧
    (∀ parties1 st1 e st2,
      env.storeTransient st.tx = none →
      requestSignaturesOnIssues env ((st.log .storeTransient).log (.enter .issues)) =
        (.ok parties1, st1) →
      requestSignaturesOnTransfers env (st1.log (.enter .transfers)) = (.error e, st2) →
      Call env st = (some e, st2) ∧ Ran st st2 [.issues, .transfers] false) ∧
    (∀ parties1 st1 parties2 st2 st3 e st4,
      env.storeTransient st.tx = none →
      requestSignaturesOnIssues env ((st.log .storeTransient).log (.enter .issues)) =
        (.ok parties1, st1) →
      requestSignaturesOnTransfers env (st1.log (.enter .transfers)) = (.ok parties2, st2) →
      AuditPassed env st2 st3 →
      callChaincode env (st3.log (.enter .ledger)) = (.error e, st4) →
      Call env st = (some e, st4) ∧
      Ran st st4 (phasesToAudit st.tx.auditor ++ [.ledger]) true) ∧
    (∀ parties1 st1 parties2 st2 st3 envelope st4,
      env.storeTransient st.tx = none →
      requestSignaturesOnIssues env ((st.log .storeTransient).log (.enter .issues)) =
        (.ok parties1, st1) →
      requestSignaturesOnTransfers env (st1.log (.enter .transfers)) = (.ok parties2, st2) →
      AuditPassed env st2 st3 →
      callChaincode env (st3.log (.enter .ledger)) = (.ok envelope, st4) →
      Call env st = distributeEnv env envelope
        (partiesAfterAudit st.tx.auditor parties1 parties2) (st4.log (.enter .distribute)) ∧
      Ran st (Call env st).2 (phasesToAudit st.tx.auditor ++ [.ledger, .distribute]) true) ∧
    (∃ phases ledger, Ran st (Call env st).2 phases ledger ∧
      phases <+: phasesToAudit st.tx.auditor ++ [.ledger, .distribute] ∧
      ((Call env st).1 = none →
        phases = phasesToAudit st.tx.auditor ++ [.ledger, .distribute])) := by
  have hA : ∀ parties1 st1 parties2 st2 e,
      env.storeTransient st.tx = none →
      requestSignaturesOnIssues env ((st.log .storeTransient).log (.enter .issues)) =
        (.ok parties1, st1) →
      requestSignaturesOnTransfers env (st1.log (.enter .transfers)) = (.ok parties2, st2) →
      IsNone st2.tx.auditor = false →
      env.RunAudit st2.tx = some e →
      Call env st =
        (some (.wrap e "failed requesting auditing from [%s]" [st2.tx.auditor]),
          (st2.log (.enter .audit)).log .runAudit) ∧
      Ran st ((st2.log (.enter .audit)).log .runAudit) [.issues, .transfers, .audit] false := by
    intro parties1 st1 parties2 st2 e h0 h1 h2 h3 h4
    refine ⟨?_, ran_audit (ran_transfers (ran_issues h1) h2)⟩
    unfold Call
    have h0a : env.storeTransient (st.log .storeTransient).tx = none := h0
    simp [h0a, h0, h1, h2, h3, h4, State.log_tx]
  have hB : ∀ e st1,
      env.storeTransient st.tx = none →
      requestSignaturesOnIssues env ((st.log .storeTransient).log (.enter .issues)) =
        (.error e, st1) →
      Call env st = (some e, st1) ∧ Ran st st1 [.issues] false := by
    intro e st1 h0 h1
    refine ⟨?_, ran_issues h1⟩
    unfold Call
    have h0a : env.storeTransient (st.log .storeTransient).tx = none := h0
    simp [h0a, h1]
  have hC : ∀ parties1 st1 e st2,
      env.storeTransient st.tx = none →
      requestSignaturesOnIssues env ((st.log .storeTransient).log (.enter .issues)) =
        (.ok parties1, st1) →
      requestSignaturesOnTransfers env (st1.log (.enter .transfers)) = (.error e, st2) →
      Call env st = (some e, st2) ∧ Ran st st2 [.issues, .transfers] false := by
    intro parties1 st1 e st2 h0 h1 h2
    refine ⟨?_, ran_transfers (ran_issues h1) h2⟩
    unfold Call
    have h0a : env.storeTransient (st.log .storeTransient).tx = none := h0
    simp [h0a, h1, h2]
  have hD : ∀ parties1 st1 parties2 st2 st3 e st4,
      env.storeTransient st.tx = none →
      requestSignaturesOnIssues env ((st.log .storeTransient).log (.enter .issues)) =
        (.ok parties1, st1) →
      requestSignaturesOnTransfers env (st1.log (.enter .transfers)) = (.ok parties2, st2) →
      AuditPassed env st2 st3 →
      callChaincode env (st3.log (.enter .ledger)) = (.error e, st4) →
      Call env st = (some e, st4) ∧
      Ran st st4 (phasesToAudit st.tx.auditor ++ [.ledger]) true := by
    intro parties1 st1 parties2 st2 st3 e st4 h0 h1 h2 h3 h4
    constructor
    · rw [Call_after_audit h0 h1 h2 h3, h4]
    · rw [← Call_auditor_frame h1 h2]
      exact ran_ledger (ran_audit_passed (ran_transfers (ran_issues h1) h2) h3) h4
  have hE : ∀ parties1 st1 parties2 st2 st3 envelope st4,
      env.storeTransient st.tx = none →
      requestSignaturesOnIssues env ((st.log .storeTransient).log (.enter .issues)) =
        (.ok parties1, st1) →
      requestSignaturesOnTransfers env (st1.log (.enter .transfers)) = (.ok parties2, st2) →
      AuditPassed env st2 st3 →
      callChaincode env (st3.log (.enter .ledger)) = (.ok envelope, st4) →
      Call env st = distributeEnv env envelope
        (partiesAfterAudit st.tx.auditor parties1 parties2) (st4.log (.enter .distribute)) ∧
      Ran st (Call env st).2 (phasesToAudit st.tx.auditor ++ [.ledger, .distribute]) true := by
    intro parties1 st1 parties2 st2 st3 envelope st4 h0 h1 h2 h3 h4
    have hcall : Call env st = distributeEnv env envelope
        (partiesAfterAudit st.tx.auditor parties1 parties2) (st4.log (.enter .distribute)) := by
      rw [Call_after_audit h0 h1 h2 h3, h4, Call_auditor_frame h1 h2]
    refine ⟨hcall, ?_⟩
    have hran := ran_ledger (ran_audit_passed (ran_transfers (ran_issues h1) h2) h3) h4
    rw [Call_auditor_frame h1 h2] at hran
    have hd : distributeEnv env envelope (partiesAfterAudit st.tx.auditor parties1 parties2)
        (st4.log (.enter .distribute)) = ((Call env st).1, (Call env st).2) := by
      rw [← hcall]
    simpa using ran_distribute hran hd
  refine ⟨hA, hB, hC, hD, hE, ?_⟩
  -- every run falls in one of the cases above
  cases h0 : env.storeTransient st.tx with
  | some e =>
    have hcall : Call env st = (some (.wrap e "failed storing transient" []),
        st.log .storeTransient) := by
      unfold Call
      have h0a : env.storeTransient (st.log .storeTransient).tx = some e := h0
      simp [h0a]
    refine ⟨[], false, ?_, List.nil_prefix, ?_⟩
    · rw [hcall]
      exact (Ran.start st).ext (P := fun ev => ev = .storeTransient)
        ((TraceExt.same _ st).log rfl) (by intro ev hev; subst hev; simp [Event.isEndorse])
    · rw [hcall]; simp
  | none =>
    cases h1 : requestSignaturesOnIssues env ((st.log .storeTransient).log (.enter .issues)) with
    | mk r1 st1 =>
      cases r1 with
      | error e =>
        obtain ⟨hcall, hran⟩ := hB e st1 h0 h1
        refine ⟨[.issues], false, by rw [hcall]; exact hran, ?_, by rw [hcall]; simp⟩
        unfold phasesToAudit
        split <;> simp
      | ok parties1 =>
        cases h2 : requestSignaturesOnTransfers env (st1.log (.enter .transfers)) with
        | mk r2 st2 =>
          cases r2 with
          | error e =>
            obtain ⟨hcall, hran⟩ := hC parties1 st1 e st2 h0 h1 h2
            refine ⟨[.issues, .transfers], false, by rw [hcall]; exact hran, ?_,
              by rw [hcall]; simp⟩
            unfold phasesToAudit
            split <;> simp
          | ok parties2 =>
            have haud := Call_auditor_frame h1 h2
            have hpass : (∃ e, IsNone st2.tx.auditor = false ∧ env.RunAudit st2.tx = some e) ∨
                ∃ st3, AuditPassed env st2 st3 := by
              cases ha : IsNone st2.tx.auditor with
              | true => exact Or.inr ⟨st2, Or.inl ⟨ha, rfl⟩⟩
              | false =>
                cases hr : env.RunAudit st2.tx with
                | some e => exact Or.inl ⟨e, rfl, rfl⟩
                | none => exact Or.inr ⟨_, Or.inr ⟨ha, hr, rfl⟩⟩
            rcases hpass with ⟨e, ha, hr⟩ | ⟨st3, hpass⟩
            · obtain ⟨hcall, hran⟩ := hA parties1 st1 parties2 st2 e h0 h1 h2 ha hr
              refine ⟨[.issues, .transfers, .audit], false, by rw [hcall]; exact hran, ?_,
                by rw [hcall]; simp⟩
              rw [← haud]
              simp [phasesToAudit, ha]
            · cases h4 : callChaincode env (st3.log (.enter .ledger)) with
              | mk r4 st4 =>
                cases r4 with
                | error e =>
                  obtain ⟨hcall, hran⟩ := hD parties1 st1 parties2 st2 st3 e st4 h0 h1 h2 hpass h4
                  refine ⟨_, true, by rw [hcall]; exact hran, ?_, by rw [hcall]; simp⟩
                  exact ⟨[.distribute], by simp⟩
                | ok envelope =>
                  obtain ⟨_, hran⟩ := hE parties1 st1 parties2 st2 st3 envelope st4 h0 h1 h2
                    hpass h4
                  exact ⟨_, true, hran, List.prefix_refl _, fun _ => rfl⟩

theorem Call_phases_sequential_witness :
    Call exEnvAuditFails exState =
      (some (.wrap (.new (str "audit failed")) "failed requesting auditing from [%s]" [[5]]),
        (exCallTransfers.log (.enter .audit)).log .runAudit) ∧
    Ran exState ((exCallTransfers.log (.enter .audit)).log .runAudit)
      [.issues, .transfers, .audit] false :=
  (Call_phases_sequential exEnvAuditFails exState).1 [[1], [2]] exCallIssues
    [[2], [3], [4], []] exCallTransfers (.new (str "audit failed")) rfl rfl rfl rfl rfl

/-! ## The message every collected signature is over -/

/-- C6: `MessageToSign` of a signature request is its request bytes followed by its txID
bytes, and signature collection signs and verifies nothing else: every `Sign` call made
in-process on the issue path (on `requestRaw` followed by the txID) and on the transfer
path, and every `Verify` call made on a remote reply, is over `MessageToSign` of the
request built for that party, which is also the request marshalled and sent to a remote
party; a signature is appended only when it was obtained that way. -/
theorem signatures_over_MessageToSign (env : Env) (st : State) :
    (∀ sr : signatureRequest, sr.MessageToSign = sr.Request ++ sr.TxID) ∧
    TraceExt (fun ev => ∃ requestRaw, env.MarshallToSign st.tx = .ok requestRaw ∧
        CollectEvent env requestRaw st.tx.ID ev) st (requestSignaturesOnIssues env st).2 ∧
    TraceExt (fun ev => ∃ requestRaw, env.MarshallToSign st.tx = .ok requestRaw ∧
        CollectEvent env requestRaw st.tx.ID ev) st (requestSignaturesOnTransfers env st).2 ∧
    (∀ requestRaw issue st1, signIssue env requestRaw issue st = (none, st1) →
      ∃ sigma, CollectedSignature env env.IssuerWalletByIdentity requestRaw st.tx.ID
          issue.Issuer sigma ∧ st1.tx = st.tx.AppendSignature sigma) ∧
    (∀ requestRaw party st1, signSender env requestRaw party st = (none, st1) →
      ∃ sigma, CollectedSignature env env.OwnerWalletByIdentity requestRaw st.tx.ID
          party sigma ∧ st1.tx = st.tx.AppendSignature sigma) ∧
    (∀ requestRaw issue w signer,
      env.IssuerWalletByIdentity issue.Issuer = some w → w.GetSigner issue.Issuer = .ok signer →
      (signIssue env requestRaw issue st).2.trace =
        st.trace ++ [.sign issue.Issuer (requestRaw ++ st.tx.ID)] ∧
      requestRaw ++ st.tx.ID = signatureRequest.MessageToSign
        { Request := requestRaw, TxID := st.tx.ID, Signer := issue.Issuer }) := by
  refine ⟨fun _ => rfl, (requestSignaturesOnIssues_trace rfl).1,
    (requestSignaturesOnTransfers_trace rfl).1, fun _ _ _ h => signIssue_ok h,
    fun _ _ _ h => signSender_ok h, ?_⟩
  intro requestRaw issue w signer hw hg
  refine ⟨?_, rfl⟩
  unfold signIssue
  simp only [hw, hg]
  cases hs : signer (requestRaw ++ st.tx.ID) with
  | error e => simp [State.log_tx, hs]; rfl
  | ok sigma => simp [State.log_tx, hs]; rfl

theorem signatures_over_MessageToSign_witness :
    (signIssue exEnvOK (0 :: str "tx1") { Issuer := [1], Receivers := [[2]] } exState).2.trace =
      exState.trace ++ [.sign [1] ((0 :: str "tx1") ++ exState.tx.ID)] ∧
    (0 :: str "tx1") ++ exState.tx.ID = signatureRequest.MessageToSign
      { Request := 0 :: str "tx1", TxID := exState.tx.ID, Signer := [1] } :=
  (signatures_over_MessageToSign exEnvOK exState).2.2.2.2.2 (0 :: str "tx1")
    { Issuer := [1], Receivers := [[2]] } exWallet (exSigner 1) rfl rfl

/-! ## The compressed distribution list -/

theorem firstBy_sublist {α β : Type} [DecidableEq α] (key : β → α) (l : List β) :
    (firstBy key l).Sublist l := by
  induction l with
  | nil => exact List.Sublist.slnil
  | cons b l ih =>
    simp only [firstBy]
    exact List.Sublist.cons₂ b ((List.filter_sublist _).trans ih)

theorem firstBy_keys_nodup {α β : Type} [DecidableEq α] (key : β → α) (l : List β) :
    ((firstBy key l).map key).Nodup := by
  induction l with
  | nil => simp [firstBy]
  | cons b l ih =>
    simp only [firstBy, List.map_cons, List.nodup_cons]
    constructor
    · intro h
      obtain ⟨c, hc, hk⟩ := List.mem_map.mp h
      have := (List.mem_filter.mp hc).2
      simp at this
      exact this hk
    · exact ih.sublist ((List.filter_sublist _).map key)

theorem firstBy_covers {α β : Type} [DecidableEq α] (key : β → α) (l : List β) :
    ∀ b ∈ l, key b ∈ (firstBy key l).map key := by
  induction l with
  | nil => simp
  | cons a l ih =>
    intro b hb
    simp only [firstBy, List.map_cons, List.mem_cons]
    rcases List.mem_cons.mp hb with rfl | hb
    · exact Or.inl rfl
    · by_cases hk : key b = key a
      · exact Or.inl hk
      · right
        obtain ⟨c, hc, hkc⟩ := List.mem_map.mp (ih b hb)
        exact List.mem_map.mpr ⟨c, List.mem_filter.mpr ⟨hc, by simp [hkc, hk]⟩, hkc⟩

theorem firstBy_find {α β : Type} [DecidableEq α] (key : β → α) (l : List β) :
    ∀ c ∈ firstBy key l, l.find? (fun x => decide (key x = key c)) = some c := by
  induction l with
  | nil => simp [firstBy]
  | cons b l ih =>
    intro c hc
    simp only [firstBy, List.mem_cons] at hc
    rcases hc with rfl | hc
    · simp
    · obtain ⟨hc1, hc2⟩ := List.mem_filter.mp hc
      simp at hc2
      rw [List.find?_cons_of_neg]
      · exact ih c hc1
      · simpa using fun h => hc2 h.symm

theorem compressDistributionList_spec {env : Env} (distributionList : List Identity) :
    ∀ {acc entries : List distributionListEntry},
    compressDistributionList env distributionList acc = .ok entries →
    entries = acc ++ (firstBy (fun entry => entry.LongTerm)
        (candidates env distributionList)).filter
        (fun c => !acc.any (fun entry => c.LongTerm = entry.LongTerm)) ∧
      ∀ party ∈ distributionList, IsNone party = false →
        ∃ longTerm, env.Resolve party = .ok longTerm := by
  induction distributionList with
  | nil =>
    intro acc entries h
    simp [compressDistributionList] at h
    subst h
    simp [candidates, firstBy]
  | cons party rest ih =>
    intro acc entries h
    unfold compressDistributionList at h
    cases hn : IsNone party with
    | true =>
      simp only [hn, if_true] at h
      obtain ⟨h1, h2⟩ := ih h
      refine ⟨?_, ?_⟩
      · rw [h1]; simp [candidates, hn]
      · intro p hp hpn
        rcases List.mem_cons.mp hp with rfl | hp
        · rw [hn] at hpn; cases hpn
        · exact h2 p hp hpn
    | false =>
      cases hr : env.Resolve party with
      | error e => simp [hn, hr] at h
      | ok longTerm =>
        have hcand : candidates env (party :: rest) =
            { IsMe := env.HasWallet party, LongTerm := longTerm, ID := party } ::
              candidates env rest := by
          simp [candidates, hn, entryOf, hr]
        have hres : ∀ p ∈ party :: rest, IsNone p = false →
            (∀ q ∈ rest, IsNone q = false → ∃ lt, env.Resolve q = .ok lt) →
            ∃ lt, env.Resolve p = .ok lt := by
          intro p hp hpn hrest
          rcases List.mem_cons.mp hp with rfl | hp
          · exact ⟨longTerm, hr⟩
          · exact hrest p hp hpn
        cases hfound : acc.any (fun entry => decide (longTerm = entry.LongTerm)) with
        | true =>
          simp [hn, hr, hfound] at h
          obtain ⟨h1, h2⟩ := ih h
          refine ⟨?_, fun p hp hpn => hres p hp hpn h2⟩
          rw [h1, hcand]
          simp only [firstBy, List.filter_cons, hfound]
          simp only [Bool.not_true, Bool.false_eq_true, if_false, List.filter_filter,
            List.append_cancel_left_eq]
          apply List.filter_congr
          intro c _
          by_cases hk : c.LongTerm = longTerm
          · subst hk; simp [hfound]
          · simp [hk]
        | false =>
          simp [hn, hr, hfound] at h
          obtain ⟨h1, h2⟩ := ih h
          refine ⟨?_, fun p hp hpn => hres p hp hpn h2⟩
          rw [h1, hcand]
          simp only [firstBy, List.filter_cons, hfound]
          simp only [Bool.not_false, if_true, List.filter_filter, List.append_assoc,
            List.singleton_append, List.append_cancel_left_eq, List.cons.injEq, true_and]
          apply List.filter_congr
          intro c _
          simp [List.any_append, Bool.and_comm]

theorem compressDistributionList_total {env : Env} (distributionList : List Identity)
    (hres : ∀ party ∈ distributionList, IsNone party = false →
      ∃ longTerm, env.Resolve party = .ok longTerm) :
    ∀ acc, ∃ entries, compressDistributionList env distributionList acc = .ok entries := by
  induction distributionList with
  | nil => intro acc; exact ⟨acc, rfl⟩
  | cons party rest ih =>
    intro acc
    have ih1 := ih (fun p hp => hres p (List.mem_cons_of_mem _ hp))
    unfold compressDistributionList
    cases hn : IsNone party with
    | true => simpa using ih1 acc
    | false =>
      obtain ⟨longTerm, hr⟩ := hres party (List.mem_cons_self _ _) hn
      cases hfound : acc.any (fun entry => decide (longTerm = entry.LongTerm)) with
      | true =>
        simp only [hr, hfound, Bool.not_true, Bool.false_eq_true, if_false]
        exact ih1 _
      | false =>
        simp only [hr, hfound, Bool.not_false, if_true, Bool.false_eq_true, if_false]
        exact ih1 _

theorem mem_candidates {env : Env} {distributionList : List Identity}
    {entry : distributionListEntry} :
    entry ∈ candidates env distributionList ↔
      entry.ID ∈ distributionList ∧ IsNone entry.ID = false ∧
      env.Resolve entry.ID = .ok entry.LongTerm ∧ entry.IsMe = env.HasWallet entry.ID := by
  unfold candidates
  rw [List.mem_filterMap]
  constructor
  · rintro ⟨party, hp, he⟩
    obtain ⟨hp1, hp2⟩ := List.mem_filter.mp hp
    unfold entryOf at he
    cases hr : env.Resolve party with
    | error e => simp [hr] at he
    | ok longTerm =>
      simp [hr] at he
      subst he
      simp at hp2
      exact ⟨hp1, hp2, hr, rfl⟩
  · rintro ⟨h1, h2, h3, h4⟩
    refine ⟨entry.ID, List.mem_filter.mpr ⟨h1, by simp [h2]⟩, ?_⟩
    unfold entryOf
    simp only [h3, ← h4]

theorem deliveriesOf_append (a b : List Event) :
    deliveriesOf (a ++ b) = deliveriesOf a ++ deliveriesOf b := by
  simp [deliveriesOf, List.filterMap_append]

theorem distributeTo_ok {env : Env} {envelope : Envelope} {txRaw : Bytes}
    {entry : distributionListEntry} {st st1 : State}
    (h : distributeTo env envelope txRaw entry st = (none, st1)) :
    ∃ evs, st1.trace = st.trace ++ evs ∧
      deliveriesOf evs = [if entry.IsMe then none else some entry.ID] := by
  unfold distributeTo at h
  cases hme : entry.IsMe with
  | true =>
    cases hg : env.GetRWSet st.tx.ID envelope.Results with
    | some e => simp [hme, hg, State.log_tx] at h
    | none =>
      cases hb : envelope.Bytes with
      | error e => simp [hme, hg, hb, State.log_tx] at h
      | ok rawEnv =>
        cases hs : env.StoreEnvelope envelope.TxID rawEnv with
        | some e => simp [hme, hg, hb, hs, State.log_tx] at h
        | none =>
          simp [hme, hg, hb, hs, State.log_tx] at h
          subst h
          exact ⟨[.getRWSet st.tx.ID envelope.Results, .storeEnvelope envelope.TxID rawEnv],
            by simp [State.log], by simp [deliveriesOf]⟩
  | false =>
    cases hS : env.GetSession entry.ID with
    | error e => simp [hme, hS] at h
    | ok session =>
      cases hSend : session.Send txRaw with
      | some e => simp [hme, hS, hSend] at h
      | none =>
        cases hR : session.Reply txRaw 240 with
        | none => simp [hme, hS, hSend, hR] at h
        | some msg =>
          obtain ⟨status, payload⟩ := msg
          cases status with
          | ERROR => simp [hme, hS, hSend, hR] at h
          | OK =>
            simp [hme, hS, hSend, hR] at h
            subst h
            exact ⟨[.getSession entry.ID, .send entry.ID txRaw, .receive entry.ID 240],
              by simp [State.log], by simp [deliveriesOf]⟩

theorem distributeLoop_ok {env : Env} {envelope : Envelope} {txRaw : Bytes}
    (entries : List distributionListEntry) :
    ∀ {st st1 : State}, distributeLoop env envelope txRaw entries st = (none, st1) →
    ∃ evs, st1.trace = st.trace ++ evs ∧
      deliveriesOf evs = entries.map (fun entry => if entry.IsMe then none else some entry.ID) := by
  induction entries with
  | nil =>
    intro st st1 h
    simp [distributeLoop] at h
    subst h
    exact ⟨[], by simp, rfl⟩
  | cons entry rest ih =>
    intro st st1 h
    unfold distributeLoop at h
    cases hstep : distributeTo env envelope txRaw entry st with
    | mk r2 st2 =>
      cases r2 with
      | some e => simp [hstep] at h
      | none =>
        simp [hstep] at h
        obtain ⟨evs, h1, h2⟩ := distributeTo_ok hstep
        obtain ⟨evs1, h3, h4⟩ := ih h
        exact ⟨evs ++ evs1, by simp [h3, h1], by rw [deliveriesOf_append, h2, h4]; rfl⟩

theorem distributeEnv_ok {env : Env} {envelope : Envelope} {distributionList : List Identity}
    {st st1 : State} (h : distributeEnv env (some envelope) distributionList st = (none, st1)) :
    ∃ entries evs, compressDistributionList env distributionList [] = .ok entries ∧
      st1.trace = st.trace ++ evs ∧
      deliveriesOf evs = entries.map (fun entry => if entry.IsMe then none else some entry.ID) := by
  unfold distributeEnv at h
  cases hv : env.Verify st.tx with
  | some e => simp [hv, State.log_tx] at h
  | none =>
    cases hb : env.TxBytes st.tx with
    | error e => simp [hv, hb, State.log_tx] at h
    | ok txRaw =>
      cases hc : compressDistributionList env distributionList [] with
      | error e => simp [hv, hb, hc, State.log_tx] at h
      | ok entries =>
        simp [hv, hb, hc, State.log_tx] at h
        obtain ⟨evs, h1, h2⟩ := distributeLoop_ok _ h
        refine ⟨entries, .verifyTx :: evs, rfl, by simp [h1, State.log], ?_⟩
        rw [← h2]
        simp [deliveriesOf]

/-- C7: for every distribution list whose parties that are not none all resolve,
`distributeEnv` builds a compressed list that (a) has pairwise distinct long-term
identities, (b) has an entry with the long-term identity of every party of the list
that is not none, (c) has only entries built from a party of the list that is not none,
with its resolved long-term identity, and (d) keeps, in list order, the entry of the
first party that resolves to each long-term identity; and a successful `distributeEnv`
delivers once per entry, in that order (a local commit or a send to the party), so once
per distinct long-term identity whatever the number of pseudonyms. -/
theorem distribution_list_compressed (env : Env) (distributionList : List Identity)
    (hres : ∀ party ∈ distributionList, IsNone party = false →
      ∃ longTerm, env.Resolve party = .ok longTerm) :
    ∃ entries, compressDistributionList env distributionList [] = .ok entries ∧
      (entries.map (fun entry => entry.LongTerm)).Nodup ∧
      (∀ party ∈ distributionList, IsNone party = false →
        ∃ longTerm, env.Resolve party = .ok longTerm ∧
          longTerm ∈ entries.map (fun entry => entry.LongTerm)) ∧
      (∀ entry ∈ entries, entry.ID ∈ distributionList ∧ IsNone entry.ID = false ∧
        env.Resolve entry.ID = .ok entry.LongTerm ∧ entry.IsMe = env.HasWallet entry.ID) ∧
      entries = firstBy (fun entry => entry.LongTerm) (candidates env distributionList) ∧
      entries.Sublist (candidates env distributionList) ∧
      (∀ entry ∈ entries, (candidates env distributionList).find?
        (fun c => decide (c.LongTerm = entry.LongTerm)) = some entry) ∧
      (∀ envelope st st1,
        distributeEnv env (some envelope) distributionList st = (none, st1) →
        ∃ evs, st1.trace = st.trace ++ evs ∧
          deliveriesOf evs =
            entries.map (fun entry => if entry.IsMe then none else some entry.ID)) := by
  obtain ⟨entries, hc⟩ := compressDistributionList_total distributionList hres []
  obtain ⟨hspec, _⟩ := compressDistributionList_spec distributionList hc
  simp only [List.nil_append, List.any_nil, Bool.not_false, List.filter_true] at hspec
  refine ⟨entries, hc, ?_, ?_, ?_, hspec, ?_, ?_, ?_⟩
  · rw [hspec]; exact firstBy_keys_nodup _ _
  · intro party hp hn
    obtain ⟨longTerm, hr⟩ := hres party hp hn
    refine ⟨longTerm, hr, ?_⟩
    have hmem : ({ IsMe := env.HasWallet party, LongTerm := longTerm, ID := party } :
        distributionListEntry) ∈ candidates env distributionList :=
      mem_candidates.mpr ⟨hp, hn, hr, rfl⟩
    rw [hspec]
    exact firstBy_covers (fun entry => entry.LongTerm) _ _ hmem
  · intro entry he
    rw [hspec] at he
    exact mem_candidates.mp ((firstBy_sublist _ _).subset he)
  · rw [hspec]; exact firstBy_sublist _ _
  · intro entry he
    rw [hspec] at he
    exact firstBy_find _ _ entry he
  · intro envelope st st1 h
    obtain ⟨entries1, evs, hc1, h1, h2⟩ := distributeEnv_ok h
    rw [hc] at hc1
    cases hc1
    exact ⟨evs, h1, h2⟩

theorem distribution_list_compressed_witness :
    ∃ entries,
      compressDistributionList exEnvOK [[1], [2], [2], [3], [4], [], [3, 1], [5]] [] =
        .ok entries ∧
      (entries.map (fun entry => entry.LongTerm)).Nodup ∧
      (∀ party ∈ [[1], [2], [2], [3], [4], [], [3, 1], [5]], IsNone party = false →
        ∃ longTerm, exEnvOK.Resolve party = .ok longTerm ∧
          longTerm ∈ entries.map (fun entry => entry.LongTerm)) ∧
      (∀ entry ∈ entries, entry.ID ∈ [[1], [2], [2], [3], [4], [], [3, 1], [5]] ∧
        IsNone entry.ID = false ∧
        exEnvOK.Resolve entry.ID = .ok entry.LongTerm ∧
        entry.IsMe = exEnvOK.HasWallet entry.ID) ∧
      entries = firstBy (fun entry => entry.LongTerm)
        (candidates exEnvOK [[1], [2], [2], [3], [4], [], [3, 1], [5]]) ∧
      entries.Sublist (candidates exEnvOK [[1], [2], [2], [3], [4], [], [3, 1], [5]]) ∧
      (∀ entry ∈ entries, (candidates exEnvOK [[1], [2], [2], [3], [4], [], [3, 1], [5]]).find?
        (fun c => decide (c.LongTerm = entry.LongTerm)) = some entry) ∧
      (∀ envelope st st1,
        distributeEnv exEnvOK (some envelope) [[1], [2], [2], [3], [4], [], [3, 1], [5]] st =
          (none, st1) →
        ∃ evs, st1.trace = st.trace ++ evs ∧
          deliveriesOf evs =
            entries.map (fun entry => if entry.IsMe then none else some entry.ID)) :=
  distribution_list_compressed exEnvOK [[1], [2], [2], [3], [4], [], [3, 1], [5]]
    (fun _ _ _ => ⟨_, rfl⟩)

/-! ## The write scan, step by step -/

theorem storeToken_spec {env : ProcEnv} {tms : TMS} {ns txID key : Bytes} {index : Int}
    {tok : Token} {issuer : Identity} {tokenInfoRaw : Bytes} {log log1 : List RWOp}
    {r : Option Outcome}
    (h : storeToken env tms ns txID key txID index tok issuer tokenInfoRaw log = (log1, r)) :
    ∃ ops, log1 = log ++ ops ∧
      ops <+: tokenRecords env tms ns txID index tok issuer tokenInfoRaw ∧
      (r = none → ops = tokenRecords env tms ns txID index tok issuer tokenInfoRaw) ∧
      (∀ outcome, r = some outcome → ∃ e, outcome = .fail e) ∧
      (r = none → tms.OwnerWalletByIdentity tok.Owner = true →
        ∃ mineTokenID, env.keys.CreateTokenMineKey txID index = .ok mineTokenID) := by
  unfold storeToken at h
  unfold tokenRecords
  cases hown : tms.OwnerWalletByIdentity tok.Owner with
  | false =>
    cases hP1 : env.Perform log (.storeAuditToken ns txID index tok tokenInfoRaw) with
    | some e =>
      simp only [hown, perform, hP1, Bool.false_eq_true, if_false, Prod.mk.injEq] at h
      obtain ⟨h1, h2⟩ := h
      subst h1 h2
      exact ⟨_, rfl, by simp, by simp, by simp, by simp⟩
    | none =>
      cases hiss : (!IsNone issuer && tms.IssuerWalletByIdentity issuer) with
      | false =>
        simp only [hown, perform, hP1, hiss, Bool.false_eq_true, if_false, Prod.mk.injEq] at h
        obtain ⟨h1, h2⟩ := h
        subst h1 h2
        exact ⟨_, rfl, by simp, by simp, by simp, by simp⟩
      | true =>
        cases hP2 : env.Perform (log ++ [.storeAuditToken ns txID index tok tokenInfoRaw])
            (.storeIssuedHistoryToken ns txID index tok tokenInfoRaw issuer) with
        | some e =>
          simp only [hown, perform, hP1, hiss, hP2, Bool.false_eq_true, if_false, if_true,
            Prod.mk.injEq] at h
          obtain ⟨h1, h2⟩ := h
          subst h1 h2
          exact ⟨_, List.append_assoc _ _ _, by simp, by simp, by simp, by simp⟩
        | none =>
          simp only [hown, perform, hP1, hiss, hP2, Bool.false_eq_true, if_false, if_true,
            Prod.mk.injEq] at h
          obtain ⟨h1, h2⟩ := h
          subst h1 h2
          exact ⟨_, List.append_assoc _ _ _, by simp, by simp, by simp, by simp⟩
  | true =>
    cases hkey : env.keys.CreateTokenMineKey txID index with
    | error e =>
      simp only [hown, hkey, if_true, Prod.mk.injEq] at h
      obtain ⟨h1, h2⟩ := h
      subst h1 h2
      exact ⟨[], by simp, by simp, by simp, by simp, by simp⟩
    | ok mineTokenID =>
      cases hP1 : env.Perform log (.setState ns mineTokenID [1]) with
      | some e =>
        simp only [hown, hkey, perform, hP1, if_true, Prod.mk.injEq] at h
        obtain ⟨h1, h2⟩ := h
        subst h1 h2
        exact ⟨_, rfl, by simp, by simp, by simp, by simp⟩
      | none =>
        cases hP2 : env.Perform (log ++ [.setState ns mineTokenID [1]])
            (.storeFabToken ns txID index tok tokenInfoRaw) with
        | some e =>
          simp only [hown, hkey, perform, hP1, hP2, if_true, Prod.mk.injEq] at h
          obtain ⟨h1, h2⟩ := h
          subst h1 h2
          exact ⟨_, List.append_assoc _ _ _, by simp, by simp, by simp, by simp⟩
        | none =>
          cases hiss : (!IsNone issuer && tms.IssuerWalletByIdentity issuer) with
          | false =>
            simp only [hown, hkey, perform, hP1, hP2, hiss, if_true, Bool.false_eq_true,
              if_false, Prod.mk.injEq] at h
            obtain ⟨h1, h2⟩ := h
            subst h1 h2
            exact ⟨_, List.append_assoc _ _ _, by simp, by simp, by simp, by simp⟩
          | true =>
            cases hP3 : env.Perform
                (log ++ [.setState ns mineTokenID [1]] ++
                  [.storeFabToken ns txID index tok tokenInfoRaw])
                (.storeIssuedHistoryToken ns txID index tok tokenInfoRaw issuer) with
            | some e =>
              simp only [hown, hkey, perform, hP1, hP2, hiss, hP3, if_true,
                Prod.mk.injEq] at h
              obtain ⟨h1, h2⟩ := h
              subst h1 h2
              exact ⟨[.setState ns mineTokenID [1], .storeFabToken ns txID index tok tokenInfoRaw,
                .storeIssuedHistoryToken ns txID index tok tokenInfoRaw issuer],
                by simp, by simp, by simp, by simp, by simp⟩
            | none =>
              simp only [hown, hkey, perform, hP1, hP2, hiss, hP3, if_true,
                Prod.mk.injEq] at h
              obtain ⟨h1, h2⟩ := h
              subst h1 h2
              exact ⟨[.setState ns mineTokenID [1], .storeFabToken ns txID index tok tokenInfoRaw,
                .storeIssuedHistoryToken ns txID index tok tokenInfoRaw issuer],
                by simp, by simp, by simp, by simp, by simp⟩

theorem scanWrite_spec {env : ProcEnv} {tms : TMS} {metadata : Metadata} {ns txID : Bytes}
    {i : Nat} {log log1 : List RWOp} {r : Option Outcome} {key val : Bytes}
    (hget : env.GetWriteAt log ns i = .ok (key, val))
    (h : scanWrite env tms metadata ns txID i log = (log1, r)) :
    ∃ ops, log1 = log ++ .getWriteAt ns i key val :: ops ∧
      ops <+: recordsOf env tms metadata ns txID key val ∧
      (r = none → ops = recordsOf env tms metadata ns txID key val) ∧
      (∀ outcome, r = some outcome → outcome ≠ .ok) := by
  unfold scanWrite at h
  simp only [hget] at h
  cases hsplit : env.keys.SplitCompositeKey key with
  | error e =>
    simp only [hsplit, Prod.mk.injEq] at h
    obtain ⟨h1, h2⟩ := h
    subst h1 h2
    exact ⟨[], by simp, by simp, by simp, by simp⟩
  | ok split =>
    obtain ⟨pfx, components⟩ := split
    by_cases hpfx : pfx = env.keys.TokenKeyPrefix
    swap
    · simp only [hsplit, ne_eq, hpfx, not_false_eq_true, if_true, Prod.mk.injEq] at h
      obtain ⟨h1, h2⟩ := h
      subst h1 h2
      refine ⟨[], by simp, by simp, fun _ => ?_, by simp⟩
      unfold recordsOf outputKey
      rcases components with _ | ⟨c0, _ | ⟨c1, rest⟩⟩ <;> simp [hsplit, hpfx]
    · rcases components with _ | ⟨c0, others⟩
      · simp only [hsplit, ne_eq, hpfx, not_true_eq_false, if_false, Prod.mk.injEq] at h
        obtain ⟨h1, h2⟩ := h
        subst h1 h2
        exact ⟨[], by simp, by simp, by simp, by simp⟩
      · by_cases hmark : c0 = env.keys.TokenMineKeyPrefix ∨
            c0 = env.keys.TokenRequestKeyPrefix ∨ c0 = env.keys.SerialNumber
        · have hskip : (log ++ [RWOp.getWriteAt ns i key val], (none : Option Outcome)) =
              (log1, r) := by
            simp only [hsplit, ne_eq, hpfx, not_true_eq_false, if_false] at h
            rcases hmark with hm | hm | hm
            · simpa [hm] using h
            · by_cases hm1 : c0 = env.keys.TokenMineKeyPrefix
              · simpa [hm1] using h
              · simpa [hm1, hm] using h
            · by_cases hm1 : c0 = env.keys.TokenMineKeyPrefix
              · simpa [hm1] using h
              · by_cases hm2 : c0 = env.keys.TokenRequestKeyPrefix
                · simpa [hm1, hm2] using h
                · simpa [hm1, hm2, hm] using h
          simp only [Prod.mk.injEq] at hskip
          obtain ⟨h1, h2⟩ := hskip
          subst h1 h2
          refine ⟨[], by simp, by simp, fun _ => ?_, by simp⟩
          unfold recordsOf outputKey
          rcases others with _ | ⟨c1, rest⟩
          · simp [hsplit]
          · have : ¬ (c0 ≠ env.keys.TokenMineKeyPrefix ∧ c0 ≠ env.keys.TokenRequestKeyPrefix ∧
                c0 ≠ env.keys.SerialNumber) := by
              intro hc
              rcases hmark with hm | hm | hm
              · exact hc.1 hm
              · exact hc.2.1 hm
              · exact hc.2.2 hm
            simp [hsplit, hpfx, this]
        · simp only [not_or] at hmark
          obtain ⟨hm1, hm2, hm3⟩ := hmark
          simp only [hsplit, ne_eq, hpfx, not_true_eq_false, if_false, hm1, hm2, hm3] at h
          rcases others with _ | ⟨c1, rest⟩
          · simp only [Prod.mk.injEq] at h
            obtain ⟨h1, h2⟩ := h
            subst h1 h2
            exact ⟨[], by simp, by simp, by simp, by simp⟩
          · simp only at h
            have hkey : ∀ index, Atoi c1 = .ok index →
                outputKey env key = some (c0, index) := by
              intro index ha
              unfold outputKey
              simp [hsplit, hpfx, hm1, hm2, hm3, ha]
            cases hatoi : Atoi c1 with
            | error e =>
              simp only [hatoi, Prod.mk.injEq] at h
              obtain ⟨h1, h2⟩ := h
              subst h1 h2
              exact ⟨[], by simp, by simp, by simp, by simp⟩
            | ok index =>
              have hk := hkey index hatoi
              simp only [hatoi] at h
              by_cases hval : val = []
              · subst hval
                have hrec : recordsOf env tms metadata ns txID key [] =
                    [.deleteFabToken ns c0 index] := by
                  unfold recordsOf
                  simp [hk]
                rw [hrec]
                simp only [List.length_nil, if_true, perform] at h
                cases hP : env.Perform (log ++ [RWOp.getWriteAt ns i key []])
                    (.deleteFabToken ns c0 index) with
                | some e =>
                  simp only [hP, Prod.mk.injEq] at h
                  obtain ⟨h1, h2⟩ := h
                  subst h1 h2
                  exact ⟨[.deleteFabToken ns c0 index], by simp, by simp, by simp, by simp⟩
                | none =>
                  simp only [hP, Prod.mk.injEq] at h
                  obtain ⟨h1, h2⟩ := h
                  subst h1 h2
                  exact ⟨[.deleteFabToken ns c0 index], by simp, by simp, by simp, by simp⟩
              · have hlen : ¬ val.length = 0 := by simpa using hval
                simp only [hlen, if_false] at h
                by_cases htx : c0 = txID
                swap
                · simp only [ne_eq, htx, not_false_eq_true, if_true, Prod.mk.injEq] at h
                  obtain ⟨h1, h2⟩ := h
                  subst h1 h2
                  exact ⟨[], by simp, by simp, by simp, by simp⟩
                · subst htx
                  simp only [ne_eq, not_true_eq_false, if_false] at h
                  cases hget2 : metadata.GetToken val with
                  | error e =>
                    simp only [hget2, Prod.mk.injEq] at h
                    obtain ⟨h1, h2⟩ := h
                    subst h1 h2
                    refine ⟨[], by simp, by simp, fun _ => ?_, by simp⟩
                    unfold recordsOf opensTo
                    simp [hk, hval, hget2]
                  | ok res =>
                    obtain ⟨tokopt, issuer, tokenInfoRaw⟩ := res
                    cases tokopt with
                    | none =>
                      simp only [hget2, Prod.mk.injEq] at h
                      obtain ⟨h1, h2⟩ := h
                      subst h1 h2
                      refine ⟨[], by simp, by simp, fun _ => ?_, by simp⟩
                      unfold recordsOf opensTo
                      simp [hk, hval, hget2]
                    | some tok =>
                      simp only [hget2] at h
                      have hrec : recordsOf env tms metadata ns c0 key val =
                          tokenRecords env tms ns c0 index tok issuer tokenInfoRaw := by
                        unfold recordsOf opensTo
                        simp [hk, hval, hget2]
                      rw [hrec]
                      obtain ⟨ops, h1, h2, h3, h4, _⟩ := storeToken_spec h
                      refine ⟨ops, by simp [h1], h2, h3, ?_⟩
                      intro outcome ho
                      obtain ⟨e, he⟩ := h4 outcome ho
                      simp [he]

theorem scanWrite_read_fails {env : ProcEnv} {tms : TMS} {metadata : Metadata} {ns txID : Bytes}
    {i : Nat} {log : List RWOp} {e : Error} (hget : env.GetWriteAt log ns i = .error e) :
    scanWrite env tms metadata ns txID i log = (log, some (.fail e)) := by
  unfold scanWrite
  simp only [hget]

theorem tokenRecords_no_read (env : ProcEnv) (tms : TMS) (ns txID : Bytes) (index : Int)
    (tok : Token) (issuer : Identity) (tokenInfoRaw : Bytes) :
    ∀ op ∈ tokenRecords env tms ns txID index tok issuer tokenInfoRaw, op.isRead = false := by
  intro op hop
  unfold tokenRecords at hop
  rcases List.mem_append.mp hop with hop | hop
  · split at hop
    · split at hop
      · simp at hop
        rcases hop with rfl | rfl <;> rfl
      · simp at hop
    · simp at hop
      subst hop
      rfl
  · split at hop
    · simp at hop
      subst hop
      rfl
    · simp at hop

theorem recordsOf_no_read (env : ProcEnv) (tms : TMS) (metadata : Metadata)
    (ns txID key val : Bytes) :
    ∀ op ∈ recordsOf env tms metadata ns txID key val, op.isRead = false := by
  intro op hop
  unfold recordsOf at hop
  split at hop
  · split at hop
    · simp at hop
      subst hop
      rfl
    · split at hop
      · exact tokenRecords_no_read _ _ _ _ _ _ _ _ op hop
      · simp at hop
  · simp at hop

theorem filter_eq_nil_of_all_false {α : Type} {p : α → Bool} {l : List α}
    (h : ∀ a ∈ l, p a = false) : l.filter p = [] := by
  rw [List.filter_eq_nil_iff]
  intro a ha
  simp [h a ha]

/-- The history of a write scan that ends with nil is, for every write read, the read
followed by the records of that write. -/
theorem scanWrites_ok {env : ProcEnv} {tms : TMS} {metadata : Metadata} {ns txID : Bytes} :
    ∀ (fuel i : Nat) (log log1 : List RWOp),
    scanWrites env tms metadata ns txID fuel i log = some (log1, .ok) →
    ∃ ops, log1 = log ++ ops ∧
      ops = (ops.filter RWOp.isRead).flatMap
        (fun rd => rd :: recordsOfRead env tms metadata ns txID rd) := by
  intro fuel
  induction fuel with
  | zero => intro i log log1 h; simp [scanWrites] at h
  | succ fuel ih =>
    intro i log log1 h
    unfold scanWrites at h
    by_cases hlt : i < env.NumWrites log ns
    swap
    · simp only [hlt, if_false, Option.some.injEq, Prod.mk.injEq, and_true] at h
      subst h
      exact ⟨[], by simp, by simp⟩
    · simp only [hlt, if_true] at h
      cases hstep : scanWrite env tms metadata ns txID i log with
      | mk log2 r =>
        cases hget : env.GetWriteAt log ns i with
        | error e =>
          rw [scanWrite_read_fails hget] at hstep
          simp only [Prod.mk.injEq] at hstep
          obtain ⟨h1, h2⟩ := hstep
          subst h1 h2
          simp [scanWrite_read_fails hget] at h
        | ok write =>
          obtain ⟨key, val⟩ := write
          obtain ⟨ops, h1, _, h3, h4⟩ := scanWrite_spec hget hstep
          cases r with
          | some outcome =>
            simp only [hstep, Option.some.injEq, Prod.mk.injEq] at h
            exact absurd h.2 (h4 outcome rfl)
          | none =>
            simp only [hstep] at h
            obtain ⟨ops1, h5, h6⟩ := ih _ _ _ h
            have hops := h3 rfl
            refine ⟨.getWriteAt ns i key val :: ops ++ ops1, by simp [h5, h1], ?_⟩
            have hnr : ops.filter RWOp.isRead = [] := by
              rw [hops]
              exact filter_eq_nil_of_all_false (recordsOf_no_read _ _ _ _ _ _ _)
            simp only [List.cons_append, List.filter_cons, RWOp.isRead, if_true,
              List.filter_append, hnr, List.nil_append, List.flatMap_cons, recordsOfRead,
              List.cons.injEq, true_and]
            rw [hops]
            congr 1

theorem outputKey_some {env : ProcEnv} {key component0 : Bytes} {index : Int}
    (hk : outputKey env key = some (component0, index)) :
    ∃ component1 rest, env.keys.SplitCompositeKey key =
        .ok (env.keys.TokenKeyPrefix, component0 :: component1 :: rest) ∧
      component0 ≠ env.keys.TokenMineKeyPrefix ∧ component0 ≠ env.keys.TokenRequestKeyPrefix ∧
      component0 ≠ env.keys.SerialNumber ∧ Atoi component1 = .ok index := by
  unfold outputKey at hk
  cases hsplit : env.keys.SplitCompositeKey key with
  | error e => simp [hsplit] at hk
  | ok split =>
    obtain ⟨pfx, components⟩ := split
    rcases components with _ | ⟨c0, _ | ⟨c1, rest⟩⟩
    · simp [hsplit] at hk
    · simp [hsplit] at hk
    · simp only [hsplit] at hk
      split at hk
      · rename_i hc
        cases hatoi : Atoi c1 with
        | error e => simp [hatoi] at hk
        | ok index1 =>
          simp only [hatoi, Option.some.injEq, Prod.mk.injEq] at hk
          obtain ⟨h1, h2⟩ := hk
          subst h1 h2
          obtain ⟨hp, hm1, hm2, hm3⟩ := hc
          subst hp
          exact ⟨c1, rest, rfl, hm1, hm2, hm3, hatoi⟩
      · cases hk

theorem opensTo_some {env : ProcEnv} {metadata : Metadata} {txID key val : Bytes}
    {index : Int} {tok : Token} {issuer : Identity} {tokenInfoRaw : Bytes}
    (hopen : opensTo env metadata txID key val = some (index, tok, issuer, tokenInfoRaw)) :
    outputKey env key = some (txID, index) ∧ val ≠ [] ∧
      metadata.GetToken val = .ok (some tok, issuer, tokenInfoRaw) := by
  unfold opensTo at hopen
  cases hk : outputKey env key with
  | none => simp [hk] at hopen
  | some p =>
    obtain ⟨c0, index1⟩ := p
    simp only [hk] at hopen
    split at hopen
    · rename_i hv
      obtain ⟨hv1, hv2⟩ := hv
      subst hv2
      cases hg : metadata.GetToken val with
      | error e => simp [hg] at hopen
      | ok res =>
        obtain ⟨tokopt, issuer1, info1⟩ := res
        cases tokopt with
        | none => simp [hg] at hopen
        | some tok1 =>
          simp only [hg, Option.some.injEq, Prod.mk.injEq] at hopen
          obtain ⟨h1, h2, h3, h4⟩ := hopen
          subst h1 h2 h3 h4
          exact ⟨rfl, hv1, rfl⟩
    · cases hopen

/-- On an output write that opens to a token, the body of the write loop reads the write
and goes to the owner-based record and the issuance history. -/
theorem scanWrite_opens {env : ProcEnv} {tms : TMS} {metadata : Metadata} {ns txID : Bytes}
    {i : Nat} {log : List RWOp} {key val : Bytes} {index : Int} {tok : Token}
    {issuer : Identity} {tokenInfoRaw : Bytes}
    (hget : env.GetWriteAt log ns i = .ok (key, val))
    (hopen : opensTo env metadata txID key val = some (index, tok, issuer, tokenInfoRaw)) :
    scanWrite env tms metadata ns txID i log =
      storeToken env tms ns txID key txID index tok issuer tokenInfoRaw
        (log ++ [.getWriteAt ns i key val]) := by
  obtain ⟨hk, hval, hg⟩ := opensTo_some hopen
  obtain ⟨c1, rest, hsplit, hm1, hm2, hm3, hatoi⟩ := outputKey_some hk
  have hlen : ¬ val.length = 0 := by simpa using hval
  unfold scanWrite
  simp only [hget, hsplit, ne_eq, not_true_eq_false, if_false, hm1, hm2, hm3, hatoi, hlen, hg]

theorem recordsOf_filter_owned (env : ProcEnv) (tms : TMS) (metadata : Metadata)
    (ns txID key val : Bytes) :
    (recordsOf env tms metadata ns txID key val).filter RWOp.isOwnedRecord =
      ownedRecords env tms metadata ns txID key val := by
  unfold recordsOf ownedRecords
  cases hk : outputKey env key with
  | none => simp [opensTo, hk]
  | some p =>
    obtain ⟨c0, index⟩ := p
    by_cases hval : val = []
    · simp [hval, opensTo, hk, RWOp.isOwnedRecord]
    · simp only [hval, if_false]
      cases ho : opensTo env metadata txID key val with
      | none => simp
      | some q =>
        obtain ⟨index1, tok, issuer, tokenInfoRaw⟩ := q
        simp only [tokenRecords]
        cases hown : tms.OwnerWalletByIdentity tok.Owner <;>
          cases hiss : (!IsNone issuer && tms.IssuerWalletByIdentity issuer) <;>
          cases hkey : env.keys.CreateTokenMineKey txID index1 <;>
          simp [RWOp.isOwnedRecord]

theorem filter_owned_blocks (env : ProcEnv) (tms : TMS) (metadata : Metadata)
    (ns txID : Bytes) (reads : List RWOp) (hall : ∀ rd ∈ reads, rd.isRead = true) :
    (reads.flatMap (fun rd => rd :: recordsOfRead env tms metadata ns txID rd)).filter
        RWOp.isOwnedRecord =
      reads.flatMap (ownedRecordsOfRead env tms metadata ns txID) := by
  induction reads with
  | nil => simp
  | cons rd reads ihr =>
    have hrd := hall rd (List.mem_cons_self _ _)
    have ih1 := ihr (fun r hr => hall r (List.mem_cons_of_mem _ hr))
    simp only [List.flatMap_cons, List.filter_append, ih1, List.filter_cons]
    cases rd <;>
      simp_all [RWOp.isOwnedRecord, RWOp.isRead, recordsOfRead, ownedRecordsOfRead,
        recordsOf_filter_owned]

theorem deleteInputs_spec {env : ProcEnv} {ns : Bytes} (ids : List TokenID) :
    ∀ {log log1 : List RWOp} {r : Option Error},
    deleteInputs env ns ids log = (log1, r) →
    ∃ k, k ≤ ids.length ∧
      log1 = log ++ (ids.take k).map
        (fun id => RWOp.deleteFabToken ns id.TxId (intOfIndex id.Index)) ∧
      (r = none → k = ids.length) ∧ (∀ e, r = some e → 0 < k) := by
  induction ids with
  | nil =>
    intro log log1 r h
    simp only [deleteInputs, Prod.mk.injEq] at h
    obtain ⟨h1, h2⟩ := h
    subst h1 h2
    exact ⟨0, by simp, by simp, by simp, by simp⟩
  | cons id rest ih =>
    intro log log1 r h
    unfold deleteInputs at h
    simp only [perform] at h
    cases hP : env.Perform log (.deleteFabToken ns id.TxId (intOfIndex id.Index)) with
    | some e =>
      simp only [hP, Prod.mk.injEq] at h
      obtain ⟨h1, h2⟩ := h
      subst h1 h2
      exact ⟨1, by simp, by simp, by simp, by simp⟩
    | none =>
      simp only [hP] at h
      obtain ⟨k, hk, h1, h2, h3⟩ := ih h
      refine ⟨k + 1, by simpa using hk, by simp [h1], ?_, by simp⟩
      intro hr
      simp [h2 hr]

/-- Unfolding of `tokenRequest` for a transaction known with its metadata: the graph-hiding
loop, then the write scan. -/
theorem tokenRequest_known {env : ProcEnv} {tx : ProcessTransaction} {ns : Bytes}
    {metadata : Metadata} (hknown : KnownWithMetadata env tx ns metadata) (fuel : Nat)
    (log : List RWOp) :
    tokenRequest env fuel tx ns log =
      match (if (env.GetManagementService tx.Network tx.Channel ns).GraphHiding then
          deleteInputs env ns metadata.SpentTokenID log else (log, none)) with
      | (log, some e) => some (log, .fail e)
      | (log, none) =>
        scanWrites env (env.GetManagementService tx.Network tx.Channel ns) metadata ns tx.ID
          fuel 0 log := by
  obtain ⟨ch, transientMap, raw, h1, h2, h3, h4, h5⟩ := hknown
  unfold tokenRequest
  simp only [h1, h2, h3, h4, h5, Bool.not_true, Bool.false_eq_true, if_false, Option.isSome_some,
    Option.getD_some]

theorem spentMarkers_quiet (ns : Bytes) (ids : List TokenID) (p : RWOp → Bool)
    (hp : ∀ txID index, p (.deleteFabToken ns txID index) = false) :
    (ids.map (fun id => RWOp.deleteFabToken ns id.TxId (intOfIndex id.Index))).filter p = [] := by
  apply filter_eq_nil_of_all_false
  intro op hop
  obtain ⟨id, _, rfl⟩ := List.mem_map.mp hop
  exact hp _ _

/-- The write scan ends when more than `n` iterations are allowed and the read-write set
never holds more than `n` writes of the scanned namespace. -/
theorem scanWrites_total {env : ProcEnv} {tms : TMS} {metadata : Metadata} {ns txID : Bytes}
    {n : Nat} (hbound : ∀ history, env.NumWrites history ns ≤ n) :
    ∀ (fuel i : Nat) (log : List RWOp), n < fuel + i → 0 < fuel →
    ∃ result, scanWrites env tms metadata ns txID fuel i log = some result := by
  intro fuel
  induction fuel with
  | zero => intro i log _ h; exact absurd h (Nat.lt_irrefl 0)
  | succ fuel ih =>
    intro i log hn _
    unfold scanWrites
    by_cases hlt : i < env.NumWrites log ns
    · simp only [hlt, if_true]
      cases hstep : scanWrite env tms metadata ns txID i log with
      | mk log2 r =>
        cases r with
        | some outcome => exact ⟨_, rfl⟩
        | none =>
          have hi := hbound log
          exact ih (i + 1) log2 (by omega) (by omega)
    · simp only [hlt, if_false]
      exact ⟨_, rfl⟩

theorem scanWrites_upTo {env : ProcEnv} {tms : TMS} {metadata : Metadata} {ns txID : Bytes} :
    ∀ (k i : Nat) (log0 log : List RWOp),
    scanUpTo env tms metadata ns txID k i log0 = some log →
    ∀ fuel, scanWrites env tms metadata ns txID (k + fuel) i log0 =
      scanWrites env tms metadata ns txID fuel (i + k) log := by
  intro k
  induction k with
  | zero =>
    intro i log0 log h fuel
    simp only [scanUpTo, Option.some.injEq] at h
    subst h
    simp
  | succ k ih =>
    intro i log0 log h fuel
    unfold scanUpTo at h
    by_cases hlt : i < env.NumWrites log0 ns
    · simp only [hlt, if_true] at h
      cases hstep : scanWrite env tms metadata ns txID i log0 with
      | mk log1 r =>
        cases r with
        | some outcome => simp [hstep] at h
        | none =>
          simp only [hstep] at h
          have := ih (i + 1) log1 log h fuel
          rw [show k + 1 + fuel = (k + fuel) + 1 by omega, scanWrites]
          simp only [hlt, if_true, hstep]
          rw [this]
          congr 1
          omega
    · simp [hlt] at h

theorem scanUpTo_log {env : ProcEnv} {tms : TMS} {metadata : Metadata} {ns txID : Bytes} :
    ∀ (k i : Nat) (log0 log : List RWOp),
    scanUpTo env tms metadata ns txID k i log0 = some log →
    ∃ ops, log = log0 ++ ops ∧ ∀ op ∈ ops, ∀ j, op.readIndex = some j → j < i + k := by
  intro k
  induction k with
  | zero =>
    intro i log0 log h
    simp only [scanUpTo, Option.some.injEq] at h
    subst h
    exact ⟨[], by simp, by simp⟩
  | succ k ih =>
    intro i log0 log h
    unfold scanUpTo at h
    by_cases hlt : i < env.NumWrites log0 ns
    · simp only [hlt, if_true] at h
      cases hstep : scanWrite env tms metadata ns txID i log0 with
      | mk log1 r =>
        cases r with
        | some outcome => simp [hstep] at h
        | none =>
          simp only [hstep] at h
          obtain ⟨ops1, h1, h2⟩ := ih (i + 1) log1 log h
          cases hget : env.GetWriteAt log0 ns i with
          | error e =>
            rw [scanWrite_read_fails hget] at hstep
            simp at hstep
          | ok write =>
            obtain ⟨key, val⟩ := write
            obtain ⟨ops, h3, h4, _, _⟩ := scanWrite_spec hget hstep
            refine ⟨.getWriteAt ns i key val :: ops ++ ops1, by rw [h1, h3]; simp, ?_⟩
            intro op hop j hj
            rcases List.mem_append.mp hop with hop | hop
            · rcases List.mem_cons.mp hop with rfl | hop
              · simp only [RWOp.readIndex, Option.some.injEq] at hj
                omega
              · exfalso
                have hnr := recordsOf_no_read env tms metadata ns txID key val op (h4.subset hop)
                cases op <;> simp [RWOp.readIndex, RWOp.isRead] at hj hnr
            · have := h2 op hop j hj
              omega
    · simp [hlt] at h

theorem readIndex_of_not_read {op : RWOp} (h : op.isRead = false) : op.readIndex = none := by
  cases op <;> simp [RWOp.isRead] at h <;> rfl

theorem filterMap_readIndex_quiet {ops : List RWOp} (h : ∀ op ∈ ops, op.isRead = false) :
    ops.filterMap RWOp.readIndex = [] := by
  rw [List.filterMap_eq_nil_iff]
  intro op hop
  exact readIndex_of_not_read (h op hop)

/-- The history after `k` iterations that all went on: the writes at the positions `i` to
`i + k - 1` were read in order, each read returned what the read-write set answered at
that point for a position below its number of writes, and every read is followed by the
records of the write it returned. -/
theorem scanUpTo_spec {env : ProcEnv} {tms : TMS} {metadata : Metadata} {ns txID : Bytes} :
    ∀ (k i : Nat) (log0 log1 : List RWOp),
    scanUpTo env tms metadata ns txID k i log0 = some log1 →
    ∃ ops, log1 = log0 ++ ops ∧
      ops.filterMap RWOp.readIndex = List.range' i k ∧
      ops = (ops.filter RWOp.isRead).flatMap
        (fun rd => rd :: recordsOfRead env tms metadata ns txID rd) ∧
      (∀ pre rd post, ops = pre ++ rd :: post → rd.isRead = true →
        ∃ j key val, rd = .getWriteAt ns j key val ∧
          env.GetWriteAt (log0 ++ pre) ns j = .ok (key, val) ∧
          j < env.NumWrites (log0 ++ pre) ns) := by
  intro k
  induction k with
  | zero =>
    intro i log0 log1 h
    simp only [scanUpTo, Option.some.injEq] at h
    subst h
    refine ⟨[], by simp, by simp, by simp, ?_⟩
    intro pre rd post hsplit
    simp at hsplit
  | succ k ih =>
    intro i log0 log1 h
    unfold scanUpTo at h
    by_cases hlt : i < env.NumWrites log0 ns
    swap
    · simp [hlt] at h
    simp only [hlt, if_true] at h
    cases hstep : scanWrite env tms metadata ns txID i log0 with
    | mk log2 r =>
      cases r with
      | some outcome => simp [hstep] at h
      | none =>
        simp only [hstep] at h
        cases hget : env.GetWriteAt log0 ns i with
        | error e =>
          rw [scanWrite_read_fails hget] at hstep
          simp at hstep
        | ok write =>
          obtain ⟨key, val⟩ := write
          obtain ⟨opsw, h3, _, h5, _⟩ := scanWrite_spec hget hstep
          have hw := h5 rfl
          have hquiet : ∀ op ∈ opsw, op.isRead = false := by
            rw [hw]
            exact recordsOf_no_read env tms metadata ns txID key val
          obtain ⟨ops1, h6, h7, h8, h9⟩ := ih (i + 1) log2 log1 h
          refine ⟨.getWriteAt ns i key val :: opsw ++ ops1, by rw [h6, h3]; simp, ?_, ?_, ?_⟩
          · simp only [List.cons_append, List.filterMap_cons, RWOp.readIndex,
              List.filterMap_append, filterMap_readIndex_quiet hquiet, List.nil_append, h7]
            rfl
          · have hnr : opsw.filter RWOp.isRead = [] := filter_eq_nil_of_all_false hquiet
            simp only [List.cons_append, List.filter_cons, RWOp.isRead, if_true,
              List.filter_append, hnr, List.nil_append, List.flatMap_cons, recordsOfRead,
              List.cons.injEq, true_and]
            rw [← hw]
            exact congrArg (fun l => opsw ++ l) h8
          · intro pre rd post hsplit hrd
            cases pre with
            | nil =>
              simp only [List.nil_append, List.cons_append, List.cons.injEq] at hsplit
              exact ⟨i, key, val, hsplit.1.symm, by simpa using hget, by simpa using hlt⟩
            | cons first pre1 =>
              simp only [List.cons_append, List.cons.injEq] at hsplit
              obtain ⟨hfirst, hrest⟩ := hsplit
              rcases List.append_eq_append_iff.mp hrest with ⟨a, ha1, ha2⟩ | ⟨c, hc1, hc2⟩
              · obtain ⟨j, key1, val1, hj1, hj2, hj3⟩ := h9 a rd post ha2 hrd
                refine ⟨j, key1, val1, hj1, ?_, ?_⟩
                · rw [← hj2, h3, ha1, ← hfirst]; simp
                · have : log0 ++ first :: pre1 = log2 ++ a := by
                    rw [h3, ha1, ← hfirst]; simp
                  rw [this]; exact hj3
              · cases c with
                | nil =>
                  simp only [List.append_nil] at hc1
                  simp only [List.nil_append] at hc2
                  obtain ⟨j, key1, val1, hj1, hj2, hj3⟩ := h9 [] rd post hc2.symm hrd
                  have : log0 ++ first :: pre1 = log2 ++ [] := by
                    rw [h3, hc1, ← hfirst]; simp
                  exact ⟨j, key1, val1, hj1, by rw [this]; exact hj2, by rw [this]; exact hj3⟩
                | cons x rest =>
                  exfalso
                  simp only [List.cons_append, List.cons.injEq] at hc2
                  have hmem : rd ∈ opsw := by rw [hc1, ← hc2.1]; simp
                  have := hquiet rd hmem
                  rw [hrd] at this
                  exact absurd this (by simp)

/-- C8: for a committed transaction known to the node with its metadata, token-request
reconciliation scans every write of the namespace: when the iterations at the positions
`0` to `k - 1` each go on to the next write and the read-write set then holds no more
than `k` writes, the run returns nil as soon as more than `k` iterations are allowed, it
has read the positions `0` to `k - 1` in order (so every position of the final read-write
set), each read returned what the read-write set answered at that point, and every read
is followed by the records of the write it returned.  Among these the mine index entry
(`SetState` of the mine key of (txID, output index) to `[1]`) and the plaintext shadow
record (`storeFabToken`) are written exactly for the output writes that open to a token
whose owner matches a local owner wallet, in order.  Any run that returns nil has that
form.  Step by step: an iteration on such a write that goes on to the next write made
exactly these two calls among the mine and shadow calls, and an iteration on any other
write makes none, however it ends. -/
theorem mine_records_for_owned_outputs (env : ProcEnv) (tx : ProcessTransaction) (ns : Bytes)
    (metadata : Metadata) (hknown : KnownWithMetadata env tx ns metadata) :
    (∀ k fuel log log0 log1,
      (if (env.GetManagementService tx.Network tx.Channel ns).GraphHiding then
        deleteInputs env ns metadata.SpentTokenID log else (log, none)) = (log0, none) →
      scanUpTo env (env.GetManagementService tx.Network tx.Channel ns) metadata ns tx.ID
        k 0 log0 = some log1 →
      ¬ k < env.NumWrites log1 ns → k < fuel →
      tokenRequest env fuel tx ns log = some (log1, .ok) ∧
      ∃ ops, log1 = log0 ++ ops ∧
        ops.filterMap RWOp.readIndex = List.range k ∧
        (∀ i, i < env.NumWrites log1 ns → i ∈ ops.filterMap RWOp.readIndex) ∧
        (∀ pre rd post, ops = pre ++ rd :: post → rd.isRead = true →
          ∃ j key val, rd = .getWriteAt ns j key val ∧
            env.GetWriteAt (log0 ++ pre) ns j = .ok (key, val) ∧
            j < env.NumWrites (log0 ++ pre) ns) ∧
        ops = (ops.filter RWOp.isRead).flatMap
          (fun rd => rd :: recordsOfRead env
            (env.GetManagementService tx.Network tx.Channel ns) metadata ns tx.ID rd) ∧
        ops.filter RWOp.isOwnedRecord =
          (ops.filter RWOp.isRead).flatMap
            (ownedRecordsOfRead env (env.GetManagementService tx.Network tx.Channel ns)
              metadata ns tx.ID)) ∧
    (∀ fuel log log1, tokenRequest env fuel tx ns log = some (log1, .ok) →
      ∃ ops, log1 = log ++ ops ∧
        ops.filter RWOp.isOwnedRecord =
          (ops.filter RWOp.isRead).flatMap
            (ownedRecordsOfRead env (env.GetManagementService tx.Network tx.Channel ns)
              metadata ns tx.ID)) ∧
    (∀ i log log1 key val index tok issuer tokenInfoRaw,
      env.GetWriteAt log ns i = .ok (key, val) →
      opensTo env metadata tx.ID key val = some (index, tok, issuer, tokenInfoRaw) →
      (env.GetManagementService tx.Network tx.Channel ns).OwnerWalletByIdentity tok.Owner = true →
      scanWrite env (env.GetManagementService tx.Network tx.Channel ns) metadata ns tx.ID i log =
        (log1, none) →
      ∃ mineTokenID ops, env.keys.CreateTokenMineKey tx.ID index = .ok mineTokenID ∧
        log1 = log ++ .getWriteAt ns i key val :: ops ∧
        ops.filter RWOp.isOwnedRecord =
          [.setState ns mineTokenID [1], .storeFabToken ns tx.ID index tok tokenInfoRaw]) ∧
    (∀ i log log1 r key val,
      env.GetWriteAt log ns i = .ok (key, val) →
      (∀ index tok issuer tokenInfoRaw,
        opensTo env metadata tx.ID key val = some (index, tok, issuer, tokenInfoRaw) →
        (env.GetManagementService tx.Network tx.Channel ns).OwnerWalletByIdentity tok.Owner =
          false) →
      scanWrite env (env.GetManagementService tx.Network tx.Channel ns) metadata ns tx.ID i log =
        (log1, r) →
      ∃ ops, log1 = log ++ .getWriteAt ns i key val :: ops ∧
        ops.filter RWOp.isOwnedRecord = []) := by
  refine ⟨?_, ?_, ?_, ?_⟩
  · intro k fuel log log0 log1 hdel hup hdone hfuel
    refine ⟨?_, ?_⟩
    · obtain ⟨rest, hrest⟩ : ∃ rest, fuel = k + (rest + 1) := ⟨fuel - k - 1, by omega⟩
      subst hrest
      rw [tokenRequest_known hknown, hdel]
      show scanWrites env (env.GetManagementService tx.Network tx.Channel ns) metadata ns tx.ID
        (k + (rest + 1)) 0 log0 = some (log1, .ok)
      rw [scanWrites_upTo k 0 log0 log1 hup (rest + 1), scanWrites]
      simp only [Nat.zero_add, hdone, if_false]
    · obtain ⟨ops, h1, h2, h3, h4⟩ := scanUpTo_spec k 0 log0 log1 hup
      have hrange : ops.filterMap RWOp.readIndex = List.range k := by
        rw [h2, List.range_eq_range']
      refine ⟨ops, h1, hrange, ?_, h4, h3, ?_⟩
      · intro i hi
        rw [hrange, List.mem_range]
        omega
      · have hb := filter_owned_blocks env (env.GetManagementService tx.Network tx.Channel ns)
          metadata ns tx.ID (ops.filter RWOp.isRead)
          (fun rd hrd => (List.mem_filter.mp hrd).2)
        rw [← h3] at hb
        exact hb
  · intro fuel log log1 h
    rw [tokenRequest_known hknown] at h
    have hscan : ∀ log0 ops0, log0 = log ++ ops0 →
        ops0.filter RWOp.isOwnedRecord = [] → ops0.filter RWOp.isRead = [] →
        scanWrites env (env.GetManagementService tx.Network tx.Channel ns) metadata ns tx.ID
          fuel 0 log0 = some (log1, .ok) →
        ∃ ops, log1 = log ++ ops ∧
          ops.filter RWOp.isOwnedRecord =
            (ops.filter RWOp.isRead).flatMap
              (ownedRecordsOfRead env (env.GetManagementService tx.Network tx.Channel ns)
                metadata ns tx.ID) := by
      intro log0 ops0 hlog0 hq1 hq2 hs
      obtain ⟨ops, h1, h2⟩ := scanWrites_ok _ _ _ _ hs
      refine ⟨ops0 ++ ops, by simp [h1, hlog0], ?_⟩
      simp only [List.filter_append, hq1, hq2, List.nil_append]
      have hb := filter_owned_blocks env (env.GetManagementService tx.Network tx.Channel ns)
        metadata ns tx.ID (ops.filter RWOp.isRead)
        (fun rd hrd => (List.mem_filter.mp hrd).2)
      rw [← h2] at hb
      exact hb
    by_cases hgh : (env.GetManagementService tx.Network tx.Channel ns).GraphHiding = true
    · simp only [hgh, if_true] at h
      cases hdel : deleteInputs env ns metadata.SpentTokenID log with
      | mk log0 r0 =>
        cases r0 with
        | some e => simp [hdel] at h
        | none =>
          simp only [hdel] at h
          obtain ⟨k, _, h1, _, _⟩ := deleteInputs_spec _ hdel
          exact hscan log0 _ h1
            (spentMarkers_quiet ns _ _ (fun _ _ => rfl))
            (spentMarkers_quiet ns _ _ (fun _ _ => rfl)) h
    · simp only [hgh, Bool.false_eq_true, if_false] at h
      exact hscan log [] (by simp) rfl rfl h
  · intro i log log1 key val index tok issuer tokenInfoRaw hget hopen hown hstep
    obtain ⟨ops, h1, _, h3, _⟩ := scanWrite_spec hget hstep
    have hops := h3 rfl
    have hfilter := recordsOf_filter_owned env
      (env.GetManagementService tx.Network tx.Channel ns) metadata ns tx.ID key val
    rw [← hops] at hfilter
    unfold ownedRecords at hfilter
    simp only [hopen, hown, if_true] at hfilter
    rw [scanWrite_opens hget hopen] at hstep
    obtain ⟨_, _, _, _, _, h5⟩ := storeToken_spec hstep
    obtain ⟨mineTokenID, hkey⟩ := h5 rfl hown
    simp only [hkey] at hfilter
    exact ⟨mineTokenID, ops, hkey, h1, hfilter⟩
  · intro i log log1 r key val hget hnot hstep
    obtain ⟨ops, h1, h2, _, _⟩ := scanWrite_spec hget hstep
    refine ⟨ops, h1, ?_⟩
    have hfilter := recordsOf_filter_owned env
      (env.GetManagementService tx.Network tx.Channel ns) metadata ns tx.ID key val
    have hnone : ownedRecords env (env.GetManagementService tx.Network tx.Channel ns) metadata
        ns tx.ID key val = [] := by
      unfold ownedRecords
      cases ho : opensTo env metadata tx.ID key val with
      | none => rfl
      | some q =>
        obtain ⟨index, tok, issuer, tokenInfoRaw⟩ := q
        simp [hnot index tok issuer tokenInfoRaw ho]
    rw [hnone] at hfilter
    obtain ⟨rest, hrest⟩ := h2
    have : (ops ++ rest).filter RWOp.isOwnedRecord = [] := by rw [hrest]; exact hfilter
    rw [List.filter_append] at this
    exact (List.append_eq_nil.mp this).1

theorem exProcEnv_known (graphHiding : Bool) :
    KnownWithMetadata (exProcEnv graphHiding) exProcessTransaction (str "zkat") exMetadata :=
  ⟨_, _, [1], rfl, by decide, rfl, by decide, rfl⟩

theorem mine_records_for_owned_outputs_witness :
    tokenRequest (exProcEnv false) 20 exProcessTransaction (str "zkat") [] =
      some (exScanLog, .ok) ∧
    exScanLog.filterMap RWOp.readIndex = List.range 10 ∧
    exScanLog.filter RWOp.isOwnedRecord =
      [.setState (str "zkat")
          (exCompositeKey [str "ztoken", str "mine", str "tx1", str "0"]) [1],
        .storeFabToken (str "zkat") (str "tx1") 0 exTokenMine [20]] :=
  match (mine_records_for_owned_outputs (exProcEnv false) exProcessTransaction (str "zkat")
      exMetadata (exProcEnv_known false)).1 10 20 [] [] exScanLog rfl (by decide) (by decide)
      (by decide) with
  | ⟨hrun, ops, hlog, hreads, _, _, _, _⟩ =>
    ⟨hrun, by rw [hlog]; exact hreads, by decide⟩

/-! ## Outputs owned by other parties -/

theorem mem_recordsOf_audit {env : ProcEnv} {tms : TMS} {metadata : Metadata}
    {ns txID key val ns1 txID1 : Bytes} {index : Int} {tok : Token} {tokenInfoRaw : Bytes}
    (h : RWOp.storeAuditToken ns1 txID1 index tok tokenInfoRaw ∈
      recordsOf env tms metadata ns txID key val) :
    ∃ issuer, opensTo env metadata txID key val = some (index, tok, issuer, tokenInfoRaw) ∧
      tms.OwnerWalletByIdentity tok.Owner = false ∧ ns1 = ns ∧ txID1 = txID := by
  unfold recordsOf at h
  cases hk : outputKey env key with
  | none => simp [hk] at h
  | some p =>
    obtain ⟨c0, index0⟩ := p
    simp only [hk] at h
    by_cases hval : val = []
    · simp [hval] at h
    · simp only [hval, if_false] at h
      cases ho : opensTo env metadata txID key val with
      | none => simp [ho] at h
      | some q =>
        obtain ⟨index1, tok1, issuer1, info1⟩ := q
        simp only [ho, tokenRecords] at h
        cases hown : tms.OwnerWalletByIdentity tok1.Owner with
        | true =>
          exfalso
          cases hkey : env.keys.CreateTokenMineKey txID index1 <;>
            cases hiss : (!IsNone issuer1 && tms.IssuerWalletByIdentity issuer1) <;>
            simp [hown, hkey, hiss] at h
        | false =>
          cases hiss : (!IsNone issuer1 && tms.IssuerWalletByIdentity issuer1) <;>
            simp [hown, hiss] at h <;>
            (obtain ⟨h1, h2, h3, h4, h5⟩ := h
             subst h1 h2 h3 h4 h5
             exact ⟨issuer1, rfl, hown, rfl, rfl⟩)

theorem recordsOf_not_open {env : ProcEnv} {tms : TMS} {metadata : Metadata}
    {ns txID key val : Bytes} (ho : opensTo env metadata txID key val = none) :
    (recordsOf env tms metadata ns txID key val).filter RWOp.isRecord = [] := by
  unfold recordsOf
  cases hk : outputKey env key with
  | none => simp
  | some p =>
    obtain ⟨c0, index0⟩ := p
    by_cases hval : val = []
    · simp [hval, RWOp.isRecord]
    · simp [hval, ho]

/-- What the write scan does on an output write that opens to a token whose owner matches
no local owner wallet and whose issuer is none or matches no local issuer wallet: it
makes exactly one writing call, the plaintext audit record, without consulting the role
of the node.  It writes no record for a write that does not open to a token, and it
writes a plaintext audit record only for an output write that opens to a token whose
owner matches no local owner wallet. -/
theorem unrelated_output_records (env : ProcEnv) (tms : TMS) (metadata : Metadata)
    (ns txID : Bytes) :
    (∀ i log key val index tok issuer tokenInfoRaw,
      env.GetWriteAt log ns i = .ok (key, val) →
      opensTo env metadata txID key val = some (index, tok, issuer, tokenInfoRaw) →
      tms.OwnerWalletByIdentity tok.Owner = false →
      (IsNone issuer = true ∨ tms.IssuerWalletByIdentity issuer = false) →
      scanWrite env tms metadata ns txID i log =
        (log ++ [.getWriteAt ns i key val, .storeAuditToken ns txID index tok tokenInfoRaw],
          (env.Perform (log ++ [.getWriteAt ns i key val])
            (.storeAuditToken ns txID index tok tokenInfoRaw)).map Outcome.fail)) ∧
    (∀ i log log1 r key val,
      env.GetWriteAt log ns i = .ok (key, val) →
      opensTo env metadata txID key val = none →
      scanWrite env tms metadata ns txID i log = (log1, r) →
      ∃ ops, log1 = log ++ .getWriteAt ns i key val :: ops ∧ ops.filter RWOp.isRecord = []) ∧
    (∀ i log log1 r ns1 txID1 index tok tokenInfoRaw,
      scanWrite env tms metadata ns txID i log = (log1, r) →
      RWOp.storeAuditToken ns1 txID1 index tok tokenInfoRaw ∈ log1.drop log.length →
      ∃ key val issuer, env.GetWriteAt log ns i = .ok (key, val) ∧
        opensTo env metadata txID key val = some (index, tok, issuer, tokenInfoRaw) ∧
        tms.OwnerWalletByIdentity tok.Owner = false) := by
  refine ⟨?_, ?_, ?_⟩
  · intro i log key val index tok issuer tokenInfoRaw hget hopen hown hiss
    rw [scanWrite_opens hget hopen]
    have hiss1 : (!IsNone issuer && tms.IssuerWalletByIdentity issuer) = false := by
      rcases hiss with h | h <;> simp [h]
    unfold storeToken
    simp only [hown, Bool.false_eq_true, if_false, perform, hiss1]
    cases hP : env.Perform (log ++ [.getWriteAt ns i key val])
        (.storeAuditToken ns txID index tok tokenInfoRaw) <;> simp
  · intro i log log1 r key val hget hopen hstep
    obtain ⟨ops, h1, h2, _, _⟩ := scanWrite_spec hget hstep
    refine ⟨ops, h1, ?_⟩
    obtain ⟨rest, hrest⟩ := h2
    have : (ops ++ rest).filter RWOp.isRecord = [] := by
      rw [hrest]; exact recordsOf_not_open hopen
    rw [List.filter_append] at this
    exact (List.append_eq_nil.mp this).1
  · intro i log log1 r ns1 txID1 index tok tokenInfoRaw hstep hmem
    cases hget : env.GetWriteAt log ns i with
    | error e =>
      rw [scanWrite_read_fails hget] at hstep
      simp only [Prod.mk.injEq] at hstep
      rw [← hstep.1] at hmem
      simp at hmem
    | ok write =>
      obtain ⟨key, val⟩ := write
      obtain ⟨ops, h1, h2, _, _⟩ := scanWrite_spec hget hstep
      rw [h1] at hmem
      simp only [List.drop_left, List.mem_cons, reduceCtorEq, false_or] at hmem
      obtain ⟨issuer, ho, hown, _, _⟩ := mem_recordsOf_audit (h2.subset hmem)
      exact ⟨key, val, issuer, rfl, ho, hown⟩

theorem unrelated_output_records_witness :
    scanWrite (exProcEnv false) exTMS exMetadata (str "zkat") (str "tx1") 1 [] =
      ([] ++ [.getWriteAt (str "zkat") 1 (exOutputKey "1") [11],
          .storeAuditToken (str "zkat") (str "tx1") 1 exTokenOther [21]],
        ((exProcEnv false).Perform ([] ++ [.getWriteAt (str "zkat") 1 (exOutputKey "1") [11]])
          (.storeAuditToken (str "zkat") (str "tx1") 1 exTokenOther [21])).map Outcome.fail) :=
  (unrelated_output_records (exProcEnv false) exTMS exMetadata (str "zkat") (str "tx1")).1
    1 [] (exOutputKey "1") [11] 1 exTokenOther [] [21] rfl (by decide) rfl (Or.inl rfl)

/-- C9: the code diverges from the claim.  The example node holds the owner `[2]` and
the issuer `[1]` and does not hold the auditor role; it knows the transaction `tx1` with
its metadata.  Output 1 of `tx1` opens to a token owned by `[3]`, which matches no local
owner wallet, with no issuer: an output owned by an unrelated party, for which the claim
says no record is written.  The write scan takes the branch meant for the auditor and
calls `storeAuditToken` for it, and the whole reconciliation returns nil with that
plaintext audit record written. -/
theorem unrelated_output_divergence :
    (exProcEnv false).Auditor = false ∧
    (exProcEnv false).GetWriteAt [] (str "zkat") 1 = .ok (exOutputKey "1", [11]) ∧
    opensTo (exProcEnv false) exMetadata (str "tx1") (exOutputKey "1") [11] =
      some (1, exTokenOther, [], [21]) ∧
    exTMS.OwnerWalletByIdentity exTokenOther.Owner = false ∧
    IsNone ([] : Identity) = true ∧
    scanWrite (exProcEnv false) exTMS exMetadata (str "zkat") (str "tx1") 1 [] =
      ([.getWriteAt (str "zkat") 1 (exOutputKey "1") [11],
        .storeAuditToken (str "zkat") (str "tx1") 1 exTokenOther [21]], none) ∧
    (tokenRequest (exProcEnv false) 20 exProcessTransaction (str "zkat") []).map
        (fun result => (result.2, result.1.filter RWOp.isRecord)) =
      some (.ok,
        [.setState (str "zkat")
            (exCompositeKey [str "ztoken", str "mine", str "tx1", str "0"]) [1],
          .storeFabToken (str "zkat") (str "tx1") 0 exTokenMine [20],
          .storeIssuedHistoryToken (str "zkat") (str "tx1") 0 exTokenMine [20] [1],
          .storeAuditToken (str "zkat") (str "tx1") 1 exTokenOther [21]]) := by
  refine ⟨rfl, rfl, by decide, rfl, rfl, by decide, by decide⟩

/-! ## Deletion markers of the spent inputs -/

theorem scanWrite_spent (env : ProcEnv) (tms : TMS) (metadata : Metadata) (spent : List TokenID)
    (ns txID : Bytes) (i : Nat) (log : List RWOp) :
    scanWrite env tms { metadata with SpentTokenID := spent } ns txID i log =
      scanWrite env tms metadata ns txID i log := rfl

theorem scanWrites_spent (env : ProcEnv) (tms : TMS) (metadata : Metadata)
    (spent : List TokenID) (ns txID : Bytes) :
    ∀ (fuel i : Nat) (log : List RWOp),
    scanWrites env tms { metadata with SpentTokenID := spent } ns txID fuel i log =
      scanWrites env tms metadata ns txID fuel i log := by
  intro fuel
  induction fuel with
  | zero => intro i log; rfl
  | succ fuel ih =>
    intro i log
    unfold scanWrites
    simp only [scanWrite_spent, ih]

theorem deleteInputs_total {env : ProcEnv} {ns : Bytes}
    (hperform : ∀ history txID index, env.Perform history (.deleteFabToken ns txID index) = none)
    (ids : List TokenID) :
    ∀ log, deleteInputs env ns ids log =
      (log ++ ids.map (fun id => RWOp.deleteFabToken ns id.TxId (intOfIndex id.Index)), none) := by
  induction ids with
  | nil => intro log; simp [deleteInputs]
  | cons id rest ih =>
    intro log
    unfold deleteInputs
    simp only [perform, hperform, ih, List.map_cons, List.append_assoc, List.singleton_append]

/-- C10: when the public parameters declare graph hiding, token-request reconciliation of
a transaction known with its metadata calls `deleteFabToken` once for each id of the
spent-token list of the metadata, with the `TxId` and the index of that id, in list
order, before it scans the writes (a call that returns an error ends the function with
that error, the ids before it having had their call); when graph hiding is not declared
the run is the write scan alone and does not depend on the spent-token list. -/
theorem graph_hiding_deletion_markers (env : ProcEnv) (tx : ProcessTransaction) (ns : Bytes)
    (metadata : Metadata) (hknown : KnownWithMetadata env tx ns metadata) (fuel : Nat)
    (log : List RWOp) :
    ((env.GetManagementService tx.Network tx.Channel ns).GraphHiding = true →
      (∃ k, k ≤ metadata.SpentTokenID.length ∧
        (deleteInputs env ns metadata.SpentTokenID log).1 =
          log ++ (spentMarkers ns metadata).take k) ∧
      ((∀ history txID index,
          env.Perform history (.deleteFabToken ns txID index) = none) →
        deleteInputs env ns metadata.SpentTokenID log =
          (log ++ spentMarkers ns metadata, none)) ∧
      (∀ log1, deleteInputs env ns metadata.SpentTokenID log = (log1, none) →
        log1 = log ++ spentMarkers ns metadata ∧
        tokenRequest env fuel tx ns log =
          scanWrites env (env.GetManagementService tx.Network tx.Channel ns) metadata ns tx.ID
            fuel 0 (log ++ spentMarkers ns metadata)) ∧
      (∀ log1 e, deleteInputs env ns metadata.SpentTokenID log = (log1, some e) →
        tokenRequest env fuel tx ns log = some (log1, .fail e)) ∧
      (∀ log1, tokenRequest env fuel tx ns log = some (log1, .ok) →
        ∃ ops, log1 = log ++ spentMarkers ns metadata ++ ops ∧
          ops = (ops.filter RWOp.isRead).flatMap (fun rd => rd ::
            recordsOfRead env (env.GetManagementService tx.Network tx.Channel ns) metadata ns
              tx.ID rd))) ∧
    ((env.GetManagementService tx.Network tx.Channel ns).GraphHiding = false →
      tokenRequest env fuel tx ns log =
        scanWrites env (env.GetManagementService tx.Network tx.Channel ns)
          { metadata with SpentTokenID := [] } ns tx.ID fuel 0 log ∧
      (∀ log1, tokenRequest env fuel tx ns log = some (log1, .ok) →
        ∃ ops, log1 = log ++ ops ∧
          ops = (ops.filter RWOp.isRead).flatMap (fun rd => rd ::
            recordsOfRead env (env.GetManagementService tx.Network tx.Channel ns) metadata ns
              tx.ID rd))) ∧
    (∀ id : TokenID, id.Index < 2 ^ 63 → intOfIndex id.Index = Int.ofNat id.Index) := by
  refine ⟨?_, ?_, ?_⟩
  · intro hgh
    have hdone : ∀ log1, deleteInputs env ns metadata.SpentTokenID log = (log1, none) →
        log1 = log ++ spentMarkers ns metadata ∧
        tokenRequest env fuel tx ns log =
          scanWrites env (env.GetManagementService tx.Network tx.Channel ns) metadata ns tx.ID
            fuel 0 (log ++ spentMarkers ns metadata) := by
      intro log1 hdel
      obtain ⟨k, _, h1, h2, _⟩ := deleteInputs_spec _ hdel
      have hk := h2 rfl
      subst hk
      rw [List.take_length] at h1
      refine ⟨h1, ?_⟩
      rw [tokenRequest_known hknown]
      simp only [hgh, if_true, hdel]
      rw [h1]
      rfl
    have hfail : ∀ log1 e, deleteInputs env ns metadata.SpentTokenID log = (log1, some e) →
        tokenRequest env fuel tx ns log = some (log1, .fail e) := by
      intro log1 e hdel
      rw [tokenRequest_known hknown]
      simp only [hgh, if_true, hdel]
    refine ⟨?_, ?_, hdone, hfail, ?_⟩
    · have hrun : deleteInputs env ns metadata.SpentTokenID log =
          ((deleteInputs env ns metadata.SpentTokenID log).1,
            (deleteInputs env ns metadata.SpentTokenID log).2) := rfl
      obtain ⟨k, hk, h1, _, _⟩ := deleteInputs_spec _ hrun
      exact ⟨k, hk, by rw [h1, spentMarkers, List.map_take]⟩
    · intro hperform
      exact deleteInputs_total hperform _ _
    · intro log1 h
      cases hdel : deleteInputs env ns metadata.SpentTokenID log with
      | mk log0 r0 =>
        cases r0 with
        | some e =>
          rw [hfail log0 e hdel] at h
          simp at h
        | none =>
          obtain ⟨h1, h2⟩ := hdone log0 hdel
          rw [h2] at h
          obtain ⟨ops, h3, h4⟩ := scanWrites_ok _ _ _ _ h
          exact ⟨ops, h3, h4⟩
  · intro hgh
    have heq : tokenRequest env fuel tx ns log =
        scanWrites env (env.GetManagementService tx.Network tx.Channel ns) metadata ns tx.ID
          fuel 0 log := by
      rw [tokenRequest_known hknown]
      simp only [hgh, Bool.false_eq_true, if_false]
    refine ⟨by rw [heq]; exact (scanWrites_spent _ _ _ _ _ _ _ _ _).symm, ?_⟩
    intro log1 h
    rw [heq] at h
    exact scanWrites_ok _ _ _ _ h
  · intro id hid
    unfold intOfIndex
    have h1 : id.Index % 2 ^ 64 = id.Index := Nat.mod_eq_of_lt (by omega)
    rw [h1, if_pos hid]

theorem graph_hiding_deletion_markers_witness :
    deleteInputs (exProcEnv true) (str "zkat") exMetadata.SpentTokenID [] =
      ([] ++ spentMarkers (str "zkat") exMetadata, none) ∧
    spentMarkers (str "zkat") exMetadata =
      [.deleteFabToken (str "zkat") (str "tx0") 0, .deleteFabToken (str "zkat") (str "tx0") 1] :=
  ⟨((graph_hiding_deletion_markers (exProcEnv true) exProcessTransaction (str "zkat")
      exMetadata (exProcEnv_known true) 20 []).1 rfl).2.1 (fun _ _ _ => rfl), by decide⟩
/-! ## The responder: how many signature requests it waits for -/

theorem sendersLoop_local (env : ResponderEnv) (transfer : Transfer) (senders : List Identity) :
    ∀ res : List Transfer,
      senders.foldl
          (fun res sender =>
            if (env.OwnerWalletByIdentity sender).isSome then res ++ [transfer] else res) res =
        res ++ (senders.filter (fun sender => (env.OwnerWalletByIdentity sender).isSome)).map
          (fun _ => transfer) := by
  induction senders with
  | nil => intro res; simp
  | cons sender rest ih =>
    intro res
    simp only [List.foldl_cons, ih]
    cases h : (env.OwnerWalletByIdentity sender).isSome <;> simp [List.filter_cons, h]

theorem requestsToBeSigned_eq (env : ResponderEnv) (tx : Transaction) :
    endorseView.requestsToBeSigned env tx =
      .ok (tx.Transfers.flatMap
        (fun transfer => (localSenders env transfer).map (fun _ => transfer))) := by
  unfold endorseView.requestsToBeSigned
  congr 1
  have key : ∀ (transfers : List Transfer) (res : List Transfer),
      transfers.foldl
          (fun res transfer =>
            transfer.Senders.foldl
              (fun res sender =>
                if (env.OwnerWalletByIdentity sender).isSome then res ++ [transfer] else res)
              res) res =
        res ++ transfers.flatMap
          (fun transfer => (localSenders env transfer).map (fun _ => transfer)) := by
    intro transfers
    induction transfers with
    | nil => intro res; simp
    | cons transfer rest ih =>
      intro res
      rw [List.foldl_cons, sendersLoop_local, ih]
      simp [localSenders, List.flatMap_cons]
  simpa using key tx.Transfers []

theorem requestsToBeSigned_length (env : ResponderEnv) (tx : Transaction) :
    ∃ res, endorseView.requestsToBeSigned env tx = .ok res ∧
      res.length = (tx.Transfers.map (fun transfer => (localSenders env transfer).length)).sum := by
  refine ⟨_, requestsToBeSigned_eq env tx, ?_⟩
  induction tx.Transfers with
  | nil => rfl
  | cons transfer rest ih =>
    simp only [List.flatMap_cons, List.length_append, List.length_map, List.map_cons,
      List.sum_cons, ih]

theorem signRequest_not_me {env : ResponderEnv} {trace : List REvent} {msg : Message}
    {sr : signatureRequest} (hrecv : env.Receive trace 60 = some msg)
    (hstatus : msg.Status ≠ .ERROR) (hsr : env.Unmarshal msg.Payload = .ok sr)
    (hme : env.IsMe sr.Signer = false) :
    endorseView.signRequest env trace =
      (some (.errorf "identity [%s] is not me" [env.UniqueID sr.Signer]),
        trace ++ [.receive 60]) := by
  unfold endorseView.signRequest
  simp [hrecv, hstatus, hsr, hme]

theorem signRequest_spec {env : ResponderEnv} {trace trace1 : List REvent} {r : Option Error}
    (h : endorseView.signRequest env trace = (r, trace1)) :
    ∃ evs, trace1 = trace ++ .receive 60 :: evs ∧
      (∀ ev ∈ evs, ev.isRequestWait = false ∧ ev.isCommit = false) ∧
      (r = none → ∃ msg sr signer sigma, env.Receive trace 60 = some msg ∧
        msg.Status ≠ .ERROR ∧ env.Unmarshal msg.Payload = .ok sr ∧
        env.IsMe sr.Signer = true ∧ env.GetSigner sr.Signer = .ok signer ∧
        signer sr.MessageToSign = .ok sigma ∧
        evs = [.getSigner sr.Signer, .sign sr.Signer sr.MessageToSign, .send sigma]) ∧
      (∀ ev ∈ evs, ev.isSignOrSend = true →
        ∃ msg sr, env.Receive trace 60 = some msg ∧ msg.Status ≠ .ERROR ∧
          env.Unmarshal msg.Payload = .ok sr ∧ env.IsMe sr.Signer = true ∧
          (ev = .sign sr.Signer sr.MessageToSign ∨
            ∃ signer sigma, env.GetSigner sr.Signer = .ok signer ∧
              signer sr.MessageToSign = .ok sigma ∧ ev = .send sigma)) := by
  unfold endorseView.signRequest at h
  cases hrecv : env.Receive trace 60 with
  | none =>
    simp only [hrecv, Prod.mk.injEq] at h
    obtain ⟨h1, h2⟩ := h
    subst h1 h2
    exact ⟨[], rfl, by simp, by simp, by simp⟩
  | some msg =>
    simp only [hrecv] at h
    by_cases hstatus : msg.Status = .ERROR
    · simp only [hstatus, if_true, Prod.mk.injEq] at h
      obtain ⟨h1, h2⟩ := h
      subst h1 h2
      exact ⟨[], rfl, by simp, by simp, by simp⟩
    · simp only [hstatus, if_false] at h
      cases hsr : env.Unmarshal msg.Payload with
      | error e =>
        simp only [hsr, Prod.mk.injEq] at h
        obtain ⟨h1, h2⟩ := h
        subst h1 h2
        exact ⟨[], rfl, by simp, by simp, by simp⟩
      | ok sr =>
        simp only [hsr] at h
        cases hme : env.IsMe sr.Signer with
        | false =>
          simp only [hme, Bool.not_false, if_true, Prod.mk.injEq] at h
          obtain ⟨h1, h2⟩ := h
          subst h1 h2
          exact ⟨[], rfl, by simp, by simp, by simp⟩
        | true =>
          simp only [hme, Bool.not_true, Bool.false_eq_true, if_false] at h
          cases hsigner : env.GetSigner sr.Signer with
          | error e =>
            simp only [hsigner, Prod.mk.injEq] at h
            obtain ⟨h1, h2⟩ := h
            subst h1 h2
            exact ⟨[.getSigner sr.Signer], by simp,
              by simp [REvent.isRequestWait, REvent.isCommit], by simp,
              by simp [REvent.isSignOrSend]⟩
          | ok signer =>
            simp only [hsigner] at h
            cases hsign : signer sr.MessageToSign with
            | error e =>
              simp only [hsign, Prod.mk.injEq] at h
              obtain ⟨h1, h2⟩ := h
              subst h1 h2
              refine ⟨[.getSigner sr.Signer, .sign sr.Signer sr.MessageToSign], by simp,
                by simp [REvent.isRequestWait, REvent.isCommit], by simp, ?_⟩
              intro ev hev hss
              simp only [List.mem_cons, List.mem_singleton, List.not_mem_nil, or_false] at hev
              rcases hev with rfl | rfl
              · simp [REvent.isSignOrSend] at hss
              · exact ⟨msg, sr, rfl, hstatus, hsr, hme, Or.inl rfl⟩
            | ok sigma =>
              simp only [hsign] at h
              have hres : trace1 = trace ++ .receive 60 ::
                  [.getSigner sr.Signer, .sign sr.Signer sr.MessageToSign, .send sigma] := by
                cases hsend : env.Send
                    (trace ++ [.receive 60] ++ [.getSigner sr.Signer] ++
                      [.sign sr.Signer sr.MessageToSign]) sigma <;>
                  simp only [hsend, Prod.mk.injEq] at h <;> rw [← h.2] <;> simp
              refine ⟨_, hres, by simp [REvent.isRequestWait, REvent.isCommit], ?_, ?_⟩
              · intro _
                exact ⟨msg, sr, signer, sigma, rfl, hstatus, hsr, hme, hsigner, hsign, rfl⟩
              · intro ev hev hss
                simp only [List.mem_cons, List.mem_singleton, List.not_mem_nil, or_false] at hev
                rcases hev with rfl | rfl | rfl
                · simp [REvent.isSignOrSend] at hss
                · exact ⟨msg, sr, rfl, hstatus, hsr, hme, Or.inl rfl⟩
                · exact ⟨msg, sr, rfl, hstatus, hsr, hme, Or.inr ⟨signer, sigma, hsigner, hsign, rfl⟩⟩

theorem requestsAwaited_append (a b : List REvent) :
    requestsAwaited (a ++ b) = requestsAwaited a + requestsAwaited b := by
  simp [requestsAwaited]

theorem requestsAwaited_quiet {evs : List REvent} (h : ∀ ev ∈ evs, ev.isRequestWait = false) :
    requestsAwaited evs = 0 := by
  unfold requestsAwaited
  rw [List.length_eq_zero, List.filter_eq_nil_iff]
  intro ev hev
  simp [h ev hev]

theorem signRequests_spec {env : ResponderEnv} (requests : List Transfer) :
    ∀ {trace trace1 : List REvent} {r : Option Error},
      endorseView.signRequests env requests trace = (r, trace1) →
      ∃ evs, trace1 = trace ++ evs ∧ (∀ ev ∈ evs, ev.isCommit = false) ∧
        requestsAwaited evs ≤ requests.length ∧
        (r = none → requestsAwaited evs = requests.length) := by
  induction requests with
  | nil =>
    intro trace trace1 r h
    simp only [endorseView.signRequests, Prod.mk.injEq] at h
    obtain ⟨h1, h2⟩ := h
    subst h1 h2
    exact ⟨[], by simp, by simp, by simp [requestsAwaited], by simp [requestsAwaited]⟩
  | cons request rest ih =>
    intro trace trace1 r h
    unfold endorseView.signRequests at h
    cases hstep : endorseView.signRequest env trace with
    | mk r2 trace2 =>
      obtain ⟨evs, h1, h2, _, _⟩ := signRequest_spec hstep
      have hone : requestsAwaited (REvent.receive 60 :: evs) = 1 := by
        have := requestsAwaited_append [REvent.receive 60] evs
        rw [requestsAwaited_quiet (fun ev hev => (h2 ev hev).1)] at this
        simpa [requestsAwaited, REvent.isRequestWait] using this
      have hquiet : ∀ ev ∈ REvent.receive 60 :: evs, ev.isCommit = false := by
        intro ev hev
        rcases List.mem_cons.mp hev with rfl | hev
        · rfl
        · exact (h2 ev hev).2
      cases r2 with
      | some e =>
        simp only [hstep, Prod.mk.injEq] at h
        obtain ⟨h3, h4⟩ := h
        subst h3 h4
        refine ⟨_, h1, hquiet, ?_, by simp⟩
        rw [hone]; simp
      | none =>
        simp only [hstep] at h
        obtain ⟨evs2, h5, h6, h7, h8⟩ := ih h
        refine ⟨REvent.receive 60 :: evs ++ evs2, ?_, ?_, ?_, ?_⟩
        · rw [h5, h1]; simp
        · intro ev hev
          rcases List.mem_append.mp hev with hev | hev
          · exact hquiet ev hev
          · exact h6 ev hev
        · rw [requestsAwaited_append, hone, List.length_cons]; omega
        · intro hr
          rw [requestsAwaited_append, hone, List.length_cons, h8 hr]; omega

theorem signRequests_append {env : ResponderEnv} (pre rest : List Transfer) :
    ∀ trace : List REvent,
      endorseView.signRequests env (pre ++ rest) trace =
        match endorseView.signRequests env pre trace with
        | (some e, trace1) => (some e, trace1)
        | (none, trace1) => endorseView.signRequests env rest trace1 := by
  induction pre with
  | nil => intro trace; simp [endorseView.signRequests]
  | cons request more ih =>
    intro trace
    simp only [List.cons_append, endorseView.signRequests]
    cases hstep : endorseView.signRequest env trace with
    | mk r trace2 =>
      cases r with
      | some e => rfl
      | none => exact ih trace2

theorem commit_trace {env : ResponderEnv} {trace trace1 : List REvent}
    {r : Except Error Transaction} (h : endorseView.commit env trace = (r, trace1)) :
    ∃ evs, trace1 = trace ++ .receiveTransaction :: evs ∧
      (∀ ev ∈ evs, ev.isRequestWait = false ∧ ev ≠ .receiveTransaction) := by
  unfold endorseView.commit at h
  cases hrecv : env.ReceiveTransaction trace with
  | error e =>
    simp only [hrecv, Prod.mk.injEq] at h
    exact ⟨[], by rw [← h.2], by simp⟩
  | ok tx =>
    simp only [hrecv] at h
    cases henv : tx.Envelope with
    | none =>
      simp only [henv, Prod.mk.injEq] at h
      exact ⟨[], by rw [← h.2], by simp⟩
    | some envelope =>
      simp only [henv] at h
      cases htransient : env.storeTransient tx with
      | some e =>
        simp only [htransient, Prod.mk.injEq] at h
        exact ⟨[.storeTransient tx.ID], by rw [← h.2]; simp, by simp [REvent.isRequestWait]⟩
      | none =>
        simp only [htransient] at h
        cases hrws : env.GetRWSet tx.ID envelope.Results with
        | some e =>
          simp only [hrws, Prod.mk.injEq] at h
          exact ⟨[.storeTransient tx.ID, .getRWSet tx.ID envelope.Results],
            by rw [← h.2]; simp, by simp [REvent.isRequestWait]⟩
        | none =>
          simp only [hrws] at h
          cases hbytes : envelope.Bytes with
          | error e =>
            simp only [hbytes, Prod.mk.injEq] at h
            exact ⟨[.storeTransient tx.ID, .getRWSet tx.ID envelope.Results],
              by rw [← h.2]; simp, by simp [REvent.isRequestWait]⟩
          | ok rawEnv =>
            simp only [hbytes] at h
            cases hstore : env.StoreEnvelope envelope.TxID rawEnv with
            | some e =>
              simp only [hstore, Prod.mk.injEq] at h
              exact ⟨[.storeTransient tx.ID, .getRWSet tx.ID envelope.Results,
                  .storeEnvelope envelope.TxID rawEnv],
                by rw [← h.2]; simp, by simp [REvent.isRequestWait]⟩
            | none =>
              simp only [hstore] at h
              refine ⟨[.storeTransient tx.ID, .getRWSet tx.ID envelope.Results,
                  .storeEnvelope envelope.TxID rawEnv, .send (str "ack")], ?_,
                by simp [REvent.isRequestWait]⟩
              cases hsend : env.Send
                  (trace ++ [.receiveTransaction] ++ [.storeTransient tx.ID] ++
                    [.getRWSet tx.ID envelope.Results] ++
                    [.storeEnvelope envelope.TxID rawEnv]) (str "ack") <;>
                simp only [hsend, Prod.mk.injEq] at h <;> rw [← h.2] <;> simp

theorem endorseView_Call_cases (env : ResponderEnv) (tx : Transaction) :
    ∃ res, endorseView.requestsToBeSigned env tx = .ok res ∧
      ((∃ e trace, endorseView.signRequests env res [] = (some e, trace) ∧
          endorseView.Call env tx = (.error e, trace)) ∨
        (∃ trace, endorseView.signRequests env res [] = (none, trace) ∧
          endorseView.Call env tx = endorseView.commit env trace)) := by
  refine ⟨_, requestsToBeSigned_eq env tx, ?_⟩
  unfold endorseView.Call
  rw [requestsToBeSigned_eq]
  cases hloop : endorseView.signRequests env
      (tx.Transfers.flatMap (fun transfer => (localSenders env transfer).map (fun _ => transfer)))
      [] with
  | mk r trace =>
    cases r with
    | some e => exact Or.inl ⟨e, trace, rfl, by simp only [hloop]⟩
    | none => exact Or.inr ⟨trace, rfl, by simp only [hloop]⟩

theorem transfersSentByMe_length (env : ResponderEnv) (transfers : List Transfer)
    (h : ∀ transfer ∈ transfers, (localSenders env transfer).length ≤ 1) :
    (transfers.map (fun transfer => (localSenders env transfer).length)).sum =
      (transfers.filter (fun transfer =>
        transfer.Senders.any (fun sender => (env.OwnerWalletByIdentity sender).isSome))).length := by
  induction transfers with
  | nil => rfl
  | cons transfer rest ih =>
    have hrest := ih (fun t ht => h t (List.mem_cons_of_mem _ ht))
    have hone := h transfer (List.mem_cons_self _ _)
    simp only [List.map_cons, List.sum_cons, hrest, List.filter_cons]
    cases hany : transfer.Senders.any (fun sender => (env.OwnerWalletByIdentity sender).isSome) with
    | false =>
      have : localSenders env transfer = [] := by
        unfold localSenders
        rw [List.filter_eq_nil_iff]
        intro sender hs
        have := List.any_eq_false.mp hany sender hs
        simpa using this
      simp [this]
    | true =>
      obtain ⟨sender, hs, hlocal⟩ := List.any_eq_true.mp hany
      have hmem : sender ∈ localSenders env transfer := by
        unfold localSenders
        exact List.mem_filter.mpr ⟨hs, hlocal⟩
      have hpos : 0 < (localSenders env transfer).length := List.length_pos_of_mem hmem
      simp only [if_true, List.length_cons]
      omega

/-- C11 (amended): the number n of signature requests the responder waits for equals the
number of senders, over all transfer actions, that are held by a local owner wallet: one
request per locally held sender, so a transfer with two locally held senders counts
twice.  The responder waits for at most n requests and receives the transaction only
after having waited for exactly n.  When every transfer has at most one locally held
sender, n is the number of transfers having at least one such sender. -/
theorem responder_waits_per_local_sender (env : ResponderEnv) (tx : Transaction) :
    ∃ res, endorseView.requestsToBeSigned env tx = .ok res ∧
      res = tx.Transfers.flatMap
        (fun transfer => (localSenders env transfer).map (fun _ => transfer)) ∧
      res.length = (tx.Transfers.map (fun transfer => (localSenders env transfer).length)).sum ∧
      requestsAwaited (endorseView.Call env tx).2 ≤ res.length ∧
      (∀ pre post, (endorseView.Call env tx).2 = pre ++ .receiveTransaction :: post →
        requestsAwaited pre = res.length ∧ requestsAwaited post = 0) ∧
      ((∃ tx1, (endorseView.Call env tx).1 = .ok tx1) →
        requestsAwaited (endorseView.Call env tx).2 = res.length) ∧
      ((∀ transfer ∈ tx.Transfers, (localSenders env transfer).length ≤ 1) →
        res.length = (transfersSentByMe env tx).length) := by
  obtain ⟨res0, hres0, hlen⟩ := requestsToBeSigned_length env tx
  obtain ⟨res, hres, hcases⟩ := endorseView_Call_cases env tx
  have hsame : res0 = res := by
    rw [hres0] at hres
    injection hres
  subst hsame
  have hflat := requestsToBeSigned_eq env tx
  rw [hres0] at hflat
  refine ⟨res0, hres0, by injection hflat, hlen, ?_, ?_, ?_, ?_⟩
  · rcases hcases with ⟨e, trace, hloop, hcall⟩ | ⟨trace, hloop, hcall⟩
    · obtain ⟨evs, h1, _, h3, _⟩ := signRequests_spec res0 hloop
      rw [hcall, h1]
      simpa using h3
    · obtain ⟨evs, h1, _, _, h4⟩ := signRequests_spec res0 hloop
      have hrun : endorseView.commit env trace =
          ((endorseView.commit env trace).1, (endorseView.commit env trace).2) := rfl
      obtain ⟨evs2, h5, h6⟩ := commit_trace hrun
      rw [hcall, h5, h1, requestsAwaited_append, requestsAwaited_append, h4 rfl]
      have : requestsAwaited (REvent.receiveTransaction :: evs2) = 0 :=
        requestsAwaited_quiet (fun ev hev => by
          rcases List.mem_cons.mp hev with rfl | hev
          · rfl
          · exact (h6 ev hev).1)
      rw [this]
      simp [requestsAwaited]
  · intro pre post hsplit
    rcases hcases with ⟨e, trace, hloop, hcall⟩ | ⟨trace, hloop, hcall⟩
    · exfalso
      obtain ⟨evs, h1, h2, _, _⟩ := signRequests_spec res0 hloop
      rw [hcall] at hsplit
      have hmem : REvent.receiveTransaction ∈ trace := by
        rw [show trace = pre ++ .receiveTransaction :: post from hsplit]; simp
      rw [h1] at hmem
      have := h2 _ (by simpa using hmem)
      simp [REvent.isCommit] at this
    · obtain ⟨evs, h1, h2, _, h4⟩ := signRequests_spec res0 hloop
      have hrun : endorseView.commit env trace =
          ((endorseView.commit env trace).1, (endorseView.commit env trace).2) := rfl
      obtain ⟨evs2, h5, h6⟩ := commit_trace hrun
      rw [hcall, h5] at hsplit
      have hnot : REvent.receiveTransaction ∉ trace := by
        intro hmem
        rw [h1] at hmem
        have := h2 _ (by simpa using hmem)
        simp [REvent.isCommit] at this
      have hpre : pre = trace ∧ post = evs2 := by
        have hsplit2 := hsplit
        rcases List.append_eq_append_iff.mp hsplit2 with ⟨a, ha1, ha2⟩ | ⟨c, hc1, hc2⟩
        · cases a with
          | nil =>
            simp only [List.nil_append, List.cons.injEq, true_and] at ha2
            simp only [List.append_nil] at ha1
            exact ⟨ha1, ha2.symm⟩
          | cons x rest =>
            simp only [List.cons_append, List.cons.injEq] at ha2
            exfalso
            exact (h6 REvent.receiveTransaction (by rw [ha2.2]; simp)).2 rfl
        · cases c with
          | nil =>
            simp only [List.nil_append, List.cons.injEq, true_and] at hc2
            simp only [List.append_nil] at hc1
            exact ⟨hc1.symm, hc2⟩
          | cons x rest =>
            simp only [List.cons_append, List.cons.injEq] at hc2
            exfalso
            apply hnot
            rw [hc1, ← hc2.1]; simp
      rw [hpre.1, hpre.2, h1]
      refine ⟨?_, requestsAwaited_quiet (fun ev hev => (h6 ev hev).1)⟩
      rw [requestsAwaited_append, h4 rfl]
      simp [requestsAwaited]
  · rintro ⟨tx1, hok⟩
    rcases hcases with ⟨e, trace, hloop, hcall⟩ | ⟨trace, hloop, hcall⟩
    · rw [hcall] at hok
      simp at hok
    · obtain ⟨evs, h1, _, _, h4⟩ := signRequests_spec res0 hloop
      have hrun : endorseView.commit env trace =
          ((endorseView.commit env trace).1, (endorseView.commit env trace).2) := rfl
      obtain ⟨evs2, h5, h6⟩ := commit_trace hrun
      rw [hcall, h5, h1, requestsAwaited_append, requestsAwaited_append, h4 rfl]
      have : requestsAwaited (REvent.receiveTransaction :: evs2) = 0 :=
        requestsAwaited_quiet (fun ev hev => by
          rcases List.mem_cons.mp hev with rfl | hev
          · rfl
          · exact (h6 ev hev).1)
      rw [this]
      simp [requestsAwaited]
  · intro hone
    rw [hlen]
    exact transfersSentByMe_length env tx.Transfers hone

theorem responder_waits_per_local_sender_witness :
    (∃ res, endorseView.requestsToBeSigned exResponder exResponderTx = .ok res ∧
      res.length = 2 ∧
      requestsAwaited (endorseView.Call exResponder exResponderTx).2 = res.length) ∧
    (∃ res, endorseView.requestsToBeSigned exResponder exTx = .ok res ∧
      res.length = (transfersSentByMe exResponder exTx).length) :=
  ⟨match responder_waits_per_local_sender exResponder exResponderTx with
    | ⟨res, h1, _, h3, _, _, h6, _⟩ =>
      ⟨res, h1, h3.trans (by decide),
        h6 ⟨{ exTx with ID := str "tx1", Envelope := some exEnvelope }, rfl⟩⟩,
   match responder_waits_per_local_sender exResponder exTx with
    | ⟨res, h1, _, _, _, _, _, h7⟩ => ⟨res, h1, h7 (by decide)⟩⟩

/-- C11 as stated fails: the example responder holds both senders `[3]` and `[6]` of the
only transfer of its transaction, so exactly one transfer has a sender held by a local
owner wallet, and the responder waits for two signature requests before it receives the
transaction. -/
theorem responder_waits_counterexample :
    exResponderTx.Transfers.length = 1 ∧
    (transfersSentByMe exResponder exResponderTx).length = 1 ∧
    endorseView.requestsToBeSigned exResponder exResponderTx =
      .ok [{ Senders := [[3], [6]], Receivers := [[4]] },
        { Senders := [[3], [6]], Receivers := [[4]] }] ∧
    (endorseView.Call exResponder exResponderTx).2 =
      [.receive 60, .getSigner [3], .sign [3] [1], .send [3, 1],
        .receive 60, .getSigner [6], .sign [6] [1], .send [6, 1],
        .receiveTransaction, .storeTransient (str "tx1"), .getRWSet (str "tx1") [8],
        .storeEnvelope (str "tx1") [8, 8], .send (str "ack")] ∧
    requestsAwaited (endorseView.Call exResponder exResponderTx).2 = 2 ∧
    requestsAwaited (endorseView.Call exResponder exResponderTx).2 ≠
      (transfersSentByMe exResponder exResponderTx).length := by
  refine ⟨rfl, by decide, by decide, by decide, by decide, by decide⟩
/-! ## The responder signs only for identities it holds -/

/-- C12: in every iteration of the request loop of the responder, something is signed or
sent only if the request received names a signer for which local membership `IsMe` is
true, and then it is the message to sign of that request that is signed and its signature
that is sent.  When a request names a signer that is not this node, `endorseView.Call`
returns the error `identity [%s] is not me` right after receiving it: nothing is signed
or sent for it, and the final transaction is neither received nor committed. -/
theorem responder_signs_only_for_me (env : ResponderEnv) (tx : Transaction) :
    (∀ trace r trace1, endorseView.signRequest env trace = (r, trace1) →
      ∀ ev ∈ trace1.drop trace.length, ev.isSignOrSend = true →
        ∃ msg sr, env.Receive trace 60 = some msg ∧ msg.Status ≠ .ERROR ∧
          env.Unmarshal msg.Payload = .ok sr ∧ env.IsMe sr.Signer = true ∧
          (ev = .sign sr.Signer sr.MessageToSign ∨
            ∃ signer sigma, env.GetSigner sr.Signer = .ok signer ∧
              signer sr.MessageToSign = .ok sigma ∧ ev = .send sigma)) ∧
    (∀ pre request rest trace msg sr,
      endorseView.requestsToBeSigned env tx = .ok (pre ++ request :: rest) →
      endorseView.signRequests env pre [] = (none, trace) →
      env.Receive trace 60 = some msg → msg.Status ≠ .ERROR →
      env.Unmarshal msg.Payload = .ok sr → env.IsMe sr.Signer = false →
      endorseView.Call env tx =
        (.error (.errorf "identity [%s] is not me" [env.UniqueID sr.Signer]),
          trace ++ [.receive 60]) ∧
      ∀ ev ∈ (endorseView.Call env tx).2, ev.isCommit = false) := by
  refine ⟨?_, ?_⟩
  · intro trace r trace1 h ev hev hss
    obtain ⟨evs, h1, _, _, h4⟩ := signRequest_spec h
    rw [h1] at hev
    simp only [List.drop_left, List.mem_cons] at hev
    rcases hev with rfl | hev
    · simp [REvent.isSignOrSend] at hss
    · exact h4 ev hev hss
  · intro pre request rest trace msg sr hres hpre hrecv hstatus hsr hme
    have hloop : endorseView.signRequests env (pre ++ request :: rest) [] =
        (some (.errorf "identity [%s] is not me" [env.UniqueID sr.Signer]),
          trace ++ [.receive 60]) := by
      rw [signRequests_append, hpre]
      simp only [endorseView.signRequests, signRequest_not_me hrecv hstatus hsr hme]
    have hcall : endorseView.Call env tx =
        (.error (.errorf "identity [%s] is not me" [env.UniqueID sr.Signer]),
          trace ++ [.receive 60]) := by
      unfold endorseView.Call
      simp only [hres, hloop]
    refine ⟨hcall, ?_⟩
    rw [hcall]
    obtain ⟨evs, h1, h2, _, _⟩ := signRequests_spec pre hpre
    intro ev hev
    rcases List.mem_append.mp hev with hev | hev
    · rw [h1] at hev
      exact h2 ev (by simpa using hev)
    · simp only [List.mem_singleton] at hev
      subst hev
      rfl

theorem responder_signs_only_for_me_witness :
    endorseView.Call exResponderNotMe exResponderTx =
      (.error (.errorf "identity [%s] is not me" [exResponderNotMe.UniqueID [7]]),
        [.receive 60, .getSigner [3], .sign [3] [1], .send [3, 1]] ++ [.receive 60]) ∧
    ∀ ev ∈ (endorseView.Call exResponderNotMe exResponderTx).2, ev.isCommit = false :=
  (responder_signs_only_for_me exResponderNotMe exResponderTx).2
    [{ Senders := [[3], [6]], Receivers := [[4]] }] { Senders := [[3], [6]], Receivers := [[4]] }
    [] [.receive 60, .getSigner [3], .sign [3] [1], .send [3, 1]]
    { Status := .OK, Payload := [7, 1] } { Request := [1], TxID := [], Signer := [7] }
    (by decide) (by decide) (by decide) (by decide) (by decide) (by decide)

/-! ## Transactions the node has no metadata for -/

/-- C13: when the channel is found and either the metadata service does not know the
transaction id, or it knows it and the transient map it loads has no `zkat` entry,
token-request reconciliation returns nil and the history of calls on the read-write set
is unchanged: no state is set, no deletion marker is added and no write is read, whatever
the number of iterations allowed. -/
theorem unknown_transaction_is_noop (env : ProcEnv) (fuel : Nat) (tx : ProcessTransaction)
    (ns : Bytes) (log : List RWOp) (ch : MetadataService)
    (hch : env.Channel tx.Channel = .ok ch)
    (hunknown : ch.Exists tx.ID = false ∨
      (ch.Exists tx.ID = true ∧ ∃ transientMap,
        ch.LoadTransient tx.ID = .ok transientMap ∧ transientMap (str "zkat") = none)) :
    tokenRequest env fuel tx ns log = some (log, .ok) := by
  unfold tokenRequest
  rcases hunknown with h | ⟨h, transientMap, hl, hz⟩
  · simp [hch, h]
  · simp [hch, h, hl, hz]

theorem unknown_transaction_is_noop_witness :
    tokenRequest (exProcEnv true) 0 exUnknownTransaction (str "zkat") [] = some ([], .ok) :=
  unknown_transaction_is_noop (exProcEnv true) 0 exUnknownTransaction (str "zkat") []
    { Exists := fun txID => txID = str "tx1"
      LoadTransient := fun _ => .ok (fun key => if key = str "zkat" then some [1] else none) }
    rfl (Or.inl (by decide))

/-! ## The signature list only grows -/

theorem AppendSignatures_extends {tx tx1 : Transaction} {sigmas : List Bytes}
    (h : tx1 = tx.AppendSignatures sigmas) : tx.Signatures <+: tx1.Signatures := by
  rw [h]
  exact ⟨sigmas, rfl⟩

theorem requestSignaturesOnIssues_ok_parties {env : Env} {st st1 : State}
    {parties : List Identity} (h : requestSignaturesOnIssues env st = (.ok parties, st1)) :
    parties = st.tx.Issues.flatMap (fun issue => issue.Issuer :: issue.Receivers) := by
  unfold requestSignaturesOnIssues at h
  cases hraw : env.MarshallToSign st.tx with
  | error e => simp [hraw] at h
  | ok requestRaw =>
    simp only [hraw] at h
    obtain ⟨_, _, _, hp⟩ := issuesLoop_ok _ h
    simpa using hp

theorem requestSignaturesOnTransfers_ok_parties {env : Env} {st st1 : State}
    {parties : List Identity} (h : requestSignaturesOnTransfers env st = (.ok parties, st1)) :
    parties = st.tx.Transfers.flatMap
      (fun transfer => transfer.Senders ++ transfer.Receivers) := by
  unfold requestSignaturesOnTransfers at h
  cases hraw : env.MarshallToSign st.tx with
  | error e => simp [hraw] at h
  | ok requestRaw =>
    simp only [hraw] at h
    obtain ⟨_, _, _, hp⟩ := transfersLoop_ok _ h
    simpa using hp

/-- Every run of `Call` is of one of six kinds, by the phase in which it ends. -/
theorem Call_cases (env : Env) (st : State) :
    (∃ e, env.storeTransient st.tx = some e ∧
      Call env st = (some (.wrap e "failed storing transient" []), st.log .storeTransient)) ∨
    (∃ e st1, env.storeTransient st.tx = none ∧
      requestSignaturesOnIssues env ((st.log .storeTransient).log (.enter .issues)) =
        (.error e, st1) ∧ Call env st = (some e, st1)) ∨
    (∃ parties1 st1 e st2, env.storeTransient st.tx = none ∧
      requestSignaturesOnIssues env ((st.log .storeTransient).log (.enter .issues)) =
        (.ok parties1, st1) ∧
      requestSignaturesOnTransfers env (st1.log (.enter .transfers)) = (.error e, st2) ∧
      Call env st = (some e, st2)) ∨
    (∃ parties1 st1 parties2 st2 e, env.storeTransient st.tx = none ∧
      requestSignaturesOnIssues env ((st.log .storeTransient).log (.enter .issues)) =
        (.ok parties1, st1) ∧
      requestSignaturesOnTransfers env (st1.log (.enter .transfers)) = (.ok parties2, st2) ∧
      IsNone st2.tx.auditor = false ∧ env.RunAudit st2.tx = some e ∧
      Call env st =
        (some (.wrap e "failed requesting auditing from [%s]" [st2.tx.auditor]),
          (st2.log (.enter .audit)).log .runAudit)) ∨
    (∃ parties1 st1 parties2 st2 st3 e st4, env.storeTransient st.tx = none ∧
      requestSignaturesOnIssues env ((st.log .storeTransient).log (.enter .issues)) =
        (.ok parties1, st1) ∧
      requestSignaturesOnTransfers env (st1.log (.enter .transfers)) = (.ok parties2, st2) ∧
      AuditPassed env st2 st3 ∧
      callChaincode env (st3.log (.enter .ledger)) = (.error e, st4) ∧
      Call env st = (some e, st4)) ∨
    (∃ parties1 st1 parties2 st2 st3 envelope st4, env.storeTransient st.tx = none ∧
      requestSignaturesOnIssues env ((st.log .storeTransient).log (.enter .issues)) =
        (.ok parties1, st1) ∧
      requestSignaturesOnTransfers env (st1.log (.enter .transfers)) = (.ok parties2, st2) ∧
      AuditPassed env st2 st3 ∧
      callChaincode env (st3.log (.enter .ledger)) = (.ok envelope, st4) ∧
      Call env st = distributeEnv env envelope
        (partiesAfterAudit st.tx.auditor parties1 parties2) (st4.log (.enter .distribute))) := by
  cases h0 : env.storeTransient st.tx with
  | some e =>
    left
    refine ⟨e, rfl, ?_⟩
    unfold Call
    have h0a : env.storeTransient (st.log .storeTransient).tx = some e := h0
    simp [h0a]
  | none =>
    right
    cases h1 : requestSignaturesOnIssues env ((st.log .storeTransient).log (.enter .issues)) with
    | mk r1 st1 =>
      have h0a : env.storeTransient (st.log .storeTransient).tx = none := h0
      cases r1 with
      | error e =>
        left
        refine ⟨e, st1, rfl, rfl, ?_⟩
        unfold Call
        simp [h0a, h1]
      | ok parties1 =>
        right
        cases h2 : requestSignaturesOnTransfers env (st1.log (.enter .transfers)) with
        | mk r2 st2 =>
          cases r2 with
          | error e =>
            left
            refine ⟨parties1, st1, e, st2, rfl, rfl, h2, ?_⟩
            unfold Call
            simp [h0a, h1, h2]
          | ok parties2 =>
            right
            have hpass : (∃ e, IsNone st2.tx.auditor = false ∧ env.RunAudit st2.tx = some e) ∨
                ∃ st3, AuditPassed env st2 st3 := by
              cases ha : IsNone st2.tx.auditor with
              | true => exact Or.inr ⟨st2, Or.inl ⟨ha, rfl⟩⟩
              | false =>
                cases hr : env.RunAudit st2.tx with
                | some e => exact Or.inl ⟨e, rfl, rfl⟩
                | none => exact Or.inr ⟨_, Or.inr ⟨ha, hr, rfl⟩⟩
            rcases hpass with ⟨e, ha, hr⟩ | ⟨st3, hpass⟩
            · left
              refine ⟨parties1, st1, parties2, st2, e, rfl, rfl, h2, ha, hr, ?_⟩
              unfold Call
              simp [h0a, h0, h1, h2, ha, hr, State.log_tx]
            · right
              have haud := Call_auditor_frame h1 h2
              cases h4 : callChaincode env (st3.log (.enter .ledger)) with
              | mk r4 st4 =>
                cases r4 with
                | error e =>
                  left
                  refine ⟨parties1, st1, parties2, st2, st3, e, st4, rfl, rfl, h2, hpass, h4, ?_⟩
                  rw [Call_after_audit h0 h1 h2 hpass, h4]
                | ok envelope =>
                  right
                  refine ⟨parties1, st1, parties2, st2, st3, envelope, st4, rfl, rfl, h2, hpass,
                    h4, ?_⟩
                  rw [Call_after_audit h0 h1 h2 hpass, h4, haud]

theorem AuditPassed_tx {env : Env} {st2 st3 : State} (h : AuditPassed env st2 st3) :
    st3.tx = st2.tx := by
  rcases h with ⟨_, h⟩ | ⟨_, _, h⟩ <;> rw [h] <;> rfl

/-- The signatures of the transaction when the call of the chaincode is reached in `Call`
are those at the start followed by the signatures collected in the two signature
phases. -/
theorem Call_signatures_at_ledger {env : Env} {st st1 st2 st3 : State}
    {r1 r2 : Except Error (List Identity)}
    (h1 : requestSignaturesOnIssues env ((st.log .storeTransient).log (.enter .issues)) =
      (r1, st1))
    (h2 : requestSignaturesOnTransfers env (st1.log (.enter .transfers)) = (r2, st2))
    (h3 : st3.tx = st2.tx) :
    ∃ sigmas1 sigmas2, st1.tx.Signatures = st.tx.Signatures ++ sigmas1 ∧
      st3.tx.Signatures = st.tx.Signatures ++ sigmas1 ++ sigmas2 := by
  obtain ⟨_, s1, hf1⟩ := requestSignaturesOnIssues_trace h1
  obtain ⟨_, s2, hf2⟩ := requestSignaturesOnTransfers_trace h2
  refine ⟨s1, s2, by rw [hf1]; rfl, ?_⟩
  rw [h3, hf2, State.log_tx, hf1]
  simp [Transaction.AppendSignatures, State.log]

/-- C14: throughout `collectEndorsementsView.Call` the signature list of the token
request only grows at its end: for every step of signature collection (one signer, one
loop, one of the two functions), `callChaincode`, `distributeEnv` and `Call` itself, on
every path, the list before is an initial segment of the list after; `callChaincode` and
`distributeEnv` leave it as it is, so in a run that reaches the chaincode the final list
is the list that was submitted. -/
theorem signatures_only_appended (env : Env) (st : State) :
    (∀ requestRaw issue, st.tx.Signatures <+: (signIssue env requestRaw issue st).2.tx.Signatures) ∧
    (∀ requestRaw party,
      st.tx.Signatures <+: (signSender env requestRaw party st).2.tx.Signatures) ∧
    st.tx.Signatures <+: (requestSignaturesOnIssues env st).2.tx.Signatures ∧
    st.tx.Signatures <+: (requestSignaturesOnTransfers env st).2.tx.Signatures ∧
    (callChaincode env st).2.tx.Signatures = st.tx.Signatures ∧
    (∀ envelope distributionList,
      (distributeEnv env envelope distributionList st).2.tx.Signatures = st.tx.Signatures) ∧
    st.tx.Signatures <+: (Call env st).2.tx.Signatures ∧
    (∀ parties1 st1 parties2 st2 st3,
      env.storeTransient st.tx = none →
      requestSignaturesOnIssues env ((st.log .storeTransient).log (.enter .issues)) =
        (.ok parties1, st1) →
      requestSignaturesOnTransfers env (st1.log (.enter .transfers)) = (.ok parties2, st2) →
      AuditPassed env st2 st3 →
      st.tx.Signatures <+: st1.tx.Signatures ∧ st1.tx.Signatures <+: st2.tx.Signatures ∧
      st3.tx.Signatures = st2.tx.Signatures ∧
      (Call env st).2.tx.Signatures = st3.tx.Signatures) := by
  have hcc : ∀ s : State, (callChaincode env s).2.tx.Signatures = s.tx.Signatures := by
    intro s
    have hrun : callChaincode env s = ((callChaincode env s).1, (callChaincode env s).2) := rfl
    exact (callChaincode_trace hrun).2
  have hde : ∀ envelope dl (s : State),
      (distributeEnv env envelope dl s).2.tx.Signatures = s.tx.Signatures := by
    intro envelope dl s
    have hrun : distributeEnv env envelope dl s =
        ((distributeEnv env envelope dl s).1, (distributeEnv env envelope dl s).2) := rfl
    rw [(distributeEnv_trace hrun).2]
  have hlast : ∀ parties1 st1 parties2 st2 st3,
      env.storeTransient st.tx = none →
      requestSignaturesOnIssues env ((st.log .storeTransient).log (.enter .issues)) =
        (.ok parties1, st1) →
      requestSignaturesOnTransfers env (st1.log (.enter .transfers)) = (.ok parties2, st2) →
      AuditPassed env st2 st3 →
      st.tx.Signatures <+: st1.tx.Signatures ∧ st1.tx.Signatures <+: st2.tx.Signatures ∧
      st3.tx.Signatures = st2.tx.Signatures ∧
      (Call env st).2.tx.Signatures = st3.tx.Signatures := by
    intro parties1 st1 parties2 st2 st3 h0 h1 h2 h3
    obtain ⟨_, s1, hf1⟩ := requestSignaturesOnIssues_trace h1
    obtain ⟨_, s2, hf2⟩ := requestSignaturesOnTransfers_trace h2
    refine ⟨AppendSignatures_extends hf1, AppendSignatures_extends hf2, by rw [AuditPassed_tx h3], ?_⟩
    rw [Call_after_audit h0 h1 h2 h3]
    cases h4 : callChaincode env (st3.log (.enter .ledger)) with
    | mk r4 st4 =>
      have h5 := hcc (st3.log (.enter .ledger))
      rw [h4] at h5
      cases r4 with
      | error e => exact h5
      | ok envelope =>
        simp only
        rw [hde]
        exact h5
  refine ⟨?_, ?_, ?_, ?_, hcc st, fun envelope dl => hde envelope dl st, ?_, hlast⟩
  · intro requestRaw issue
    have hrun : signIssue env requestRaw issue st =
        ((signIssue env requestRaw issue st).1, (signIssue env requestRaw issue st).2) := rfl
    obtain ⟨sigmas, hf⟩ := signIssue_frame hrun
    exact AppendSignatures_extends hf
  · intro requestRaw party
    have hrun : signSender env requestRaw party st =
        ((signSender env requestRaw party st).1, (signSender env requestRaw party st).2) := rfl
    obtain ⟨sigmas, hf⟩ := signSender_frame hrun
    exact AppendSignatures_extends hf
  · have hrun : requestSignaturesOnIssues env st =
        ((requestSignaturesOnIssues env st).1, (requestSignaturesOnIssues env st).2) := rfl
    obtain ⟨_, sigmas, hf⟩ := requestSignaturesOnIssues_trace hrun
    exact AppendSignatures_extends hf
  · have hrun : requestSignaturesOnTransfers env st =
        ((requestSignaturesOnTransfers env st).1, (requestSignaturesOnTransfers env st).2) := rfl
    obtain ⟨_, sigmas, hf⟩ := requestSignaturesOnTransfers_trace hrun
    exact AppendSignatures_extends hf
  · rcases Call_cases env st with ⟨e, _, hc⟩ | ⟨e, st1, _, h1, hc⟩ |
      ⟨p1, st1, e, st2, _, h1, h2, hc⟩ | ⟨p1, st1, p2, st2, e, _, h1, h2, _, _, hc⟩ |
      ⟨p1, st1, p2, st2, st3, e, st4, h0, h1, h2, h3, h4, hc⟩ |
      ⟨p1, st1, p2, st2, st3, envelope, st4, h0, h1, h2, h3, h4, hc⟩
    · rw [hc]; exact List.prefix_refl _
    · rw [hc]
      obtain ⟨_, s1, hf1⟩ := requestSignaturesOnIssues_trace h1
      exact AppendSignatures_extends hf1
    · rw [hc]
      obtain ⟨s1, s2, _, h5⟩ := Call_signatures_at_ledger h1 h2 rfl
      exact ⟨s1 ++ s2, by rw [h5, List.append_assoc]⟩
    · rw [hc]
      obtain ⟨s1, s2, _, h5⟩ := Call_signatures_at_ledger h1 h2 rfl
      exact ⟨s1 ++ s2, by rw [← List.append_assoc]; exact h5.symm⟩
    · obtain ⟨_, _, h6, h7⟩ := hlast p1 st1 p2 st2 st3 h0 h1 h2 h3
      obtain ⟨s1, s2, _, h5⟩ := Call_signatures_at_ledger h1 h2 rfl
      rw [h7, h6]
      exact ⟨s1 ++ s2, by rw [h5, List.append_assoc]⟩
    · obtain ⟨_, _, h6, h7⟩ := hlast p1 st1 p2 st2 st3 h0 h1 h2 h3
      obtain ⟨s1, s2, _, h5⟩ := Call_signatures_at_ledger h1 h2 rfl
      rw [h7, h6]
      exact ⟨s1 ++ s2, by rw [h5, List.append_assoc]⟩

theorem signatures_only_appended_witness :
    exState.tx.Signatures <+: exOKIssues.tx.Signatures ∧
    exOKIssues.tx.Signatures <+: exOKTransfers.tx.Signatures ∧
    exOKAudited.tx.Signatures = exOKTransfers.tx.Signatures ∧
    (Call exEnvOK exState).2.tx.Signatures = exOKAudited.tx.Signatures :=
  (signatures_only_appended exEnvOK exState).2.2.2.2.2.2.2 [[1], [2]] exOKIssues
    [[2], [3], [4], []] exOKTransfers exOKAudited rfl rfl rfl (Or.inr ⟨rfl, rfl, rfl⟩)

/-! ## Distribution stops at the first entry that cannot be delivered -/

theorem distributeLoop_append {env : Env} {envelope : Envelope} {txRaw : Bytes}
    (pre rest : List distributionListEntry) :
    ∀ (st : State),
    distributeLoop env envelope txRaw (pre ++ rest) st =
      match distributeLoop env envelope txRaw pre st with
      | (none, st1) => distributeLoop env envelope txRaw rest st1
      | (some e, st1) => (some e, st1) := by
  induction pre with
  | nil => intro st; simp [distributeLoop]
  | cons entry pre ih =>
    intro st
    simp only [List.cons_append, distributeLoop]
    cases hstep : distributeTo env envelope txRaw entry st with
    | mk r st2 =>
      cases r with
      | some e => simp
      | none => simp [ih]

/-- What one delivery does, by cases: it succeeds exactly when `Delivers` holds, and its
events are all part of the delivery to the entry. -/
theorem distributeTo_spec {env : Env} {envelope : Envelope} {txRaw : Bytes}
    {entry : distributionListEntry} {st st1 : State} {r : Option Error}
    (h : distributeTo env envelope txRaw entry st = (r, st1)) :
    (r = none ↔ Delivers env envelope txRaw st.tx.ID entry) ∧
    (DeliveryFailure env envelope txRaw st.tx.ID entry → r ≠ none) ∧
    TraceExt (EntryEvent envelope txRaw st.tx.ID entry) st st1 := by
  unfold distributeTo at h
  unfold Delivers DeliveryFailure
  cases hme : entry.IsMe with
  | true =>
    have b1 : TraceExt (EntryEvent envelope txRaw st.tx.ID entry) st
        (st.log (.getRWSet st.tx.ID envelope.Results)) :=
      (TraceExt.same _ st).log ⟨hme, rfl, rfl⟩
    cases hg : env.GetRWSet st.tx.ID envelope.Results with
    | some e =>
      simp [hme, hg, State.log_tx] at h
      rw [← h.1, ← h.2]
      exact ⟨by simp, by simp, b1⟩
    | none =>
      cases hb : envelope.Bytes with
      | error e =>
        simp [hme, hg, hb, State.log_tx] at h
        rw [← h.1, ← h.2]
        exact ⟨by simp, by simp, b1⟩
      | ok rawEnv =>
        have b2 := b1.log (e := .storeEnvelope envelope.TxID rawEnv) ⟨hme, rfl⟩
        cases hs : env.StoreEnvelope envelope.TxID rawEnv with
        | some e =>
          simp [hme, hg, hb, hs, State.log_tx] at h
          rw [← h.1, ← h.2]
          exact ⟨by simp [hs], by simp, b2⟩
        | none =>
          simp [hme, hg, hb, hs, State.log_tx] at h
          rw [← h.1, ← h.2]
          exact ⟨by simp [hs], by simp [hs], b2⟩
  | false =>
    have b1 : TraceExt (EntryEvent envelope txRaw st.tx.ID entry) st
        (st.log (.getSession entry.ID)) :=
      (TraceExt.same _ st).log ⟨hme, rfl⟩
    cases hS : env.GetSession entry.ID with
    | error e =>
      simp [hme, hS] at h
      rw [← h.1, ← h.2]
      exact ⟨by simp, by simp, b1⟩
    | ok session =>
      have b2 := b1.log (e := .send entry.ID txRaw) ⟨hme, rfl, rfl⟩
      cases hSend : session.Send txRaw with
      | some e =>
        simp [hme, hS, hSend] at h
        rw [← h.1, ← h.2]
        exact ⟨by simp [hSend], by simp, b2⟩
      | none =>
        have b3 := b2.log (e := .receive entry.ID 240) ⟨hme, rfl, rfl⟩
        cases hR : session.Reply txRaw 240 with
        | none =>
          simp [hme, hS, hSend, hR] at h
          rw [← h.1, ← h.2]
          exact ⟨by simp [hSend, hR], by simp, b3⟩
        | some msg =>
          obtain ⟨status, payload⟩ := msg
          cases status with
          | ERROR =>
            simp [hme, hS, hSend, hR] at h
            rw [← h.1, ← h.2]
            exact ⟨by simp [hSend, hR], by simp, b3⟩
          | OK =>
            simp [hme, hS, hSend, hR] at h
            rw [← h.1, ← h.2]
            exact ⟨by simp [hSend, hR], by simp [hSend, hR], b3⟩

theorem distributeLoop_delivers {env : Env} {envelope : Envelope} {txRaw : Bytes}
    (entries : List distributionListEntry) :
    ∀ {st st1 : State}, distributeLoop env envelope txRaw entries st = (none, st1) →
    ∀ entry ∈ entries, Delivers env envelope txRaw st.tx.ID entry := by
  induction entries with
  | nil => intro st st1 _ entry hentry; simp at hentry
  | cons first rest ih =>
    intro st st1 h entry hentry
    unfold distributeLoop at h
    cases hstep : distributeTo env envelope txRaw first st with
    | mk r st2 =>
      cases r with
      | some e => simp [hstep] at h
      | none =>
        simp only [hstep] at h
        rcases List.mem_cons.mp hentry with rfl | hmem
        · exact (distributeTo_spec hstep).1.mp rfl
        · have := ih h entry hmem
          rwa [(distributeTo_trace hstep).2] at this

theorem distributeEnv_unfold {env : Env} {envelope : Envelope} {distributionList : List Identity}
    {st : State} {txRaw : Bytes} {entries : List distributionListEntry}
    (hv : env.Verify st.tx = none) (hb : env.TxBytes st.tx = .ok txRaw)
    (hc : compressDistributionList env distributionList [] = .ok entries) :
    distributeEnv env (some envelope) distributionList st =
      distributeLoop env envelope txRaw entries (st.log .verifyTx) := by
  unfold distributeEnv
  simp [hv, hb, hc, State.log_tx]

/-- C15: when the delivery to an entry of the compressed distribution list fails (the
session cannot be opened, the send fails, no acknowledgment arrives within 240 seconds,
the reply has status ERROR, or the local commit fails), `distributeEnv` returns an error
although the entries before it were delivered, and every event after those deliveries
belongs to the failing entry: no later entry is contacted.  `distributeEnv` returns nil
only if every entry of the compressed list was delivered, each once and in order. -/
theorem distribution_stops_at_failure (env : Env) (envelope : Envelope)
    (distributionList : List Identity) (st : State) (txRaw : Bytes)
    (hv : env.Verify st.tx = none) (hb : env.TxBytes st.tx = .ok txRaw) :
    (∀ pre entry post st1,
      compressDistributionList env distributionList [] = .ok (pre ++ entry :: post) →
      distributeLoop env envelope txRaw pre (st.log .verifyTx) = (none, st1) →
      DeliveryFailure env envelope txRaw st.tx.ID entry →
      ∃ e st2 evs1 evs2,
        distributeEnv env (some envelope) distributionList st = (some e, st2) ∧
        st1.trace = st.trace ++ .verifyTx :: evs1 ∧
        deliveriesOf evs1 = pre.map (fun en => if en.IsMe then none else some en.ID) ∧
        (∀ en ∈ pre, Delivers env envelope txRaw st.tx.ID en) ∧
        st2.trace = st1.trace ++ evs2 ∧
        ∀ ev ∈ evs2, EntryEvent envelope txRaw st.tx.ID entry ev) ∧
    (∀ st1, distributeEnv env (some envelope) distributionList st = (none, st1) →
      ∃ entries evs, compressDistributionList env distributionList [] = .ok entries ∧
        (∀ entry ∈ entries, Delivers env envelope txRaw st.tx.ID entry) ∧
        st1.trace = st.trace ++ evs ∧
        deliveriesOf evs =
          entries.map (fun entry => if entry.IsMe then none else some entry.ID)) ∧
    (∀ entry (s : State),
      ((distributeTo env envelope txRaw entry s).1 = none ↔
        Delivers env envelope txRaw s.tx.ID entry) ∧
      (DeliveryFailure env envelope txRaw s.tx.ID entry →
        (distributeTo env envelope txRaw entry s).1 ≠ none)) := by
  refine ⟨?_, ?_, ?_⟩
  · intro pre entry post st1 hc hpre hfail
    have hloop := distributeLoop_ok pre hpre
    obtain ⟨evs1, ht1, hd1⟩ := hloop
    have htx1 : st1.tx = st.tx := (distributeLoop_trace pre hpre).2
    cases hstep : distributeTo env envelope txRaw entry st1 with
    | mk r st2 =>
      obtain ⟨_, h2, evs2, ht2, hev2⟩ := distributeTo_spec hstep
      rw [htx1] at h2 hev2
      cases r with
      | none => exact absurd rfl (h2 hfail)
      | some e =>
        refine ⟨e, st2, evs1, evs2, ?_, ?_, hd1, ?_, ht2, hev2⟩
        · rw [distributeEnv_unfold hv hb hc, distributeLoop_append, hpre]
          simp [distributeLoop, hstep]
        · rw [ht1]; simp [State.log]
        · intro en hen
          have hdel := distributeLoop_delivers pre hpre en hen
          rwa [State.log_tx] at hdel
  · intro st1 h
    obtain ⟨entries, evs, hc, ht, hd⟩ := distributeEnv_ok h
    refine ⟨entries, evs, hc, ?_, ht, hd⟩
    rw [distributeEnv_unfold hv hb hc] at h
    intro entry hentry
    have hdel := distributeLoop_delivers entries h entry hentry
    rwa [State.log_tx] at hdel
  · intro entry s
    have hrun : distributeTo env envelope txRaw entry s =
        ((distributeTo env envelope txRaw entry s).1,
          (distributeTo env envelope txRaw entry s).2) := rfl
    obtain ⟨h1, h2, _⟩ := distributeTo_spec hrun
    exact ⟨h1, h2⟩

theorem distribution_stops_at_failure_witness :
    exEnvNoRoute.Verify exState.tx = none ∧
    exEnvNoRoute.TxBytes exState.tx = .ok (str "tx1") ∧
    ∃ e st2 evs1 evs2,
      distributeEnv exEnvNoRoute (some exEnvelope) (interestedParties exTx) exState =
        (some e, st2) ∧
      exDelivered.trace = exState.trace ++ .verifyTx :: evs1 ∧
      deliveriesOf evs1 =
        [{ IsMe := true, LongTerm := [0], ID := [1] },
         ({ IsMe := false, LongTerm := [3], ID := [3] } : distributionListEntry)].map
          (fun en => if en.IsMe then none else some en.ID) ∧
      (∀ en ∈ [{ IsMe := true, LongTerm := [0], ID := [1] },
          ({ IsMe := false, LongTerm := [3], ID := [3] } : distributionListEntry)],
        Delivers exEnvNoRoute exEnvelope (str "tx1") exState.tx.ID en) ∧
      st2.trace = exDelivered.trace ++ evs2 ∧
      ∀ ev ∈ evs2, EntryEvent exEnvelope (str "tx1") exState.tx.ID
        { IsMe := false, LongTerm := [4], ID := [4] } ev :=
  ⟨rfl, rfl,
    (distribution_stops_at_failure exEnvNoRoute exEnvelope (interestedParties exTx) exState
      (str "tx1") rfl rfl).1
      [{ IsMe := true, LongTerm := [0], ID := [1] }, { IsMe := false, LongTerm := [3], ID := [3] }]
      { IsMe := false, LongTerm := [4], ID := [4] }
      [{ IsMe := false, LongTerm := [5], ID := [5] }] exDelivered
      (by decide) rfl (Or.inl ⟨rfl, _, rfl⟩)⟩

/-! ## The parties the envelope is distributed to -/

/-- C16: in a run of `collectEndorsementsView.Call` that reaches the distribution, and so
in every successful run, the list handed to `distributeEnv` is, in this order, the issuer
and then the receivers of each issue, the senders and then the receivers of each
transfer, and the auditor if and only if an auditor is configured; nothing else. -/
theorem Call_distribution_list (env : Env) (st : State) :
    (∀ parties1 st1 parties2 st2 st3 envelope st4,
      env.storeTransient st.tx = none →
      requestSignaturesOnIssues env ((st.log .storeTransient).log (.enter .issues)) =
        (.ok parties1, st1) →
      requestSignaturesOnTransfers env (st1.log (.enter .transfers)) = (.ok parties2, st2) →
      AuditPassed env st2 st3 →
      callChaincode env (st3.log (.enter .ledger)) = (.ok envelope, st4) →
      Call env st =
        distributeEnv env envelope (interestedParties st.tx) (st4.log (.enter .distribute))) ∧
    ((Call env st).1 = none →
      ∃ (envelope : Option Envelope) (st4 : State), Call env st =
        distributeEnv env envelope (interestedParties st.tx) (st4.log (.enter .distribute))) ∧
    (∀ party, party ∈ interestedParties st.tx ↔
      (∃ issue ∈ st.tx.Issues, party = issue.Issuer ∨ party ∈ issue.Receivers) ∨
      (∃ transfer ∈ st.tx.Transfers, party ∈ transfer.Senders ∨ party ∈ transfer.Receivers) ∨
      (IsNone st.tx.auditor = false ∧ party = st.tx.auditor)) := by
  have hmain : ∀ parties1 st1 parties2 st2 st3 envelope st4,
      env.storeTransient st.tx = none →
      requestSignaturesOnIssues env ((st.log .storeTransient).log (.enter .issues)) =
        (.ok parties1, st1) →
      requestSignaturesOnTransfers env (st1.log (.enter .transfers)) = (.ok parties2, st2) →
      AuditPassed env st2 st3 →
      callChaincode env (st3.log (.enter .ledger)) = (.ok envelope, st4) →
      Call env st =
        distributeEnv env envelope (interestedParties st.tx)
          (st4.log (.enter .distribute)) := by
    intro parties1 st1 parties2 st2 st3 envelope st4 h0 h1 h2 h3 h4
    rw [Call_after_audit h0 h1 h2 h3, h4, Call_auditor_frame h1 h2]
    have hp1 := requestSignaturesOnIssues_ok_parties h1
    have hp2 := requestSignaturesOnTransfers_ok_parties h2
    obtain ⟨_, s1, hf1⟩ := requestSignaturesOnIssues_trace h1
    have htr : (st1.log (.enter .transfers)).tx.Transfers = st.tx.Transfers := by
      rw [State.log_tx, hf1]; rfl
    rw [htr] at hp2
    have hi : ((st.log .storeTransient).log (.enter .issues)).tx.Issues = st.tx.Issues := rfl
    rw [hi] at hp1
    simp only [partiesAfterAudit, interestedParties, hp1, hp2]
    split <;> simp
  refine ⟨hmain, ?_, ?_⟩
  · intro hok
    rcases Call_cases env st with ⟨e, _, hc⟩ | ⟨e, st1, _, h1, hc⟩ |
      ⟨p1, st1, e, st2, _, h1, h2, hc⟩ | ⟨p1, st1, p2, st2, e, _, h1, h2, _, _, hc⟩ |
      ⟨p1, st1, p2, st2, st3, e, st4, h0, h1, h2, h3, h4, hc⟩ |
      ⟨p1, st1, p2, st2, st3, envelope, st4, h0, h1, h2, h3, h4, hc⟩
    · rw [hc] at hok; cases hok
    · rw [hc] at hok; cases hok
    · rw [hc] at hok; cases hok
    · rw [hc] at hok; cases hok
    · rw [hc] at hok; cases hok
    · exact ⟨envelope, st4, hmain p1 st1 p2 st2 st3 envelope st4 h0 h1 h2 h3 h4⟩
  · intro party
    unfold interestedParties
    cases ha : IsNone st.tx.auditor <;>
      simp [List.mem_append, List.mem_flatMap, or_assoc]

theorem Call_distribution_list_witness :
    ∃ (envelope : Option Envelope) (st4 : State), Call exEnvOK exState =
      distributeEnv exEnvOK envelope (interestedParties exState.tx)
        (st4.log (.enter .distribute)) :=
  (Call_distribution_list exEnvOK exState).2.1 (by decide)
/-! ## The auditor check -/

theorem loadInputTokens_ok {TokReq Tok : Type} {env : AuditEnv TokReq Tok}
    (transfers : List TransferMetadata) :
    ∀ (inputs acc : List (List Tok)) (trace : List (AuditEvent Tok)),
      commitmentsLoaded env transfers trace = inputs.map .ok →
      loadInputTokens env transfers acc trace =
        (.ok (acc ++ inputs), trace ++ loadEvents transfers) := by
  induction transfers with
  | nil =>
    intro inputs acc trace h
    cases inputs with
    | nil => simp [loadInputTokens, loadEvents]
    | cons a rest => simp [commitmentsLoaded] at h
  | cons transfer rest ih =>
    intro inputs acc trace h
    cases inputs with
    | nil => simp [commitmentsLoaded] at h
    | cons a more =>
      simp only [commitmentsLoaded, List.map_cons, List.cons.injEq] at h
      unfold loadInputTokens
      simp only [h.1]
      rw [ih more _ _ h.2]
      simp [loadEvents]

theorem loadInputTokens_err {TokReq Tok : Type} {env : AuditEnv TokReq Tok}
    (transfers : List TransferMetadata) :
    ∀ (pre : List (List Tok)) (e : Error) (post : List (Except Error (List Tok)))
      (acc : List (List Tok)) (trace : List (AuditEvent Tok)),
      commitmentsLoaded env transfers trace = pre.map .ok ++ .error e :: post →
      loadInputTokens env transfers acc trace =
        (.error (.wrap e "failed getting token commitments" []),
          trace ++ loadEvents (transfers.take (pre.length + 1))) := by
  induction transfers with
  | nil => intro pre e post acc trace h; simp [commitmentsLoaded] at h
  | cons transfer rest ih =>
    intro pre e post acc trace h
    cases pre with
    | nil =>
      simp only [commitmentsLoaded, List.map_nil, List.nil_append, List.cons.injEq] at h
      unfold loadInputTokens
      simp [h.1, loadEvents]
    | cons a more =>
      simp only [commitmentsLoaded, List.map_cons, List.cons_append, List.cons.injEq] at h
      unfold loadInputTokens
      simp only [h.1]
      rw [ih more e post _ _ h.2]
      simp [loadEvents]

theorem loads_cases {α : Type} (l : List (Except Error α)) :
    (∃ inputs : List α, l = inputs.map .ok) ∨
      ∃ (pre : List α) (e : Error) (post : List (Except Error α)),
        l = pre.map .ok ++ .error e :: post := by
  induction l with
  | nil => exact Or.inl ⟨[], rfl⟩
  | cons x rest ih =>
    cases x with
    | error e => exact Or.inr ⟨[], e, rest, rfl⟩
    | ok a =>
      rcases ih with ⟨inputs, h⟩ | ⟨pre, e, post, h⟩
      · exact Or.inl ⟨a :: inputs, by simp [h]⟩
      · exact Or.inr ⟨a :: pre, e, post, by simp [h]⟩

theorem commitmentsLoaded_length {TokReq Tok : Type} (env : AuditEnv TokReq Tok)
    (transfers : List TransferMetadata) :
    ∀ trace : List (AuditEvent Tok), (commitmentsLoaded env transfers trace).length =
      transfers.length := by
  induction transfers with
  | nil => intro trace; rfl
  | cons transfer rest ih => intro trace; simp [commitmentsLoaded, ih]

theorem commitmentsLoaded_get {TokReq Tok : Type} (env : AuditEnv TokReq Tok)
    (transfers : List TransferMetadata) :
    ∀ (trace : List (AuditEvent Tok)) (i : Nat) (transfer : TransferMetadata),
      transfers[i]? = some transfer →
      (commitmentsLoaded env transfers trace)[i]? =
        some (env.GetTokenCommitments (trace ++ loadEvents (transfers.take i))
          transfer.TokenIDs) := by
  induction transfers with
  | nil => intro trace i transfer h; simp at h
  | cons first rest ih =>
    intro trace i transfer h
    cases i with
    | zero =>
      simp only [List.getElem?_cons_zero, Option.some.injEq] at h
      subst h
      simp [commitmentsLoaded, loadEvents]
    | succ j =>
      simp only [List.getElem?_cons_succ] at h
      simp only [commitmentsLoaded, List.getElem?_cons_succ, List.take_succ_cons]
      rw [ih _ j transfer h]
      simp [loadEvents]

theorem loadEvents_no_check {Tok : Type} (transfers : List TransferMetadata) :
    ∀ ev ∈ (loadEvents transfers : List (AuditEvent Tok)), ev.isCheck = false := by
  intro ev hev
  simp only [loadEvents, List.mem_map] at hev
  obtain ⟨transfer, _, rfl⟩ := hev
  rfl

theorem AuditorCheck_loaded {TokReq Tok : Type} (env : AuditEnv TokReq Tok)
    (tokenRequest : TokReq) (metadata : TokenRequestMetadata) (txID : Bytes)
    (inputTokens : List (List Tok))
    (h : commitmentsLoaded env metadata.Transfers [] = inputTokens.map .ok) :
    AuditorCheck env tokenRequest metadata txID =
      ((env.Check tokenRequest metadata inputTokens txID).map
          (fun e => .wrap e "failed checking transaction" []),
        loadEvents metadata.Transfers ++ [.check inputTokens txID]) := by
  unfold AuditorCheck
  rw [loadInputTokens_ok metadata.Transfers inputTokens [] [] h]
  cases hc : env.Check tokenRequest metadata inputTokens txID <;> simp [hc]

theorem AuditorCheck_not_loaded {TokReq Tok : Type} (env : AuditEnv TokReq Tok)
    (tokenRequest : TokReq) (metadata : TokenRequestMetadata) (txID : Bytes)
    (pre : List (List Tok)) (e : Error) (post : List (Except Error (List Tok)))
    (h : commitmentsLoaded env metadata.Transfers [] = pre.map .ok ++ .error e :: post) :
    AuditorCheck env tokenRequest metadata txID =
      (some (.wrap e "failed getting token commitments" []),
        loadEvents (metadata.Transfers.take (pre.length + 1))) := by
  unfold AuditorCheck
  rw [loadInputTokens_err metadata.Transfers pre e post [] [] h]
  simp

theorem map_ok_ne_error {α : Type} (inputs pre : List α) (e : Error)
    (post : List (Except Error α)) :
    inputs.map (Except.ok : α → Except Error α) ≠ pre.map .ok ++ .error e :: post := by
  intro h
  have hmem : (Except.error e : Except Error α) ∈ inputs.map .ok := by rw [h]; simp
  simp at hmem

/-- C17: `AuditorCheck` loads the commitments of the token ids of each transfer of the
metadata, in transfer order.  When every load succeeds it runs the audit check once, on
one input-token list per transfer, the i-th list being what the loader returned for the
i-th transfer, and returns the error of the check wrapped, or nil when the check
succeeds.  When a load fails it returns that error wrapped and the audit check is not
run.  It returns nil only when every load and the audit check succeeded. -/
theorem AuditorCheck_spec {TokReq Tok : Type} (env : AuditEnv TokReq Tok)
    (tokenRequest : TokReq) (metadata : TokenRequestMetadata) (txID : Bytes) :
    (∀ inputTokens, commitmentsLoaded env metadata.Transfers [] = inputTokens.map .ok →
      AuditorCheck env tokenRequest metadata txID =
        ((env.Check tokenRequest metadata inputTokens txID).map
            (fun e => .wrap e "failed checking transaction" []),
          loadEvents metadata.Transfers ++ [.check inputTokens txID]) ∧
      inputTokens.length = metadata.Transfers.length) ∧
    (∀ (pre : List (List Tok)) (e : Error) (post : List (Except Error (List Tok))),
      commitmentsLoaded env metadata.Transfers [] = pre.map .ok ++ .error e :: post →
      AuditorCheck env tokenRequest metadata txID =
        (some (.wrap e "failed getting token commitments" []),
          loadEvents (metadata.Transfers.take (pre.length + 1))) ∧
      ∀ ev ∈ (AuditorCheck env tokenRequest metadata txID).2, ev.isCheck = false) ∧
    ((AuditorCheck env tokenRequest metadata txID).1 = none ↔
      ∃ inputTokens, commitmentsLoaded env metadata.Transfers [] = inputTokens.map .ok ∧
        env.Check tokenRequest metadata inputTokens txID = none) ∧
    (∀ i transfer, metadata.Transfers[i]? = some transfer →
      (commitmentsLoaded env metadata.Transfers [])[i]? =
        some (env.GetTokenCommitments (loadEvents (metadata.Transfers.take i))
          transfer.TokenIDs)) ∧
    (∀ ev ∈ (AuditorCheck env tokenRequest metadata txID).2, ev.isCheck = true →
      ∃ inputTokens, commitmentsLoaded env metadata.Transfers [] = inputTokens.map .ok ∧
        ev = .check inputTokens txID) := by
  refine ⟨?_, ?_, ?_, ?_, ?_⟩
  · intro inputTokens h
    refine ⟨AuditorCheck_loaded env tokenRequest metadata txID inputTokens h, ?_⟩
    have := commitmentsLoaded_length env metadata.Transfers []
    rw [h, List.length_map] at this
    exact this
  · intro pre e post h
    have hrun := AuditorCheck_not_loaded env tokenRequest metadata txID pre e post h
    refine ⟨hrun, ?_⟩
    rw [hrun]
    exact loadEvents_no_check _
  · rcases loads_cases (commitmentsLoaded env metadata.Transfers []) with
      ⟨inputs, h⟩ | ⟨pre, e, post, h⟩
    · rw [AuditorCheck_loaded env tokenRequest metadata txID inputs h]
      constructor
      · intro hnone
        refine ⟨inputs, h, ?_⟩
        cases hc : env.Check tokenRequest metadata inputs txID with
        | none => rfl
        | some e => simp [hc] at hnone
      · rintro ⟨inputTokens, h1, hc⟩
        have heq : inputTokens = inputs := by
          have hmap := h1.symm.trans h
          exact List.map_injective_iff.mpr (fun a b hab => by injection hab) hmap
        subst heq
        simp [hc]
    · rw [AuditorCheck_not_loaded env tokenRequest metadata txID pre e post h]
      constructor
      · intro hnone; simp at hnone
      · rintro ⟨inputTokens, h1, _⟩
        exact absurd (h1.symm.trans h) (map_ok_ne_error inputTokens pre e post)
  · intro i transfer hi
    have := commitmentsLoaded_get env metadata.Transfers [] i transfer hi
    simpa using this
  · intro ev hev hcheck
    rcases loads_cases (commitmentsLoaded env metadata.Transfers []) with
      ⟨inputs, h⟩ | ⟨pre, e, post, h⟩
    · rw [AuditorCheck_loaded env tokenRequest metadata txID inputs h] at hev
      simp only [List.mem_append, List.mem_singleton] at hev
      rcases hev with hev | hev
      · have := loadEvents_no_check _ ev hev
        rw [hcheck] at this
        exact absurd this (by simp)
      · exact ⟨inputs, h, hev⟩
    · rw [AuditorCheck_not_loaded env tokenRequest metadata txID pre e post h] at hev
      have := loadEvents_no_check _ ev hev
      rw [hcheck] at this
      exact absurd this (by simp)

theorem AuditorCheck_spec_witness :
    commitmentsLoaded exAuditEnv exAuditMetadataLost.Transfers [] =
      [[1]].map .ok ++ .error (.new (str "token not found")) :: [.ok [4]] ∧
    AuditorCheck exAuditEnv 5 exAuditMetadataLost (str "tx1") =
      (some (.wrap (.new (str "token not found")) "failed getting token commitments" []),
        loadEvents (exAuditMetadataLost.Transfers.take ([[1]].length + 1))) ∧
    ∀ ev ∈ (AuditorCheck exAuditEnv 5 exAuditMetadataLost (str "tx1")).2, ev.isCheck = false :=
  ⟨rfl, (AuditorCheck_spec exAuditEnv 5 exAuditMetadataLost (str "tx1")).2.1 [[1]]
    (.new (str "token not found")) [.ok [4]] rfl⟩
/-! ## Issuance history -/

theorem tokenRecords_split (env : ProcEnv) (tms : TMS) (ns txID : Bytes) (index : Int)
    (tok : Token) (issuer : Identity) (tokenInfoRaw : Bytes) :
    tokenRecords env tms ns txID index tok issuer tokenInfoRaw =
      ownerRecords env tms ns txID index tok tokenInfoRaw ++
        (if issuedByMe tms issuer then
          [.storeIssuedHistoryToken ns txID index tok tokenInfoRaw issuer] else []) := rfl

theorem ownerRecords_no_history (env : ProcEnv) (tms : TMS) (ns txID : Bytes) (index : Int)
    (tok : Token) (tokenInfoRaw : Bytes) :
    ∀ op ∈ ownerRecords env tms ns txID index tok tokenInfoRaw, op.isIssuedHistory = false := by
  intro op hop
  unfold ownerRecords at hop
  cases hown : tms.OwnerWalletByIdentity tok.Owner with
  | true =>
    cases hkey : env.keys.CreateTokenMineKey txID index with
    | error e => simp [hown, hkey] at hop
    | ok mineTokenID =>
      simp only [hown, hkey, if_true, List.mem_cons, List.mem_singleton, List.not_mem_nil,
        or_false] at hop
      rcases hop with rfl | rfl <;> rfl
  | false =>
    simp only [hown, Bool.false_eq_true, if_false, List.mem_singleton] at hop
    subst hop; rfl

theorem prefix_concat_mem {α : Type} {ops pre : List α} {x : α} {p : α → Bool}
    (h : ops <+: pre ++ [x]) (hpre : ∀ a ∈ pre, p a = false) {y : α} (hy : y ∈ ops)
    (hp : p y = true) : ops = pre ++ [x] := by
  rcases List.prefix_concat_iff.mp h with h1 | h1
  · exact h1
  · have := hpre y (h1.subset hy)
    rw [hp] at this
    exact absurd this (by simp)

theorem mem_recordsOf_history {env : ProcEnv} {tms : TMS} {metadata : Metadata}
    {ns txID key val : Bytes} {op : RWOp} (hop : op.isIssuedHistory = true)
    (h : op ∈ recordsOf env tms metadata ns txID key val) :
    ∃ index tok issuer tokenInfoRaw,
      opensTo env metadata txID key val = some (index, tok, issuer, tokenInfoRaw) ∧
      issuedByMe tms issuer = true ∧
      op = .storeIssuedHistoryToken ns txID index tok tokenInfoRaw issuer := by
  unfold recordsOf at h
  cases hk : outputKey env key with
  | none => simp [hk] at h
  | some p =>
    obtain ⟨c0, index0⟩ := p
    simp only [hk] at h
    by_cases hval : val = []
    · simp only [hval, if_true, List.mem_singleton] at h
      subst h
      simp [RWOp.isIssuedHistory] at hop
    · simp only [hval, if_false] at h
      cases ho : opensTo env metadata txID key val with
      | none => simp [ho] at h
      | some q =>
        obtain ⟨index, tok, issuer, info⟩ := q
        simp only [ho, tokenRecords_split, List.mem_append] at h
        rcases h with h | h
        · have := ownerRecords_no_history env tms ns txID index tok info op h
          rw [hop] at this
          exact absurd this (by simp)
        · cases hiss : issuedByMe tms issuer with
          | false => simp [hiss] at h
          | true =>
            simp only [hiss, if_true, List.mem_singleton] at h
            exact ⟨index, tok, issuer, info, rfl, hiss, h⟩

/-- C18: for an output write that opens to a token, an iteration of the write loop of
token-request reconciliation that goes on to the next write has made the owner-based
calls (never none) followed by the issuance history call exactly when the recorded issuer
is not none and matches a local issuer wallet, whether the token is mine or audited.
Whenever the issuance history call is made, the condition holds and the owner-based
records were written before it; when the condition holds and the call is not made, the
reconciliation has failed with an error.  An issuance history call is made only for an
output write that opens to a token. -/
theorem issuance_history_recorded (env : ProcEnv) (tms : TMS) (metadata : Metadata)
    (ns txID : Bytes) :
    (∀ i log log1 r key val index tok issuer tokenInfoRaw,
      env.GetWriteAt log ns i = .ok (key, val) →
      opensTo env metadata txID key val = some (index, tok, issuer, tokenInfoRaw) →
      scanWrite env tms metadata ns txID i log = (log1, r) →
      ∃ ops, log1 = log ++ .getWriteAt ns i key val :: ops ∧
        (r = none →
          ops = ownerRecords env tms ns txID index tok tokenInfoRaw ++
              (if issuedByMe tms issuer then
                [.storeIssuedHistoryToken ns txID index tok tokenInfoRaw issuer] else []) ∧
            ownerRecords env tms ns txID index tok tokenInfoRaw ≠ [] ∧
            (.storeIssuedHistoryToken ns txID index tok tokenInfoRaw issuer ∈ ops ↔
              (IsNone issuer = false ∧ tms.IssuerWalletByIdentity issuer = true))) ∧
        (∀ op ∈ ops, op.isIssuedHistory = true →
          issuedByMe tms issuer = true ∧
            op = .storeIssuedHistoryToken ns txID index tok tokenInfoRaw issuer ∧
            ops = ownerRecords env tms ns txID index tok tokenInfoRaw ++ [op] ∧
            ownerRecords env tms ns txID index tok tokenInfoRaw ≠ []) ∧
        (issuedByMe tms issuer = true →
          .storeIssuedHistoryToken ns txID index tok tokenInfoRaw issuer ∉ ops →
          ∃ e, r = some (.fail e))) ∧
    (∀ i log log1 r op,
      scanWrite env tms metadata ns txID i log = (log1, r) →
      op ∈ log1.drop log.length → op.isIssuedHistory = true →
      ∃ key val index tok issuer tokenInfoRaw,
        env.GetWriteAt log ns i = .ok (key, val) ∧
        opensTo env metadata txID key val = some (index, tok, issuer, tokenInfoRaw) ∧
        issuedByMe tms issuer = true ∧
        op = .storeIssuedHistoryToken ns txID index tok tokenInfoRaw issuer) := by
  refine ⟨?_, ?_⟩
  · intro i log log1 r key val index tok issuer info hget hopen hstep
    have hstore := hstep
    rw [scanWrite_opens hget hopen] at hstore
    obtain ⟨ops, h1, h2, h3, h4, h5⟩ := storeToken_spec hstore
    rw [tokenRecords_split] at h2 h3
    have hown : r = none ∨ (∃ op ∈ ops, op.isIssuedHistory = true) →
        ownerRecords env tms ns txID index tok info ≠ [] := by
      intro hcase
      unfold ownerRecords
      cases hw : tms.OwnerWalletByIdentity tok.Owner with
      | false => simp
      | true =>
        cases hkey : env.keys.CreateTokenMineKey txID index with
        | ok mineTokenID => simp
        | error e =>
          exfalso
          rcases hcase with hr | ⟨op, hop, hhist⟩
          · obtain ⟨mineTokenID, hm⟩ := h5 hr hw
            rw [hkey] at hm
            exact absurd hm (by simp)
          · have hmem := h2.subset hop
            simp only [ownerRecords, hw, hkey, if_true, List.nil_append] at hmem
            unfold storeToken at hstore
            simp only [hw, hkey, if_true, Prod.mk.injEq] at hstore
            rw [← hstore.1] at h1
            have : ops = [] := by simpa using h1
            rw [this] at hop
            simp at hop
    refine ⟨ops, by rw [h1]; simp, ?_, ?_, ?_⟩
    · intro hr
      refine ⟨h3 hr, hown (Or.inl hr), ?_⟩
      rw [h3 hr]
      constructor
      · intro hmem
        rcases List.mem_append.mp hmem with hmem | hmem
        · have := ownerRecords_no_history env tms ns txID index tok info _ hmem
          simp [RWOp.isIssuedHistory] at this
        · cases hiss : issuedByMe tms issuer with
          | false => simp [hiss] at hmem
          | true => simpa [issuedByMe] using hiss
      · rintro ⟨hn, hw⟩
        simp [issuedByMe, hn, hw]
    · intro op hop hhist
      cases hiss : issuedByMe tms issuer with
      | false =>
        exfalso
        rw [hiss] at h2
        simp only [Bool.false_eq_true, if_false, List.append_nil] at h2
        have := ownerRecords_no_history env tms ns txID index tok info op (h2.subset hop)
        rw [hhist] at this
        exact absurd this (by simp)
      | true =>
        rw [hiss] at h2
        simp only [if_true] at h2
        have hfull := prefix_concat_mem h2
          (ownerRecords_no_history env tms ns txID index tok info) hop hhist
        have hopeq : op = .storeIssuedHistoryToken ns txID index tok info issuer := by
          rw [hfull] at hop
          rcases List.mem_append.mp hop with hmem | hmem
          · have := ownerRecords_no_history env tms ns txID index tok info op hmem
            rw [hhist] at this
            exact absurd this (by simp)
          · simpa using hmem
        refine ⟨rfl, hopeq, ?_, hown (Or.inr ⟨op, hop, hhist⟩)⟩
        rw [hfull, hopeq]
    · intro hiss hnot
      cases r with
      | some outcome =>
        obtain ⟨e, he⟩ := h4 outcome rfl
        exact ⟨e, by rw [he]⟩
      | none =>
        exfalso
        apply hnot
        rw [h3 rfl, hiss]
        simp
  · intro i log log1 r op hstep hmem hhist
    cases hget : env.GetWriteAt log ns i with
    | error e =>
      rw [scanWrite_read_fails hget] at hstep
      simp only [Prod.mk.injEq] at hstep
      rw [← hstep.1] at hmem
      simp at hmem
    | ok write =>
      obtain ⟨key, val⟩ := write
      obtain ⟨ops, h1, h2, _, _⟩ := scanWrite_spec hget hstep
      rw [h1] at hmem
      simp only [List.drop_left, List.mem_cons] at hmem
      rcases hmem with rfl | hmem
      · simp [RWOp.isIssuedHistory] at hhist
      · obtain ⟨index, tok, issuer, info, ho, hiss, hop⟩ :=
          mem_recordsOf_history hhist (h2.subset hmem)
        exact ⟨key, val, index, tok, issuer, info, rfl, ho, hiss, hop⟩

theorem issuance_history_recorded_witness :
    (exProcEnv false).GetWriteAt [] (str "zkat") 0 = .ok (exOutputKey "0", [10]) ∧
    opensTo (exProcEnv false) exMetadata (str "tx1") (exOutputKey "0") [10] =
      some (0, exTokenMine, [1], [20]) ∧
    ∃ ops, (scanWrite (exProcEnv false) exTMS exMetadata (str "zkat") (str "tx1") 0 []).1 =
        [] ++ .getWriteAt (str "zkat") 0 (exOutputKey "0") [10] :: ops ∧
      .storeIssuedHistoryToken (str "zkat") (str "tx1") 0 exTokenMine [20] [1] ∈ ops ∧
      ownerRecords (exProcEnv false) exTMS (str "zkat") (str "tx1") 0 exTokenMine [20] ≠ [] :=
  ⟨rfl, by decide,
    match (issuance_history_recorded (exProcEnv false) exTMS exMetadata (str "zkat")
      (str "tx1")).1 0 [] _ none (exOutputKey "0") [10] 0 exTokenMine [1] [20] rfl
      (by decide) (by decide) with
    | ⟨ops, h1, h2, _, _⟩ => ⟨ops, h1, (h2 rfl).2.2.mpr ⟨rfl, rfl⟩, (h2 rfl).2.1⟩⟩
/-! ## The responder acknowledges only what it committed -/

theorem commit_spec {env : ResponderEnv} {trace trace1 : List REvent}
    {r : Except Error Transaction} (h : endorseView.commit env trace = (r, trace1)) :
    (∃ tx1 envelope rawEnv, env.ReceiveTransaction trace = .ok tx1 ∧
      Committed env tx1 envelope rawEnv ∧
      trace1 = trace ++ [.receiveTransaction, .storeTransient tx1.ID,
        .getRWSet tx1.ID envelope.Results, .storeEnvelope envelope.TxID rawEnv,
        .send (str "ack")] ∧
      (r = .ok tx1 ∨ ∃ e, r = .error e)) ∨
    ((∃ e, r = .error e) ∧ ∃ evs, trace1 = trace ++ .receiveTransaction :: evs ∧
      (∀ ev ∈ evs, ev.isSend = false) ∧
      ∀ tx1 envelope rawEnv, env.ReceiveTransaction trace = .ok tx1 →
        ¬ Committed env tx1 envelope rawEnv) := by
  unfold endorseView.commit at h
  cases hrecv : env.ReceiveTransaction trace with
  | error e =>
    simp only [hrecv, Prod.mk.injEq] at h
    exact Or.inr ⟨⟨_, h.1.symm⟩, [], by rw [← h.2], by simp, by simp⟩
  | ok tx =>
    simp only [hrecv] at h
    cases henv : tx.Envelope with
    | none =>
      simp only [henv, Prod.mk.injEq] at h
      refine Or.inr ⟨⟨_, h.1.symm⟩, [], by rw [← h.2], by simp, ?_⟩
      intro tx1 envelope rawEnv htx hc
      injection htx with htx
      subst htx
      rw [hc.1] at henv
      exact absurd henv (by simp)
    | some envelope =>
      simp only [henv] at h
      cases htransient : env.storeTransient tx with
      | some e =>
        simp only [htransient, Prod.mk.injEq] at h
        refine Or.inr ⟨⟨_, h.1.symm⟩, [.storeTransient tx.ID], by rw [← h.2]; simp,
          by simp [REvent.isSend], ?_⟩
        intro tx1 envelope1 rawEnv htx hc
        injection htx with htx
        subst htx
        rw [hc.2.1] at htransient
        exact absurd htransient (by simp)
      | none =>
        simp only [htransient] at h
        cases hrws : env.GetRWSet tx.ID envelope.Results with
        | some e =>
          simp only [hrws, Prod.mk.injEq] at h
          refine Or.inr ⟨⟨_, h.1.symm⟩, [.storeTransient tx.ID, .getRWSet tx.ID envelope.Results],
            by rw [← h.2]; simp, by simp [REvent.isSend], ?_⟩
          intro tx1 envelope1 rawEnv htx hc
          injection htx with htx
          subst htx
          have he : envelope1 = envelope := by
            have := hc.1.symm.trans henv
            injection this
          subst he
          rw [hc.2.2.1] at hrws
          exact absurd hrws (by simp)
        | none =>
          simp only [hrws] at h
          cases hbytes : envelope.Bytes with
          | error e =>
            simp only [hbytes, Prod.mk.injEq] at h
            refine Or.inr ⟨⟨_, h.1.symm⟩,
              [.storeTransient tx.ID, .getRWSet tx.ID envelope.Results],
              by rw [← h.2]; simp, by simp [REvent.isSend], ?_⟩
            intro tx1 envelope1 rawEnv htx hc
            injection htx with htx
            subst htx
            have he : envelope1 = envelope := by
              have := hc.1.symm.trans henv
              injection this
            subst he
            rw [hc.2.2.2.1] at hbytes
            exact absurd hbytes (by simp)
          | ok rawEnv =>
            simp only [hbytes] at h
            cases hstore : env.StoreEnvelope envelope.TxID rawEnv with
            | some e =>
              simp only [hstore, Prod.mk.injEq] at h
              refine Or.inr ⟨⟨_, h.1.symm⟩,
                [.storeTransient tx.ID, .getRWSet tx.ID envelope.Results,
                  .storeEnvelope envelope.TxID rawEnv],
                by rw [← h.2]; simp, by simp [REvent.isSend], ?_⟩
              intro tx1 envelope1 rawEnv1 htx hc
              injection htx with htx
              subst htx
              have he : envelope1 = envelope := by
                have := hc.1.symm.trans henv
                injection this
              subst he
              have hr : rawEnv1 = rawEnv := by
                have := hc.2.2.2.1.symm.trans hbytes
                injection this
              subst hr
              rw [hc.2.2.2.2] at hstore
              exact absurd hstore (by simp)
            | none =>
              simp only [hstore] at h
              refine Or.inl ⟨tx, envelope, rawEnv, rfl,
                ⟨henv, htransient, hrws, hbytes, hstore⟩, ?_, ?_⟩
              · cases hsend : env.Send
                    (trace ++ [.receiveTransaction] ++ [.storeTransient tx.ID] ++
                      [.getRWSet tx.ID envelope.Results] ++
                      [.storeEnvelope envelope.TxID rawEnv]) (str "ack") <;>
                  simp only [hsend, Prod.mk.injEq] at h <;> rw [← h.2] <;> simp
              · cases hsend : env.Send
                    (trace ++ [.receiveTransaction] ++ [.storeTransient tx.ID] ++
                      [.getRWSet tx.ID envelope.Results] ++
                      [.storeEnvelope envelope.TxID rawEnv]) (str "ack") <;>
                  simp only [hsend, Prod.mk.injEq] at h
                · exact Or.inl h.1.symm
                · exact Or.inr ⟨_, h.1.symm⟩

theorem CommitFailure.not_committed {env : ResponderEnv} {tx : Transaction}
    (hfail : CommitFailure env tx) (envelope : Envelope) (rawEnv : Bytes) :
    ¬ Committed env tx envelope rawEnv := by
  rintro ⟨h1, h2, h3, h4, h5⟩
  rcases hfail with h | ⟨e, h⟩ | ⟨envelope1, he, h⟩
  · rw [h1] at h; exact absurd h (by simp)
  · rw [h2] at h; exact absurd h (by simp)
  · have heq : envelope1 = envelope := by
      have := he.symm.trans h1
      injection this
    subst heq
    rcases h with ⟨e, h⟩ | ⟨e, h⟩ | ⟨rawEnv1, e, hb, h⟩
    · rw [h3] at h; exact absurd h (by simp)
    · rw [h4] at h; exact absurd h (by simp)
    · have hr : rawEnv1 = rawEnv := by
        have := hb.symm.trans h4
        injection this
      subst hr
      rw [h5] at h; exact absurd h (by simp)

/-- C19: when the responder succeeds, its trace ends with the reception of the
transaction, the storing of the transient data, the read-write set obtained for the
envelope of the transaction, the storing of the envelope and, last, the sending of the
fixed payload `ack`, every one of these calls having succeeded.  When the received
transaction carries no envelope, or storing the transient data, obtaining the read-write
set, marshalling or storing the envelope fails, the responder returns an error and sends
nothing after the reception.  Whatever the run, the only payload sent after the request
loop is `ack`, and only after the commit succeeded. -/
theorem responder_ack_after_commit (env : ResponderEnv) (tx : Transaction) :
    (∀ tx1, (endorseView.Call env tx).1 = .ok tx1 →
      ∃ pre envelope rawEnv,
        (endorseView.Call env tx).2 = pre ++ [.receiveTransaction, .storeTransient tx1.ID,
          .getRWSet tx1.ID envelope.Results, .storeEnvelope envelope.TxID rawEnv,
          .send (str "ack")] ∧
        (∀ ev ∈ pre, ev.isCommit = false) ∧
        env.ReceiveTransaction pre = .ok tx1 ∧ Committed env tx1 envelope rawEnv) ∧
    (∀ res trace tx1, endorseView.requestsToBeSigned env tx = .ok res →
      endorseView.signRequests env res [] = (none, trace) →
      env.ReceiveTransaction trace = .ok tx1 → CommitFailure env tx1 →
      ∃ e evs, endorseView.Call env tx = (.error e, trace ++ .receiveTransaction :: evs) ∧
        ∀ ev ∈ evs, ev.isSend = false) ∧
    (∀ res trace, endorseView.requestsToBeSigned env tx = .ok res →
      endorseView.signRequests env res [] = (none, trace) →
      ∀ ev ∈ (endorseView.Call env tx).2.drop trace.length, ev.isSend = true →
        ev = .send (str "ack") ∧
        ∃ tx1 envelope rawEnv, env.ReceiveTransaction trace = .ok tx1 ∧
          Committed env tx1 envelope rawEnv ∧
          (endorseView.Call env tx).2 = trace ++ [.receiveTransaction, .storeTransient tx1.ID,
            .getRWSet tx1.ID envelope.Results, .storeEnvelope envelope.TxID rawEnv,
            .send (str "ack")]) := by
  have hcommit : ∀ res trace, endorseView.requestsToBeSigned env tx = .ok res →
      endorseView.signRequests env res [] = (none, trace) →
      endorseView.Call env tx = endorseView.commit env trace := by
    intro res trace hres hloop
    unfold endorseView.Call
    simp only [hres, hloop]
  refine ⟨?_, ?_, ?_⟩
  · intro tx1 hok
    obtain ⟨res, hres, hcases⟩ := endorseView_Call_cases env tx
    rcases hcases with ⟨e, trace, hloop, hcall⟩ | ⟨trace, hloop, hcall⟩
    · rw [hcall] at hok
      simp at hok
    · have hrun : endorseView.commit env trace =
          ((endorseView.commit env trace).1, (endorseView.commit env trace).2) := rfl
      obtain ⟨evs, h1, h2, _, _⟩ := signRequests_spec res hloop
      rw [hcall] at hok ⊢
      rcases commit_spec hrun with ⟨tx2, envelope, rawEnv, hrecv, hc, htrace, hr⟩ | ⟨⟨e, he⟩, _⟩
      · have htx : tx2 = tx1 := by
          rcases hr with hr | ⟨e, hr⟩
          · rw [hr] at hok
            injection hok
          · rw [hr] at hok
            exact absurd hok (by simp)
        subst htx
        refine ⟨trace, envelope, rawEnv, htrace, ?_, hrecv, hc⟩
        intro ev hev
        rw [h1] at hev
        exact h2 ev (by simpa using hev)
      · rw [he] at hok
        exact absurd hok (by simp)
  · intro res trace tx1 hres hloop hrecv hfail
    have hrun : endorseView.commit env trace =
        ((endorseView.commit env trace).1, (endorseView.commit env trace).2) := rfl
    rcases commit_spec hrun with ⟨tx2, envelope, rawEnv, hrecv2, hc, _, _⟩ |
      ⟨⟨e, he⟩, evs, htrace, hquiet, _⟩
    · exfalso
      have htx : tx2 = tx1 := by
        have := hrecv2.symm.trans hrecv
        injection this
      subst htx
      exact hfail.not_committed envelope rawEnv hc
    · refine ⟨e, evs, ?_, hquiet⟩
      rw [hcommit res trace hres hloop, hrun, he, htrace]
  · intro res trace hres hloop ev hev hsend
    have hrun : endorseView.commit env trace =
        ((endorseView.commit env trace).1, (endorseView.commit env trace).2) := rfl
    rw [hcommit res trace hres hloop] at hev ⊢
    rcases commit_spec hrun with ⟨tx1, envelope, rawEnv, hrecv, hc, htrace, _⟩ |
      ⟨_, evs, htrace, hquiet, _⟩
    · refine ⟨?_, tx1, envelope, rawEnv, hrecv, hc, htrace⟩
      rw [htrace] at hev
      simp only [List.drop_left, List.mem_cons, List.mem_singleton, List.not_mem_nil,
        or_false] at hev
      rcases hev with rfl | rfl | rfl | rfl | rfl
      · simp [REvent.isSend] at hsend
      · simp [REvent.isSend] at hsend
      · simp [REvent.isSend] at hsend
      · simp [REvent.isSend] at hsend
      · rfl
    · exfalso
      rw [htrace] at hev
      simp only [List.drop_left, List.mem_cons] at hev
      rcases hev with rfl | hev
      · simp [REvent.isSend] at hsend
      · have := hquiet ev hev
        rw [hsend] at this
        exact absurd this (by simp)

theorem responder_ack_after_commit_witness :
    ∃ e evs, endorseView.Call exResponderBadRWSet exResponderTx =
        (.error e,
          [.receive 60, .getSigner [3], .sign [3] [1], .send [3, 1],
            .receive 60, .getSigner [6], .sign [6] [1], .send [6, 1]] ++
            .receiveTransaction :: evs) ∧
      ∀ ev ∈ evs, ev.isSend = false :=
  (responder_ack_after_commit exResponderBadRWSet exResponderTx).2.1
    [{ Senders := [[3], [6]], Receivers := [[4]] }, { Senders := [[3], [6]], Receivers := [[4]] }]
    [.receive 60, .getSigner [3], .sign [3] [1], .send [3, 1],
      .receive 60, .getSigner [6], .sign [6] [1], .send [6, 1]]
    { exTx with ID := str "tx1", Envelope := some exEnvelope }
    (by decide) (by decide) rfl
    (Or.inr (Or.inr ⟨exEnvelope, rfl, Or.inl ⟨_, rfl⟩⟩))

/-! ## A missing envelope -/

/-- C20: `distributeEnv` called with a nil envelope returns the error `fabric transaction
envelope is empty` and leaves the state as it was: the transaction is not verified, no
party is contacted and nothing is committed locally.  In `Call`, a chaincode call that
returns no envelope therefore ends the run with that error right after the distribute
phase is entered. -/
theorem distributeEnv_nil_envelope (env : Env) (distributionList : List Identity) (st : State) :
    distributeEnv env none distributionList st =
      (some (.new (str "fabric transaction envelope is empty")), st) ∧
    (∀ parties1 st1 parties2 st2 st3 st4,
      env.storeTransient st.tx = none →
      requestSignaturesOnIssues env ((st.log .storeTransient).log (.enter .issues)) =
        (.ok parties1, st1) →
      requestSignaturesOnTransfers env (st1.log (.enter .transfers)) = (.ok parties2, st2) →
      AuditPassed env st2 st3 →
      callChaincode env (st3.log (.enter .ledger)) = (.ok none, st4) →
      Call env st = (some (.new (str "fabric transaction envelope is empty")),
        st4.log (.enter .distribute))) := by
  refine ⟨rfl, ?_⟩
  intro parties1 st1 parties2 st2 st3 st4 h0 h1 h2 h3 h4
  rw [Call_after_audit h0 h1 h2 h3, h4]
  rfl

theorem distributeEnv_nil_envelope_witness :
    Call exEnvNoEnvelope exState = (some (.new (str "fabric transaction envelope is empty")),
      (callChaincode exEnvNoEnvelope (exOKAudited.log (.enter .ledger))).2.log
        (.enter .distribute)) :=
  (distributeEnv_nil_envelope exEnvNoEnvelope [] exState).2 [[1], [2]] exOKIssues
    [[2], [3], [4], []] exOKTransfers exOKAudited
    (callChaincode exEnvNoEnvelope (exOKAudited.log (.enter .ledger))).2
    rfl rfl rfl (Or.inr ⟨rfl, rfl, rfl⟩) rfl
/-! ## The exchange of recipient identities -/

theorem firstTwo_ok {r : ViewResult (List Identity)} {a b : Identity}
    (h : firstTwo r = .ok (a, b)) : ∃ rest, r = .ok (a :: b :: rest) := by
  cases r with
  | error e => simp [firstTwo] at h
  | panic => simp [firstTwo] at h
  | ok ids =>
    rcases ids with _ | ⟨x, _ | ⟨y, rest⟩⟩
    · simp [firstTwo] at h
    · simp [firstTwo] at h
    · simp only [firstTwo, ViewResult.ok.injEq, Prod.mk.injEq] at h
      obtain ⟨h1, h2⟩ := h
      subst h1 h2
      exact ⟨rest, rfl⟩

theorem exchange_remote_ok {env : RecipientEnv} {f : ExchangeRecipientIdentitiesView}
    {ids : List Identity} {trace : List XEvent}
    (hremote : (env.WalletManager f.Channel).OwnerWalletByIdentity f.Other = none)
    (h : ExchangeRecipientIdentitiesView.Call env f = (.ok ids, trace)) :
    ∃ w me auditInfo metadata requestRaw payload recipientData,
      (env.WalletManager (env.ChannelName f.Network f.Channel)).OwnerWallet f.Wallet = some w ∧
      w.GetRecipientIdentity = .ok me ∧ w.GetAuditInfo me = .ok auditInfo ∧
      w.GetTokenMetadata me = .ok metadata ∧
      ExchangeRecipientRequest.Bytes env
        { Channel := env.ChannelName f.Network f.Channel, WalletID := f.Other,
          RecipientData := some
            { Identity := me, AuditInfo := auditInfo, Metadata := metadata } } =
        .ok requestRaw ∧
      RecipientData.FromBytes env payload = .ok recipientData ∧
      ids = [me, recipientData.Identity] ∧
      sentBy trace = [requestRaw] ∧ readBy trace = [payload] := by
  unfold ExchangeRecipientIdentitiesView.Call at h
  simp only [hremote] at h
  cases h1 : env.GetSession f.Other with
  | some e => simp only [h1] at h; try simp at h
  | none =>
    simp only [h1] at h
    cases h2 : (env.WalletManager (env.ChannelName f.Network f.Channel)).OwnerWallet f.Wallet with
    | none => simp only [h2] at h; try simp at h
    | some w =>
      simp only [h2] at h
      cases h3 : w.GetRecipientIdentity with
      | error e => simp only [h3] at h; try simp at h
      | ok me =>
        simp only [h3] at h
        cases h4 : w.GetAuditInfo me with
        | error e => simp only [h4] at h; try simp at h
        | ok auditInfo =>
          simp only [h4] at h
          cases h5 : w.GetTokenMetadata me with
          | error e => simp only [h5] at h; try simp at h
          | ok metadata =>
            simp only [h5] at h
            cases h6 : ExchangeRecipientRequest.Bytes env
                { Channel := env.ChannelName f.Network f.Channel, WalletID := f.Other,
                  RecipientData := some
                    { Identity := me, AuditInfo := auditInfo, Metadata := metadata } } with
            | error e => simp only [h6] at h; try simp at h
            | ok requestRaw =>
              simp only [h6] at h
              cases h7 : env.Send [XEvent.getSession f.Other] requestRaw with
              | some e => simp only [h7] at h; try simp at h
              | none =>
                simp only [h7] at h
                cases h8 : env.ReadMessageWithTimeout
                    ([XEvent.getSession f.Other] ++ [.send requestRaw]) 30 with
                | error e => simp only [h8] at h; try simp at h
                | ok payload =>
                  simp only [h8] at h
                  cases h9 : RecipientData.FromBytes env payload with
                  | error e => simp only [h9] at h; try simp at h
                  | ok recipientData =>
                    simp only [h9] at h
                    cases h10 : (env.WalletManager
                        (env.ChannelName f.Network f.Channel)).RegisterRecipientIdentity
                        recipientData.Identity recipientData.AuditInfo
                        recipientData.Metadata with
                    | some e => simp only [h10] at h; try simp at h
                    | none =>
                      simp only [h10] at h
                      cases h11 : env.Bind f.Other recipientData.Identity with
                      | some e => simp only [h11] at h; try simp at h
                      | none =>
                        simp only [h11] at h
                        cases h12 : env.Bind env.Me me with
                        | some e => simp only [h12] at h; try simp at h
                        | none =>
                          simp only [h12, Prod.mk.injEq, ViewResult.ok.injEq] at h
                          obtain ⟨hids, htrace⟩ := h
                          refine ⟨w, me, auditInfo, metadata, requestRaw, payload,
                            recipientData, rfl, h3, h4, h5, h6, h9, hids.symm, ?_, ?_⟩
                          · rw [← htrace]; simp [sentBy]
                          · rw [← htrace]; simp [readBy]

theorem respondExchange_ok {env : RecipientEnv} {s : respondExchangePseudonymView}
    {ids : List Identity} {trace : List XEvent}
    (h : respondExchangePseudonymView.Call env s = (.ok ids, trace)) :
    ∃ requestRaw request data w me auditInfo metadata raw,
      env.ReadFirstMessage = .ok requestRaw ∧
      ExchangeRecipientRequest.FromBytes env requestRaw = .ok request ∧
      request.RecipientData = some data ∧
      (env.WalletManager request.Channel).OwnerWallet
        (walletOrRequested s.Wallet request.WalletID) = some w ∧
      w.GetRecipientIdentity = .ok me ∧ w.GetAuditInfo me = .ok auditInfo ∧
      w.GetTokenMetadata me = .ok metadata ∧
      RecipientData.Bytes env
        { Identity := me, AuditInfo := auditInfo, Metadata := metadata } = .ok raw ∧
      ids = [me, data.Identity] ∧ readBy trace = [requestRaw] ∧ sentBy trace = [raw] := by
  unfold respondExchangePseudonymView.Call at h
  cases h1 : env.ReadFirstMessage with
  | error e => simp only [h1] at h; try simp at h
  | ok requestRaw =>
    simp only [h1] at h
    cases h2 : ExchangeRecipientRequest.FromBytes env requestRaw with
    | error e => simp only [h2] at h; try simp at h
    | ok request =>
      simp only [h2] at h
      cases h3 : request.RecipientData with
      | none => simp only [h3] at h; try simp at h
      | some data =>
        simp only [h3] at h
        cases h4 : (env.WalletManager request.Channel).RegisterRecipientIdentity data.Identity
            data.AuditInfo data.Metadata with
        | some e => simp only [h4] at h; try simp at h
        | none =>
          simp only [h4] at h
          cases h5 : (env.WalletManager request.Channel).OwnerWallet
              (walletOrRequested s.Wallet request.WalletID) with
          | none => simp only [h5] at h; try simp at h
          | some w =>
            simp only [h5] at h
            cases h6 : w.GetRecipientIdentity with
            | error e => simp only [h6] at h; try simp at h
            | ok me =>
              simp only [h6] at h
              cases h7 : w.GetAuditInfo me with
              | error e => simp only [h7] at h; try simp at h
              | ok auditInfo =>
                simp only [h7] at h
                cases h8 : w.GetTokenMetadata me with
                | error e => simp only [h8] at h; try simp at h
                | ok metadata =>
                  simp only [h8] at h
                  cases h9 : RecipientData.Bytes env
                      { Identity := me, AuditInfo := auditInfo, Metadata := metadata } with
                  | error e => simp only [h9] at h; try simp at h
                  | ok raw =>
                    simp only [h9] at h
                    cases h10 : env.Send
                        ([XEvent.read requestRaw] ++
                          [.register data.Identity data.AuditInfo data.Metadata]) raw with
                    | some e => simp only [h10] at h; try simp at h
                    | none =>
                      simp only [h10] at h
                      cases h11 : env.Bind env.Me me with
                      | some e => simp only [h11] at h; try simp at h
                      | none =>
                        simp only [h11] at h
                        cases h12 : env.Bind env.Caller data.Identity with
                        | some e => simp only [h12] at h; try simp at h
                        | none =>
                          simp only [h12, Prod.mk.injEq, ViewResult.ok.injEq] at h
                          obtain ⟨hids, htrace⟩ := h
                          refine ⟨requestRaw, request, data, w, me, auditInfo, metadata, raw,
                            rfl, h2, h3, h5, h6, h7, h8, h9, hids.symm, ?_, ?_⟩
                          · rw [← htrace]; simp [readBy]
                          · rw [← htrace]; simp [sentBy]

theorem exDecodeData_encode (r : RecipientData) : exDecodeData (exEncodeData r) = .ok r := by
  cases r with
  | mk auditInfo metadata identity => simp [exDecodeData, exEncodeData]

theorem exDecodeExchange_encode (r : ExchangeRecipientRequest) :
    exDecodeExchange (exEncodeExchange r) = .ok r := by
  cases r with
  | mk channel walletID data =>
    cases data with
    | none => simp [exDecodeExchange, exEncodeExchange]
    | some d =>
      have htail : exEncodeData d =
          d.Identity.length :: (d.AuditInfo.length :: (d.Identity ++ (d.AuditInfo ++ d.Metadata))) :=
        rfl
      simp only [exDecodeExchange, exEncodeExchange, List.drop_left, List.take_left, htail]
      rw [← htail, exDecodeData_encode]

theorem exNode_request_codec (me me1 : Identity) (wallets wallets1 : Bytes → Option OwnerWallet)
    (first reply first1 reply1 : Except Error Bytes) (request : ExchangeRecipientRequest)
    (raw : Bytes)
    (h : ExchangeRecipientRequest.Bytes (exNode me wallets first reply) request = .ok raw) :
    ExchangeRecipientRequest.FromBytes (exNode me1 wallets1 first1 reply1) raw = .ok request := by
  have h1 : Except.ok (exEncodeExchange request) = (Except.ok raw : Except Error Bytes) := h
  injection h1 with h1
  rw [← h1]
  exact exDecodeExchange_encode request

theorem exNode_data_codec (me me1 : Identity) (wallets wallets1 : Bytes → Option OwnerWallet)
    (first reply first1 reply1 : Except Error Bytes) (data : RecipientData) (raw : Bytes)
    (h : RecipientData.Bytes (exNode me wallets first reply) data = .ok raw) :
    RecipientData.FromBytes (exNode me1 wallets1 first1 reply1) raw = .ok data := by
  have h1 : Except.ok (exEncodeData data) = (Except.ok raw : Except Error Bytes) := h
  injection h1 with h1
  rw [← h1]
  exact exDecodeData_encode data

/-- C21: in a remote exchange of recipient identities that succeeds on both nodes, where
the responder reads the request the initiator sent, the initiator reads the reply the
responder sent, and each payload decodes to the message that was encoded, the pair
returned by `ExchangeRecipientIdentities` is the pair returned by
`RespondExchangeRecipientIdentities` swapped.  The first component of the initiator is
the recipient identity of its own wallet and its second component is the recipient
identity of the wallet of the responder. -/
theorem exchanged_pairs_swapped (initiator responder : RecipientEnv) (walletID : Bytes)
    (recipient a b c d : Identity) (traceI traceR : List XEvent)
    (hremote : (initiator.WalletManager []).OwnerWalletByIdentity recipient = none)
    (hinitiator : ExchangeRecipientIdentities initiator walletID recipient = (.ok (a, b), traceI))
    (hresponder : RespondExchangeRecipientIdentities responder = (.ok (c, d), traceR))
    (hrequest : readBy traceR = sentBy traceI) (hreply : readBy traceI = sentBy traceR)
    (hcodec1 : ∀ request raw, ExchangeRecipientRequest.Bytes initiator request = .ok raw →
      ExchangeRecipientRequest.FromBytes responder raw = .ok request)
    (hcodec2 : ∀ data raw, RecipientData.Bytes responder data = .ok raw →
      RecipientData.FromBytes initiator raw = .ok data) :
    a = d ∧ b = c ∧
    (∃ w, (initiator.WalletManager (initiator.ChannelName [] [])).OwnerWallet walletID = some w ∧
      w.GetRecipientIdentity = .ok a) ∧
    (∃ w, (responder.WalletManager (initiator.ChannelName [] [])).OwnerWallet
        (walletOrRequested [] recipient) = some w ∧
      w.GetRecipientIdentity = .ok b) := by
  unfold ExchangeRecipientIdentities at hinitiator
  unfold RespondExchangeRecipientIdentities at hresponder
  simp only [Prod.mk.injEq] at hinitiator hresponder
  obtain ⟨hI1, hI2⟩ := hinitiator
  obtain ⟨hR1, hR2⟩ := hresponder
  obtain ⟨restI, hI3⟩ := firstTwo_ok hI1
  obtain ⟨restR, hR3⟩ := firstTwo_ok hR1
  have hrunI : ExchangeRecipientIdentitiesView.Call initiator
      { Network := [], Channel := [], Wallet := walletID, Other := recipient } =
      (.ok (a :: b :: restI), traceI) := by
    rw [← hI3, ← hI2]
  have hrunR : respondExchangePseudonymView.Call responder { Wallet := [] } =
      (.ok (c :: d :: restR), traceR) := by
    rw [← hR3, ← hR2]
  obtain ⟨wI, me, auditInfo, metadata, requestRaw, payload, recipientData, hw, hme, _, _,
    hbytes, hfrom, hids, hsent, hread⟩ := exchange_remote_ok hremote hrunI
  obtain ⟨requestRaw1, request, data, wR, me1, auditInfo1, metadata1, raw, _, hfrom1, hdata,
    hw1, hme1, _, _, hbytes1, hids1, hread1, hsent1⟩ := respondExchange_ok hrunR
  simp only [List.cons.injEq] at hids hids1
  obtain ⟨ha, hb, _⟩ := hids
  obtain ⟨hc, hd, _⟩ := hids1
  rw [hread1, hsent] at hrequest
  rw [hread, hsent1] at hreply
  simp only [List.cons.injEq, and_true] at hrequest hreply
  subst hrequest hreply
  have hreq := hcodec1 _ _ hbytes
  rw [hfrom1] at hreq
  injection hreq with hreq
  have hrep := hcodec2 _ _ hbytes1
  rw [hfrom] at hrep
  injection hrep with hrep
  subst hreq hrep
  simp only [Option.some.injEq] at hdata
  subst hdata
  refine ⟨by rw [ha, hd], by rw [hb, hc], ⟨wI, hw, by rw [ha]; exact hme⟩,
    ⟨wR, hw1, by rw [hb]; exact hme1⟩⟩

theorem exchanged_pairs_swapped_witness :
    ExchangeRecipientIdentities exSenderNode [] [3] =
      (.ok ([10], [21]), [.getSession [3], .send exExchangeRequest, .read exRecipientReply,
        .register [21] [1, 21] [2, 21], .bind [3] [21], .bind [0] [10]]) ∧
    RespondExchangeRecipientIdentities exRecipientNode =
      (.ok ([21], [10]), [.read exExchangeRequest, .register [10] [1, 10] [2, 10],
        .send exRecipientReply, .bind [3] [21], .bind [0] [10]]) ∧
    (([10] : Identity) = [10] ∧ ([21] : Identity) = [21] ∧
      (∃ w, (exSenderNode.WalletManager (exSenderNode.ChannelName [] [])).OwnerWallet [] =
          some w ∧ w.GetRecipientIdentity = .ok [10]) ∧
      (∃ w, (exRecipientNode.WalletManager (exSenderNode.ChannelName [] [])).OwnerWallet
          (walletOrRequested [] [3]) = some w ∧ w.GetRecipientIdentity = .ok [21])) :=
  ⟨by decide, by decide,
    exchanged_pairs_swapped exSenderNode exRecipientNode [] [3] [10] [21] [21] [10]
      [.getSession [3], .send exExchangeRequest, .read exRecipientReply,
        .register [21] [1, 21] [2, 21], .bind [3] [21], .bind [0] [10]]
      [.read exExchangeRequest, .register [10] [1, 10] [2, 10],
        .send exRecipientReply, .bind [3] [21], .bind [0] [10]]
      rfl (by decide) (by decide) (by decide) (by decide)
      (exNode_request_codec _ _ _ _ _ _ _ _) (exNode_data_codec _ _ _ _ _ _ _ _)⟩
/-! ## The wallet a recipient answers from -/

theorem walletOrRequested_nil (requested : Bytes) : walletOrRequested [] requested = requested := by
  unfold walletOrRequested
  cases requested with
  | nil => rfl
  | cons b rest => simp

theorem respondRequest_ok {env : RecipientEnv} {s : RespondRequestRecipientIdentityView}
    {id : Identity} {trace : List XEvent}
    (h : RespondRequestRecipientIdentityView.Call env s = (.ok id, trace)) :
    ∃ payload rr w auditInfo metadata raw,
      env.ReadFirstMessage = .ok payload ∧ RecipientRequest.FromBytes env payload = .ok rr ∧
      env.GetWalletForChannel rr.Channel (walletOrRequested s.Wallet rr.WalletID) = some w ∧
      w.GetRecipientIdentity = .ok id ∧ w.GetAuditInfo id = .ok auditInfo ∧
      w.GetTokenMetadata id = .ok metadata ∧
      RecipientData.Bytes env
        { Identity := id, AuditInfo := auditInfo, Metadata := metadata } = .ok raw ∧
      trace = [.read payload, .send raw, .bind env.Me id] := by
  unfold RespondRequestRecipientIdentityView.Call at h
  cases h1 : env.ReadFirstMessage with
  | error e => simp only [h1] at h; try simp at h
  | ok payload =>
    simp only [h1] at h
    cases h2 : RecipientRequest.FromBytes env payload with
    | error e => simp only [h2] at h; try simp at h
    | ok rr =>
      simp only [h2] at h
      cases h3 : env.GetWalletForChannel rr.Channel (walletOrRequested s.Wallet rr.WalletID) with
      | none => simp only [h3] at h; try simp at h
      | some w =>
        simp only [h3] at h
        cases h4 : w.GetRecipientIdentity with
        | error e => simp only [h4] at h; try simp at h
        | ok me =>
          simp only [h4] at h
          cases h5 : w.GetAuditInfo me with
          | error e => simp only [h5] at h; try simp at h
          | ok auditInfo =>
            simp only [h5] at h
            cases h6 : w.GetTokenMetadata me with
            | error e => simp only [h6] at h; try simp at h
            | ok metadata =>
              simp only [h6] at h
              cases h7 : RecipientData.Bytes env
                  { Identity := me, AuditInfo := auditInfo, Metadata := metadata } with
              | error e => simp only [h7] at h; try simp at h
              | ok raw =>
                simp only [h7] at h
                cases h8 : env.Send [XEvent.read payload] raw with
                | some e => simp only [h8] at h; try simp at h
                | none =>
                  simp only [h8] at h
                  cases h9 : env.Bind env.Me me with
                  | some e => simp only [h9] at h; try simp at h
                  | none =>
                    simp only [h9, Prod.mk.injEq, ViewResult.ok.injEq] at h
                    obtain ⟨hid, htrace⟩ := h
                    subst hid
                    exact ⟨payload, rr, w, auditInfo, metadata, raw, rfl, h2, h3, h4, h5, h6, h7,
                      by rw [← htrace]; simp⟩

theorem requestRecipient_sends (env : RecipientEnv) (f : RequestRecipientIdentityView) :
    ∀ raw ∈ sentBy (RequestRecipientIdentityView.Call env f).2,
      RecipientRequest.Bytes env { Channel := f.Channel, WalletID := f.Other } = .ok raw := by
  intro raw hraw
  unfold RequestRecipientIdentityView.Call at hraw
  cases h0 : (env.WalletManager f.Channel).OwnerWalletByIdentity f.Other with
  | some w =>
    simp only [h0] at hraw
    cases h1 : w.GetRecipientIdentity <;> simp [h1, sentBy] at hraw
  | none =>
    simp only [h0] at hraw
    cases h1 : env.GetSession f.Other with
    | some e => simp [h1, sentBy] at hraw
    | none =>
      simp only [h1] at hraw
      cases h2 : RecipientRequest.Bytes env { Channel := f.Channel, WalletID := f.Other } with
      | error e => simp [h2, sentBy] at hraw
      | ok rrRaw =>
        have hsent : sentBy (RequestRecipientIdentityView.Call env f).2 = [rrRaw] := by
          unfold RequestRecipientIdentityView.Call
          simp only [h0, h1, h2]
          cases h3 : env.Send [XEvent.getSession f.Other] rrRaw with
          | some e => simp [sentBy]
          | none =>
            simp only []
            cases h4 : env.Receive ([XEvent.getSession f.Other] ++ [.send rrRaw]) 60 with
            | none => simp [sentBy]
            | some msg =>
              simp only []
              cases h5 : RecipientData.FromBytes env msg.Payload with
              | error e => simp [sentBy]
              | ok recipientData =>
                simp only []
                cases h6 : (env.WalletManager f.Channel).RegisterRecipientIdentity
                    recipientData.Identity recipientData.AuditInfo recipientData.Metadata with
                | some e => simp [sentBy]
                | none =>
                  simp only []
                  cases h7 : env.Bind f.Other recipientData.Identity <;> simp [sentBy]
        unfold RequestRecipientIdentityView.Call at hsent
        simp only [h0, h1] at hsent
        rw [hsent] at hraw
        simp only [List.mem_singleton] at hraw
        rw [hraw]

/-- What the responder with no wallet configured answers from, on every node: the wallet
that `GetWalletForChannel` finds under the wallet id of the request, which is the lookup
of the default wallet when that id is empty.  The requests that `RequestRecipientIdentity`
sends carry the identity of the recipient as wallet id. -/
theorem responder_uses_requested_wallet (env : RecipientEnv) :
    (∀ id trace, RespondRequestRecipientIdentity env = (.ok id, trace) →
      ∃ payload rr w auditInfo metadata raw,
        env.ReadFirstMessage = .ok payload ∧
        RecipientRequest.FromBytes env payload = .ok rr ∧
        env.GetWalletForChannel rr.Channel rr.WalletID = some w ∧
        w.GetRecipientIdentity = .ok id ∧
        RecipientData.Bytes env
          { Identity := id, AuditInfo := auditInfo, Metadata := metadata } = .ok raw ∧
        trace = [.read payload, .send raw, .bind env.Me id] ∧
        (rr.WalletID = [] → defaultWallet env rr.Channel = some w)) ∧
    (∀ recipient, ∀ raw ∈ sentBy (RequestRecipientIdentity env recipient).2,
      RecipientRequest.Bytes env { Channel := [], WalletID := recipient } = .ok raw) := by
  refine ⟨?_, ?_⟩
  · intro id trace h
    unfold RespondRequestRecipientIdentity at h
    obtain ⟨payload, rr, w, auditInfo, metadata, raw, h1, h2, h3, h4, _, _, h7, h8⟩ :=
      respondRequest_ok h
    rw [walletOrRequested_nil] at h3
    refine ⟨payload, rr, w, auditInfo, metadata, raw, h1, h2, h3, h4, h7, h8, ?_⟩
    intro hempty
    unfold defaultWallet
    rw [← hempty]
    exact h3
  · intro recipient raw hraw
    exact requestRecipient_sends env { Channel := [], Other := recipient } raw hraw

theorem responder_uses_requested_wallet_witness :
    ∃ payload rr w auditInfo metadata raw,
      exRecipientNodeAsked.ReadFirstMessage = .ok payload ∧
      RecipientRequest.FromBytes exRecipientNodeAsked payload = .ok rr ∧
      exRecipientNodeAsked.GetWalletForChannel rr.Channel rr.WalletID = some w ∧
      w.GetRecipientIdentity = .ok [21] ∧
      RecipientData.Bytes exRecipientNodeAsked
        { Identity := [21], AuditInfo := auditInfo, Metadata := metadata } = .ok raw ∧
      [.read (exEncodeRequest { Channel := [], WalletID := [3] }), .send exRecipientReply,
          .bind exRecipientNodeAsked.Me [21]] =
        [XEvent.read payload, .send raw, .bind exRecipientNodeAsked.Me [21]] ∧
      (rr.WalletID = [] → defaultWallet exRecipientNodeAsked rr.Channel = some w) :=
  (responder_uses_requested_wallet exRecipientNodeAsked).1 [21]
    [.read (exEncodeRequest { Channel := [], WalletID := [3] }), .send exRecipientReply,
      .bind exRecipientNodeAsked.Me [21]] (by decide)

theorem SkippedKey.not_output {env : ProcEnv} {key : Bytes} (h : SkippedKey env key) :
    outputKey env key = none := by
  obtain ⟨pfx, components, hsplit, hskip⟩ := h
  unfold outputKey
  rw [hsplit]
  rcases hskip with hpfx | ⟨component0, others, rfl, hmark⟩
  · cases components with
    | nil => rfl
    | cons c0 others =>
      cases others with
      | nil => rfl
      | cons c1 more => simp [hpfx]
  · cases others with
    | nil => rfl
    | cons c1 more =>
      rcases hmark with h | h | h <;> simp [h]

theorem scanWrite_skipped {env : ProcEnv} {tms : TMS} {metadata : Metadata} {ns txID : Bytes}
    {i : Nat} {log : List RWOp} {key val : Bytes}
    (hget : env.GetWriteAt log ns i = .ok (key, val)) (h : SkippedKey env key) :
    scanWrite env tms metadata ns txID i log = (log ++ [.getWriteAt ns i key val], none) := by
  obtain ⟨pfx, components, hsplit, hskip⟩ := h
  unfold scanWrite
  simp only [hget, hsplit]
  rcases hskip with hpfx | ⟨component0, others, rfl, hmark⟩
  · simp [hpfx]
  · by_cases hpfx : pfx = env.keys.TokenKeyPrefix
    · rcases hmark with h | h | h <;> simp [hpfx, h]
    · simp [hpfx]

/-- C23: a write whose key splits into a prefix other than the token prefix, or whose
first component is the mine, request or serial-number marker, is skipped by the write
scan whatever its value: the iteration only reads it and goes on to the next write, with
no record, no deletion marker and no error, and the key is not a genuine output key. -/
theorem marker_writes_skipped (env : ProcEnv) (tms : TMS) (metadata : Metadata)
    (ns txID : Bytes) (i : Nat) (log : List RWOp) (key val : Bytes)
    (hget : env.GetWriteAt log ns i = .ok (key, val)) (hskip : SkippedKey env key) :
    scanWrite env tms metadata ns txID i log = (log ++ [.getWriteAt ns i key val], none) ∧
    outputKey env key = none ∧
    opensTo env metadata txID key val = none ∧
    recordsOf env tms metadata ns txID key val = [] ∧
    (∀ fuel, i < env.NumWrites log ns →
      scanWrites env tms metadata ns txID (fuel + 1) i log =
        scanWrites env tms metadata ns txID fuel (i + 1) (log ++ [.getWriteAt ns i key val])) := by
  have hstep : scanWrite env tms metadata ns txID i log =
      (log ++ [.getWriteAt ns i key val], none) := scanWrite_skipped hget hskip
  have hout := hskip.not_output
  refine ⟨hstep, hout, ?_, ?_, ?_⟩
  · unfold opensTo
    rw [hout]
  · unfold recordsOf
    rw [hout]
  · intro fuel hlt
    rw [scanWrites]
    simp only [hlt, if_true, hstep]

theorem marker_writes_skipped_witness :
    scanWrite (exProcEnv false) exTMS exMetadata (str "zkat") (str "tx1") 4 [] =
      ([] ++ [.getWriteAt (str "zkat") 4
        (exCompositeKey [str "ztoken", str "token_request", str "tx1"]) [14]], none) :=
  (marker_writes_skipped (exProcEnv false) exTMS exMetadata (str "zkat") (str "tx1") 4 []
    (exCompositeKey [str "ztoken", str "token_request", str "tx1"]) [14] rfl
    ⟨str "ztoken", [str "token_request", str "tx1"], by decide,
      Or.inr ⟨_, _, rfl, Or.inr (Or.inl rfl)⟩⟩).1
/-! ## Setup writes and token writes -/

theorem deleteInputs_keys (env : ProcEnv) (createKey : Except Error Bytes) (ns : Bytes)
    (ids : List TokenID) :
    ∀ log, deleteInputs { env with keys := { env.keys with CreateSetupBundleKey := createKey } }
        ns ids log = deleteInputs env ns ids log := by
  induction ids with
  | nil => intro log; rfl
  | cons id rest ih =>
    intro log
    unfold deleteInputs
    simp only [perform, ih]

theorem scanWrites_keys (env : ProcEnv) (createKey : Except Error Bytes) (tms : TMS)
    (metadata : Metadata) (ns txID : Bytes) :
    ∀ (fuel i : Nat) (log : List RWOp),
    scanWrites { env with keys := { env.keys with CreateSetupBundleKey := createKey } }
        tms metadata ns txID fuel i log =
      scanWrites env tms metadata ns txID fuel i log := by
  intro fuel
  induction fuel with
  | zero => intro i log; rfl
  | succ fuel ih =>
    intro i log
    unfold scanWrites
    have hstep : scanWrite
        { env with keys := { env.keys with CreateSetupBundleKey := createKey } }
        tms metadata ns txID i log = scanWrite env tms metadata ns txID i log := rfl
    simp only [hstep, ih]

theorem tokenRequest_keys (env : ProcEnv) (createKey : Except Error Bytes) (fuel : Nat)
    (tx : ProcessTransaction) (ns : Bytes) (log : List RWOp) :
    tokenRequest { env with keys := { env.keys with CreateSetupBundleKey := createKey } }
        fuel tx ns log = tokenRequest env fuel tx ns log := by
  unfold tokenRequest
  simp only [deleteInputs_keys, scanWrites_keys]

/-- C24: for a namespace of the processor, `Process` on a transaction whose function name
is `setup` is `setup`: it makes exactly one call on the read-write set, `SetState` of the
setup-bundle key to the request id (none when the key cannot be created, and then the
error is returned), reads no write, and does not depend on the channel, the metadata or
the number of iterations allowed.  On any other function name it is token-request
reconciliation, which depends neither on the request nor on the setup-bundle key. -/
theorem Process_setup_or_request (env : ProcEnv) (nss : List Bytes) (fuel : Nat)
    (req : Request) (tx : ProcessTransaction) (ns : Bytes) (log : List RWOp)
    (hns : ns ∈ nss) :
    (tx.Function = str "setup" →
      Process env nss fuel req tx ns log = some (setup env req ns log) ∧
      (∀ key, env.keys.CreateSetupBundleKey = .ok key →
        setup env req ns log =
          (log ++ [.setState ns key req.ID],
            match env.Perform log (.setState ns key req.ID) with
            | none => .ok
            | some e =>
              .fail (.wrap e "failed setting setup bundle state [%s,%s]" [key, req.ID]))) ∧
      (∀ e, env.keys.CreateSetupBundleKey = .error e → setup env req ns log = (log, .fail e)) ∧
      (∀ channel service numWrites getWriteAt fuel1,
        Process
            { env with
              Channel := channel
              GetManagementService := service
              NumWrites := numWrites
              GetWriteAt := getWriteAt }
            nss fuel1 req tx ns log =
          Process env nss fuel req tx ns log)) ∧
    (tx.Function ≠ str "setup" →
      Process env nss fuel req tx ns log = tokenRequest env fuel tx ns log ∧
      ∀ req1 createKey,
        Process { env with keys := { env.keys with CreateSetupBundleKey := createKey } }
            nss fuel req1 tx ns log =
          Process env nss fuel req tx ns log) := by
  have hfound : nss.any (fun ans => decide (ns = ans)) = true :=
    List.any_eq_true.mpr ⟨ns, hns, by simp⟩
  refine ⟨?_, ?_⟩
  · intro hfn
    refine ⟨?_, ?_, ?_, ?_⟩
    · unfold Process
      simp [hfound, hfn]
    · intro key hkey
      unfold setup
      simp only [hkey, perform]
      cases hP : env.Perform log (.setState ns key req.ID) <;> rfl
    · intro e hkey
      unfold setup
      simp only [hkey]
    · intro channel service numWrites getWriteAt fuel1
      unfold Process
      simp only [hfound, hfn, Bool.not_true, Bool.false_eq_true, if_false, if_true]
      rfl
  · intro hfn
    refine ⟨?_, ?_⟩
    · unfold Process
      simp [hfound, hfn]
    · intro req1 createKey
      unfold Process
      simp only [hfound, hfn, Bool.not_true, Bool.false_eq_true, if_false, tokenRequest_keys]

theorem Process_setup_or_request_witness :
    Process (exProcEnv false) [str "zkat"] 0 exSetupRequest exSetupTransaction (str "zkat") [] =
        some ([RWOp.setState (str "zkat") (exCompositeKey [str "setup"]) (str "req1")], .ok) ∧
    Process (exProcEnv false) [str "zkat"] 20 exSetupRequest exProcessTransaction (str "zkat") [] =
      tokenRequest (exProcEnv false) 20 exProcessTransaction (str "zkat") [] :=
  ⟨((Process_setup_or_request (exProcEnv false) [str "zkat"] 0 exSetupRequest
      exSetupTransaction (str "zkat") [] (by decide)).1 rfl).1.trans (by decide),
    ((Process_setup_or_request (exProcEnv false) [str "zkat"] 20 exSetupRequest
      exProcessTransaction (str "zkat") [] (by decide)).2 (by decide)).1⟩
/-! ## The namespace of the processor -/

/-- C25: a processor built by `NewTokenRWSetProcessor` for a namespace returns, for every
other namespace, the error `this processor cannot parse namespace [%s]` and makes no call
on the read-write set, whatever the function name of the transaction and the number of
iterations allowed; the same holds for any namespace that is not in the list of the
processor. -/
theorem Process_foreign_namespace (env : ProcEnv) (fuel : Nat) (req : Request)
    (tx : ProcessTransaction) (ns : Bytes) (log : List RWOp) :
    (∀ configured, ns ≠ configured →
      Process env (NewTokenRWSetProcessor configured) fuel req tx ns log =
        some (log, .fail (.errorf "this processor cannot parse namespace [%s]" [ns]))) ∧
    (∀ nss, ns ∉ nss →
      Process env nss fuel req tx ns log =
        some (log, .fail (.errorf "this processor cannot parse namespace [%s]" [ns]))) ∧
    (∀ configured,
      Process env (NewTokenRWSetProcessor configured) fuel req tx configured log =
        if tx.Function = str "setup" then some (setup env req configured log)
        else tokenRequest env fuel tx configured log) := by
  have hout : ∀ nss, ns ∉ nss →
      Process env nss fuel req tx ns log =
        some (log, .fail (.errorf "this processor cannot parse namespace [%s]" [ns])) := by
    intro nss hns
    have hfound : nss.any (fun ans => decide (ns = ans)) = false := by
      rw [List.any_eq_false]
      intro ans hans
      have : ns ≠ ans := fun h => hns (h ▸ hans)
      simpa using this
    unfold Process
    simp [hfound]
  refine ⟨?_, hout, ?_⟩
  · intro configured hne
    exact hout _ (by simpa [NewTokenRWSetProcessor] using hne)
  · intro configured
    unfold Process
    simp [NewTokenRWSetProcessor]

theorem Process_foreign_namespace_witness :
    Process (exProcEnv false) (NewTokenRWSetProcessor (str "zkat")) 20 exSetupRequest
        exProcessTransaction (str "other") [] =
      some ([], .fail (.errorf "this processor cannot parse namespace [%s]" [str "other"])) :=
  (Process_foreign_namespace (exProcEnv false) 20 exSetupRequest exProcessTransaction
    (str "other") []).1 (str "zkat") (by decide)
/-! ## Output writes with an empty value -/

theorem scanWrite_delete {env : ProcEnv} {tms : TMS} {metadata : Metadata} {ns txID : Bytes}
    {i : Nat} {log : List RWOp} {key : Bytes} {component0 : Bytes} {index : Int}
    (hget : env.GetWriteAt log ns i = .ok (key, []))
    (hk : outputKey env key = some (component0, index)) :
    scanWrite env tms metadata ns txID i log =
      (log ++ [.getWriteAt ns i key [], .deleteFabToken ns component0 index],
        (env.Perform (log ++ [.getWriteAt ns i key []])
          (.deleteFabToken ns component0 index)).map Outcome.fail) := by
  obtain ⟨c1, rest, hsplit, hm1, hm2, hm3, hatoi⟩ := outputKey_some hk
  unfold scanWrite
  simp only [hget, hsplit, ne_eq, not_true_eq_false, if_false, hm1, hm2, hm3, hatoi,
    List.length_nil, if_true, perform]
  cases hP : env.Perform (log ++ [.getWriteAt ns i key []])
      (.deleteFabToken ns component0 index) <;> simp

/-- C26: in the write scan a genuine output-key write with an empty value is a delete:
the iteration reads it and makes exactly one call, `deleteFabToken` for the first
component of the key and the parsed index, and no mine, shadow, audit or issuance call.
This does not depend on the graph-hiding flag, on the metadata or on the id of the
transaction being processed, so it holds too when the first component is another
transaction id. -/
theorem empty_value_is_delete (env : ProcEnv) (tms : TMS) (metadata : Metadata)
    (ns txID : Bytes) (i : Nat) (log : List RWOp) (key component0 : Bytes) (index : Int)
    (hget : env.GetWriteAt log ns i = .ok (key, []))
    (hk : outputKey env key = some (component0, index)) :
    scanWrite env tms metadata ns txID i log =
      (log ++ [.getWriteAt ns i key [], .deleteFabToken ns component0 index],
        (env.Perform (log ++ [.getWriteAt ns i key []])
          (.deleteFabToken ns component0 index)).map Outcome.fail) ∧
    recordsOf env tms metadata ns txID key [] = [.deleteFabToken ns component0 index] ∧
    (recordsOf env tms metadata ns txID key []).filter RWOp.isRecord = [] ∧
    (∀ graphHiding txID1 metadata1,
      scanWrite env { tms with GraphHiding := graphHiding } metadata1 ns txID1 i log =
        scanWrite env tms metadata ns txID i log) := by
  have hrec : recordsOf env tms metadata ns txID key [] =
      [.deleteFabToken ns component0 index] := by
    unfold recordsOf
    simp [hk]
  refine ⟨scanWrite_delete hget hk, hrec, ?_, ?_⟩
  · rw [hrec]
    rfl
  · intro graphHiding txID1 metadata1
    rw [scanWrite_delete hget hk, scanWrite_delete hget hk]

theorem empty_value_is_delete_witness :
    scanWrite (exProcEnv true) exTMS exMetadata (str "zkat") (str "tx1") 3 [] =
      ([] ++ [.getWriteAt (str "zkat") 3 (exCompositeKey [str "ztoken", str "tx0", str "0"]) [],
          .deleteFabToken (str "zkat") (str "tx0") 0],
        ((exProcEnv true).Perform
          ([] ++ [.getWriteAt (str "zkat") 3 (exCompositeKey [str "ztoken", str "tx0", str "0"]) []])
          (.deleteFabToken (str "zkat") (str "tx0") 0)).map Outcome.fail) :=
  (empty_value_is_delete (exProcEnv true) exTMS exMetadata (str "zkat") (str "tx1") 3 []
    (exCompositeKey [str "ztoken", str "tx0", str "0"]) (str "tx0") 0 rfl (by decide)).1
/-! ## Output writes of another transaction -/

theorem scanWrite_foreign {env : ProcEnv} {tms : TMS} {metadata : Metadata} {ns txID : Bytes}
    {i : Nat} {log : List RWOp} {key val : Bytes} {component0 : Bytes} {index : Int}
    (hget : env.GetWriteAt log ns i = .ok (key, val))
    (hk : outputKey env key = some (component0, index)) (hval : val ≠ [])
    (hforeign : component0 ≠ txID) :
    scanWrite env tms metadata ns txID i log =
      (log ++ [.getWriteAt ns i key val],
        some (.fail (.errorf "invalid output, must refer to tx id [%s], got [%s]"
          [txID, component0]))) := by
  obtain ⟨c1, rest, hsplit, hm1, hm2, hm3, hatoi⟩ := outputKey_some hk
  have hlen : ¬ val.length = 0 := by simpa using hval
  unfold scanWrite
  simp only [hget, hsplit, ne_eq, not_true_eq_false, if_false, hm1, hm2, hm3, hatoi, hlen,
    hforeign, not_false_eq_true, if_true]

/-- C27: in the write scan a genuine output-key write with a value that is not empty and
a first component other than the id of the transaction being processed ends the scan with
the error `invalid output, must refer to tx id [%s], got [%s]`: the iteration only reads
the write, no later write is read, and the calls made for the earlier writes stay in the
history.  Token-request reconciliation of a transaction known with its metadata returns
that error. -/
theorem foreign_output_fails (env : ProcEnv) (tms : TMS) (metadata : Metadata)
    (ns txID : Bytes) (i : Nat) (log : List RWOp) (key val component0 : Bytes) (index : Int)
    (hget : env.GetWriteAt log ns i = .ok (key, val))
    (hk : outputKey env key = some (component0, index)) (hval : val ≠ [])
    (hforeign : component0 ≠ txID) :
    scanWrite env tms metadata ns txID i log =
      (log ++ [.getWriteAt ns i key val],
        some (.fail (.errorf "invalid output, must refer to tx id [%s], got [%s]"
          [txID, component0]))) ∧
    (∀ log0 fuel, scanUpTo env tms metadata ns txID i 0 log0 = some log →
      i < env.NumWrites log ns → i < fuel →
      scanWrites env tms metadata ns txID fuel 0 log0 =
        some (log ++ [.getWriteAt ns i key val],
          .fail (.errorf "invalid output, must refer to tx id [%s], got [%s]"
            [txID, component0])) ∧
      ∃ ops, log = log0 ++ ops ∧
        ∀ op ∈ ops ++ [.getWriteAt ns i key val], ∀ j, op.readIndex = some j → j ≤ i) ∧
    (∀ tx log00 log0 fuel, KnownWithMetadata env tx ns metadata →
      tms = env.GetManagementService tx.Network tx.Channel ns → txID = tx.ID →
      (if tms.GraphHiding then deleteInputs env ns metadata.SpentTokenID log00
        else (log00, none)) = (log0, none) →
      scanUpTo env tms metadata ns txID i 0 log0 = some log →
      i < env.NumWrites log ns → i < fuel →
      tokenRequest env fuel tx ns log00 =
        some (log ++ [.getWriteAt ns i key val],
          .fail (.errorf "invalid output, must refer to tx id [%s], got [%s]"
            [txID, component0]))) := by
  have hstep : scanWrite env tms metadata ns txID i log =
      (log ++ [.getWriteAt ns i key val],
        some (.fail (.errorf "invalid output, must refer to tx id [%s], got [%s]"
          [txID, component0]))) := scanWrite_foreign hget hk hval hforeign
  have hscan : ∀ log0 fuel, scanUpTo env tms metadata ns txID i 0 log0 = some log →
      i < env.NumWrites log ns → i < fuel →
      scanWrites env tms metadata ns txID fuel 0 log0 =
        some (log ++ [.getWriteAt ns i key val],
          .fail (.errorf "invalid output, must refer to tx id [%s], got [%s]"
            [txID, component0])) := by
    intro log0 fuel hup hlt hfuel
    obtain ⟨rest, hrest⟩ : ∃ rest, fuel = i + (rest + 1) := ⟨fuel - i - 1, by omega⟩
    rw [hrest, scanWrites_upTo i 0 log0 log hup (rest + 1), scanWrites]
    simp only [Nat.zero_add, hlt, if_true, hstep]
  refine ⟨hstep, ?_, ?_⟩
  · intro log0 fuel hup hlt hfuel
    refine ⟨hscan log0 fuel hup hlt hfuel, ?_⟩
    obtain ⟨ops, h1, h2⟩ := scanUpTo_log i 0 log0 log hup
    refine ⟨ops, h1, ?_⟩
    intro op hop j hj
    rcases List.mem_append.mp hop with hop | hop
    · have := h2 op hop j hj
      omega
    · simp only [List.mem_singleton] at hop
      subst hop
      simp only [RWOp.readIndex, Option.some.injEq] at hj
      omega
  · intro tx log00 log0 fuel hknown htms htx hdel hup hlt hfuel
    subst htms htx
    rw [tokenRequest_known hknown, hdel]
    exact hscan log0 fuel hup hlt hfuel

theorem foreign_output_fails_witness :
    tokenRequest exProcEnvForeign 20 exProcessTransaction (str "zkat") [] =
      some (exForeignLog ++
          [.getWriteAt (str "zkat") 1 (exCompositeKey [str "ztoken", str "tx0", str "7"]) [15]],
        .fail (.errorf "invalid output, must refer to tx id [%s], got [%s]"
          [str "tx1", str "tx0"])) :=
  (foreign_output_fails exProcEnvForeign exTMS exMetadata (str "zkat") (str "tx1") 1
    exForeignLog (exCompositeKey [str "ztoken", str "tx0", str "7"]) [15] (str "tx0") 7
    (by decide) (by decide) (by decide) (by decide)).2.2 exProcessTransaction [] [] 20
    ⟨_, _, [1], rfl, by decide, rfl, by decide, rfl⟩ rfl rfl rfl (by decide) (by decide)
    (by decide)

end TokenSDK
